import Mathlib

/-!
Footprint library table (common/fp_lib_table.cpp)

A shallow embedding of `FP_LIB_TABLE` and of its options codec.

* `std::string`, `UTF8` and `wxString` values are lists of characters (`Str`),
  ordered lexicographically by character code like `std::string::compare`.
* `std::map` and `std::set` are association lists kept in strictly increasing
  key order; iteration is list order.
* `std::vector<ROW>` is a list; a `ROW*` into a table of a fallback chain is a
  `RowRef` (how many `fallBack` links were followed, and the position in `rows`).
* Member functions that mutate the object return the new object next to
  their result.
* The S-expression tree library (reader, writer, node accessors) and `IO_MGR`
  are outside the sources: the node accessors follow the spec, the reader,
  the writer and the `IO_MGR` functions are parameters.
-/

namespace QiEDA

/-- Contents of a `std::string` / `wxString`. -/
abbrev Str := List Char

/-! ## std::map and std::set -/

/-- Embeds `std::map<Str, V>`: the entries in iteration order. -/
abbrev StdMap (V : Type) := List (Str × V)

/-- Embeds `std::set<Str>`: the elements in iteration order. -/
abbrev StdSet := List Str

/-- The representation invariant of a `std::map`: keys strictly increasing. -/
def StdMap.Sorted {V : Type} (m : StdMap V) : Prop :=
  List.Pairwise (fun a b => a.1 < b.1) m

instance {V : Type} (m : StdMap V) : Decidable m.Sorted := by
  unfold StdMap.Sorted; infer_instance

/-- Embeds `std::map::find`; `none` stands for `end()`. -/
def StdMap.find {V : Type} : StdMap V → Str → Option V
  | [], _ => none
  | (k, v) :: rest, q => if q = k then some v else StdMap.find rest q

/-- Embeds `std::map::insert( value_type( k, v ) )`: an existing key keeps its value. -/
def StdMap.insert {V : Type} : StdMap V → Str → V → StdMap V
  | [], k, v => [(k, v)]
  | (k', v') :: rest, k, v =>
    if k < k' then (k, v) :: (k', v') :: rest
    else if k = k' then (k', v') :: rest
    else (k', v') :: StdMap.insert rest k v

/-- Embeds `m[k] = v`: inserts the key, or overwrites the value it has. -/
def StdMap.assign {V : Type} : StdMap V → Str → V → StdMap V
  | [], k, v => [(k, v)]
  | (k', v') :: rest, k, v =>
    if k < k' then (k, v) :: (k', v') :: rest
    else if k = k' then (k', v) :: rest
    else (k', v') :: StdMap.assign rest k v

/-- Embeds `std::set::insert`: duplicates are rejected. -/
def StdSet.insert : StdSet → Str → StdSet
  | [], k => [k]
  | k' :: rest, k =>
    if k < k' then k :: k' :: rest
    else if k = k' then k' :: rest
    else k' :: StdSet.insert rest k

/-! ## Rows -/

/-- Embeds `class PROPERTIES : public std::map< std::string, UTF8 >`. -/
abbrev PROPERTIES := StdMap Str

/-- Embeds `IO_MGR::PCB_FILE_T`, an enumeration; `PCB_FILE_T( -1 )` is the value
`IO_MGR::EnumFromStr` gives for an unknown name. -/
abbrev PCB_FILE_T := Int

/-- A `PLUGIN*` that is not null. -/
abbrev PLUGIN := Nat

/-- The part of `IO_MGR` the table uses (io_mgr.h is not among the sources, so
its members are parameters). -/
structure IO_MGR where
  KICAD : PCB_FILE_T
  EnumFromStr : Str → PCB_FILE_T
  ShowType : PCB_FILE_T → Str
  PluginFind : PCB_FILE_T → Option PLUGIN

/-- Embeds `FP_LIB_TABLE::ROW`: the members the member functions of fp_lib_table.cpp
read and write.  `plugin = none` is the unbound handle. -/
structure ROW where
  nickName : Str
  uri_user : Str
  type : PCB_FILE_T
  options : Str
  description : Str
  properties : Option PROPERTIES
  plugin : Option PLUGIN
deriving DecidableEq

/-- Embeds `ROW::ROW( const ROW& a )`: every data member is copied, the plugin handle
is left unbound. -/
def ROW.copy (a : ROW) : ROW :=
  { nickName := a.nickName
    type := a.type
    options := a.options
    description := a.description
    properties := a.properties
    uri_user := a.uri_user
    plugin := none }

/-- Embeds `ROW::operator=( const ROW& r )`: the value of `*this` afterwards, which
does not depend on the value before: every data member is taken from `r`,
then `setPlugin( NULL )`. -/
def ROW.assign (r : ROW) : ROW :=
  { nickName := r.nickName
    type := r.type
    options := r.options
    description := r.description
    properties := r.properties
    uri_user := r.uri_user
    plugin := none }

/-- Embeds `ROW::operator==`. -/
def ROW.beq (a r : ROW) : Bool :=
  a.nickName == r.nickName
    && a.uri_user == r.uri_user
    && a.type == r.type
    && a.options == r.options
    && a.description == r.description

/-! ## Options codec -/

/-- Embeds `#define OPT_SEP '|'`. -/
def OPT_SEP : Char := '|'

/-- Embeds `isspace` of the "C" locale: space, `\t`, `\n`, `\v`, `\f`, `\r`. -/
def isspace (c : Char) : Bool :=
  c.toNat = 32 || (9 ≤ c.toNat && c.toNat ≤ 13)

/-- Embeds `while( cp < end && isspace( *cp ) ) ++cp;`: the text from the new `cp`. -/
def skipSpace : List Char → List Char
  | [] => []
  | c :: rest => if isspace c then skipSpace rest else c :: rest

/-- The "find the end of pair/field" loop of `ParseOptions`, started at `cp`
with the `pair` collected so far: the final `pair` and the text from the new
`cp`. -/
def scanPair : List Char → Str → Str × List Char
  | [], pair => (pair, [])
  | [c], pair => if c = OPT_SEP then (pair, []) else (pair ++ [c], [])
  | c :: d :: rest, pair =>
    if c = '\\' ∧ d = OPT_SEP then scanPair rest (pair ++ [d])
    else if c = OPT_SEP then (pair, d :: rest)
    else scanPair (d :: rest) (pair ++ [c])

/-- Embeds `std::string::find( char )`; `none` is `npos`. -/
def strFind : Str → Char → Option Nat
  | [], _ => none
  | d :: rest, c => if d = c then some 0 else (strFind rest c).map (· + 1)

/-- The "stash the pair" block of `ParseOptions`. -/
def stashPair (pair : Str) (props : PROPERTIES) : PROPERTIES :=
  if pair.length ≠ 0 then
    match strFind pair '=' with
    | some eqNdx => props.assign (pair.take eqNdx) (pair.drop (eqNdx + 1))
    | none => props.assign pair []
  else props

/-- The `while( cp < end )` loop of `ParseOptions`; every round consumes at
least one character, so `fuel` = the length of the text is enough. -/
def parseLoop : Nat → List Char → PROPERTIES → PROPERTIES
  | 0, _, props => props
  | fuel + 1, cp, props =>
    if cp.length = 0 then props
    else
      let scanned := scanPair (skipSpace cp) []
      parseLoop fuel scanned.2 (stashPair scanned.1 props)

/-- Embeds `FP_LIB_TABLE::ParseOptions( const std::string& aOptionsList )`; `none` is
the `NULL` result. -/
def ParseOptions (aOptionsList : Str) : Option PROPERTIES :=
  if aOptionsList.length ≠ 0 then
    let props := parseLoop aOptionsList.length aOptionsList []
    if props.length ≠ 0 then some props else none
  else none

/-- The loop over the characters of `value` in `FormatOptions`, appending to
`ret`. -/
def escapeLoop : List Char → Str → Str
  | [], ret => ret
  | si :: rest, ret =>
    escapeLoop rest ((if si = OPT_SEP then ret ++ ['\\'] else ret) ++ [si])

/-- The loop over the entries of `*aProperties` in `FormatOptions`, appending
to `ret`. -/
def formatLoop : List (Str × Str) → Str → Str
  | [], ret => ret
  | (name, value) :: rest, ret =>
    let ret1 := if ret.length ≠ 0 then ret ++ [OPT_SEP] else ret
    let ret2 := ret1 ++ name
    let ret3 := if value.length ≠ 0 then escapeLoop value (ret2 ++ ['=']) else ret2
    formatLoop rest ret3

/-- Embeds `FP_LIB_TABLE::FormatOptions( const PROPERTIES* aProperties )`; `none` is
the null pointer. -/
def FormatOptions (aProperties : Option PROPERTIES) : Str :=
  match aProperties with
  | some props => formatLoop props []
  | none => []

/-! ## Tables -/

/-- Embeds `INDEX`, the `std::map<wxString,int>` from nickname to position in `rows`. -/
abbrev INDEX := StdMap Nat

/-- Embeds `FP_LIB_TABLE`: `rows`, `nickIndex` and the `fallBack` pointer (`none` is
the null pointer). -/
inductive FP_LIB_TABLE where
  | mk (rows : List ROW) (nickIndex : INDEX) (fallBack : Option FP_LIB_TABLE)

/-- Member `rows`. -/
def FP_LIB_TABLE.rows : FP_LIB_TABLE → List ROW
  | .mk rows _ _ => rows

/-- Member `nickIndex`. -/
def FP_LIB_TABLE.nickIndex : FP_LIB_TABLE → INDEX
  | .mk _ nickIndex _ => nickIndex

/-- Member `fallBack`. -/
def FP_LIB_TABLE.fallBack : FP_LIB_TABLE → Option FP_LIB_TABLE
  | .mk _ _ fallBack => fallBack

/-- Embeds `FP_LIB_TABLE( FP_LIB_TABLE* aFallBackTable )`: no rows, empty index. -/
def FP_LIB_TABLE.new (aFallBackTable : Option FP_LIB_TABLE) : FP_LIB_TABLE :=
  .mk [] [] aFallBackTable

/-- Modelled from the spec: the loop of `reindex()`, defined in
fp_lib_table.h, which is not among the sources.  Every row's nickname is
entered with the row's position, in row order; a nickname met again keeps
the position it has (`std::map::insert`). -/
def reindexLoop : List ROW → Nat → INDEX → INDEX
  | [], _, idx => idx
  | r :: rest, pos, idx => reindexLoop rest (pos + 1) (idx.insert r.nickName pos)

/-- Modelled from the spec: `reindex()` is defined in fp_lib_table.h, which is
not among the sources.  The spec calls the index "a derived index mapping
nickname → row position": it is cleared and every row is entered with its
position, in row order. -/
def FP_LIB_TABLE.reindex : FP_LIB_TABLE → FP_LIB_TABLE
  | .mk rows _ fallBack => .mk rows (reindexLoop rows 0 []) fallBack

/-- Modelled from the spec: `ensureIndex()` is defined in fp_lib_table.h, which
is not among the sources.  The spec has the index "rebuilt lazily" and
"consistent with the row sequence before any lookup is served": an index that
holds nothing is rebuilt from the rows. -/
def FP_LIB_TABLE.ensureIndex (t : FP_LIB_TABLE) : FP_LIB_TABLE :=
  if t.nickIndex.length = 0 then t.reindex else t

/-- Embeds `FP_LIB_TABLE::InsertRow( const ROW& aRow, bool doReplace )`: the returned
flag and the table afterwards. -/
def FP_LIB_TABLE.InsertRow (t : FP_LIB_TABLE) (aRow : ROW) (doReplace : Bool) :
    Bool × FP_LIB_TABLE :=
  match t.ensureIndex with
  | .mk rows nickIndex fallBack =>
    match nickIndex.find aRow.nickName with
    | none =>
      let rows1 := rows ++ [aRow.copy]
      (true, .mk rows1 (nickIndex.insert aRow.nickName (rows1.length - 1)) fallBack)
    | some pos =>
      if doReplace then
        (true, .mk (rows.set pos aRow.assign) nickIndex fallBack)
      else
        (false, .mk rows nickIndex fallBack)

/-- A `ROW*` into a table of a fallback chain: `table` counts the `fallBack`
links followed from the table the search started at, `index` is the
position in that table's `rows`. -/
structure RowRef where
  table : Nat
  index : Nat
deriving DecidableEq

/-- Embeds `FP_LIB_TABLE::findRow( const wxString& aNickName )`: the row found
(`none` is the null pointer) and the chain afterwards, with the indexes that
`ensureIndex` rebuilt on the way. -/
def FP_LIB_TABLE.findRow : FP_LIB_TABLE → Str → Option RowRef × FP_LIB_TABLE
  | .mk rows nickIndex fallBack, aNickName =>
    let cur := (FP_LIB_TABLE.mk rows nickIndex fallBack).ensureIndex
    match cur.nickIndex.find aNickName with
    | some pos => (some ⟨0, pos⟩, cur)
    | none =>
      match fallBack with
      | none => (none, cur)
      | some next =>
        let res := FP_LIB_TABLE.findRow next aNickName
        (res.1.map (fun ref => ⟨ref.table + 1, ref.index⟩),
          .mk cur.rows cur.nickIndex (some res.2))

/-- Embeds `IO_ERROR`: the error text. -/
structure IO_ERROR where
  errorText : Str
deriving DecidableEq

/-- The row a `ROW*` points at: `f` applied to it, every other row and table
of the chain unchanged. -/
def FP_LIB_TABLE.updateRow : FP_LIB_TABLE → Nat → Nat → (ROW → ROW) → FP_LIB_TABLE
  | .mk rows nickIndex fallBack, 0, index, f =>
    match rows.get? index with
    | some row => .mk (rows.set index (f row)) nickIndex fallBack
    | none => .mk rows nickIndex fallBack
  | .mk rows nickIndex none, _ + 1, _, _ => .mk rows nickIndex none
  | .mk rows nickIndex (some next), table + 1, index, f =>
    .mk rows nickIndex (some (FP_LIB_TABLE.updateRow next table index f))

/-- The statement `if( !row->plugin ) row->setPlugin( IO_MGR::PluginFind( row->type ) );`
of `FindRow`. -/
def ROW.bindPlugin (io : IO_MGR) (row : ROW) : ROW :=
  if row.plugin = none then { row with plugin := io.PluginFind row.type } else row

/-- Embeds `FP_LIB_TABLE::FindRow( const wxString& aNickname )`: the row returned, or
the `IO_ERROR` thrown, and the chain afterwards. -/
def FP_LIB_TABLE.FindRow (io : IO_MGR) (t : FP_LIB_TABLE) (aNickname : Str) :
    Except IO_ERROR RowRef × FP_LIB_TABLE :=
  let res := t.findRow aNickname
  match res.1 with
  | none =>
    (.error ⟨"fp-lib-table files contain no lib with nickname '".toList ++ aNickname
        ++ "'".toList⟩, res.2)
  | some row => (.ok row, res.2.updateRow row.table row.index (ROW.bindPlugin io))

/-- The `do ... while( ( cur = cur->fallBack ) != 0 )` loop of `GetLogicalLibs`:
every nickname of `cur` and of its fallback tables is inserted into `unique`. -/
def collectNicks : FP_LIB_TABLE → StdSet → StdSet
  | .mk rows _ fallBack, unique =>
    let unique1 := rows.foldl (fun u row => StdSet.insert u row.nickName) unique
    match fallBack with
    | none => unique1
    | some next => collectNicks next unique1

/-- Embeds `FP_LIB_TABLE::GetLogicalLibs()`: the set is copied to the returned vector
in iteration order. -/
def FP_LIB_TABLE.GetLogicalLibs (t : FP_LIB_TABLE) : List Str :=
  (collectNicks t []).foldl (fun ret nick => ret ++ [nick]) []

/-! ## Specification vocabulary -/

/-! ### The options codec as the spec words it -/

/-- Puts `c` in front of the first field. -/
def Spec.consFirst (c : Char) : List Str → List Str
  | [] => [[c]]
  | f :: fs => (c :: f) :: fs

/-- Spec wording: "The text is cut at every '|' that is not the second character of a
backslash-'|' pair; a backslash-'|' pair contributes a literal '|' to the
field." -/
def Spec.cutFields : List Char → List Str
  | [] => [[]]
  | [c] => if c = '|' then [[], []] else [[c]]
  | c :: d :: rest =>
    if c = '\\' ∧ d = '|' then Spec.consFirst '|' (Spec.cutFields rest)
    else if c = '|' then [] :: Spec.cutFields (d :: rest)
    else Spec.consFirst c (Spec.cutFields (d :: rest))

/-- Spec wording: "Each remaining field maps the text before its first '=' to the text
after it, or to the empty string when it has no '='." -/
def Spec.keyValue (field : Str) : Str × Str :=
  (field.takeWhile (· ≠ '='), (field.dropWhile (· ≠ '=')).drop 1)

/-- The fields of a text: cut, "whitespace at the start of each field is
dropped; empty fields are skipped". -/
def Spec.fields (text : Str) : List Str :=
  ((Spec.cutFields text).map (List.dropWhile isspace)).filter (· ≠ [])

/-- The reference decoder: the fields entered into a map one after the other;
absent when there is no field. -/
def Spec.Decode (text : Str) : Option PROPERTIES :=
  let m := (Spec.fields text).foldl
    (fun m field => StdMap.assign m (Spec.keyValue field).1 (Spec.keyValue field).2) []
  if m = [] then none else some m

/-- Spec wording: "Puts a backslash before every '|'". -/
def Spec.escape (value : Str) : Str :=
  value.flatMap (fun c => if c = '|' then ['\\', '|'] else [c])

/-- Spec wording: "Writes a key alone when its value is empty and key=value otherwise". -/
def Spec.pairText (p : Str × Str) : Str :=
  if p.2 = [] then p.1 else p.1 ++ '=' :: Spec.escape p.2

/-- Spec wording: "Joined by '|'". -/
def Spec.join : List Str → Str
  | [] => []
  | [a] => a
  | a :: b :: rest => a ++ '|' :: Spec.join (b :: rest)

/-- The tables of a fallback chain in chain order: the table itself, its
`fallBack`, that table's `fallBack`, and so on. -/
def FP_LIB_TABLE.chain : FP_LIB_TABLE → List FP_LIB_TABLE
  | .mk rows nickIndex none => [.mk rows nickIndex none]
  | .mk rows nickIndex (some next) => .mk rows nickIndex (some next) :: FP_LIB_TABLE.chain next

/-- The row a `RowRef` points at. -/
def FP_LIB_TABLE.rowAt (t : FP_LIB_TABLE) (ref : RowRef) : Option ROW :=
  (t.chain.get? ref.table).bind (fun c => c.rows.get? ref.index)


/-- Position of the first row named `n`, if any. -/
def firstNamed (n : Str) : List ROW → Option Nat
  | [] => none
  | r :: rest => if r.nickName = n then some 0 else (firstNamed n rest).map (· + 1)

/-- The index invariant of one table: the index holds nothing (it is then
rebuilt before use) or it is the index of the rows. -/
def FP_LIB_TABLE.IndexOK (t : FP_LIB_TABLE) : Prop :=
  t.nickIndex = [] ∨ t.nickIndex = reindexLoop t.rows 0 []

/-- Nicknames are unique within one table's own rows. -/
def FP_LIB_TABLE.UniqueNicks (t : FP_LIB_TABLE) : Prop :=
  (t.rows.map ROW.nickName).Nodup

instance (t : FP_LIB_TABLE) : Decidable t.IndexOK := by
  unfold FP_LIB_TABLE.IndexOK; infer_instance

instance (t : FP_LIB_TABLE) : Decidable t.UniqueNicks := by
  unfold FP_LIB_TABLE.UniqueNicks; infer_instance

/-! ## S-expression trees and the table document -/

/-- A node of the generic tree: symbol, string, integer and double atoms and
lists of nodes; every node carries the source line it was parsed from. -/
inductive SEXPR where
  | symbol (value : Str) (line : Nat)
  | string (value : Str) (line : Nat)
  | integer (value : Int) (line : Nat)
  | double (value : Rat) (line : Nat)
  | list (children : List SEXPR) (line : Nat)

/-- What `Parse` and `parseLibList` can raise.  `syntaxError` is
`SEXPR_SYNTAX_EXCEPTION` with its message and line number.  `accessor` stands
for a tree accessor used outside its contract (the children of an atom, a
child index past the end, a typed accessor on another kind of node); the
tree library is not among the sources and the spec does not say what happens
then.  `memoryFault` stands for an access outside every object, which the
page layout code can make: a member read through the null image pointer of a
bitmap item, a corner index past the end of the corner array.  `rangeFault`
stands for the conversion of a `double` to an `int` that cannot hold its
integer part, which the language leaves undefined. -/
inductive PARSE_EXN where
  | syntaxError (msg : Str) (lineNumber : Nat)
  | accessor
  | memoryFault
  | rangeFault
deriving DecidableEq

/-- Modelled from the spec: `SEXPR::IsList()`; the tree library is not among
the sources, the spec has a node "report whether it is an atom or a list". -/
def SEXPR.IsList : SEXPR → Bool
  | .list _ _ => true
  | _ => false

/-- Modelled from the spec: `SEXPR::IsSymbol()`. -/
def SEXPR.IsSymbol : SEXPR → Bool
  | .symbol _ _ => true
  | _ => false

/-- Modelled from the spec: `SEXPR::IsString()`. -/
def SEXPR.IsString : SEXPR → Bool
  | .string _ _ => true
  | _ => false

/-- Modelled from the spec: `SEXPR::GetLineNumber()`, "the 1-based source line
number it was parsed from". -/
def SEXPR.GetLineNumber : SEXPR → Nat
  | .symbol _ line => line
  | .string _ line => line
  | .integer _ line => line
  | .double _ line => line
  | .list _ line => line

/-- Modelled from the spec: the children of a list node, which
`GetNumberOfChildren()` counts and `GetChild( i )` indexes. -/
def SEXPR.children : SEXPR → Except PARSE_EXN (List SEXPR)
  | .list children _ => .ok children
  | _ => .error .accessor

/-- Modelled from the spec: `SEXPR::GetChild( aIndex )`, "indexed child
access". -/
def SEXPR.GetChild (node : SEXPR) (aIndex : Nat) : Except PARSE_EXN SEXPR :=
  match node with
  | .list children _ =>
    match children.get? aIndex with
    | some child => .ok child
    | none => .error .accessor
  | _ => .error .accessor

/-- Modelled from the spec: `SEXPR::GetSymbol()`, the typed accessor of a
symbol atom. -/
def SEXPR.GetSymbol : SEXPR → Except PARSE_EXN Str
  | .symbol value _ => .ok value
  | _ => .error .accessor

/-- Modelled from the spec: `SEXPR::GetString()`, the typed accessor of a
string atom. -/
def SEXPR.GetString : SEXPR → Except PARSE_EXN Str
  | .string value _ => .ok value
  | _ => .error .accessor

/-- Modelled from the spec: `SEXPR::AsSymbol( value )`, a symbol atom built
for output; a built node has no source line (0). -/
def SEXPR.AsSymbol (value : Str) : SEXPR := .symbol value 0

/-- Modelled from the spec: `SEXPR::AsString( value )`, a string atom built
for output. -/
def SEXPR.AsString (value : Str) : SEXPR := .string value 0

/-- Modelled from the spec: the `ROW()` constructor of fp_lib_table.h, which
is not among the sources: every text empty, the default kind, no properties,
no plugin. -/
def ROW.new (io : IO_MGR) : ROW :=
  ⟨[], [], io.KICAD, [], [], none, none⟩

/-- Modelled from the spec: `ROW::SetNickName` of fp_lib_table.h. -/
def ROW.SetNickName (row : ROW) (aNickName : Str) : ROW :=
  { row with nickName := aNickName }

/-- Modelled from the spec: `ROW::SetDescr` of fp_lib_table.h. -/
def ROW.SetDescr (row : ROW) (aDescr : Str) : ROW :=
  { row with description := aDescr }

/-- Modelled from the spec: `ROW::SetOptions` of fp_lib_table.h,
"`SetOptions(text)` (via Options Codec)": the text is kept and decoded into
`properties`. -/
def ROW.SetOptions (row : ROW) (aOptions : Str) : ROW :=
  { row with options := aOptions, properties := ParseOptions aOptions }

/-- Embeds `ROW::SetType( const wxString& aType )`. -/
def ROW.SetType (io : IO_MGR) (row : ROW) (aType : Str) : ROW :=
  let type := io.EnumFromStr aType
  { row with type := if (-1 : PCB_FILE_T) = type then io.KICAD else type }

/-- Embeds `ROW::SetFullURI( const wxString& aFullURI )` with late expansion of
environment variables (`FP_LATE_ENVVAR`): only the raw URI is stored. -/
def ROW.SetFullURI (row : ROW) (aFullURI : Str) : ROW :=
  { row with uri_user := aFullURI }

/-- Embeds `ROW::GetFullURI( bool aSubstituted )` with late expansion;
`ExpandSubstitutions` is a parameter. -/
def ROW.GetFullURI (ExpandSubstitutions : Str → Str) (row : ROW) (aSubstituted : Bool) : Str :=
  if aSubstituted then ExpandSubstitutions row.uri_user else row.uri_user

/-- Modelled from the spec: `ROW::GetType()` of fp_lib_table.h, the name of
the row's kind. -/
def ROW.GetType (io : IO_MGR) (row : ROW) : Str :=
  io.ShowType row.type

/-- Embeds `ROW::SerializeSEXPR()`.  `GetFullURI()` is called without argument; the
default, declared in fp_lib_table.h, is the raw URI. -/
def ROW.SerializeSEXPR (io : IO_MGR) (row : ROW) : SEXPR :=
  let nameList := SEXPR.list [SEXPR.AsSymbol "name".toList, SEXPR.AsSymbol row.nickName] 0
  let typeList := SEXPR.list [SEXPR.AsSymbol "type".toList, SEXPR.AsSymbol (row.GetType io)] 0
  let uriList := SEXPR.list
    [SEXPR.AsSymbol "uri".toList, SEXPR.AsSymbol (row.GetFullURI (fun s => s) false)] 0
  let optionsList := SEXPR.list [SEXPR.AsSymbol "options".toList, SEXPR.AsString row.options] 0
  let descrList := SEXPR.list [SEXPR.AsSymbol "descr".toList, SEXPR.AsString row.description] 0
  SEXPR.list [SEXPR.AsSymbol "lib".toList, nameList, typeList, uriList, optionsList, descrList] 0

/-- The tree `FP_LIB_TABLE::Format` builds in `list`: the symbol
`fp_lib_table`, then one block per row in row order. -/
def FP_LIB_TABLE.FormatTree (io : IO_MGR) (t : FP_LIB_TABLE) : SEXPR :=
  SEXPR.list (SEXPR.AsSymbol "fp_lib_table".toList :: t.rows.map (ROW.SerializeSEXPR io)) 0

/-- Embeds `FP_LIB_TABLE::Format( OUTPUTFORMATTER* out, int nestLevel )`: the text
handed to `out->Print`.  `AsString`, the writer of the tree library, is a
parameter. -/
def FP_LIB_TABLE.Format (io : IO_MGR) (AsString : SEXPR → Str) (t : FP_LIB_TABLE) : Str :=
  AsString (t.FormatTree io)

/-- One round of the loop of `parseLibList`: the pair `pairList` applied to
`row`. -/
def parsePair (io : IO_MGR) (pairList : SEXPR) (row : ROW) : Except PARSE_EXN ROW :=
  if !pairList.IsList then
    .error (.syntaxError "Expected list".toList pairList.GetLineNumber)
  else do
    let head ← pairList.GetChild 0
    if !head.IsSymbol then
      throw (.syntaxError "lib symbol not found".toList pairList.GetLineNumber)
    let key ← head.GetSymbol
    if key = "name".toList then
      let value ← pairList.GetChild 1
      if !value.IsSymbol then
        throw (.syntaxError "expected symbol".toList pairList.GetLineNumber)
      return row.SetNickName (← value.GetSymbol)
    else if key = "uri".toList then
      let value ← pairList.GetChild 1
      if !value.IsSymbol then
        throw (.syntaxError "expected symbol".toList pairList.GetLineNumber)
      return row.SetFullURI (← value.GetSymbol)
    else if key = "type".toList then
      let value ← pairList.GetChild 1
      if !value.IsSymbol then
        throw (.syntaxError "expected symbol".toList pairList.GetLineNumber)
      return row.SetType io (← value.GetSymbol)
    else if key = "options".toList then
      let value ← pairList.GetChild 1
      if !value.IsString then
        throw (.syntaxError "expected string".toList pairList.GetLineNumber)
      return row.SetOptions (← value.GetString)
    else if key = "descr".toList then
      let value ← pairList.GetChild 1
      if value.IsString then
        return row.SetDescr (← value.GetString)
      else if value.IsSymbol then
        return row.SetDescr (← value.GetSymbol)
      else
        throw (.syntaxError "expected string or symbol".toList pairList.GetLineNumber)
    else
      return row

/-- The loop of `parseLibList` over the children after the first. -/
def parsePairs (io : IO_MGR) : List SEXPR → ROW → Except PARSE_EXN ROW
  | [], row => .ok row
  | pairList :: rest, row =>
    match parsePair io pairList row with
    | .error e => .error e
    | .ok row1 => parsePairs io rest row1

/-- Embeds `FP_LIB_TABLE::parseLibList( SEXPR::SEXPR* aLibList )`: the exception
raised, if any, and the table afterwards. -/
def FP_LIB_TABLE.parseLibList (io : IO_MGR) (t : FP_LIB_TABLE) (aLibList : SEXPR) :
    Option PARSE_EXN × FP_LIB_TABLE :=
  match aLibList.children with
  | .error e => (some e, t)
  | .ok children =>
    match parsePairs io (children.drop 1) (ROW.new io) with
    | .error e => (some e, t)
    | .ok row =>
      let res := t.InsertRow row false
      if !res.1 then
        (some (.syntaxError ("'".toList ++ row.nickName
            ++ "' is a duplicate footprint library nickName".toList) aLibList.GetLineNumber),
          res.2)
      else (none, res.2)

/-- The checks `Parse` makes on a child of the root before it calls
`parseLibList`: the exception they raise, if any. -/
def checkLibList (libList : SEXPR) : Except PARSE_EXN Unit :=
  if !libList.IsList then do
    let first ← libList.GetChild 0
    throw (.syntaxError "Expected list".toList first.GetLineNumber)
  else do
    let first ← libList.GetChild 0
    if !first.IsSymbol then
      throw (.syntaxError "lib symbol not found".toList first.GetLineNumber)
    if (← first.GetSymbol) ≠ "lib".toList then
      throw (.syntaxError "lib symbol not found".toList first.GetLineNumber)
    return ()

/-- The loop of `Parse` over the children of the root after the first. -/
def parseLibs (io : IO_MGR) : List SEXPR → FP_LIB_TABLE → Option PARSE_EXN × FP_LIB_TABLE
  | [], t => (none, t)
  | libList :: rest, t =>
    match checkLibList libList with
    | .error e => (some e, t)
    | .ok _ =>
      match t.parseLibList io libList with
      | (some e, t1) => (some e, t1)
      | (none, t1) => parseLibs io rest t1

/-- The part of `FP_LIB_TABLE::Parse` after `parser.Parse( sexpr )` returned
`fplibroot`. -/
def FP_LIB_TABLE.ParseTree (io : IO_MGR) (t : FP_LIB_TABLE) (fplibroot : SEXPR) :
    Option PARSE_EXN × FP_LIB_TABLE :=
  if !fplibroot.IsList then
    (some (.syntaxError "Expected list".toList fplibroot.GetLineNumber), t)
  else
    match fplibroot.GetChild 0 with
    | .error e => (some e, t)
    | .ok first =>
      if !first.IsSymbol then
        (some (.syntaxError "fp_lib_table symbol not found".toList first.GetLineNumber), t)
      else
        match first.GetSymbol with
        | .error e => (some e, t)
        | .ok symbol =>
          if symbol ≠ "fp_lib_table".toList then
            (some (.syntaxError "fp_lib_table symbol not found".toList first.GetLineNumber), t)
          else
            match fplibroot.children with
            | .error e => (some e, t)
            | .ok children => parseLibs io (children.drop 1) t

/-- Embeds `FP_LIB_TABLE::Parse( const std::string& sexpr )`: the exception raised,
if any, and the table afterwards.  `parser`, the reader of the tree library
(`SEXPR::PARSER::Parse`), is a parameter. -/
def FP_LIB_TABLE.Parse (io : IO_MGR) (parser : Str → Except PARSE_EXN SEXPR)
    (t : FP_LIB_TABLE) (sexpr : Str) : Option PARSE_EXN × FP_LIB_TABLE :=
  match parser sexpr with
  | .error e => (some e, t)
  | .ok fplibroot => t.ParseTree io fplibroot

mutual
/-- The tree with every line number set to 0: its shape. -/
def SEXPR.eraseLines : SEXPR → SEXPR
  | .symbol value _ => .symbol value 0
  | .string value _ => .string value 0
  | .integer value _ => .integer value 0
  | .double value _ => .double value 0
  | .list children _ => .list (SEXPR.eraseLinesList children) 0
/-- The shapes of a list of trees. -/
def SEXPR.eraseLinesList : List SEXPR → List SEXPR
  | [] => []
  | child :: rest => child.eraseLines :: SEXPR.eraseLinesList rest
end

/-- The row `parseLibList` reads back from the block `SerializeSEXPR` wrote
for `row`, when the kind's name is read back as the kind: the five fields of
`row`, the properties decoded from its options, no plugin. -/
def ROW.reread (row : ROW) : ROW :=
  { nickName := row.nickName
    uri_user := row.uri_user
    type := row.type
    options := row.options
    description := row.description
    properties := ParseOptions row.options
    plugin := none }

/-- Tables built by `InsertRow`: the empty table (with any fallback) and
every table `InsertRow` leaves, with either flag. -/
inductive FP_LIB_TABLE.Built : FP_LIB_TABLE → Prop where
  | new (fallBack : Option FP_LIB_TABLE) : FP_LIB_TABLE.Built (FP_LIB_TABLE.new fallBack)
  | insert (t : FP_LIB_TABLE) (aRow : ROW) (doReplace : Bool) :
      FP_LIB_TABLE.Built t → FP_LIB_TABLE.Built (t.InsertRow aRow doReplace).2

/-- Every pair written behind a separator. -/
def sepAll (l : List (Str × Str)) : Str :=
  l.flatMap (fun p => '|' :: Spec.pairText p)

/-- The field a pair is read back from: the key alone, or key=value. -/
def fieldOf (p : Str × Str) : Str :=
  if p.2 = [] then p.1 else p.1 ++ '=' :: p.2

/-- The side conditions under which an entry is read back as written: the
key is not empty, has no '|' and no '=', does not start with white space,
and neither key nor value ends with a backslash. -/
def Encodable (p : Str × Str) : Prop :=
  p.1 ≠ [] ∧ '|' ∉ p.1 ∧ '=' ∉ p.1 ∧ (∀ c ∈ p.1.head?, isspace c = false)
    ∧ p.1.getLast? ≠ some '\\' ∧ p.2.getLast? ≠ some '\\'

instance (p : Str × Str) : Decidable (Encodable p) := by
  unfold Encodable; infer_instance

/-! ### Example values -/

/-- A row with the given nickname and raw URI, kind 1, nothing else set. -/
def exRow (nick uri : String) : ROW :=
  ⟨nick.toList, uri.toList, 1, [], [], none, none⟩

/-- A fallback table with rows B and C, its index not built yet. -/
def exFallBack : FP_LIB_TABLE :=
  .mk [exRow "B" "fallback/B", exRow "C" "fallback/C"] [] none

/-- A table with rows A and B and the fallback table `exFallBack`. -/
def exTable : FP_LIB_TABLE :=
  .mk [exRow "A" "local/A", exRow "B" "local/B"]
    [("A".toList, 0), ("B".toList, 1)] (some exFallBack)

/-- An `IO_MGR` with two kinds, 0 "Legacy" and 1 "KiCad". -/
def exIO : IO_MGR where
  KICAD := 1
  EnumFromStr := fun s =>
    if s = "Legacy".toList then 0 else if s = "KiCad".toList then 1 else -1
  ShowType := fun t => if t = 0 then "Legacy".toList else "KiCad".toList
  PluginFind := fun t => if t = 0 ∨ t = 1 then some t.toNat else none

/-- The options map with an entry whose key and value are both empty. -/
def exEmptyKey : PROPERTIES :=
  [([], []), ("a".toList, "1".toList)]

/-- An options map whose values hold a separator and nothing. -/
def exProps : PROPERTIES :=
  [("a".toList, "x|y".toList), ("flag".toList, [])]

/-! ### A reader and a writer of trees

The tree library is not among the sources and is a parameter of `Format` and
`Parse`.  For worked examples this pair stands in for it, with the text form
of the documents of the spec: lists in parentheses, children separated by
one blank, strings in double quotes, symbols bare. -/

mutual
/-- Modelled from the spec: the writer of the tree library, `AsString()`: a
node as text, a symbol bare, a string in double quotes, a list in
parentheses. -/
def exAsString : SEXPR → Str
  | .symbol value _ => value
  | .string value _ => '"' :: value ++ ['"']
  | .integer _ _ => []
  | .double _ _ => []
  | .list children _ => '(' :: exAsStringList children ++ [')']
/-- Modelled from the spec: the writer of the tree library on the children
of a list, separated by blanks. -/
def exAsStringList : List SEXPR → Str
  | [] => []
  | child :: rest =>
    match rest with
    | [] => exAsString child
    | _ :: _ => exAsString child ++ ' ' :: exAsStringList rest
end

/-- Modelled from the spec: the characters the reader of the tree library
takes into a bare symbol: all but the blank, the parentheses and the double
quote. -/
def exSymbolChar (c : Char) : Bool :=
  !(c = ' ' || c = '(' || c = ')' || c = '"')

mutual
/-- Modelled from the spec: the reader of the tree library on one node at
the start of the text, and the text after it; every node is given line 1. -/
def exNode : Nat → Str → Option (SEXPR × Str)
  | 0, _ => none
  | fuel + 1, text =>
    match text with
    | [] => none
    | c :: rest =>
      if c = ' ' then exNode fuel rest
      else if c = '(' then
        match exItems fuel rest with
        | some (items, rest1) => some (.list items 1, rest1)
        | none => none
      else if c = ')' then none
      else if c = '"' then
        some (.string (rest.takeWhile (· ≠ '"')) 1, (rest.dropWhile (· ≠ '"')).drop 1)
      else some (.symbol (text.takeWhile exSymbolChar) 1, text.dropWhile exSymbolChar)
/-- Modelled from the spec: the reader of the tree library on the nodes up to
the closing parenthesis. -/
def exItems : Nat → Str → Option (List SEXPR × Str)
  | 0, _ => none
  | fuel + 1, text =>
    match text with
    | [] => none
    | c :: rest =>
      if c = ')' then some ([], rest)
      else if c = ' ' then exItems fuel rest
      else
        match exNode fuel text with
        | some (node, rest1) =>
          match exItems fuel rest1 with
          | some (nodes, rest2) => some (node :: nodes, rest2)
          | none => none
        | none => none
end

/-- Modelled from the spec: the reader of the tree library,
`SEXPR::PARSER::Parse( text )`: the first node of the text. -/
def exParser (text : Str) : Except PARSE_EXN SEXPR :=
  match exNode (text.length + 1) text with
  | some (node, _) => .ok node
  | none => .error (.syntaxError "syntax error".toList 1)

/-- A table built by two calls of `InsertRow`. -/
def exBuilt : FP_LIB_TABLE :=
  (((FP_LIB_TABLE.new none).InsertRow
      ⟨"A".toList, "a.pretty".toList, 1, "k=v".toList, "first".toList, none, none⟩ false).2.InsertRow
      ⟨"B".toList, "b.pretty".toList, 0, [], [], none, none⟩ false).2

/-- The tree the example reader returns for the text of `exBuilt`. -/
def exReadBack : SEXPR :=
  match exParser (exBuilt.Format exIO exAsString) with
  | .ok tree => tree
  | .error _ => .list [] 0


/-- A table built by one call of `InsertRow`, with a nickname that holds a
blank. -/
def exSpaced : FP_LIB_TABLE :=
  ((FP_LIB_TABLE.new none).InsertRow
      ⟨"my lib".toList, "a.pretty".toList, 1, [], [], none, none⟩ false).2

/-- A table built by one call of `InsertRow`, with an empty URI. -/
def exNoUri : FP_LIB_TABLE :=
  ((FP_LIB_TABLE.new none).InsertRow
      ⟨"A".toList, [], 1, [], [], none, none⟩ false).2
/-! ### Reading a `lib` block, as the spec words it -/

/-- The key of a pair that `parseLibList` accepts, and the text of its value
when the key is one of the five it reads: a list headed by a symbol, with "a
value atom of the accepted type (symbol for name/uri/type, string for
options, string or symbol for descr)"; a pair with any other key is accepted
whatever follows the key.  `none` for every other node. -/
def Spec.pairKeyValue : SEXPR → Option (Str × Option Str)
  | .list (.symbol key _ :: rest) _ =>
    if key = "name".toList ∨ key = "uri".toList ∨ key = "type".toList then
      match rest with
      | .symbol value _ :: _ => some (key, some value)
      | _ => none
    else if key = "options".toList then
      match rest with
      | .string value _ :: _ => some (key, some value)
      | _ => none
    else if key = "descr".toList then
      match rest with
      | .string value _ :: _ => some (key, some value)
      | .symbol value _ :: _ => some (key, some value)
      | _ => none
    else some (key, none)
  | _ => none

/-- The value text of the last pair with the given key, if there is one. -/
def Spec.lastValue (key : Str) : List SEXPR → Option Str
  | [] => none
  | pair :: rest =>
    match Spec.lastValue key rest with
    | some value => some value
    | none =>
      match Spec.pairKeyValue pair with
      | some (k, some value) => if k = key then some value else none
      | _ => none

/-- The row the spec has `parseLibList` build from the pairs of a block, on
top of the row `row0`: each of the five fields is that of the last pair with
its key, or kept from `row0` when no pair has the key. -/
def Spec.rowOfPairs (io : IO_MGR) (pairs : List SEXPR) (row0 : ROW) : ROW :=
  { nickName := (Spec.lastValue "name".toList pairs).getD row0.nickName
    uri_user := (Spec.lastValue "uri".toList pairs).getD row0.uri_user
    type :=
      match Spec.lastValue "type".toList pairs with
      | some value => (row0.SetType io value).type
      | none => row0.type
    options := (Spec.lastValue "options".toList pairs).getD row0.options
    description := (Spec.lastValue "descr".toList pairs).getD row0.description
    properties :=
      match Spec.lastValue "options".toList pairs with
      | some value => ParseOptions value
      | none => row0.properties
    plugin := row0.plugin }

/-- The message of the exception `parseLibList` raises for a nickname the
table already has. -/
def duplicateMessage (nickName : Str) : Str :=
  "'".toList ++ nickName ++ "' is a duplicate footprint library nickName".toList

/-! ### More example values -/

/-- A `lib` block on line 3 with a `uri` pair and a pair with an unknown key,
and no `name` pair. -/
def exNoName : SEXPR :=
  .list [.symbol "lib".toList 3,
    .list [.symbol "uri".toList 3, .symbol "x.pretty".toList 3] 3,
    .list [.symbol "color".toList 4] 4] 3

/-- A document whose second block, on line 3, repeats the nickname of the
first, and whose third block is never reached. -/
def exDuplicate : SEXPR :=
  .list [.symbol "fp_lib_table".toList 1,
    .list [.symbol "lib".toList 2,
      .list [.symbol "name".toList 2, .symbol "A".toList 2] 2,
      .list [.symbol "uri".toList 2, .symbol "first".toList 2] 2] 2,
    .list [.symbol "lib".toList 3,
      .list [.symbol "name".toList 3, .symbol "A".toList 3] 3,
      .list [.symbol "uri".toList 3, .symbol "second".toList 3] 3] 3,
    .list [.symbol "lib".toList 4,
      .list [.symbol "name".toList 4, .symbol "Z".toList 4] 4] 4] 1

/-- A document whose second child, on line 7, is a bare atom. -/
def exBareAtom : SEXPR :=
  .list [.symbol "fp_lib_table".toList 1,
    .list [.symbol "lib".toList 2,
      .list [.symbol "name".toList 2, .symbol "A".toList 2] 2] 2,
    .symbol "oops".toList 7] 1

/-! ## Page layout items (common/page_layout/class_worksheet_dataitem.cpp)

`double` is a type parameter `D` with the operations the code uses; a theorem
that needs the laws of exact arithmetic says so by asking for a commutative
ring.  The class declarations are in worksheet_dataitem.h, which is not among
the sources: the members are those the member functions read and write. -/

/-- Embeds `DPOINT`, a `VECTOR2<double>`. -/
structure DPOINT (D : Type) where
  x : D
  y : D
deriving DecidableEq

/-- Embeds `VECTOR2::operator+`. -/
def DPOINT.add {D : Type} [Add D] (a b : DPOINT D) : DPOINT D :=
  ⟨a.x + b.x, a.y + b.y⟩

/-- Embeds `VECTOR2::operator-`. -/
def DPOINT.sub {D : Type} [Sub D] (a b : DPOINT D) : DPOINT D :=
  ⟨a.x - b.x, a.y - b.y⟩

/-- Modelled from the spec: `enum corner_anchor` of worksheet_dataitem.h, "one
of four corner anchors (left-top, right-top, left-bottom, right-bottom)". -/
inductive corner_anchor where
  | RB_CORNER
  | RT_CORNER
  | LB_CORNER
  | LT_CORNER
deriving DecidableEq

/-- Modelled from the spec: `class POINT_COORD` of worksheet_dataitem.h, "a
value pair plus one of four corner anchors". -/
structure POINT_COORD (D : Type) where
  m_Pos : DPOINT D
  m_Anchor : corner_anchor
deriving DecidableEq

/-- Modelled from the spec: `enum WS_ItemType` of worksheet_dataitem.h, the
five kinds `GetClassName` names. -/
inductive WS_ItemType where
  | WS_TEXT
  | WS_SEGMENT
  | WS_RECT
  | WS_POLYPOLYGON
  | WS_BITMAP
deriving DecidableEq

/-- Embeds `class WORKSHEET_DATAITEM`: the members of the base class.
`m_flags` is the bit pattern of the 32 bit `int`. -/
structure WORKSHEET_DATAITEM (D : Type) where
  m_type : WS_ItemType
  m_flags : Nat
  m_Name : Str
  m_Info : Str
  m_Pos : POINT_COORD D
  m_End : POINT_COORD D
  m_LineWidth : D
  m_RepeatCount : Int
  m_IncrementVector : DPOINT D
  m_IncrementLabel : Int
deriving DecidableEq

/-- The static members `m_RB_Corner` and `m_LT_Corner` of
`WORKSHEET_DATAITEM`, the page corners. -/
structure PAGE_CORNERS (D : Type) where
  m_RB_Corner : DPOINT D
  m_LT_Corner : DPOINT D
deriving DecidableEq

/-- Embeds `WORKSHEET_DATAITEM::WORKSHEET_DATAITEM( WS_ItemType aType )`.  The
members the constructor does not assign are default constructed: empty texts,
zero points, and for the two positions the default anchor, which the spec
gives as right-bottom. -/
def WORKSHEET_DATAITEM.new {D : Type} [Zero D] (aType : WS_ItemType) : WORKSHEET_DATAITEM D :=
  { m_type := aType
    m_flags := 0
    m_Name := []
    m_Info := []
    m_Pos := ⟨⟨0, 0⟩, .RB_CORNER⟩
    m_End := ⟨⟨0, 0⟩, .RB_CORNER⟩
    m_LineWidth := 0
    m_RepeatCount := 1
    m_IncrementVector := ⟨0, 0⟩
    m_IncrementLabel := 1 }

/-- Modelled from the spec: `GetType()` of worksheet_dataitem.h, the kind of
the item. -/
def WORKSHEET_DATAITEM.GetType {D : Type} (item : WORKSHEET_DATAITEM D) : WS_ItemType :=
  item.m_type

/-- The `switch( m_Anchor )` of `MoveStartPointTo` and `MoveEndPointTo`: the
offset stored for the absolute position `aPosition`. -/
def offsetFor {D : Type} [Sub D] (page : PAGE_CORNERS D) (anchor : corner_anchor)
    (aPosition : DPOINT D) : DPOINT D :=
  match anchor with
  | .RB_CORNER => page.m_RB_Corner.sub aPosition
  | .RT_CORNER => ⟨page.m_RB_Corner.x - aPosition.x, aPosition.y - page.m_LT_Corner.y⟩
  | .LB_CORNER => ⟨aPosition.x - page.m_LT_Corner.x, page.m_RB_Corner.y - aPosition.y⟩
  | .LT_CORNER => aPosition.sub page.m_LT_Corner

/-- Embeds `WORKSHEET_DATAITEM::MoveStartPointTo( DPOINT aPosition )`. -/
def WORKSHEET_DATAITEM.MoveStartPointTo {D : Type} [Sub D] (page : PAGE_CORNERS D)
    (item : WORKSHEET_DATAITEM D) (aPosition : DPOINT D) : WORKSHEET_DATAITEM D :=
  let position := offsetFor page item.m_Pos.m_Anchor aPosition
  { item with m_Pos := { item.m_Pos with m_Pos := position } }

/-- Embeds `WORKSHEET_DATAITEM::MoveEndPointTo( DPOINT aPosition )`. -/
def WORKSHEET_DATAITEM.MoveEndPointTo {D : Type} [Sub D] (page : PAGE_CORNERS D)
    (item : WORKSHEET_DATAITEM D) (aPosition : DPOINT D) : WORKSHEET_DATAITEM D :=
  let position := offsetFor page item.m_End.m_Anchor aPosition
  match item.GetType with
  | .WS_SEGMENT => { item with m_End := { item.m_End with m_Pos := position } }
  | .WS_RECT => { item with m_End := { item.m_End with m_Pos := position } }
  | _ => item

/-- The `switch( m_Anchor )` of `GetStartPos` and `GetEndPos`: the absolute
position of the offset `pos`. -/
def resolve {D : Type} [Add D] [Sub D] (page : PAGE_CORNERS D) (anchor : corner_anchor)
    (pos : DPOINT D) : DPOINT D :=
  match anchor with
  | .RB_CORNER => page.m_RB_Corner.sub pos
  | .RT_CORNER => ⟨page.m_RB_Corner.x - pos.x, page.m_LT_Corner.y + pos.y⟩
  | .LB_CORNER => ⟨page.m_LT_Corner.x + pos.x, page.m_RB_Corner.y - pos.y⟩
  | .LT_CORNER => page.m_LT_Corner.add pos

/-- Embeds `WORKSHEET_DATAITEM::GetStartPos( int ii )`. -/
def WORKSHEET_DATAITEM.GetStartPos {D : Type} [Add D] [Sub D] [Mul D] [IntCast D]
    (page : PAGE_CORNERS D) (item : WORKSHEET_DATAITEM D) (ii : Int) : DPOINT D :=
  let pos : DPOINT D :=
    ⟨item.m_Pos.m_Pos.x + item.m_IncrementVector.x * (ii : D),
      item.m_Pos.m_Pos.y + item.m_IncrementVector.y * (ii : D)⟩
  resolve page item.m_Pos.m_Anchor pos

/-- Embeds `WORKSHEET_DATAITEM::GetEndPos( int ii )`. -/
def WORKSHEET_DATAITEM.GetEndPos {D : Type} [Add D] [Sub D] [Mul D] [IntCast D]
    (page : PAGE_CORNERS D) (item : WORKSHEET_DATAITEM D) (ii : Int) : DPOINT D :=
  let pos : DPOINT D :=
    ⟨item.m_End.m_Pos.x + item.m_IncrementVector.x * (ii : D),
      item.m_End.m_Pos.y + item.m_IncrementVector.y * (ii : D)⟩
  resolve page item.m_End.m_Anchor pos

/-- The page-1 masks `PAGE1OPTION`, `PAGE1OPTION_PAGE1ONLY` and
`PAGE1OPTION_NOTONPAGE1`, macros of worksheet_dataitem.h, which is not among
the sources: parameters. -/
structure PAGE1_MASKS where
  PAGE1OPTION : Nat
  PAGE1OPTION_PAGE1ONLY : Nat
  PAGE1OPTION_NOTONPAGE1 : Nat

/-- Modelled from the spec: what the spec says of the masks, "a packed
two-bit tri-state ... one of two bits": the two choices are two different
bits of the `int` and `PAGE1OPTION` is the two together. -/
def PAGE1_MASKS.TwoBits (m : PAGE1_MASKS) : Prop :=
  ∃ a b, a < 32 ∧ b < 32 ∧ a ≠ b ∧ m.PAGE1OPTION_PAGE1ONLY = 2 ^ a
    ∧ m.PAGE1OPTION_NOTONPAGE1 = 2 ^ b ∧ m.PAGE1OPTION = 2 ^ a ||| 2 ^ b

/-- Modelled from the spec: `SetFlags( aMask )` of worksheet_dataitem.h,
"setting" the bits of the mask: `m_flags |= aMask`. -/
def WORKSHEET_DATAITEM.SetFlags {D : Type} (item : WORKSHEET_DATAITEM D) (aMask : Nat) :
    WORKSHEET_DATAITEM D :=
  { item with m_flags := item.m_flags ||| aMask }

/-- Modelled from the spec: `ClearFlags( aMask )` of worksheet_dataitem.h,
"clearing" the bits of the mask: `m_flags &= ~aMask`, the complement taken
on 32 bits. -/
def WORKSHEET_DATAITEM.ClearFlags {D : Type} (item : WORKSHEET_DATAITEM D) (aMask : Nat) :
    WORKSHEET_DATAITEM D :=
  { item with m_flags := item.m_flags &&& (2 ^ 32 - (aMask + 1)) }

/-- Embeds `WORKSHEET_DATAITEM::GetPage1Option()`. -/
def WORKSHEET_DATAITEM.GetPage1Option {D : Type} (m : PAGE1_MASKS)
    (item : WORKSHEET_DATAITEM D) : Int :=
  if item.m_flags &&& m.PAGE1OPTION = m.PAGE1OPTION_NOTONPAGE1 then -1
  else if item.m_flags &&& m.PAGE1OPTION = m.PAGE1OPTION_PAGE1ONLY then 1
  else 0

/-- Embeds `WORKSHEET_DATAITEM::SetPage1Option( int aChoice )`. -/
def WORKSHEET_DATAITEM.SetPage1Option {D : Type} (m : PAGE1_MASKS)
    (item : WORKSHEET_DATAITEM D) (aChoice : Int) : WORKSHEET_DATAITEM D :=
  let item1 := item.ClearFlags m.PAGE1OPTION
  if aChoice > 0 then item1.SetFlags m.PAGE1OPTION_PAGE1ONLY
  else if aChoice < 0 then item1.SetFlags m.PAGE1OPTION_NOTONPAGE1
  else item1

/-- The masks as KiCad's worksheet_dataitem.h has them: bits 7 and 8. -/
def exMasks : PAGE1_MASKS :=
  ⟨3 * 2 ^ 7, 1 * 2 ^ 7, 2 * 2 ^ 7⟩

/-- An A4 page: left-top corner (0, 0), right-bottom corner (210, 297). -/
def exPage : PAGE_CORNERS Int :=
  { m_RB_Corner := ⟨210, 297⟩, m_LT_Corner := ⟨0, 0⟩ }

/-- A line with start offset (5, 5) and end offset (20, 30), both at the
given anchor, repeated 3 times with increment (2, 0). -/
def exItem (anchor : corner_anchor) : WORKSHEET_DATAITEM Int :=
  { (WORKSHEET_DATAITEM.new .WS_SEGMENT : WORKSHEET_DATAITEM Int) with
    m_Pos := ⟨⟨5, 5⟩, anchor⟩
    m_End := ⟨⟨20, 30⟩, anchor⟩
    m_RepeatCount := 3
    m_IncrementVector := ⟨2, 0⟩ }

/-! ## Page layout items: writing and reading

The S-expression members of class_worksheet_dataitem.cpp.  A `double` that is
written to or read from a tree is a rational number, the value a `double`
atom of `SEXPR` holds.  A member function that reads a tree returns the
object it leaves, or the exception it raises; the object an exception leaves
half read is dropped, as `WORKSHEET_LAYOUT::DeserializeSEXPR` drops it. -/

/-- Modelled from the spec: `SEXPR::GetInteger()`, the typed accessor of an
integer atom. -/
def SEXPR.GetInteger : SEXPR → Except PARSE_EXN Int
  | .integer value _ => .ok value
  | _ => .error .accessor

/-- Modelled from the spec: `SEXPR::GetDouble()`, the typed accessor of a
double atom. -/
def SEXPR.GetDouble : SEXPR → Except PARSE_EXN Rat
  | .double value _ => .ok value
  | _ => .error .accessor

/-- Modelled from the spec: `SEXPR::GetNumberOfChildren()`, the "child count"
of a list node. -/
def SEXPR.GetNumberOfChildren : SEXPR → Except PARSE_EXN Nat
  | .list children _ => .ok children.length
  | _ => .error .accessor

/-- Modelled from the spec: `operator<<( double )` of the tree library, a
double atom built for output. -/
def SEXPR.AsDouble (value : Rat) : SEXPR := .double value 0

/-- Modelled from the spec: `operator<<( int )` of the tree library, an
integer atom built for output. -/
def SEXPR.AsInteger (value : Int) : SEXPR := .integer value 0

/-- Modelled from the spec: a `SEXPR_LIST` built for output from the nodes
streamed into it. -/
def SEXPR.AsList (children : List SEXPR) : SEXPR := .list children 0

/-- The masks `USE_BOLD` and `USE_ITALIC`, macros of worksheet_dataitem.h,
which is not among the sources: parameters. -/
structure FONT_MASKS where
  USE_BOLD : Nat
  USE_ITALIC : Nat

/-- Modelled from the spec: `IsBold()` of worksheet_dataitem.h, the font
"weight" kept in the flags. -/
def WORKSHEET_DATAITEM.IsBold {D : Type} (f : FONT_MASKS) (item : WORKSHEET_DATAITEM D) : Bool :=
  item.m_flags &&& f.USE_BOLD ≠ 0

/-- Modelled from the spec: `IsItalic()` of worksheet_dataitem.h, the font
"style" kept in the flags. -/
def WORKSHEET_DATAITEM.IsItalic {D : Type} (f : FONT_MASKS) (item : WORKSHEET_DATAITEM D) : Bool :=
  item.m_flags &&& f.USE_ITALIC ≠ 0

/-- Modelled from the spec: `SetBold( bool aState )` of worksheet_dataitem.h. -/
def WORKSHEET_DATAITEM.SetBold {D : Type} (f : FONT_MASKS) (item : WORKSHEET_DATAITEM D)
    (aState : Bool) : WORKSHEET_DATAITEM D :=
  if aState then item.SetFlags f.USE_BOLD else item.ClearFlags f.USE_BOLD

/-- Modelled from the spec: `SetItalic( bool aState )` of
worksheet_dataitem.h. -/
def WORKSHEET_DATAITEM.SetItalic {D : Type} (f : FONT_MASKS) (item : WORKSHEET_DATAITEM D)
    (aState : Bool) : WORKSHEET_DATAITEM D :=
  if aState then item.SetFlags f.USE_ITALIC else item.ClearFlags f.USE_ITALIC

/-- The static members `m_DefaultLineWidth`, `m_DefaultTextSize` and
`m_DefaultTextThickness` of `WORKSHEET_DATAITEM`. -/
structure WS_DEFAULTS where
  m_DefaultLineWidth : Rat
  m_DefaultTextSize : DPOINT Rat
  m_DefaultTextThickness : Rat
deriving DecidableEq

/-- Modelled from the spec: `enum EDA_TEXT_HJUSTIFY_T`, the horizontal
"justification" of a text. -/
inductive EDA_TEXT_HJUSTIFY_T where
  | GR_TEXT_HJUSTIFY_LEFT
  | GR_TEXT_HJUSTIFY_CENTER
  | GR_TEXT_HJUSTIFY_RIGHT
deriving DecidableEq

/-- Modelled from the spec: `enum EDA_TEXT_VJUSTIFY_T`, the vertical
"justification" of a text. -/
inductive EDA_TEXT_VJUSTIFY_T where
  | GR_TEXT_VJUSTIFY_TOP
  | GR_TEXT_VJUSTIFY_CENTER
  | GR_TEXT_VJUSTIFY_BOTTOM
deriving DecidableEq

/-- Embeds `class WORKSHEET_DATAITEM_TEXT`: the base class members and the
members of the text item. -/
structure WORKSHEET_DATAITEM_TEXT extends WORKSHEET_DATAITEM Rat where
  m_TextBase : Str
  m_FullText : Str
  m_Orient : Rat
  m_Hjustify : EDA_TEXT_HJUSTIFY_T
  m_Vjustify : EDA_TEXT_VJUSTIFY_T
  m_TextSize : DPOINT Rat
  m_BoundingBoxSize : DPOINT Rat
  m_ConstrainedTextSize : DPOINT Rat
deriving DecidableEq

/-- Embeds `class WORKSHEET_DATAITEM_POLYPOLYGON`: the base class members, the
orientation, the flat corner array, the index of the last corner of each
point loop and the cached bounding box. -/
structure WORKSHEET_DATAITEM_POLYPOLYGON extends WORKSHEET_DATAITEM Rat where
  m_Orient : Rat
  m_Corners : List (DPOINT Rat)
  m_polyIndexEnd : List Nat
  m_minCoord : DPOINT Rat
  m_maxCoord : DPOINT Rat
deriving DecidableEq

/-- Modelled from the spec: `class BITMAP_BASE` of class_bitmap_base.h, "an
opaque image payload plus a scale factor". -/
structure BITMAP_BASE where
  m_Scale : Rat
  image : Str
deriving DecidableEq

/-- The members `SaveData` and `LoadData` of `BITMAP_BASE`, the image codec,
which is outside the sources: parameters.  `LoadData` gets the text of the
reader and returns the image it leaves and whether it could read it. -/
structure BITMAP_CODEC where
  SaveData : BITMAP_BASE → List Str
  LoadData : BITMAP_BASE → Str → BITMAP_BASE × Bool

/-- Embeds `class WORKSHEET_DATAITEM_BITMAP`: the base class members and the
image pointer, which may be null. -/
structure WORKSHEET_DATAITEM_BITMAP extends WORKSHEET_DATAITEM Rat where
  m_ImageBitmap : Option BITMAP_BASE
deriving DecidableEq

/-- Embeds `WORKSHEET_DATAITEM_POLYPOLYGON::WORKSHEET_DATAITEM_POLYPOLYGON()`. -/
def WORKSHEET_DATAITEM_POLYPOLYGON.new : WORKSHEET_DATAITEM_POLYPOLYGON :=
  { toWORKSHEET_DATAITEM := WORKSHEET_DATAITEM.new .WS_POLYPOLYGON
    m_Orient := 0
    m_Corners := []
    m_polyIndexEnd := []
    m_minCoord := ⟨0, 0⟩
    m_maxCoord := ⟨0, 0⟩ }

/-- Embeds `WORKSHEET_DATAITEM_TEXT::WORKSHEET_DATAITEM_TEXT( const wxString&
aTextBase )`; the sizes the constructor does not assign are zero. -/
def WORKSHEET_DATAITEM_TEXT.new (aTextBase : Str) : WORKSHEET_DATAITEM_TEXT :=
  { toWORKSHEET_DATAITEM :=
      { (WORKSHEET_DATAITEM.new .WS_TEXT : WORKSHEET_DATAITEM Rat) with
        m_IncrementLabel := 1
        m_LineWidth := 0 }
    m_TextBase := aTextBase
    m_FullText := []
    m_Orient := 0
    m_Hjustify := .GR_TEXT_HJUSTIFY_LEFT
    m_Vjustify := .GR_TEXT_VJUSTIFY_CENTER
    m_TextSize := ⟨0, 0⟩
    m_BoundingBoxSize := ⟨0, 0⟩
    m_ConstrainedTextSize := ⟨0, 0⟩ }

/-- Modelled from the spec: the constructor `WORKSHEET_DATAITEM_BITMAP(
BITMAP_BASE* aImage )` of worksheet_dataitem.h: a bitmap item that "carries"
the image it is given. -/
def WORKSHEET_DATAITEM_BITMAP.new (aImage : Option BITMAP_BASE) : WORKSHEET_DATAITEM_BITMAP :=
  { toWORKSHEET_DATAITEM := WORKSHEET_DATAITEM.new .WS_BITMAP
    m_ImageBitmap := aImage }

/-- Modelled from the spec: `GetPolyCount()` of worksheet_dataitem.h, the
number of point loops. -/
def WORKSHEET_DATAITEM_POLYPOLYGON.GetPolyCount (p : WORKSHEET_DATAITEM_POLYPOLYGON) : Nat :=
  p.m_polyIndexEnd.length

/-- Modelled from the spec: `GetPolyIndexEnd( aContour )` of
worksheet_dataitem.h, the "end index" of a point loop in the corner array. -/
def WORKSHEET_DATAITEM_POLYPOLYGON.GetPolyIndexEnd (p : WORKSHEET_DATAITEM_POLYPOLYGON)
    (aContour : Nat) : Except PARSE_EXN Nat :=
  match p.m_polyIndexEnd.get? aContour with
  | some iend => .ok iend
  | none => .error .memoryFault

/-- Modelled from the spec: `GetPolyIndexStart( aContour )` of
worksheet_dataitem.h, the "start index" of a point loop: 0 for the first
loop, one past the end of the loop before for the others. -/
def WORKSHEET_DATAITEM_POLYPOLYGON.GetPolyIndexStart (p : WORKSHEET_DATAITEM_POLYPOLYGON)
    (aContour : Nat) : Except PARSE_EXN Nat :=
  if aContour = 0 then .ok 0
  else
    match p.GetPolyIndexEnd (aContour - 1) with
    | .ok iend => .ok (iend + 1)
    | .error e => .error e

/-! ### Writing -/

/-- Embeds `WORKSHEET_DATAITEM::serializeSEXPRCoordinate( aToken, aCoord )`. -/
def serializeSEXPRCoordinate (aToken : Str) (aCoord : POINT_COORD Rat) : SEXPR :=
  SEXPR.AsList
    ([SEXPR.AsSymbol aToken, SEXPR.AsDouble aCoord.m_Pos.x, SEXPR.AsDouble aCoord.m_Pos.y]
      ++ match aCoord.m_Anchor with
         | .RB_CORNER => []
         | .LT_CORNER => [SEXPR.AsSymbol "ltcorner".toList]
         | .LB_CORNER => [SEXPR.AsSymbol "lbcorner".toList]
         | .RT_CORNER => [SEXPR.AsSymbol "rtcorner".toList])

/-- Embeds `WORKSHEET_DATAITEM::serializeSEXPRRepeatParameters( root )`: the
children it appends to `root`. -/
def WORKSHEET_DATAITEM.serializeSEXPRRepeatParameters (item : WORKSHEET_DATAITEM Rat) :
    List SEXPR :=
  if item.m_RepeatCount ≤ 1 then []
  else
    [SEXPR.AsList [SEXPR.AsSymbol "repeat".toList, SEXPR.AsInteger item.m_RepeatCount]]
    ++ (if item.m_IncrementVector.x ≠ 0 then
          [SEXPR.AsList [SEXPR.AsSymbol "incrx".toList, SEXPR.AsDouble item.m_IncrementVector.x]]
        else [])
    ++ (if item.m_IncrementVector.y ≠ 0 then
          [SEXPR.AsList [SEXPR.AsSymbol "incry".toList, SEXPR.AsDouble item.m_IncrementVector.y]]
        else [])
    ++ (if item.m_IncrementLabel ≠ 1 ∧ item.GetType = .WS_TEXT then
          [SEXPR.AsList [SEXPR.AsSymbol "incrlabel".toList,
            SEXPR.AsInteger item.m_IncrementLabel]]
        else [])

/-- Embeds `WORKSHEET_DATAITEM::serializeSEXPROptions( root )`: the children it
appends to `root`. -/
def WORKSHEET_DATAITEM.serializeSEXPROptions (m : PAGE1_MASKS) (item : WORKSHEET_DATAITEM Rat) :
    List SEXPR :=
  if item.GetPage1Option m = 1 then
    [SEXPR.AsList [SEXPR.AsSymbol "option".toList, SEXPR.AsSymbol "page1only".toList]]
  else if item.GetPage1Option m = -1 then
    [SEXPR.AsList [SEXPR.AsSymbol "option".toList, SEXPR.AsSymbol "notonpage1".toList]]
  else []

/-- The `name` list every `SerializeSEXPR` builds: the symbol `name` and the
name as a string atom. -/
def WORKSHEET_DATAITEM.serializeName (item : WORKSHEET_DATAITEM Rat) : SEXPR :=
  SEXPR.AsList [SEXPR.AsSymbol "name".toList, SEXPR.AsString item.m_Name]

/-- Embeds `WORKSHEET_DATAITEM::SerializeSEXPR()`, the writer of lines and
rectangles. -/
def WORKSHEET_DATAITEM.SerializeSEXPR (st : WS_DEFAULTS) (item : WORKSHEET_DATAITEM Rat) :
    SEXPR :=
  SEXPR.AsList
    ([if item.GetType = .WS_RECT then SEXPR.AsSymbol "rect".toList
        else SEXPR.AsSymbol "line".toList,
      item.serializeName,
      serializeSEXPRCoordinate "start".toList item.m_Pos,
      serializeSEXPRCoordinate "end".toList item.m_End]
    ++ (if item.m_LineWidth ≠ 0 ∧ item.m_LineWidth ≠ st.m_DefaultLineWidth then
          [SEXPR.AsList [SEXPR.AsSymbol "linewidth".toList, SEXPR.AsDouble item.m_LineWidth]]
        else [])
    ++ item.serializeSEXPRRepeatParameters)

/-- The corners `m_Corners[ist]`, `m_Corners[ist + 1]`, ... that the `while`
loop of the polygon writer streams into a `pts` list, `count` of them, each
as an `xy` list. -/
def serializeCorners (corners : List (DPOINT Rat)) : Nat → Nat → Except PARSE_EXN (List SEXPR)
  | _, 0 => .ok []
  | ist, count + 1 =>
    match corners.get? ist with
    | none => .error .memoryFault
    | some pos =>
      match serializeCorners corners (ist + 1) count with
      | .error e => .error e
      | .ok rest =>
        .ok (SEXPR.AsList [SEXPR.AsSymbol "xy".toList, SEXPR.AsDouble pos.x,
          SEXPR.AsDouble pos.y] :: rest)

/-- One round of the `for` loop of the polygon writer: the `pts` list of the
point loop `kk`, the corners from its start index to its end index. -/
def WORKSHEET_DATAITEM_POLYPOLYGON.serializePolyList (p : WORKSHEET_DATAITEM_POLYPOLYGON)
    (kk : Nat) : Except PARSE_EXN SEXPR :=
  match p.GetPolyIndexStart kk with
  | .error e => .error e
  | .ok ist =>
    match p.GetPolyIndexEnd kk with
    | .error e => .error e
    | .ok iend =>
      match serializeCorners p.m_Corners ist (iend + 1 - ist) with
      | .error e => .error e
      | .ok xys => .ok (SEXPR.AsList (SEXPR.AsSymbol "pts".toList :: xys))

/-- The `for` loop of the polygon writer over the point loops `kk`, `kk + 1`,
..., `count` of them. -/
def WORKSHEET_DATAITEM_POLYPOLYGON.serializePolyLists (p : WORKSHEET_DATAITEM_POLYPOLYGON) :
    Nat → Nat → Except PARSE_EXN (List SEXPR)
  | _, 0 => .ok []
  | kk, count + 1 =>
    match p.serializePolyList kk with
    | .error e => .error e
    | .ok polylist =>
      match p.serializePolyLists (kk + 1) count with
      | .error e => .error e
      | .ok rest => .ok (polylist :: rest)

/-- Embeds `WORKSHEET_DATAITEM_POLYPOLYGON::SerializeSEXPR()`. -/
def WORKSHEET_DATAITEM_POLYPOLYGON.SerializeSEXPR (m : PAGE1_MASKS)
    (p : WORKSHEET_DATAITEM_POLYPOLYGON) : Except PARSE_EXN SEXPR :=
  match p.serializePolyLists 0 p.GetPolyCount with
  | .error e => .error e
  | .ok polylists =>
    .ok (SEXPR.AsList
      ([SEXPR.AsSymbol "polygon".toList,
        p.serializeName,
        serializeSEXPRCoordinate "pos".toList p.m_Pos]
      ++ p.serializeSEXPROptions m
      ++ p.serializeSEXPRRepeatParameters
      ++ (if p.m_Orient ≠ 0 then
            [SEXPR.AsList [SEXPR.AsSymbol "rotate".toList, SEXPR.AsDouble p.m_Orient]]
          else [])
      ++ (if p.m_LineWidth ≠ 0 then
            [SEXPR.AsList [SEXPR.AsSymbol "linewidth".toList, SEXPR.AsDouble p.m_LineWidth]]
          else [])
      ++ polylists))

/-- The `font` list of the text writer: the children it appends to `root`. -/
def WORKSHEET_DATAITEM_TEXT.serializeFont (f : FONT_MASKS) (t : WORKSHEET_DATAITEM_TEXT) :
    List SEXPR :=
  let write_size : Bool := t.m_TextSize.x ≠ 0 ∧ t.m_TextSize.y ≠ 0
  if write_size ∨ t.IsBold f ∨ t.IsItalic f then
    [SEXPR.AsList
      ([SEXPR.AsSymbol "font".toList]
      ++ (if write_size then
            [SEXPR.AsList [SEXPR.AsSymbol "size".toList, SEXPR.AsDouble t.m_TextSize.x,
              SEXPR.AsDouble t.m_TextSize.y]]
          else [])
      ++ (if t.IsBold f then [SEXPR.AsSymbol "bold".toList] else [])
      ++ (if t.IsItalic f then [SEXPR.AsSymbol "italic".toList] else []))]
  else []

/-- The `justify` list of the text writer: the children it appends to
`root`. -/
def WORKSHEET_DATAITEM_TEXT.serializeJustify (t : WORKSHEET_DATAITEM_TEXT) : List SEXPR :=
  if t.m_Hjustify ≠ .GR_TEXT_HJUSTIFY_LEFT ∨ t.m_Vjustify ≠ .GR_TEXT_VJUSTIFY_CENTER then
    [SEXPR.AsList
      ([SEXPR.AsSymbol "justify".toList]
      ++ (if t.m_Hjustify = .GR_TEXT_HJUSTIFY_CENTER then [SEXPR.AsSymbol "center".toList]
          else [])
      ++ (if t.m_Hjustify = .GR_TEXT_HJUSTIFY_RIGHT then [SEXPR.AsSymbol "right".toList]
          else [])
      ++ (if t.m_Vjustify = .GR_TEXT_VJUSTIFY_TOP then [SEXPR.AsSymbol "top".toList]
          else [])
      ++ (if t.m_Vjustify = .GR_TEXT_VJUSTIFY_BOTTOM then [SEXPR.AsSymbol "bottom".toList]
          else []))]
  else []

/-- Embeds `WORKSHEET_DATAITEM_TEXT::SerializeSEXPR()`. -/
def WORKSHEET_DATAITEM_TEXT.SerializeSEXPR (m : PAGE1_MASKS) (f : FONT_MASKS)
    (t : WORKSHEET_DATAITEM_TEXT) : SEXPR :=
  SEXPR.AsList
    ([SEXPR.AsSymbol "tbtext".toList,
      SEXPR.AsString t.m_TextBase,
      t.serializeName,
      serializeSEXPRCoordinate "pos".toList t.m_Pos]
    ++ t.serializeSEXPROptions m
    ++ (if t.m_Orient ≠ 0 then
          [SEXPR.AsList [SEXPR.AsSymbol "rotate".toList, SEXPR.AsDouble t.m_Orient]]
        else [])
    ++ t.serializeFont f
    ++ t.serializeJustify
    ++ (if t.m_BoundingBoxSize.x ≠ 0 then
          [SEXPR.AsList [SEXPR.AsSymbol "maxlen".toList, SEXPR.AsDouble t.m_BoundingBoxSize.x]]
        else [])
    ++ (if t.m_BoundingBoxSize.y ≠ 0 then
          [SEXPR.AsList [SEXPR.AsSymbol "maxheight".toList,
            SEXPR.AsDouble t.m_BoundingBoxSize.y]]
        else [])
    ++ t.serializeSEXPRRepeatParameters)

/-- Embeds `WORKSHEET_DATAITEM_BITMAP::SerializeSEXPR()`.  The scale and the
image data are read through `m_ImageBitmap`. -/
def WORKSHEET_DATAITEM_BITMAP.SerializeSEXPR (m : PAGE1_MASKS) (codec : BITMAP_CODEC)
    (b : WORKSHEET_DATAITEM_BITMAP) : Except PARSE_EXN SEXPR :=
  match b.m_ImageBitmap with
  | none => .error .memoryFault
  | some image =>
    .ok (SEXPR.AsList
      ([SEXPR.AsSymbol "bitmap".toList,
        b.serializeName,
        serializeSEXPRCoordinate "pos".toList b.m_Pos]
      ++ b.serializeSEXPROptions m
      ++ [SEXPR.AsList [SEXPR.AsSymbol "scale".toList, SEXPR.AsDouble image.m_Scale]]
      ++ b.serializeSEXPRRepeatParameters
      ++ [SEXPR.AsList (SEXPR.AsSymbol "pngdata".toList
            :: (codec.SaveData image).map
                (fun data => SEXPR.AsList [SEXPR.AsSymbol "data".toList, SEXPR.AsString data]))]))

/-! ### Reading -/

/-- The checks every reader makes on a child of the block it reads, before
it looks at the tag: the child is a list and its first child is a symbol,
the tag `sym`. -/
def childSymbol (child : SEXPR) : Except PARSE_EXN Str :=
  if !child.IsList then
    .error (.syntaxError "Expected list".toList child.GetLineNumber)
  else do
    let first ← child.GetChild 0
    if !first.IsSymbol then
      throw (.syntaxError "symbol not found".toList first.GetLineNumber)
    first.GetSymbol

/-- The branch the readers have for `comment` and for `name`: the new value
of the member `old`, the symbol or the string that is child 1 of
`childList`; with another kind of node the member keeps its value. -/
def deserializeText (childList : SEXPR) (old : Str) : Except PARSE_EXN Str := do
  let value ← childList.GetChild 1
  if value.IsSymbol then value.GetSymbol
  else if value.IsString then value.GetString
  else return old

/-- The value `childList->GetChild(1)->GetDouble()`. -/
def deserializeDouble (childList : SEXPR) : Except PARSE_EXN Rat := do
  let value ← childList.GetChild 1
  value.GetDouble

/-- The value `childList->GetChild(1)->GetInteger()`. -/
def deserializeInteger (childList : SEXPR) : Except PARSE_EXN Int := do
  let value ← childList.GetChild 1
  value.GetInteger

/-- Embeds `WORKSHEET_DATAITEM::deserializeSEXPRCoordinate( list, aCoord )`. -/
def deserializeSEXPRCoordinate (list : SEXPR) (aCoord : POINT_COORD Rat) :
    Except PARSE_EXN (POINT_COORD Rat) := do
  let x ← (← list.GetChild 1).GetDouble
  let y ← (← list.GetChild 2).GetDouble
  if (← list.GetNumberOfChildren) > 3 then
    let third ← list.GetChild 3
    let token ← third.GetSymbol
    if token = "ltcorner".toList then return ⟨⟨x, y⟩, .LT_CORNER⟩
    else if token = "lbcorner".toList then return ⟨⟨x, y⟩, .LB_CORNER⟩
    else if token = "rbcorner".toList then return ⟨⟨x, y⟩, .RB_CORNER⟩
    else if token = "rtcorner".toList then return ⟨⟨x, y⟩, .RT_CORNER⟩
    else throw (.syntaxError "unsupported symbol".toList third.GetLineNumber)
  else return ⟨⟨x, y⟩, aCoord.m_Anchor⟩

/-- The loop of `deserializeSEXPROption` over the children after the first. -/
def deserializeOptionTokens (m : PAGE1_MASKS) :
    List SEXPR → WORKSHEET_DATAITEM Rat → Except PARSE_EXN (WORKSHEET_DATAITEM Rat)
  | [], item => .ok item
  | node :: rest, item =>
    match node.GetSymbol with
    | .error e => .error e
    | .ok token =>
      if token = "page1only".toList then
        deserializeOptionTokens m rest (item.SetPage1Option m 1)
      else if token = "lbcorner".toList then
        deserializeOptionTokens m rest (item.SetPage1Option m (-1))
      else .error (.syntaxError "unsupported symbol".toList node.GetLineNumber)

/-- Embeds `WORKSHEET_DATAITEM::deserializeSEXPROption( list )`. -/
def WORKSHEET_DATAITEM.deserializeSEXPROption (m : PAGE1_MASKS) (item : WORKSHEET_DATAITEM Rat)
    (list : SEXPR) : Except PARSE_EXN (WORKSHEET_DATAITEM Rat) :=
  match list.children with
  | .error e => .error e
  | .ok children => deserializeOptionTokens m (children.drop 1) item

/-- One round of the loop of `WORKSHEET_DATAITEM::DeserializeSEXPR`: the child
`child` applied to `item`. -/
def WORKSHEET_DATAITEM.deserializeChild (m : PAGE1_MASKS) (child : SEXPR)
    (item : WORKSHEET_DATAITEM Rat) : Except PARSE_EXN (WORKSHEET_DATAITEM Rat) := do
  let sym ← childSymbol child
  if sym = "comment".toList then
    return { item with m_Info := ← deserializeText child item.m_Info }
  else if sym = "name".toList then
    return { item with m_Name := ← deserializeText child item.m_Name }
  else if sym = "option".toList then
    item.deserializeSEXPROption m child
  else if sym = "start".toList then
    return { item with m_Pos := ← deserializeSEXPRCoordinate child item.m_Pos }
  else if sym = "end".toList then
    return { item with m_End := ← deserializeSEXPRCoordinate child item.m_End }
  else if sym = "repeat".toList then
    return { item with m_RepeatCount := ← deserializeInteger child }
  else if sym = "incrx".toList then
    return { item with
      m_IncrementVector := { item.m_IncrementVector with x := ← deserializeDouble child } }
  else if sym = "incry".toList then
    return { item with
      m_IncrementVector := { item.m_IncrementVector with y := ← deserializeDouble child } }
  else if sym = "linewidth".toList then
    return { item with m_LineWidth := ← deserializeDouble child }
  else
    return item

/-- The loop of `WORKSHEET_DATAITEM::DeserializeSEXPR` over the children it
visits. -/
def WORKSHEET_DATAITEM.deserializeChildren (m : PAGE1_MASKS) :
    List SEXPR → WORKSHEET_DATAITEM Rat → Except PARSE_EXN (WORKSHEET_DATAITEM Rat)
  | [], item => .ok item
  | child :: rest, item =>
    match item.deserializeChild m child with
    | .error e => .error e
    | .ok item1 => WORKSHEET_DATAITEM.deserializeChildren m rest item1

/-- The check every `DeserializeSEXPR` of an item starts with: the first
child of `root` is a symbol, and it is one of `tags`; the messages are those
of the reader. -/
def checkRootSymbol (root : SEXPR) (tags : List Str) (msg0 msg1 : Str) :
    Except PARSE_EXN Unit := do
  let first ← root.GetChild 0
  if !first.IsSymbol then
    throw (.syntaxError msg0 first.GetLineNumber)
  let rootSym ← first.GetSymbol
  if rootSym ∉ tags then
    throw (.syntaxError msg1 first.GetLineNumber)
  return ()

/-- Embeds `WORKSHEET_DATAITEM::DeserializeSEXPR( SEXPR::SEXPR& root )`, the
reader of lines and rectangles: the loop starts at child 1. -/
def WORKSHEET_DATAITEM.DeserializeSEXPR (m : PAGE1_MASKS) (item : WORKSHEET_DATAITEM Rat)
    (root : SEXPR) : Except PARSE_EXN (WORKSHEET_DATAITEM Rat) := do
  checkRootSymbol root ["rect".toList, "line".toList]
    "page_layout symbol not found".toList "rect or line symbol not found".toList
  let children ← root.children
  item.deserializeChildren m (children.drop 1)

/-- One round of the loop of `WORKSHEET_DATAITEM_POLYPOLYGON::DeserializeSEXPR`. -/
def WORKSHEET_DATAITEM_POLYPOLYGON.deserializeChild (m : PAGE1_MASKS) (child : SEXPR)
    (p : WORKSHEET_DATAITEM_POLYPOLYGON) : Except PARSE_EXN WORKSHEET_DATAITEM_POLYPOLYGON := do
  let sym ← childSymbol child
  if sym = "comment".toList then
    return { p with m_Info := ← deserializeText child p.m_Info }
  else if sym = "name".toList then
    return { p with m_Name := ← deserializeText child p.m_Name }
  else if sym = "option".toList then
    return { p with
      toWORKSHEET_DATAITEM := ← p.toWORKSHEET_DATAITEM.deserializeSEXPROption m child }
  else if sym = "pos".toList then
    return { p with m_Pos := ← deserializeSEXPRCoordinate child p.m_Pos }
  else if sym = "repeat".toList then
    return { p with m_RepeatCount := ← deserializeInteger child }
  else if sym = "incrx".toList then
    return { p with
      m_IncrementVector := { p.m_IncrementVector with x := ← deserializeDouble child } }
  else if sym = "incry".toList then
    return { p with
      m_IncrementVector := { p.m_IncrementVector with y := ← deserializeDouble child } }
  else if sym = "incrlabel".toList then
    return { p with m_IncrementLabel := ← deserializeInteger child }
  else if sym = "linewidth".toList then
    return { p with m_LineWidth := ← deserializeDouble child }
  else if sym = "rotate".toList then
    return { p with m_Orient := ← deserializeDouble child }
  else
    return p

/-- The loop of `WORKSHEET_DATAITEM_POLYPOLYGON::DeserializeSEXPR` over the
children it visits. -/
def WORKSHEET_DATAITEM_POLYPOLYGON.deserializeChildren (m : PAGE1_MASKS) :
    List SEXPR → WORKSHEET_DATAITEM_POLYPOLYGON →
      Except PARSE_EXN WORKSHEET_DATAITEM_POLYPOLYGON
  | [], p => .ok p
  | child :: rest, p =>
    match p.deserializeChild m child with
    | .error e => .error e
    | .ok p1 => WORKSHEET_DATAITEM_POLYPOLYGON.deserializeChildren m rest p1

/-- Embeds `WORKSHEET_DATAITEM_POLYPOLYGON::DeserializeSEXPR( SEXPR::SEXPR& root
)`: the loop starts at child 2. -/
def WORKSHEET_DATAITEM_POLYPOLYGON.DeserializeSEXPR (m : PAGE1_MASKS)
    (p : WORKSHEET_DATAITEM_POLYPOLYGON) (root : SEXPR) :
    Except PARSE_EXN WORKSHEET_DATAITEM_POLYPOLYGON := do
  checkRootSymbol root ["polygon".toList]
    "polygon symbol not found".toList "polygon symbol not found".toList
  let children ← root.children
  p.deserializeChildren m (children.drop 2)

/-- The loop of `WORKSHEET_DATAITEM_TEXT::deserializeSEXPRFont` over the
children after the first. -/
def deserializeFontTokens (f : FONT_MASKS) :
    List SEXPR → WORKSHEET_DATAITEM_TEXT → Except PARSE_EXN WORKSHEET_DATAITEM_TEXT
  | [], t => .ok t
  | node :: rest, t =>
    if node.IsSymbol then
      match node.GetSymbol with
      | .error e => .error e
      | .ok token =>
        if token = "bold".toList then
          deserializeFontTokens f rest
            { t with toWORKSHEET_DATAITEM := t.toWORKSHEET_DATAITEM.SetBold f true }
        else if token = "italic".toList then
          deserializeFontTokens f rest
            { t with toWORKSHEET_DATAITEM := t.toWORKSHEET_DATAITEM.SetItalic f true }
        else deserializeFontTokens f rest t
    else if node.IsList then
      match node.GetChild 0 with
      | .error e => .error e
      | .ok first =>
        match first.GetSymbol with
        | .error e => .error e
        | .ok token =>
          if token = "size".toList then
            match node.GetChild 1 with
            | .error e => .error e
            | .ok c1 =>
              match c1.GetDouble with
              | .error e => .error e
              | .ok x =>
                match node.GetChild 2 with
                | .error e => .error e
                | .ok c2 =>
                  match c2.GetDouble with
                  | .error e => .error e
                  | .ok y => deserializeFontTokens f rest { t with m_TextSize := ⟨x, y⟩ }
          else deserializeFontTokens f rest t
    else .error (.syntaxError "unsupported".toList node.GetLineNumber)

/-- Embeds `WORKSHEET_DATAITEM_TEXT::deserializeSEXPRFont( list )`. -/
def WORKSHEET_DATAITEM_TEXT.deserializeSEXPRFont (f : FONT_MASKS) (t : WORKSHEET_DATAITEM_TEXT)
    (list : SEXPR) : Except PARSE_EXN WORKSHEET_DATAITEM_TEXT :=
  match list.children with
  | .error e => .error e
  | .ok children => deserializeFontTokens f (children.drop 1) t

/-- The loop of `WORKSHEET_DATAITEM_TEXT::deserializeSEXPRJustify` over the
children after the first. -/
def deserializeJustifyTokens :
    List SEXPR → WORKSHEET_DATAITEM_TEXT → Except PARSE_EXN WORKSHEET_DATAITEM_TEXT
  | [], t => .ok t
  | node :: rest, t =>
    match node.GetSymbol with
    | .error e => .error e
    | .ok token =>
      if token = "center".toList then
        deserializeJustifyTokens rest
          { t with m_Hjustify := .GR_TEXT_HJUSTIFY_CENTER, m_Vjustify := .GR_TEXT_VJUSTIFY_CENTER }
      else if token = "left".toList then
        deserializeJustifyTokens rest { t with m_Hjustify := .GR_TEXT_HJUSTIFY_LEFT }
      else if token = "right".toList then
        deserializeJustifyTokens rest { t with m_Hjustify := .GR_TEXT_HJUSTIFY_RIGHT }
      else if token = "top".toList then
        deserializeJustifyTokens rest { t with m_Vjustify := .GR_TEXT_VJUSTIFY_TOP }
      else if token = "bottom".toList then
        deserializeJustifyTokens rest { t with m_Vjustify := .GR_TEXT_VJUSTIFY_BOTTOM }
      else .error (.syntaxError "unsupported".toList node.GetLineNumber)

/-- Embeds `WORKSHEET_DATAITEM_TEXT::deserializeSEXPRJustify( list )`. -/
def WORKSHEET_DATAITEM_TEXT.deserializeSEXPRJustify (t : WORKSHEET_DATAITEM_TEXT)
    (list : SEXPR) : Except PARSE_EXN WORKSHEET_DATAITEM_TEXT :=
  match list.children with
  | .error e => .error e
  | .ok children => deserializeJustifyTokens (children.drop 1) t

/-- One round of the loop of `WORKSHEET_DATAITEM_TEXT::DeserializeSEXPR`. -/
def WORKSHEET_DATAITEM_TEXT.deserializeChild (m : PAGE1_MASKS) (f : FONT_MASKS) (child : SEXPR)
    (t : WORKSHEET_DATAITEM_TEXT) : Except PARSE_EXN WORKSHEET_DATAITEM_TEXT := do
  let sym ← childSymbol child
  if sym = "comment".toList then
    return { t with m_Info := ← deserializeText child t.m_Info }
  else if sym = "name".toList then
    return { t with m_Name := ← deserializeText child t.m_Name }
  else if sym = "option".toList then
    return { t with
      toWORKSHEET_DATAITEM := ← t.toWORKSHEET_DATAITEM.deserializeSEXPROption m child }
  else if sym = "pos".toList then
    return { t with m_Pos := ← deserializeSEXPRCoordinate child t.m_Pos }
  else if sym = "repeat".toList then
    return { t with m_RepeatCount := ← deserializeInteger child }
  else if sym = "incrx".toList then
    return { t with
      m_IncrementVector := { t.m_IncrementVector with x := ← deserializeDouble child } }
  else if sym = "incry".toList then
    return { t with
      m_IncrementVector := { t.m_IncrementVector with y := ← deserializeDouble child } }
  else if sym = "incrlabel".toList then
    return { t with m_IncrementLabel := ← deserializeInteger child }
  else if sym = "maxlen".toList then
    return { t with m_BoundingBoxSize := { t.m_BoundingBoxSize with x := ← deserializeDouble child } }
  else if sym = "maxheight".toList then
    return { t with m_BoundingBoxSize := { t.m_BoundingBoxSize with y := ← deserializeDouble child } }
  else if sym = "font".toList then
    t.deserializeSEXPRFont f child
  else if sym = "justify".toList then
    t.deserializeSEXPRJustify child
  else if sym = "rotate".toList then
    return { t with m_Orient := ← deserializeDouble child }
  else
    return t

/-- The loop of `WORKSHEET_DATAITEM_TEXT::DeserializeSEXPR` over the children
it visits. -/
def WORKSHEET_DATAITEM_TEXT.deserializeChildren (m : PAGE1_MASKS) (f : FONT_MASKS) :
    List SEXPR → WORKSHEET_DATAITEM_TEXT → Except PARSE_EXN WORKSHEET_DATAITEM_TEXT
  | [], t => .ok t
  | child :: rest, t =>
    match t.deserializeChild m f child with
    | .error e => .error e
    | .ok t1 => WORKSHEET_DATAITEM_TEXT.deserializeChildren m f rest t1

/-- Embeds `WORKSHEET_DATAITEM_TEXT::DeserializeSEXPR( SEXPR::SEXPR& root )`:
child 1 is the text, the loop starts at child 2. -/
def WORKSHEET_DATAITEM_TEXT.DeserializeSEXPR (m : PAGE1_MASKS) (f : FONT_MASKS)
    (t : WORKSHEET_DATAITEM_TEXT) (root : SEXPR) : Except PARSE_EXN WORKSHEET_DATAITEM_TEXT := do
  checkRootSymbol root ["tbtext".toList]
    "page_layout symbol not found".toList "rect or line symbol not found".toList
  let text ← root.GetChild 1
  let t1 : WORKSHEET_DATAITEM_TEXT ←
    if text.IsSymbol then do
      let value ← text.GetSymbol
      pure { t with m_TextBase := value }
    else if text.IsString then do
      let value ← text.GetString
      pure { t with m_TextBase := value }
    else pure t
  let children ← root.children
  t1.deserializeChildren m f (children.drop 2)

/-- The conversion of a `double` to the 32 bit `int`: the fraction is dropped;
when the integer part is outside the range of `int` the conversion is
undefined, `none`. -/
def doubleToInt (value : Rat) : Option Int :=
  let n := value.num.tdiv value.den
  if -2147483648 ≤ n ∧ n ≤ 2147483647 then some n else none

/-- The loop of `deserializeSEXPRPNGData`: the strings of the `data` children
one after the other. -/
def collectPNGData : List SEXPR → Except PARSE_EXN Str
  | [] => .ok []
  | child :: rest =>
    if !child.IsList then
      .error (.syntaxError "Expected list".toList child.GetLineNumber)
    else
      match child.GetChild 1 with
      | .error e => .error e
      | .ok value =>
        match value.GetString with
        | .error e => .error e
        | .ok data =>
          match collectPNGData rest with
          | .error e => .error e
          | .ok tmp => .ok (data ++ tmp)

/-- Embeds `WORKSHEET_DATAITEM_BITMAP::deserializeSEXPRPNGData( root )`.
`LoadData` is called through `m_ImageBitmap`; when it fails a message is
logged and nothing is raised. -/
def WORKSHEET_DATAITEM_BITMAP.deserializeSEXPRPNGData (codec : BITMAP_CODEC)
    (b : WORKSHEET_DATAITEM_BITMAP) (root : SEXPR) : Except PARSE_EXN WORKSHEET_DATAITEM_BITMAP := do
  let children ← root.children
  let tmp ← collectPNGData (children.drop 1)
  match b.m_ImageBitmap with
  | none => throw .memoryFault
  | some image =>
    return { b with m_ImageBitmap := some (codec.LoadData image (tmp ++ "EndData".toList)).1 }

/-- One round of the loop of `WORKSHEET_DATAITEM_BITMAP::DeserializeSEXPR`. -/
def WORKSHEET_DATAITEM_BITMAP.deserializeChild (codec : BITMAP_CODEC) (child : SEXPR)
    (b : WORKSHEET_DATAITEM_BITMAP) : Except PARSE_EXN WORKSHEET_DATAITEM_BITMAP := do
  let sym ← childSymbol child
  if sym = "name".toList then
    return { b with m_Name := ← deserializeText child b.m_Name }
  else if sym = "pos".toList then
    return { b with m_Pos := ← deserializeSEXPRCoordinate child b.m_Pos }
  else if sym = "scale".toList then
    match doubleToInt (← deserializeDouble child) with
    | some count => return { b with m_RepeatCount := count }
    | none => throw .rangeFault
  else if sym = "pngdata".toList then
    b.deserializeSEXPRPNGData codec child
  else
    return b

/-- The loop of `WORKSHEET_DATAITEM_BITMAP::DeserializeSEXPR` over the
children it visits. -/
def WORKSHEET_DATAITEM_BITMAP.deserializeChildren (codec : BITMAP_CODEC) :
    List SEXPR → WORKSHEET_DATAITEM_BITMAP → Except PARSE_EXN WORKSHEET_DATAITEM_BITMAP
  | [], b => .ok b
  | child :: rest, b =>
    match b.deserializeChild codec child with
    | .error e => .error e
    | .ok b1 => WORKSHEET_DATAITEM_BITMAP.deserializeChildren codec rest b1

/-- Embeds `WORKSHEET_DATAITEM_BITMAP::DeserializeSEXPR( SEXPR::SEXPR& root )`:
the loop starts at child 2. -/
def WORKSHEET_DATAITEM_BITMAP.DeserializeSEXPR (codec : BITMAP_CODEC)
    (b : WORKSHEET_DATAITEM_BITMAP) (root : SEXPR) : Except PARSE_EXN WORKSHEET_DATAITEM_BITMAP := do
  checkRootSymbol root ["bitmap".toList]
    "bitmap symbol not found".toList "bitmap symbol not found".toList
  let children ← root.children
  b.deserializeChildren codec (children.drop 2)

/-! ## Page layout documents (common/page_layout/class_worksheet_layout.cpp) -/

/-- An object of the class hierarchy a `WORKSHEET_DATAITEM*` can point to: a
`WORKSHEET_DATAITEM` itself (lines and rectangles) or one of the three derived
classes.  The virtual members dispatch on it. -/
inductive LAYOUT_ITEM where
  | plain (item : WORKSHEET_DATAITEM Rat)
  | text (t : WORKSHEET_DATAITEM_TEXT)
  | polygon (p : WORKSHEET_DATAITEM_POLYPOLYGON)
  | bitmap (b : WORKSHEET_DATAITEM_BITMAP)
deriving DecidableEq

/-- What the headers and the image codec, which are outside the sources,
supply to the readers and writers: the flag masks and the codec. -/
structure WS_ENV where
  masks : PAGE1_MASKS
  font : FONT_MASKS
  codec : BITMAP_CODEC

/-- The base class part of an object. -/
def LAYOUT_ITEM.base : LAYOUT_ITEM → WORKSHEET_DATAITEM Rat
  | .plain item => item
  | .text t => t.toWORKSHEET_DATAITEM
  | .polygon p => p.toWORKSHEET_DATAITEM
  | .bitmap b => b.toWORKSHEET_DATAITEM

/-- Embeds `GetType()` called through a `WORKSHEET_DATAITEM*`. -/
def LAYOUT_ITEM.GetType (x : LAYOUT_ITEM) : WS_ItemType :=
  x.base.GetType

/-- Embeds the virtual `SerializeSEXPR()` called through a
`WORKSHEET_DATAITEM*`. -/
def LAYOUT_ITEM.SerializeSEXPR (env : WS_ENV) (st : WS_DEFAULTS) :
    LAYOUT_ITEM → Except PARSE_EXN SEXPR
  | .plain item => .ok (item.SerializeSEXPR st)
  | .text t => .ok (t.SerializeSEXPR env.masks env.font)
  | .polygon p => p.SerializeSEXPR env.masks
  | .bitmap b => b.SerializeSEXPR env.masks env.codec

/-- Embeds the virtual `DeserializeSEXPR( root )` called through a
`WORKSHEET_DATAITEM*`. -/
def LAYOUT_ITEM.DeserializeSEXPR (env : WS_ENV) (x : LAYOUT_ITEM) (root : SEXPR) :
    Except PARSE_EXN LAYOUT_ITEM :=
  match x with
  | .plain item =>
    match item.DeserializeSEXPR env.masks root with
    | .error e => .error e
    | .ok item1 => .ok (.plain item1)
  | .text t =>
    match t.DeserializeSEXPR env.masks env.font root with
    | .error e => .error e
    | .ok t1 => .ok (.text t1)
  | .polygon p =>
    match p.DeserializeSEXPR env.masks root with
    | .error e => .error e
    | .ok p1 => .ok (.polygon p1)
  | .bitmap b =>
    match b.DeserializeSEXPR env.codec root with
    | .error e => .error e
    | .ok b1 => .ok (.bitmap b1)

/-- Embeds `class WORKSHEET_LAYOUT`.  `m_list` is a `std::vector` of pointers:
`P` is what the list holds, any type with an equality for the members that
compare pointers, and the objects themselves (`LAYOUT_ITEM`) for the members
that read and write them.  Counts and indices are natural numbers: the list
is taken to be shorter than the range of `unsigned` and `int`. -/
structure WORKSHEET_LAYOUT (P : Type) where
  m_list : List P
  m_allowVoidList : Bool
  m_leftMargin : Rat
  m_rightMargin : Rat
  m_topMargin : Rat
  m_bottomMargin : Rat
deriving DecidableEq

/-- Embeds `WORKSHEET_LAYOUT::WORKSHEET_LAYOUT()`. -/
def WORKSHEET_LAYOUT.new {P : Type} : WORKSHEET_LAYOUT P :=
  { m_list := []
    m_allowVoidList := false
    m_leftMargin := 10
    m_rightMargin := 10
    m_topMargin := 10
    m_bottomMargin := 10 }

/-- Embeds `WORKSHEET_LAYOUT::GetLeftMargin()`. -/
def WORKSHEET_LAYOUT.GetLeftMargin {P : Type} (layout : WORKSHEET_LAYOUT P) : Rat :=
  layout.m_leftMargin

/-- Embeds `WORKSHEET_LAYOUT::GetRightMargin()`. -/
def WORKSHEET_LAYOUT.GetRightMargin {P : Type} (layout : WORKSHEET_LAYOUT P) : Rat :=
  layout.m_rightMargin

/-- Embeds `WORKSHEET_LAYOUT::GetTopMargin()`. -/
def WORKSHEET_LAYOUT.GetTopMargin {P : Type} (layout : WORKSHEET_LAYOUT P) : Rat :=
  layout.m_topMargin

/-- Embeds `WORKSHEET_LAYOUT::GetBottomMargin()`. -/
def WORKSHEET_LAYOUT.GetBottomMargin {P : Type} (layout : WORKSHEET_LAYOUT P) : Rat :=
  layout.m_bottomMargin

/-- Embeds `WORKSHEET_LAYOUT::SetLeftMargin( double aMargin )`. -/
def WORKSHEET_LAYOUT.SetLeftMargin {P : Type} (layout : WORKSHEET_LAYOUT P) (aMargin : Rat) :
    WORKSHEET_LAYOUT P :=
  { layout with m_leftMargin := aMargin }

/-- Embeds `WORKSHEET_LAYOUT::SetRightMargin( double aMargin )`. -/
def WORKSHEET_LAYOUT.SetRightMargin {P : Type} (layout : WORKSHEET_LAYOUT P) (aMargin : Rat) :
    WORKSHEET_LAYOUT P :=
  { layout with m_rightMargin := aMargin }

/-- Embeds `WORKSHEET_LAYOUT::SetTopMargin( double aMargin )`. -/
def WORKSHEET_LAYOUT.SetTopMargin {P : Type} (layout : WORKSHEET_LAYOUT P) (aMargin : Rat) :
    WORKSHEET_LAYOUT P :=
  { layout with m_topMargin := aMargin }

/-- Embeds `WORKSHEET_LAYOUT::SetBottomMargin( double aMargin )`. -/
def WORKSHEET_LAYOUT.SetBottomMargin {P : Type} (layout : WORKSHEET_LAYOUT P) (aMargin : Rat) :
    WORKSHEET_LAYOUT P :=
  { layout with m_bottomMargin := aMargin }

/-- Embeds `WORKSHEET_LAYOUT::GetCount()`. -/
def WORKSHEET_LAYOUT.GetCount {P : Type} (layout : WORKSHEET_LAYOUT P) : Nat :=
  layout.m_list.length

/-- Embeds `WORKSHEET_LAYOUT::ClearList()`. -/
def WORKSHEET_LAYOUT.ClearList {P : Type} (layout : WORKSHEET_LAYOUT P) : WORKSHEET_LAYOUT P :=
  { layout with m_list := [] }

/-- Embeds `WORKSHEET_LAYOUT::Append( WORKSHEET_DATAITEM* aItem )`:
`m_list.push_back( aItem )`. -/
def WORKSHEET_LAYOUT.Append {P : Type} (layout : WORKSHEET_LAYOUT P) (aItem : P) :
    WORKSHEET_LAYOUT P :=
  { layout with m_list := layout.m_list ++ [aItem] }

/-- Embeds `WORKSHEET_LAYOUT::Insert( WORKSHEET_DATAITEM* aItem, unsigned aIdx )`;
`m_list.insert( m_list.begin() + aIdx, aItem )` is `List.insertIdx`. -/
def WORKSHEET_LAYOUT.Insert {P : Type} (layout : WORKSHEET_LAYOUT P) (aItem : P) (aIdx : Nat) :
    WORKSHEET_LAYOUT P :=
  if aIdx ≥ layout.GetCount then layout.Append aItem
  else { layout with m_list := layout.m_list.insertIdx aIdx aItem }

/-- Embeds `WORKSHEET_LAYOUT::Remove( unsigned aIdx )`: the result and the
document afterwards; `m_list.erase( m_list.begin() + aIdx )` is
`List.eraseIdx`. -/
def WORKSHEET_LAYOUT.Remove {P : Type} (layout : WORKSHEET_LAYOUT P) (aIdx : Nat) :
    Bool × WORKSHEET_LAYOUT P :=
  if aIdx ≥ layout.GetCount then (false, layout)
  else (true, { layout with m_list := layout.m_list.eraseIdx aIdx })

/-- The `while` loop of `Remove( WORKSHEET_DATAITEM* aItem )` from `idx` on,
over the part of the list from `idx` on: the value of `idx` when it ends. -/
def searchLoop {P : Type} [DecidableEq P] (aItem : P) : List P → Nat → Nat
  | [], idx => idx
  | p :: rest, idx => if p = aItem then idx else searchLoop aItem rest (idx + 1)

/-- Embeds `WORKSHEET_LAYOUT::Remove( WORKSHEET_DATAITEM* aItem )`, the overload
that takes the item. -/
def WORKSHEET_LAYOUT.RemoveItem {P : Type} [DecidableEq P] (layout : WORKSHEET_LAYOUT P)
    (aItem : P) : Bool × WORKSHEET_LAYOUT P :=
  layout.Remove (searchLoop aItem layout.m_list 0)

/-- The `while` loop of `GetItemIndex` from `idx` on, over the part of the
list from `idx` on: the index it returns from inside, or -1 after the
loop. -/
def indexLoop {P : Type} [DecidableEq P] (aItem : P) : List P → Nat → Int
  | [], _ => -1
  | p :: rest, idx => if p = aItem then (idx : Int) else indexLoop aItem rest (idx + 1)

/-- Embeds `WORKSHEET_LAYOUT::GetItemIndex( WORKSHEET_DATAITEM* aItem )`. -/
def WORKSHEET_LAYOUT.GetItemIndex {P : Type} [DecidableEq P] (layout : WORKSHEET_LAYOUT P)
    (aItem : P) : Int :=
  indexLoop aItem layout.m_list 0

/-- Embeds `WORKSHEET_LAYOUT::GetItem( unsigned aIdx )`; `none` is `NULL`. -/
def WORKSHEET_LAYOUT.GetItem {P : Type} (layout : WORKSHEET_LAYOUT P) (aIdx : Nat) : Option P :=
  if aIdx < layout.m_list.length then layout.m_list.get? aIdx else none

/-- The loop of `WORKSHEET_LAYOUT::SerializeSEXPR` over the items. -/
def serializeItems (env : WS_ENV) (st : WS_DEFAULTS) :
    List LAYOUT_ITEM → Except PARSE_EXN (List SEXPR)
  | [] => .ok []
  | item :: rest =>
    match item.SerializeSEXPR env st with
    | .error e => .error e
    | .ok block =>
      match serializeItems env st rest with
      | .error e => .error e
      | .ok blocks => .ok (block :: blocks)

/-- The `setup` list `WORKSHEET_LAYOUT::SerializeSEXPR` builds. -/
def WORKSHEET_LAYOUT.serializeSetup {P : Type} (st : WS_DEFAULTS) (layout : WORKSHEET_LAYOUT P) :
    SEXPR :=
  SEXPR.AsList
    [SEXPR.AsSymbol "setup".toList,
      SEXPR.AsList [SEXPR.AsSymbol "textsize".toList, SEXPR.AsDouble st.m_DefaultTextSize.x,
        SEXPR.AsDouble st.m_DefaultTextSize.y],
      SEXPR.AsList [SEXPR.AsSymbol "linewidth".toList, SEXPR.AsDouble st.m_DefaultLineWidth],
      SEXPR.AsList [SEXPR.AsSymbol "textlinewidth".toList,
        SEXPR.AsDouble st.m_DefaultTextThickness],
      SEXPR.AsList [SEXPR.AsSymbol "left_margin".toList, SEXPR.AsDouble layout.GetLeftMargin],
      SEXPR.AsList [SEXPR.AsSymbol "right_margin".toList, SEXPR.AsDouble layout.GetRightMargin],
      SEXPR.AsList [SEXPR.AsSymbol "top_margin".toList, SEXPR.AsDouble layout.GetTopMargin],
      SEXPR.AsList [SEXPR.AsSymbol "bottom_margin".toList,
        SEXPR.AsDouble layout.GetBottomMargin]]

/-- Embeds `WORKSHEET_LAYOUT::SerializeSEXPR()`. -/
def WORKSHEET_LAYOUT.SerializeSEXPR (env : WS_ENV) (st : WS_DEFAULTS)
    (layout : WORKSHEET_LAYOUT LAYOUT_ITEM) : Except PARSE_EXN SEXPR :=
  match serializeItems env st layout.m_list with
  | .error e => .error e
  | .ok blocks =>
    .ok (SEXPR.AsList (SEXPR.AsSymbol "page_layout".toList :: layout.serializeSetup st :: blocks))

/-- One round of the loop of `WORKSHEET_LAYOUT::deserializeSetup`: the
exception raised, if any, and the static defaults and the document
afterwards. -/
def deserializeSetupChild {P : Type} (child : SEXPR) (st : WS_DEFAULTS)
    (layout : WORKSHEET_LAYOUT P) : Option PARSE_EXN × WS_DEFAULTS × WORKSHEET_LAYOUT P :=
  match childSymbol child with
  | .error e => (some e, st, layout)
  | .ok sym =>
    if sym = "textsize".toList then
      match deserializeDouble child with
      | .error e => (some e, st, layout)
      | .ok x =>
        let st1 := { st with m_DefaultTextSize := { st.m_DefaultTextSize with x := x } }
        match child.GetChild 2 with
        | .error e => (some e, st1, layout)
        | .ok c2 =>
          match c2.GetDouble with
          | .error e => (some e, st1, layout)
          | .ok y =>
            (none, { st1 with m_DefaultTextSize := { st1.m_DefaultTextSize with y := y } },
              layout)
    else if sym = "linewidth".toList then
      match deserializeDouble child with
      | .error e => (some e, st, layout)
      | .ok value => (none, { st with m_DefaultLineWidth := value }, layout)
    else if sym = "textlinewidth".toList then
      match deserializeDouble child with
      | .error e => (some e, st, layout)
      | .ok value => (none, { st with m_DefaultTextThickness := value }, layout)
    else if sym = "left_margin".toList then
      match deserializeDouble child with
      | .error e => (some e, st, layout)
      | .ok value => (none, st, layout.SetLeftMargin value)
    else if sym = "right_margin".toList then
      match deserializeDouble child with
      | .error e => (some e, st, layout)
      | .ok value => (none, st, layout.SetRightMargin value)
    else if sym = "top_margin".toList then
      match deserializeDouble child with
      | .error e => (some e, st, layout)
      | .ok value => (none, st, layout.SetTopMargin value)
    else if sym = "bottom_margin".toList then
      match deserializeDouble child with
      | .error e => (some e, st, layout)
      | .ok value => (none, st, layout.SetBottomMargin value)
    else (none, st, layout)

/-- The loop of `WORKSHEET_LAYOUT::deserializeSetup` over the children after
the first. -/
def deserializeSetupChildren {P : Type} :
    List SEXPR → WS_DEFAULTS → WORKSHEET_LAYOUT P →
      Option PARSE_EXN × WS_DEFAULTS × WORKSHEET_LAYOUT P
  | [], st, layout => (none, st, layout)
  | child :: rest, st, layout =>
    match deserializeSetupChild child st layout with
    | (some e, st1, layout1) => (some e, st1, layout1)
    | (none, st1, layout1) => deserializeSetupChildren rest st1 layout1

/-- Embeds `WORKSHEET_LAYOUT::deserializeSetup( SEXPR::SEXPR& root )`, the reader
of a `setup` block.  No function of the sources calls it. -/
def WORKSHEET_LAYOUT.deserializeSetup {P : Type} (st : WS_DEFAULTS)
    (layout : WORKSHEET_LAYOUT P) (root : SEXPR) :
    Option PARSE_EXN × WS_DEFAULTS × WORKSHEET_LAYOUT P :=
  if !root.IsList then
    (some (.syntaxError "Expected list".toList root.GetLineNumber), st, layout)
  else
    match root.children with
    | .error e => (some e, st, layout)
    | .ok children => deserializeSetupChildren (children.drop 1) st layout

/-- The object `WORKSHEET_LAYOUT::DeserializeSEXPR` builds for the tag `sym`,
if any: nothing for `setup` and for every tag that names no kind of item. -/
def newItem (sym : Str) : Option LAYOUT_ITEM :=
  if sym = "setup".toList then none
  else if sym = "rect".toList then some (.plain (WORKSHEET_DATAITEM.new .WS_RECT))
  else if sym = "line".toList then some (.plain (WORKSHEET_DATAITEM.new .WS_SEGMENT))
  else if sym = "tbtext".toList then some (.text (WORKSHEET_DATAITEM_TEXT.new []))
  else if sym = "bitmap".toList then some (.bitmap (WORKSHEET_DATAITEM_BITMAP.new none))
  else if sym = "polygon".toList then some (.polygon WORKSHEET_DATAITEM_POLYPOLYGON.new)
  else none

/-- One round of the loop of `WORKSHEET_LAYOUT::DeserializeSEXPR` up to the
call of `Append`: the item read from `child`, if its tag names a kind of
item. -/
def deserializeItem (env : WS_ENV) (child : SEXPR) : Except PARSE_EXN (Option LAYOUT_ITEM) :=
  match childSymbol child with
  | .error e => .error e
  | .ok sym =>
    match newItem sym with
    | none => .ok none
    | some item =>
      match item.DeserializeSEXPR env child with
      | .error e => .error e
      | .ok item1 => .ok (some item1)

/-- The loop of `WORKSHEET_LAYOUT::DeserializeSEXPR` over the children after
the first: the exception raised, if any, and the document afterwards. -/
def deserializeItems (env : WS_ENV) :
    List SEXPR → WORKSHEET_LAYOUT LAYOUT_ITEM → Option PARSE_EXN × WORKSHEET_LAYOUT LAYOUT_ITEM
  | [], layout => (none, layout)
  | child :: rest, layout =>
    match deserializeItem env child with
    | .error e => (some e, layout)
    | .ok none => deserializeItems env rest layout
    | .ok (some item) => deserializeItems env rest (layout.Append item)

/-- Embeds `WORKSHEET_LAYOUT::DeserializeSEXPR( SEXPR::SEXPR& root )`: the
exception raised, if any, and the document afterwards. -/
def WORKSHEET_LAYOUT.DeserializeSEXPR (env : WS_ENV) (layout : WORKSHEET_LAYOUT LAYOUT_ITEM)
    (root : SEXPR) : Option PARSE_EXN × WORKSHEET_LAYOUT LAYOUT_ITEM :=
  match root.GetChild 0 with
  | .error e => (some e, layout)
  | .ok first =>
    if !first.IsSymbol then
      (some (.syntaxError "page_layout symbol not found".toList first.GetLineNumber), layout)
    else
      match first.GetSymbol with
      | .error e => (some e, layout)
      | .ok symbol =>
        if symbol ≠ "page_layout".toList then
          (some (.syntaxError "page_layout symbol not found".toList first.GetLineNumber),
            layout)
        else
          match root.children with
          | .error e => (some e, layout)
          | .ok children => deserializeItems env (children.drop 1) layout

/-- Embeds `WORKSHEET_LAYOUT::Parse( std::string layout )`: the exception
raised, if any, and the document afterwards.  `parser`, the reader of the
tree library (`SEXPR::PARSER::Parse`), is a parameter. -/
def WORKSHEET_LAYOUT.Parse (env : WS_ENV) (parser : Str → Except PARSE_EXN SEXPR)
    (layout : WORKSHEET_LAYOUT LAYOUT_ITEM) (text : Str) :
    Option PARSE_EXN × WORKSHEET_LAYOUT LAYOUT_ITEM :=
  match parser text with
  | .error e => (some e, layout)
  | .ok parsedRoot =>
    if !parsedRoot.IsList then
      (some (.syntaxError "Expected list".toList parsedRoot.GetLineNumber), layout)
    else layout.DeserializeSEXPR env parsedRoot

/-- The handler `catch( const IO_ERROR& ioe )` of `SetDefaultLayout` and
`SetPageLayout`: a `SEXPR_SYNTAX_EXCEPTION`, which is an `IO_ERROR`, is logged
and the call returns; every other failure leaves the call with it. -/
def catchIoError {S : Type} (res : Option PARSE_EXN × S) : Option PARSE_EXN × S :=
  match res with
  | (some (.syntaxError _ _), s) => (none, s)
  | other => other

/-- Embeds `WORKSHEET_LAYOUT::SetDefaultLayout()`: the failure that leaves the
call, if any, and the document afterwards.  `defaultPageLayout`, the built-in
description of page_layout_default_shape.cpp, which is not among the
sources, is a parameter. -/
def WORKSHEET_LAYOUT.SetDefaultLayout (env : WS_ENV) (parser : Str → Except PARSE_EXN SEXPR)
    (defaultPageLayout : Str) (layout : WORKSHEET_LAYOUT LAYOUT_ITEM) :
    Option PARSE_EXN × WORKSHEET_LAYOUT LAYOUT_ITEM :=
  catchIoError (layout.ClearList.Parse env parser defaultPageLayout)

/-- Embeds `WORKSHEET_LAYOUT::SetPageLayout( const char* aPageLayout, bool Append
)`: the failure that leaves the call, if any, and the document afterwards. -/
def WORKSHEET_LAYOUT.SetPageLayout (env : WS_ENV) (parser : Str → Except PARSE_EXN SEXPR)
    (layout : WORKSHEET_LAYOUT LAYOUT_ITEM) (aPageLayout : Str) (Append : Bool) :
    Option PARSE_EXN × WORKSHEET_LAYOUT LAYOUT_ITEM :=
  let layout1 := if !Append then layout.ClearList else layout
  catchIoError (layout1.Parse env parser aPageLayout)

/-! ### Example values for the page layout -/

/-- Font masks as KiCad's worksheet_dataitem.h has them: bits 0 and 1. -/
def exFont : FONT_MASKS :=
  ⟨1, 2⟩

/-- A codec that keeps the text of the image data as the payload. -/
def exCodec : BITMAP_CODEC :=
  { SaveData := fun image => [image.image]
    LoadData := fun image text => ({ image with image := text }, true) }

/-- The example masks and codec together. -/
def exEnv : WS_ENV :=
  ⟨exMasks, exFont, exCodec⟩

/-- Static defaults: line width 0, text size (2, 2), text thickness 0. -/
def exDefaults : WS_DEFAULTS :=
  ⟨0, ⟨2, 2⟩, 0⟩

/-- A line named `L1` from (5, 5) at the left-top corner to (20, 30) at the
right-bottom corner, shown on page 1 only. -/
def exLine : WORKSHEET_DATAITEM Rat :=
  { (WORKSHEET_DATAITEM.new .WS_SEGMENT : WORKSHEET_DATAITEM Rat) with
    m_flags := 2 ^ 7
    m_Name := "L1".toList
    m_Pos := ⟨⟨5, 5⟩, .LT_CORNER⟩
    m_End := ⟨⟨20, 30⟩, .RB_CORNER⟩ }

/-- A rectangle named `R1`, repeated twice with increment (0, 3). -/
def exRect : WORKSHEET_DATAITEM Rat :=
  { (WORKSHEET_DATAITEM.new .WS_RECT : WORKSHEET_DATAITEM Rat) with
    m_Name := "R1".toList
    m_Pos := ⟨⟨1, 1⟩, .RB_CORNER⟩
    m_End := ⟨⟨9, 9⟩, .RT_CORNER⟩
    m_RepeatCount := 2
    m_IncrementVector := ⟨0, 3⟩ }

/-- A text `Date` named `T1`, shown on page 1 only. -/
def exText : WORKSHEET_DATAITEM_TEXT :=
  { WORKSHEET_DATAITEM_TEXT.new "Date".toList with
    m_flags := 2 ^ 7
    m_Name := "T1".toList
    m_Pos := ⟨⟨4, 6⟩, .LB_CORNER⟩ }

/-- The text `exText`, not shown on page 1. -/
def exTextNotOnPage1 : WORKSHEET_DATAITEM_TEXT :=
  { exText with m_flags := 2 ^ 8 }

/-- A polygon named `P1` with one point loop of three corners. -/
def exPolygon : WORKSHEET_DATAITEM_POLYPOLYGON :=
  { WORKSHEET_DATAITEM_POLYPOLYGON.new with
    m_Name := "P1".toList
    m_Pos := ⟨⟨7, 7⟩, .RB_CORNER⟩
    m_Corners := [⟨0, 0⟩, ⟨1, 0⟩, ⟨1, 1⟩]
    m_polyIndexEnd := [2] }

/-- A bitmap named `B1` with an image of scale 2. -/
def exBitmap : WORKSHEET_DATAITEM_BITMAP :=
  { WORKSHEET_DATAITEM_BITMAP.new (some ⟨2, "iVBOR".toList⟩) with
    m_Name := "B1".toList
    m_Pos := ⟨⟨3, 3⟩, .RB_CORNER⟩ }

/-- A document with a line, a rectangle, a text and a polygon. -/
def exLayout : WORKSHEET_LAYOUT LAYOUT_ITEM :=
  { (WORKSHEET_LAYOUT.new : WORKSHEET_LAYOUT LAYOUT_ITEM) with
    m_list := [.plain exLine, .plain exRect, .text exText, .polygon exPolygon] }

/-! ### Tags of blocks and kinds of items -/

/-- The tag of a block: the symbol `childSymbol` finds at its head, if it
finds one. -/
def SEXPR.tag (child : SEXPR) : Option Str :=
  match childSymbol child with
  | .ok sym => some sym
  | .error _ => none

/-- The children of a list node that carry the tag `tag`, in order. -/
def SEXPR.childrenTagged (node : SEXPR) (tag : Str) : List SEXPR :=
  match node with
  | .list children _ => children.filter (fun child => child.tag = some tag)
  | _ => []

/-- The kind of the item `WORKSHEET_LAYOUT::DeserializeSEXPR` builds for a
child, by its tag; nothing for `setup`, for every other tag and for a child
without tag. -/
def kindOfChild (child : SEXPR) : Option WS_ItemType :=
  match child.tag with
  | some sym => (newItem sym).map LAYOUT_ITEM.GetType
  | none => none

/-- The kind tag of an object is the one its constructor gives it: a
`WORKSHEET_DATAITEM` itself is a line or a rectangle, an object of a derived
class has the kind of its class.  No member function assigns `m_type` after
the constructor. -/
def LAYOUT_ITEM.WellTyped : LAYOUT_ITEM → Bool
  | .plain item => item.m_type = .WS_SEGMENT ∨ item.m_type = .WS_RECT
  | .text t => t.m_type = .WS_TEXT
  | .polygon p => p.m_type = .WS_POLYPOLYGON
  | .bitmap b => b.m_type = .WS_BITMAP

/-- The tree `SerializeSEXPR` writes for the example document (the empty list
stands for a failure to write, which does not happen). -/
def exLayoutTree : SEXPR :=
  match exLayout.SerializeSEXPR exEnv exDefaults with
  | .ok tree => tree
  | .error _ => .list [] 0

/-- A `setup` block on line 2 with margins 20, 21, 22 and 23. -/
def exSetup : SEXPR :=
  .list [.symbol "setup".toList 2,
    .list [.symbol "textsize".toList 2, .double 3 2, .double 4 2] 2,
    .list [.symbol "linewidth".toList 2, .double 1 2] 2,
    .list [.symbol "textlinewidth".toList 2, .double 2 2] 2,
    .list [.symbol "left_margin".toList 3, .double 20 3] 3,
    .list [.symbol "right_margin".toList 3, .double 21 3] 3,
    .list [.symbol "top_margin".toList 3, .double 22 3] 3,
    .list [.symbol "bottom_margin".toList 3, .double 23 3] 3] 2

/-- A document with the block `exSetup` and a line. -/
def exSetupDocument : SEXPR :=
  .list [.symbol "page_layout".toList 1,
    exSetup,
    .list [.symbol "line".toList 4,
      .list [.symbol "name".toList 4, .string "L1".toList 4] 4,
      .list [.symbol "start".toList 4, .double 5 4, .double 5 4] 4,
      .list [.symbol "end".toList 4, .double 20 4, .double 30 4] 4] 4] 1

/-- A description whose second child is a line and whose third child is a
bare atom. -/
def exBrokenText : Str :=
  "(page_layout (setup) (line (name a)) oops (rect (name b)))".toList

/-- The tree `SerializeSEXPR` writes for the example polygon. -/
def exPolygonTree : SEXPR :=
  .list [.symbol "polygon".toList 0,
    .list [.symbol "name".toList 0, .string "P1".toList 0] 0,
    .list [.symbol "pos".toList 0, .double 7 0, .double 7 0] 0,
    .list [.symbol "pts".toList 0,
      .list [.symbol "xy".toList 0, .double 0 0, .double 0 0] 0,
      .list [.symbol "xy".toList 0, .double 1 0, .double 0 0] 0,
      .list [.symbol "xy".toList 0, .double 1 0, .double 1 0] 0] 0] 0

/-- The polygon a new polygon item is after it read `exPolygonTree`: only the
position was read. -/
def exPolygonRead : WORKSHEET_DATAITEM_POLYPOLYGON :=
  { WORKSHEET_DATAITEM_POLYPOLYGON.new with m_Pos := ⟨⟨7, 7⟩, .RB_CORNER⟩ }

/-! ## Moving an item, escape sequences, the bounding box of a polygon -/

/-- Embeds `WORKSHEET_DATAITEM::MoveTo( DPOINT aPosition )`.  `GetStartPos()` and
`GetEndPos()` are called without argument: the repeat index is 0, the default
declared in worksheet_dataitem.h. -/
def WORKSHEET_DATAITEM.MoveTo {D : Type} [Add D] [Sub D] [Mul D] [IntCast D]
    (page : PAGE_CORNERS D) (item : WORKSHEET_DATAITEM D) (aPosition : DPOINT D) :
    WORKSHEET_DATAITEM D :=
  let vector := aPosition.sub (item.GetStartPos page 0)
  let endpos := vector.add (item.GetEndPos page 0)
  (item.MoveStartPointTo page aPosition).MoveEndPointTo page endpos

/-- The row of a `lib` child, as the claim on `Parse` speaks of it: the row
`parseLibList` reads from the pairs of the block, as `InsertRow` stores it;
nothing when the block cannot be read. -/
def Spec.rowOfLib (io : IO_MGR) (lib : SEXPR) : Option ROW :=
  match lib.children with
  | .error _ => none
  | .ok children =>
    match parsePairs io (children.drop 1) (ROW.new io) with
    | .error _ => none
    | .ok row => some row.copy

/-! ### `WORKSHEET_DATAITEM_TEXT::ReplaceAntiSlashSequence` -/

/-- The number of values of the type `unsigned` of the loop index `ii`. -/
def UNSIGNED_RANGE : Nat := 4294967296

/-- The `for` loop of `ReplaceAntiSlashSequence`, from the test `ii <
m_FullText.Len()` on: the text, the index and the flag `multiline` at that
point; the result is the text and the flag at the end of the loop.  Each unit
of fuel pays for one round.  The index is an `unsigned`: `++ii`, `ii--` and
`ii++` are taken modulo `UNSIGNED_RANGE`.  `Remove( pos, 1 )` is `eraseIdx`,
the assignment to `m_FullText[ii]` is `set`. -/
def replaceLoop : Nat → Str → Nat → Bool → Option (Str × Bool)
  | 0, _, _, _ => none
  | fuel + 1, text, ii, multiline =>
    if ii < text.length then
      match text[ii]? with
      | none => none
      | some c =>
        if c = '\n' then
          replaceLoop fuel text ((ii + 1) % UNSIGNED_RANGE) true
        else if c = '\\' then
          let ii1 := (ii + 1) % UNSIGNED_RANGE
          if ii1 ≥ text.length then some (text, multiline)
          else
            match text[ii1]? with
            | none => none
            | some d =>
              if d = '\\' then
                let text1 := text.eraseIdx ii1
                let ii2 := (ii1 + (UNSIGNED_RANGE - 1)) % UNSIGNED_RANGE
                replaceLoop fuel text1 ((ii2 + 1) % UNSIGNED_RANGE) multiline
              else if d = 'n' then
                let text1 := (text.set ii1 '\n').eraseIdx (ii1 - 1)
                let ii2 := (ii1 + (UNSIGNED_RANGE - 1)) % UNSIGNED_RANGE
                replaceLoop fuel text1 ((ii2 + 1) % UNSIGNED_RANGE) true
              else
                replaceLoop fuel text ((ii1 + 1) % UNSIGNED_RANGE) multiline
        else
          replaceLoop fuel text ((ii + 1) % UNSIGNED_RANGE) multiline
    else some (text, multiline)

/-- Embeds `WORKSHEET_DATAITEM_TEXT::ReplaceAntiSlashSequence()`: the item with
the text the loop leaves in `m_FullText`, and the value returned.  The loop
gets one round of fuel for each character and one more; `none` means that the
loop has not come to its end with that. -/
def WORKSHEET_DATAITEM_TEXT.ReplaceAntiSlashSequence (t : WORKSHEET_DATAITEM_TEXT) :
    Option (WORKSHEET_DATAITEM_TEXT × Bool) :=
  match replaceLoop (t.m_FullText.length + 1) t.m_FullText 0 false with
  | none => none
  | some (text, multiline) => some ({ t with m_FullText := text }, multiline)

/-- The reference of the claim on the escape sequences, in its words: the
one-pass left-to-right unescape `u`, where `u(backslash backslash rest) =
backslash :: u(rest)`, `u(backslash n rest) = line-break :: u(rest)`,
`u(backslash c rest) = backslash :: c :: u(rest)` for any other character
`c`, `u` of a lone final backslash is that backslash, and `u(c rest) =
c :: u(rest)` otherwise. -/
def Spec.unescape : Str → Str
  | [] => []
  | [c] => [c]
  | c :: d :: rest =>
    if c = '\\' then
      if d = '\\' then '\\' :: Spec.unescape rest
      else if d = 'n' then '\n' :: Spec.unescape rest
      else '\\' :: d :: Spec.unescape rest
    else c :: Spec.unescape (d :: rest)

/-- A text item with the given `m_FullText`. -/
def exFullText (text : Str) : WORKSHEET_DATAITEM_TEXT :=
  { WORKSHEET_DATAITEM_TEXT.new [] with m_FullText := text }

/-! ### The bounding box of a polygon -/

/-- One round of the `for` loop of `SetBoundingBox`: the bounds after the
rotated corner `pos` has been looked at. -/
def boundStep (bounds : DPOINT Rat × DPOINT Rat) (pos : DPOINT Rat) : DPOINT Rat × DPOINT Rat :=
  let minCoord := bounds.1
  let maxCoord := bounds.2
  let minCoord : DPOINT Rat := if minCoord.x > pos.x then { minCoord with x := pos.x } else minCoord
  let minCoord : DPOINT Rat := if minCoord.y > pos.y then { minCoord with y := pos.y } else minCoord
  let maxCoord : DPOINT Rat := if maxCoord.x < pos.x then { maxCoord with x := pos.x } else maxCoord
  let maxCoord : DPOINT Rat := if maxCoord.y < pos.y then { maxCoord with y := pos.y } else maxCoord
  (minCoord, maxCoord)

/-- The `for` loop of `SetBoundingBox` over the corners from index 1 on.
`RotatePoint` is a function of trigo.cpp, which is not among the sources: a
parameter, the point it leaves for a point and an angle. -/
def boundLoop (RotatePoint : DPOINT Rat → Rat → DPOINT Rat) (orient : Rat) :
    List (DPOINT Rat) → DPOINT Rat × DPOINT Rat → DPOINT Rat × DPOINT Rat
  | [], bounds => bounds
  | corner :: rest, bounds =>
    boundLoop RotatePoint orient rest (boundStep bounds (RotatePoint corner (orient * 10)))

/-- Embeds `WORKSHEET_DATAITEM_POLYPOLYGON::SetBoundingBox()`. -/
def WORKSHEET_DATAITEM_POLYPOLYGON.SetBoundingBox (RotatePoint : DPOINT Rat → Rat → DPOINT Rat)
    (p : WORKSHEET_DATAITEM_POLYPOLYGON) : WORKSHEET_DATAITEM_POLYPOLYGON :=
  match p.m_Corners with
  | [] => { p with m_minCoord := ⟨0, 0⟩, m_maxCoord := ⟨0, 0⟩ }
  | corner :: rest =>
    let pos := RotatePoint corner (p.m_Orient * 10)
    let bounds := boundLoop RotatePoint p.m_Orient rest (pos, pos)
    { p with m_minCoord := bounds.1, m_maxCoord := bounds.2 }

/-- Embeds `WORKSHEET_DATAITEM_POLYPOLYGON::GetCornerPosition( aIdx, aRepeat )`.
An index past the end of `m_Corners` is an access outside the array. -/
def WORKSHEET_DATAITEM_POLYPOLYGON.GetCornerPosition
    (RotatePoint : DPOINT Rat → Rat → DPOINT Rat) (page : PAGE_CORNERS Rat)
    (p : WORKSHEET_DATAITEM_POLYPOLYGON) (aIdx : Nat) (aRepeat : Int) :
    Except PARSE_EXN (DPOINT Rat) :=
  match p.m_Corners[aIdx]? with
  | none => .error .memoryFault
  | some corner =>
    let pos := RotatePoint corner (p.m_Orient * 10)
    .ok (pos.add (p.GetStartPos page aRepeat))

/-- Embeds `WORKSHEET_DATAITEM_POLYPOLYGON::IsInsidePage( int ii )`. -/
def WORKSHEET_DATAITEM_POLYPOLYGON.IsInsidePage (page : PAGE_CORNERS Rat)
    (p : WORKSHEET_DATAITEM_POLYPOLYGON) (ii : Int) : Bool :=
  let pos := (p.GetStartPos page ii).add p.m_minCoord
  if page.m_LT_Corner.x > pos.x ∨ page.m_LT_Corner.y > pos.y then false
  else
    let pos := (p.GetStartPos page ii).add p.m_maxCoord
    if page.m_RB_Corner.x < pos.x ∨ page.m_RB_Corner.y < pos.y then false
    else true

/-- A page of 210 by 297 with its left-top corner at the origin. -/
def exPageRat : PAGE_CORNERS Rat :=
  { m_RB_Corner := ⟨210, 297⟩, m_LT_Corner := ⟨0, 0⟩ }

/-- A rotation that leaves every point where it is, as for the angle 0. -/
def exNoRotation : DPOINT Rat → Rat → DPOINT Rat :=
  fun pos _ => pos

/-! ### The list of images of gerbview -/

/-- Embeds the members of `class GERBER_IMAGE` that `sortZorder` reads:
`m_InUse` and the pointer `m_FileFunction`, which may be null.  The class
`X2_ATTRIBUTE_FILEFUNCTION` it points to is declared outside the sources: a
type parameter `F`. -/
structure GERBER_IMAGE (F : Type) where
  m_InUse : Bool
  m_FileFunction : Option F

/-- Embeds the helper `sortZorder( ref, test )` of class_gerber_image_list.cpp;
a null pointer is `none`.  `GetZOrder` and `GetZSubOrder` are members of the
file function attribute, declared outside the sources: parameters. -/
def sortZorder {F : Type} (GetZOrder GetZSubOrder : F → Int)
    (ref test : Option (GERBER_IMAGE F)) : Bool :=
  if ref.isNone ∧ test.isNone then false
  else
    match ref with
    | none => false
    | some r =>
      if !r.m_InUse then false
      else
        match test with
        | none => true
        | some t =>
          if !t.m_InUse then true
          else
            match r.m_FileFunction, t.m_FileFunction with
            | none, none => false
            | none, some _ => false
            | some _, none => true
            | some fr, some ft =>
              if GetZOrder fr ≠ GetZOrder ft then decide (GetZOrder fr > GetZOrder ft)
              else decide (GetZSubOrder fr > GetZSubOrder ft)

/-- The place `sortZorder` gives an image: 0 for an image in use that has
file function data, 1 for an image in use without that data, 2 for a null
pointer or an image not in use. -/
def zClass {F : Type} : Option (GERBER_IMAGE F) → Nat
  | none => 2
  | some image =>
    if image.m_InUse then
      match image.m_FileFunction with
      | some _ => 0
      | none => 1
    else 2

/-- The Z order and the Z sub-order of an image in use that has file function
data, (0, 0) for the others. -/
def zKey {F : Type} (GetZOrder GetZSubOrder : F → Int) : Option (GERBER_IMAGE F) → Int × Int
  | none => (0, 0)
  | some image =>
    if image.m_InUse then
      match image.m_FileFunction with
      | some f => (GetZOrder f, GetZSubOrder f)
      | none => (0, 0)
    else (0, 0)

/-- Embeds `std::iter_swap` on the positions `begin() + i` and `begin() + j`
of a vector: `none` stands for an access outside the vector. -/
def iter_swap {α : Type} (v : List α) (i j : Int) : Option (List α) :=
  if i < 0 ∨ j < 0 then none
  else
    match v[i.toNat]?, v[j.toNat]? with
    | some a, some b => some ((v.set i.toNat b).set j.toNat a)
    | _, _ => none

/-- Embeds `GERBER_IMAGE_LIST::MoveLayerUp( int aIdx )` on `m_Gerbers`. -/
def MoveLayerUp {α : Type} (m_Gerbers : List α) (aIdx : Int) : Option (List α) :=
  if aIdx > 0 then iter_swap m_Gerbers (aIdx - 1) aIdx
  else some m_Gerbers

/-- Embeds `GERBER_IMAGE_LIST::MoveLayerDown( int aIdx )` on `m_Gerbers`.  The
test compares `aIdx` with `m_Gerbers.size()-1` in the unsigned type of the
size, `w` bits wide: both sides are taken modulo `2 ^ w`. -/
def MoveLayerDown {α : Type} (w : Nat) (m_Gerbers : List α) (aIdx : Int) : Option (List α) :=
  if aIdx % (2 ^ w : Int) < (((m_Gerbers.length : Int) - 1) % (2 ^ w : Int)) then
    iter_swap m_Gerbers aIdx (aIdx + 1)
  else some m_Gerbers

/-- An image in use with the Z order `z` and the Z sub-order `s`; the file
function of the examples is this pair. -/
def exImage (z s : Int) : Option (GERBER_IMAGE (Int × Int)) :=
  some ⟨true, some (z, s)⟩

/-! ## The arithmetic of `double`

The members of the page layout items are `double`.  The type `DOUBLE` stands
for its finite values, each operation rounded to the nearest value with 53
binary digits, ties to the even one, as IEEE 754 has it.  Every operation is
rounded on its own: a product and a sum are not fused, and no intermediate
value is kept with more digits.  The exponent is not bounded: overflow,
subnormal numbers, infinities, NaN and the sign of zero are not modelled. -/

/-- A finite value of `double`, `m * 2 ^ e`.  The operations return the pair
with `m` odd, or (0, 0) for zero. -/
structure DOUBLE where
  m : Int
  e : Int
deriving DecidableEq

/-- The number of binary digits of `n`; `fuel` is at least that number. -/
def binaryDigits : Nat → Nat → Nat
  | 0, _ => 0
  | fuel + 1, n => if n = 0 then 0 else binaryDigits fuel (n / 2) + 1

/-- The pair with an odd first component (or (0, 0)) for the value
`m * 2 ^ e`; `fuel` is at least the number of binary digits of `m`. -/
def DOUBLE.normalize : Nat → Int → Int → DOUBLE
  | 0, m, e => if m = 0 then ⟨0, 0⟩ else ⟨m, e⟩
  | fuel + 1, m, e =>
    if m = 0 then ⟨0, 0⟩
    else if m % 2 = 0 then DOUBLE.normalize fuel (m / 2) (e + 1)
    else ⟨m, e⟩

/-- The value of `double` nearest to `m * 2 ^ e`: at most 53 binary digits
are kept, and of two nearest values the one with an even last digit is
taken. -/
def DOUBLE.round (m e : Int) : DOUBLE :=
  let a := m.natAbs
  let n := binaryDigits a a
  if n ≤ 53 then DOUBLE.normalize a m e
  else
    let k := n - 53
    let q := a / 2 ^ k
    let r := a % 2 ^ k
    let half := 2 ^ (k - 1)
    let q1 := if r > half ∨ (r = half ∧ q % 2 = 1) then q + 1 else q
    DOUBLE.normalize q1 (if m < 0 then -(q1 : Int) else (q1 : Int)) (e + (k : Int))

/-- The sum of two values of `double`: the exact sum, rounded. -/
def DOUBLE.add (a b : DOUBLE) : DOUBLE :=
  let e0 := min a.e b.e
  DOUBLE.round (a.m * 2 ^ (a.e - e0).toNat + b.m * 2 ^ (b.e - e0).toNat) e0

/-- The difference of two values of `double`: the exact difference,
rounded. -/
def DOUBLE.sub (a b : DOUBLE) : DOUBLE :=
  let e0 := min a.e b.e
  DOUBLE.round (a.m * 2 ^ (a.e - e0).toNat - b.m * 2 ^ (b.e - e0).toNat) e0

/-- The product of two values of `double`: the exact product, rounded. -/
def DOUBLE.mul (a b : DOUBLE) : DOUBLE :=
  DOUBLE.round (a.m * b.m) (a.e + b.e)

/-- The conversion of an `int` to `double`. -/
def DOUBLE.ofInt (i : Int) : DOUBLE :=
  DOUBLE.round i 0

/-- The value of `double` nearest to the fraction `n / d`, as a decimal
literal of the fraction denotes it; `d` is not 0.  The quotient is taken
with more than 64 binary digits and a last digit that tells whether the
division left a remainder. -/
def DOUBLE.ofRatio (n d : Nat) : DOUBLE :=
  let s := 64 + binaryDigits d d
  let q := n * 2 ^ s / d
  let sticky := if n * 2 ^ s % d = 0 then 0 else 1
  DOUBLE.round ((2 * q + sticky : Nat) : Int) (-((s : Int) + 1))

instance : Add DOUBLE := ⟨DOUBLE.add⟩

instance : Sub DOUBLE := ⟨DOUBLE.sub⟩

instance : Mul DOUBLE := ⟨DOUBLE.mul⟩

instance : IntCast DOUBLE := ⟨DOUBLE.ofInt⟩

instance : Zero DOUBLE := ⟨⟨0, 0⟩⟩

/-- The pair `d` is the one the operations return for the value
`m * 2 ^ e`: (0, 0) for zero, else the pair with an odd first component. -/
def DOUBLE.Represents (d : DOUBLE) (m e : Int) : Prop :=
  (m = 0 ∧ d = ⟨0, 0⟩)
    ∨ (m ≠ 0 ∧ d.m % 2 = 1 ∧ ∃ k : Nat, d.e = e + (k : Int) ∧ m = d.m * 2 ^ k)

/-- A point with whole-number coordinates, in `double`. -/
def DPOINT.toDouble (p : DPOINT Int) : DPOINT DOUBLE :=
  ⟨DOUBLE.ofInt p.x, DOUBLE.ofInt p.y⟩

/-- Page corners with whole-number coordinates, in `double`. -/
def PAGE_CORNERS.toDouble (page : PAGE_CORNERS Int) : PAGE_CORNERS DOUBLE :=
  { m_RB_Corner := page.m_RB_Corner.toDouble, m_LT_Corner := page.m_LT_Corner.toDouble }

/-- An item with whole-number coordinates, in `double`. -/
def WORKSHEET_DATAITEM.toDouble (item : WORKSHEET_DATAITEM Int) : WORKSHEET_DATAITEM DOUBLE :=
  { m_type := item.m_type
    m_flags := item.m_flags
    m_Name := item.m_Name
    m_Info := item.m_Info
    m_Pos := ⟨item.m_Pos.m_Pos.toDouble, item.m_Pos.m_Anchor⟩
    m_End := ⟨item.m_End.m_Pos.toDouble, item.m_End.m_Anchor⟩
    m_LineWidth := DOUBLE.ofInt item.m_LineWidth
    m_RepeatCount := item.m_RepeatCount
    m_IncrementVector := item.m_IncrementVector.toDouble
    m_IncrementLabel := item.m_IncrementLabel }

/-- Both coordinates of the point are below `b` in magnitude. -/
def DPOINT.Below (b : Nat) (p : DPOINT Int) : Prop :=
  p.x.natAbs < b ∧ p.y.natAbs < b

/-- The page corners and the two offsets and the increment of the item are
whole numbers below `2 ^ 20` in magnitude. -/
def WholeBelow (page : PAGE_CORNERS Int) (item : WORKSHEET_DATAITEM Int) : Prop :=
  page.m_RB_Corner.Below (2 ^ 20) ∧ page.m_LT_Corner.Below (2 ^ 20)
    ∧ item.m_Pos.m_Pos.Below (2 ^ 20) ∧ item.m_End.m_Pos.Below (2 ^ 20)
    ∧ item.m_IncrementVector.Below (2 ^ 20)

/-- An A4 page in `double`: left-top corner (0, 0), right-bottom corner
(210, 297). -/
def exPageDouble : PAGE_CORNERS DOUBLE :=
  { m_RB_Corner := ⟨DOUBLE.ofInt 210, DOUBLE.ofInt 297⟩
    m_LT_Corner := ⟨DOUBLE.ofInt 0, DOUBLE.ofInt 0⟩ }

/-- A line in `double` with start offset (5, 5) and end offset (20, 30) at
the given anchors. -/
def exItemDouble (startAnchor endAnchor : corner_anchor) : WORKSHEET_DATAITEM DOUBLE :=
  { (WORKSHEET_DATAITEM.new .WS_SEGMENT : WORKSHEET_DATAITEM DOUBLE) with
    m_Pos := ⟨⟨DOUBLE.ofInt 5, DOUBLE.ofInt 5⟩, startAnchor⟩
    m_End := ⟨⟨DOUBLE.ofInt 20, DOUBLE.ofInt 30⟩, endAnchor⟩ }

/-- A page in `double` whose left-top corner is at (1.2, 0). -/
def exPageShifted : PAGE_CORNERS DOUBLE :=
  { exPageDouble with m_LT_Corner := ⟨DOUBLE.ofRatio 12 10, DOUBLE.ofInt 0⟩ }

/-- A line in `double` anchored left-top with start offset
(3.8000000000000003, 5), repeated 3 times with increment (2, 0). -/
def exItemShifted : WORKSHEET_DATAITEM DOUBLE :=
  { exItemDouble .LT_CORNER .LT_CORNER with
    m_Pos := ⟨⟨DOUBLE.ofRatio 38000000000000003 10000000000000000, DOUBLE.ofInt 5⟩, .LT_CORNER⟩
    m_RepeatCount := 3
    m_IncrementVector := ⟨DOUBLE.ofInt 2, DOUBLE.ofInt 0⟩ }

/-- A page in `double` whose left-top corner is at (10, 10). -/
def exPageInset : PAGE_CORNERS DOUBLE :=
  { exPageDouble with m_LT_Corner := ⟨DOUBLE.ofInt 10, DOUBLE.ofInt 10⟩ }

/-- A line in `double` with start offset (0.1, 0.3) at the given anchor and
increment (0.2, 0.1). -/
def exItemTenths (anchor : corner_anchor) : WORKSHEET_DATAITEM DOUBLE :=
  { exItemDouble anchor anchor with
    m_Pos := ⟨⟨DOUBLE.ofRatio 1 10, DOUBLE.ofRatio 3 10⟩, anchor⟩
    m_RepeatCount := 3
    m_IncrementVector := ⟨DOUBLE.ofRatio 2 10, DOUBLE.ofRatio 1 10⟩ }
/-! # Theorems -/


/-! ## std::map lemmas -/

theorem StdMap.find_eq_none_of_lt {V : Type} (m : StdMap V) (k : Str)
    (h : ∀ e ∈ m, k < e.1) : m.find k = none := by
  induction m with
  | nil => rfl
  | cons e rest ih =>
    obtain ⟨k', v'⟩ := e
    have h1 : k < k' := h (k', v') (List.mem_cons_self _ _)
    have h2 : k ≠ k' := ne_of_lt h1
    simp only [StdMap.find, if_neg h2]
    exact ih (fun e he => h e (List.mem_cons_of_mem _ he))

theorem StdMap.mem_insert {V : Type} (m : StdMap V) (k : Str) (v : V) (e : Str × V)
    (he : e ∈ m.insert k v) : e = (k, v) ∨ e ∈ m := by
  induction m with
  | nil => simpa [StdMap.insert] using he
  | cons e' rest ih =>
    obtain ⟨k', v'⟩ := e'
    simp only [StdMap.insert] at he
    split_ifs at he with h1 h2
    · simpa using he
    · exact Or.inr he
    · rcases List.mem_cons.1 he with h | h
      · exact Or.inr (h ▸ List.mem_cons_self _ _)
      · rcases ih h with h | h
        · exact Or.inl h
        · exact Or.inr (List.mem_cons_of_mem _ h)

theorem StdMap.insert_sorted {V : Type} (m : StdMap V) (k : Str) (v : V)
    (hs : m.Sorted) : (m.insert k v).Sorted := by
  induction m with
  | nil => simp [StdMap.insert, StdMap.Sorted]
  | cons e' rest ih =>
    obtain ⟨k', v'⟩ := e'
    have hs' := List.pairwise_cons.1 hs
    simp only [StdMap.insert]
    split_ifs with h1 h2
    · refine List.pairwise_cons.2 ⟨?_, hs⟩
      intro e he
      rcases List.mem_cons.1 he with h | h
      · rw [h]; exact h1
      · exact lt_trans h1 (hs'.1 e h)
    · exact hs
    · refine List.pairwise_cons.2 ⟨?_, ih hs'.2⟩
      intro e he
      rcases StdMap.mem_insert rest k v e he with h | h
      · rw [h]
        exact lt_of_le_of_ne (not_lt.1 h1) (Ne.symm h2)
      · exact hs'.1 e h

theorem StdMap.find_insert {V : Type} (m : StdMap V) (k : Str) (v : V) (q : Str)
    (hs : m.Sorted) :
    (m.insert k v).find q = if q = k then some ((m.find k).getD v) else m.find q := by
  induction m with
  | nil =>
    by_cases hq : q = k <;> simp [StdMap.insert, StdMap.find, hq]
  | cons e' rest ih =>
    obtain ⟨k', v'⟩ := e'
    have hs' := List.pairwise_cons.1 hs
    simp only [StdMap.insert]
    split_ifs with h1 h2 h3 h4 h5
    · -- k < k', q = k
      have hnone : StdMap.find ((k', v') :: rest) k = none := by
        apply StdMap.find_eq_none_of_lt
        intro e he
        rcases List.mem_cons.1 he with h | h
        · rw [h]; exact h1
        · exact lt_trans h1 (hs'.1 e h)
      rw [hnone]
      simp [StdMap.find, h2]
    · simp [StdMap.find, h2]
    · subst h4; subst h3
      simp [StdMap.find]
    · rfl
    · subst h5
      simp only [StdMap.find, if_neg h3]
      rw [ih hs'.2]
      simp
    · have := ih hs'.2
      simp only [StdMap.find]
      by_cases hq : q = k'
      · simp [hq]
      · simp only [if_neg hq]
        rw [this, if_neg h5]

/-! ## The nickname index -/

theorem reindexLoop_sorted (rows : List ROW) (pos : Nat) (idx : INDEX) (hs : idx.Sorted) :
    StdMap.Sorted (reindexLoop rows pos idx) := by
  induction rows generalizing pos idx with
  | nil => exact hs
  | cons r rest ih => exact ih _ _ (StdMap.insert_sorted idx _ _ hs)

theorem reindexLoop_append (a b : List ROW) (pos : Nat) (idx : INDEX) :
    reindexLoop (a ++ b) pos idx = reindexLoop b (pos + a.length) (reindexLoop a pos idx) := by
  induction a generalizing pos idx with
  | nil => rfl
  | cons r rest ih =>
    show reindexLoop (rest ++ b) (pos + 1) _ = _
    rw [ih]
    simp only [reindexLoop, List.length_cons]
    congr 1
    omega

theorem find_reindexLoop (rows : List ROW) (pos : Nat) (idx : INDEX) (q : Str)
    (hs : idx.Sorted) :
    (reindexLoop rows pos idx).find q =
      match idx.find q with
      | some v => some v
      | none => (firstNamed q rows).map (· + pos) := by
  induction rows generalizing pos idx with
  | nil => cases h : StdMap.find idx q <;> simp [reindexLoop, firstNamed, h]
  | cons r rest ih =>
    simp only [reindexLoop]
    rw [ih _ _ (StdMap.insert_sorted idx _ _ hs), StdMap.find_insert idx _ _ _ hs]
    by_cases hq : q = r.nickName
    · subst hq
      cases h : StdMap.find idx r.nickName <;> simp [firstNamed, h]
    · have hq' : ¬ r.nickName = q := fun h => hq h.symm
      cases h : StdMap.find idx q with
      | some v => simp [hq, h]
      | none =>
        simp only [if_neg hq, h, firstNamed, if_neg hq', Option.map_map]
        congr 1
        funext x
        simp only [Function.comp]
        omega

theorem firstNamed_eq_none (n : Str) (rows : List ROW) :
    firstNamed n rows = none ↔ ∀ r ∈ rows, r.nickName ≠ n := by
  induction rows with
  | nil => simp [firstNamed]
  | cons r rest ih =>
    by_cases h : r.nickName = n
    · simp [firstNamed, h]
    · simp [firstNamed, h, ih]

theorem firstNamed_eq_some (n : Str) (rows : List ROW) (i : Nat) :
    firstNamed n rows = some i ↔
      (∃ r, rows.get? i = some r ∧ r.nickName = n) ∧
        ∀ j r, j < i → rows.get? j = some r → r.nickName ≠ n := by
  induction rows generalizing i with
  | nil => simp [firstNamed]
  | cons r rest ih =>
    by_cases h : r.nickName = n
    · simp only [firstNamed, if_pos h, Option.some.injEq]
      constructor
      · intro hi
        subst hi
        exact ⟨⟨r, rfl, h⟩, fun j _ hj => absurd hj (Nat.not_lt_zero j)⟩
      · rintro ⟨_, hmin⟩
        cases i with
        | zero => rfl
        | succ i => exact absurd h (hmin 0 r (Nat.succ_pos i) rfl)
    · simp only [firstNamed, if_neg h, Option.map_eq_some']
      constructor
      · rintro ⟨a, ha, rfl⟩
        obtain ⟨hex, hmin⟩ := (ih a).1 ha
        refine ⟨by simpa using hex, ?_⟩
        intro j r' hj hr'
        cases j with
        | zero =>
          simp only [List.get?_cons_zero, Option.some.injEq] at hr'
          subst hr'; exact h
        | succ j => exact hmin j r' (Nat.lt_of_succ_lt_succ hj) (by simpa using hr')
      · rintro ⟨⟨r', hr', hn⟩, hmin⟩
        cases i with
        | zero =>
          simp only [List.get?_cons_zero, Option.some.injEq] at hr'
          subst hr'; exact absurd hn h
        | succ i =>
          refine ⟨i, (ih i).2 ⟨⟨r', by simpa using hr', hn⟩, ?_⟩, rfl⟩
          intro j r'' hj hr''
          exact hmin (j + 1) r'' (Nat.succ_lt_succ hj) (by simpa using hr'')

theorem ensureIndex_of_IndexOK (t : FP_LIB_TABLE) (h : t.IndexOK) :
    t.ensureIndex = .mk t.rows (reindexLoop t.rows 0 []) t.fallBack := by
  obtain ⟨rows, idx, fb⟩ := t
  simp only [FP_LIB_TABLE.IndexOK, FP_LIB_TABLE.nickIndex, FP_LIB_TABLE.rows] at h
  simp only [FP_LIB_TABLE.ensureIndex, FP_LIB_TABLE.nickIndex, FP_LIB_TABLE.rows,
    FP_LIB_TABLE.fallBack, FP_LIB_TABLE.reindex]
  rcases h with h | h
  · subst h; simp
  · split_ifs with h0
    · rfl
    · rw [← h]

theorem find_reindex (rows : List ROW) (q : Str) :
    StdMap.find (reindexLoop rows 0 []) q = firstNamed q rows := by
  rw [find_reindexLoop rows 0 [] q List.Pairwise.nil]
  cases h : firstNamed q rows <;> simp [StdMap.find, h]



/-! ## InsertRow -/

@[simp] theorem rows_mk (rows : List ROW) (idx : INDEX) (fb : Option FP_LIB_TABLE) :
    (FP_LIB_TABLE.mk rows idx fb).rows = rows := rfl

@[simp] theorem nickIndex_mk (rows : List ROW) (idx : INDEX) (fb : Option FP_LIB_TABLE) :
    (FP_LIB_TABLE.mk rows idx fb).nickIndex = idx := rfl

@[simp] theorem fallBack_mk (rows : List ROW) (idx : INDEX) (fb : Option FP_LIB_TABLE) :
    (FP_LIB_TABLE.mk rows idx fb).fallBack = fb := rfl

theorem InsertRow_eq (t : FP_LIB_TABLE) (r : ROW) (b : Bool) (h : t.IndexOK) :
    t.InsertRow r b =
      match firstNamed r.nickName t.rows with
      | none =>
        (true, .mk (t.rows ++ [r.copy])
          (StdMap.insert (reindexLoop t.rows 0 []) r.nickName ((t.rows ++ [r.copy]).length - 1))
          t.fallBack)
      | some pos =>
        if b then (true, .mk (t.rows.set pos r.assign) (reindexLoop t.rows 0 []) t.fallBack)
        else (false, .mk t.rows (reindexLoop t.rows 0 []) t.fallBack) := by
  unfold FP_LIB_TABLE.InsertRow
  rw [ensureIndex_of_IndexOK t h]
  simp only [find_reindex]

theorem firstNamed_isSome_of_mem (n : Str) (rows : List ROW)
    (h : ∃ x ∈ rows, x.nickName = n) : ∃ pos, firstNamed n rows = some pos := by
  cases hf : firstNamed n rows with
  | some pos => exact ⟨pos, rfl⟩
  | none =>
    obtain ⟨x, hx, hn⟩ := h
    exact absurd hn ((firstNamed_eq_none n rows).1 hf x hx)

theorem firstNamed_of_unique (n : Str) (rows : List ROW) (i : Nat) (x : ROW)
    (hu : (rows.map ROW.nickName).Nodup) (hi : rows.get? i = some x) (hn : x.nickName = n) :
    firstNamed n rows = some i := by
  refine (firstNamed_eq_some n rows i).2 ⟨⟨x, hi, hn⟩, ?_⟩
  intro j r hj hr hrn
  have hjl : j < (rows.map ROW.nickName).length := by
    simpa using (List.get?_eq_some.1 hr).1
  have hil : i < (rows.map ROW.nickName).length := by
    simpa using (List.get?_eq_some.1 hi).1
  have h1 : (rows.map ROW.nickName).get ⟨j, hjl⟩ = n := by
    have := (List.get?_eq_some.1 hr).2
    simp only [List.get_eq_getElem, List.getElem_map] at this ⊢
    rw [this, hrn]
  have h2 : (rows.map ROW.nickName).get ⟨i, hil⟩ = n := by
    have := (List.get?_eq_some.1 hi).2
    simp only [List.get_eq_getElem, List.getElem_map] at this ⊢
    rw [this, hn]
  have := (List.Nodup.get_inj_iff hu).1 (h1.trans h2.symm)
  simp only [Fin.mk.injEq] at this
  omega

theorem firstNamed_append_new (n : Str) (rows : List ROW) (x : ROW)
    (habs : ∀ r ∈ rows, r.nickName ≠ n) (hx : x.nickName = n) :
    firstNamed n (rows ++ [x]) = some rows.length := by
  induction rows with
  | nil => simp [firstNamed, hx]
  | cons r rest ih =>
    have h1 : ¬ r.nickName = n := habs r (List.mem_cons_self _ _)
    show firstNamed n (r :: (rest ++ [x])) = _
    simp only [firstNamed, if_neg h1, List.length_cons]
    rw [ih (fun r hr => habs r (List.mem_cons_of_mem _ hr))]
    rfl


@[simp] theorem ROW.copy_nickName (r : ROW) : r.copy.nickName = r.nickName := rfl

@[simp] theorem ROW.assign_nickName (r : ROW) : r.assign.nickName = r.nickName := rfl

theorem reindexLoop_congr (l1 l2 : List ROW) (p : Nat) (idx : INDEX)
    (hm : l1.map ROW.nickName = l2.map ROW.nickName) :
    reindexLoop l1 p idx = reindexLoop l2 p idx := by
  induction l1 generalizing l2 p idx with
  | nil =>
    cases l2 with
    | nil => rfl
    | cons _ _ => simp at hm
  | cons a l1 ih =>
    cases l2 with
    | nil => simp at hm
    | cons b l2 =>
      simp only [List.map_cons, List.cons.injEq] at hm
      simp only [reindexLoop, hm.1]
      exact ih l2 _ _ hm.2

theorem map_nickName_set (rows : List ROW) (pos : Nat) (x r : ROW)
    (hx : rows.get? pos = some x) (hn : x.nickName = r.nickName) :
    (rows.set pos r).map ROW.nickName = rows.map ROW.nickName := by
  induction rows generalizing pos with
  | nil => rfl
  | cons a rest ih =>
    cases pos with
    | zero =>
      simp only [List.get?_cons_zero, Option.some.injEq] at hx
      subst hx
      simp [hn]
    | succ pos =>
      simp only [List.set_cons_succ, List.map_cons, List.cons.injEq, true_and]
      exact ih pos (by simpa using hx)

theorem InsertRow_IndexOK (t : FP_LIB_TABLE) (r : ROW) (b : Bool) (h : t.IndexOK) :
    (t.InsertRow r b).2.IndexOK := by
  rw [InsertRow_eq t r b h]
  cases hf : firstNamed r.nickName t.rows with
  | none =>
    right
    simp only [nickIndex_mk, rows_mk, reindexLoop_append, reindexLoop, List.length_append,
      List.length_singleton, Nat.add_sub_cancel, Nat.zero_add, ROW.copy_nickName]
  | some pos =>
    have hset : reindexLoop (t.rows.set pos r.assign) 0 [] = reindexLoop t.rows 0 [] := by
      obtain ⟨⟨x, hx, hxn⟩, _⟩ := (firstNamed_eq_some _ _ _).1 hf
      exact reindexLoop_congr _ _ _ _ (map_nickName_set _ _ x _ hx (by simpa using hxn))
    cases b
    · right; rfl
    · right
      simp only [if_true, nickIndex_mk, rows_mk]
      exact hset.symm

theorem findRow_fst (rows : List ROW) (idx : INDEX) (fb : Option FP_LIB_TABLE) (n : Str)
    (h : (FP_LIB_TABLE.mk rows idx fb).IndexOK) :
    ((FP_LIB_TABLE.mk rows idx fb).findRow n).1 =
      match firstNamed n rows with
      | some pos => some ⟨0, pos⟩
      | none =>
        fb.bind (fun next => (next.findRow n).1.map (fun ref => ⟨ref.table + 1, ref.index⟩)) := by
  conv_lhs => unfold FP_LIB_TABLE.findRow
  have := ensureIndex_of_IndexOK _ h
  simp only [rows_mk, fallBack_mk] at this
  simp only [this, nickIndex_mk, find_reindex]
  cases firstNamed n rows with
  | some pos => rfl
  | none => cases fb <;> rfl

/-! ## Lookup along the fallback chain -/

theorem chain_cons (rows : List ROW) (idx : INDEX) (fb : Option FP_LIB_TABLE) :
    (FP_LIB_TABLE.mk rows idx fb).chain =
      .mk rows idx fb :: (match fb with | none => [] | some next => next.chain) := by
  cases fb <;> rfl

theorem findRow_eq_none_iff : ∀ (t : FP_LIB_TABLE) (n : Str),
    (∀ c ∈ t.chain, c.IndexOK) →
      ((t.findRow n).1 = none ↔ ∀ c ∈ t.chain, ∀ r ∈ c.rows, r.nickName ≠ n)
  | .mk rows idx none, n, hok => by
    have h0 := hok (.mk rows idx none) (by simp [FP_LIB_TABLE.chain])
    rw [findRow_fst _ _ _ _ h0]
    cases hf : firstNamed n rows with
    | some pos =>
      obtain ⟨⟨x, hx, hxn⟩, _⟩ := (firstNamed_eq_some _ _ _).1 hf
      simp only [false_iff, reduceCtorEq]
      intro hall
      exact hall (.mk rows idx none) (by simp [FP_LIB_TABLE.chain]) x
        (List.get?_mem hx) hxn
    | none =>
      have := (firstNamed_eq_none _ _).1 hf
      simpa [FP_LIB_TABLE.chain] using this
  | .mk rows idx (some next), n, hok => by
    have h0 := hok (.mk rows idx (some next)) (by simp [FP_LIB_TABLE.chain])
    have ih := findRow_eq_none_iff next n
      (fun c hc => hok c (by simp [FP_LIB_TABLE.chain, hc]))
    rw [findRow_fst _ _ _ _ h0]
    cases hf : firstNamed n rows with
    | some pos =>
      obtain ⟨⟨x, hx, hxn⟩, _⟩ := (firstNamed_eq_some _ _ _).1 hf
      simp only [false_iff, reduceCtorEq]
      intro hall
      exact hall (.mk rows idx (some next)) (by simp [FP_LIB_TABLE.chain]) x
        (List.get?_mem hx) hxn
    | none =>
      have h1 := (firstNamed_eq_none _ _).1 hf
      simp only [Option.some_bind, Option.map_eq_none', ih, FP_LIB_TABLE.chain,
        List.mem_cons, forall_eq_or_imp, rows_mk]
      exact ⟨fun h => ⟨h1, h⟩, fun h => h.2⟩

theorem rowAt_zero (rows : List ROW) (idx : INDEX) (fb : Option FP_LIB_TABLE) (i : Nat) :
    (FP_LIB_TABLE.mk rows idx fb).rowAt ⟨0, i⟩ = rows.get? i := by
  cases fb <;> simp [FP_LIB_TABLE.rowAt, FP_LIB_TABLE.chain]

theorem rowAt_succ (rows : List ROW) (idx : INDEX) (next : FP_LIB_TABLE) (k i : Nat) :
    (FP_LIB_TABLE.mk rows idx (some next)).rowAt ⟨k + 1, i⟩ = next.rowAt ⟨k, i⟩ := by
  simp [FP_LIB_TABLE.rowAt, FP_LIB_TABLE.chain]

theorem findRow_eq_some_iff : ∀ (t : FP_LIB_TABLE) (n : Str) (ref : RowRef),
    (∀ c ∈ t.chain, c.IndexOK ∧ c.UniqueNicks) →
      ((t.findRow n).1 = some ref ↔
        (∃ r, t.rowAt ref = some r ∧ r.nickName = n) ∧
          ∀ j c, j < ref.table → t.chain.get? j = some c → ∀ r ∈ c.rows, r.nickName ≠ n)
  | .mk rows idx fb, n, ⟨k, i⟩, hok => by
    have h0 := hok (.mk rows idx fb) (by cases fb <;> simp [FP_LIB_TABLE.chain])
    rw [findRow_fst _ _ _ _ h0.1]
    cases hf : firstNamed n rows with
    | some pos =>
      obtain ⟨⟨x, hx, hxn⟩, _⟩ := (firstNamed_eq_some _ _ _).1 hf
      simp only [Option.some.injEq, RowRef.mk.injEq]
      constructor
      · rintro ⟨rfl, rfl⟩
        refine ⟨⟨x, by rw [rowAt_zero]; exact hx, hxn⟩, ?_⟩
        intro j c hj
        exact absurd hj (Nat.not_lt_zero j)
      · rintro ⟨⟨r, hr, hrn⟩, hmin⟩
        cases k with
        | zero =>
          rw [rowAt_zero] at hr
          have := firstNamed_of_unique n rows i r h0.2 hr hrn
          rw [hf] at this
          exact ⟨rfl, Option.some.inj this⟩
        | succ k =>
          exact absurd hxn (hmin 0 (.mk rows idx fb) (Nat.succ_pos k)
            (by cases fb <;> simp [FP_LIB_TABLE.chain]) x (List.get?_mem hx))
    | none =>
      have h1 := (firstNamed_eq_none _ _).1 hf
      cases fb with
      | none =>
        simp only [Option.none_bind, false_iff, reduceCtorEq]
        rintro ⟨⟨r, hr, hrn⟩, _⟩
        cases k with
        | zero =>
          rw [rowAt_zero] at hr
          exact h1 r (List.get?_mem hr) hrn
        | succ k => simp [FP_LIB_TABLE.rowAt, FP_LIB_TABLE.chain] at hr
      | some next =>
        have hoknext : ∀ c ∈ next.chain, c.IndexOK ∧ c.UniqueNicks :=
          fun c hc => hok c (by simp [FP_LIB_TABLE.chain, hc])
        simp only [Option.some_bind, Option.map_eq_some', RowRef.mk.injEq]
        constructor
        · rintro ⟨⟨k', i'⟩, hfr, rfl, rfl⟩
          obtain ⟨hex, hmin⟩ := (findRow_eq_some_iff next n ⟨k', i'⟩ hoknext).1 hfr
          refine ⟨by rw [rowAt_succ]; exact hex, ?_⟩
          intro j c hj hc
          cases j with
          | zero =>
            simp only [FP_LIB_TABLE.chain, List.get?_cons_zero, Option.some.injEq] at hc
            subst hc
            exact h1
          | succ j =>
            exact hmin j c (Nat.lt_of_succ_lt_succ hj)
              (by simpa [FP_LIB_TABLE.chain] using hc)
        · rintro ⟨⟨r, hr, hrn⟩, hmin⟩
          cases k with
          | zero =>
            rw [rowAt_zero] at hr
            exact absurd hrn (h1 r (List.get?_mem hr))
          | succ k =>
            refine ⟨⟨k, i⟩, ?_, rfl, rfl⟩
            refine (findRow_eq_some_iff next n ⟨k, i⟩ hoknext).2
              ⟨⟨r, by rw [rowAt_succ] at hr; exact hr, hrn⟩, ?_⟩
            intro j c hj hc
            exact hmin (j + 1) c (Nat.succ_lt_succ hj)
              (by simpa [FP_LIB_TABLE.chain] using hc)



/-! ## GetLogicalLibs -/

theorem StdSet.mem_insert_iff (s : StdSet) (k x : Str) :
    x ∈ StdSet.insert s k ↔ x = k ∨ x ∈ s := by
  induction s with
  | nil => simp [StdSet.insert]
  | cons k' rest ih =>
    simp only [StdSet.insert]
    split_ifs with h1 h2
    · simp
    · subst h2; simp
    · simp only [List.mem_cons, ih]
      tauto

theorem StdSet.insert_pairwise (s : StdSet) (k : Str) (hs : s.Pairwise (· < ·)) :
    (StdSet.insert s k).Pairwise (· < ·) := by
  induction s with
  | nil => simp [StdSet.insert]
  | cons k' rest ih =>
    have hs' := List.pairwise_cons.1 hs
    simp only [StdSet.insert]
    split_ifs with h1 h2
    · refine List.pairwise_cons.2 ⟨?_, hs⟩
      intro e he
      rcases List.mem_cons.1 he with h | h
      · rw [h]; exact h1
      · exact lt_trans h1 (hs'.1 e h)
    · exact hs
    · refine List.pairwise_cons.2 ⟨?_, ih hs'.2⟩
      intro e he
      rcases (StdSet.mem_insert_iff rest k e).1 he with h | h
      · rw [h]
        exact lt_of_le_of_ne (not_lt.1 h1) (Ne.symm h2)
      · exact hs'.1 e h

theorem foldl_insert_sorted (rows : List ROW) (u : StdSet) (hs : u.Pairwise (· < ·)) :
    (rows.foldl (fun u row => StdSet.insert u row.nickName) u).Pairwise (· < ·) := by
  induction rows generalizing u with
  | nil => exact hs
  | cons r rest ih => exact ih _ (StdSet.insert_pairwise u _ hs)

theorem mem_foldl_insert (rows : List ROW) (u : StdSet) (x : Str) :
    x ∈ rows.foldl (fun u row => StdSet.insert u row.nickName) u ↔
      x ∈ u ∨ ∃ r ∈ rows, r.nickName = x := by
  induction rows generalizing u with
  | nil => simp
  | cons r rest ih =>
    simp only [List.foldl_cons, ih, StdSet.mem_insert_iff, List.mem_cons, exists_eq_or_imp]
    constructor
    · rintro ((h | h) | h)
      · exact Or.inr (Or.inl h.symm)
      · exact Or.inl h
      · exact Or.inr (Or.inr h)
    · rintro (h | h | h)
      · exact Or.inl (Or.inr h)
      · exact Or.inl (Or.inl h.symm)
      · exact Or.inr h

theorem collectNicks_sorted : ∀ (t : FP_LIB_TABLE) (u : StdSet),
    u.Pairwise (· < ·) → (collectNicks t u).Pairwise (· < ·)
  | .mk rows idx none, u, hs => by
    simp only [collectNicks]
    exact foldl_insert_sorted rows u hs
  | .mk rows idx (some next), u, hs => by
    simp only [collectNicks]
    exact collectNicks_sorted next _ (foldl_insert_sorted rows u hs)

theorem mem_collectNicks : ∀ (t : FP_LIB_TABLE) (u : StdSet) (x : Str),
    x ∈ collectNicks t u ↔ x ∈ u ∨ ∃ c ∈ t.chain, ∃ r ∈ c.rows, r.nickName = x
  | .mk rows idx none, u, x => by
    simp only [collectNicks, mem_foldl_insert, FP_LIB_TABLE.chain, List.mem_singleton,
      exists_eq_left, rows_mk]
  | .mk rows idx (some next), u, x => by
    simp only [collectNicks, mem_collectNicks next, mem_foldl_insert, FP_LIB_TABLE.chain,
      List.mem_cons, exists_eq_or_imp, rows_mk]
    constructor
    · rintro ((h | h) | h)
      · exact Or.inl h
      · exact Or.inr (Or.inl h)
      · exact Or.inr (Or.inr h)
    · rintro (h | h | h)
      · exact Or.inl (Or.inl h)
      · exact Or.inl (Or.inr h)
      · exact Or.inr h

theorem foldl_push_back (l acc : List Str) :
    l.foldl (fun ret nick => ret ++ [nick]) acc = acc ++ l := by
  induction l generalizing acc with
  | nil => simp
  | cons a l ih => simp [ih]



/-! ## ParseOptions against the reference decoder -/

theorem list_two_step (P : List Char → Prop) (h0 : P []) (h1 : ∀ c, P [c])
    (h2 : ∀ c d rest, P rest → P (d :: rest) → P (c :: d :: rest)) : ∀ l, P l := by
  have key : ∀ l, P l ∧ ∀ c, P (c :: l) := by
    intro l
    induction l with
    | nil => exact ⟨h0, h1⟩
    | cons d rest ih => exact ⟨ih.2 d, fun c => h2 c d rest ih.1 (ih.2 d)⟩
  exact fun l => (key l).1

theorem cutFields_ne_nil (cp : List Char) : Spec.cutFields cp ≠ [] := by
  refine list_two_step (fun cp => Spec.cutFields cp ≠ []) ?_ ?_ ?_ cp
  · simp [Spec.cutFields]
  · intro c
    simp only [Spec.cutFields]
    split_ifs <;> simp
  · intro c d rest _ _
    simp only [Spec.cutFields]
    split_ifs
    · cases Spec.cutFields rest <;> simp [Spec.consFirst]
    · simp
    · cases Spec.cutFields (d :: rest) <;> simp [Spec.consFirst]

theorem scanPair_spec (cp : List Char) : ∀ acc : Str,
    ∃ f fs, Spec.cutFields cp = f :: fs ∧ (scanPair cp acc).1 = acc ++ f
      ∧ ((fs = [] ∧ (scanPair cp acc).2 = []) ∨ fs = Spec.cutFields (scanPair cp acc).2)
      ∧ (scanPair cp acc).2.length ≤ cp.length - 1 := by
  refine list_two_step (fun cp => ∀ acc : Str,
    ∃ f fs, Spec.cutFields cp = f :: fs ∧ (scanPair cp acc).1 = acc ++ f
      ∧ ((fs = [] ∧ (scanPair cp acc).2 = []) ∨ fs = Spec.cutFields (scanPair cp acc).2)
      ∧ (scanPair cp acc).2.length ≤ cp.length - 1) ?_ ?_ ?_ cp
  · intro acc
    exact ⟨[], [], rfl, by simp [scanPair], Or.inl ⟨rfl, rfl⟩, by simp [scanPair]⟩
  · intro c acc
    by_cases h : c = '|'
    · refine ⟨[], [[]], ?_, ?_, Or.inr ?_, ?_⟩
      · simp [Spec.cutFields, h]
      · simp [scanPair, h, OPT_SEP]
      · simp [scanPair, h, OPT_SEP, Spec.cutFields]
      · simp [scanPair, h, OPT_SEP]
    · refine ⟨[c], [], ?_, ?_, Or.inl ⟨rfl, ?_⟩, ?_⟩
      · simp [Spec.cutFields, h]
      · simp [scanPair, h, OPT_SEP]
      · simp [scanPair, h, OPT_SEP]
      · simp [scanPair, h, OPT_SEP]
  · intro c d rest ih1 ih2 acc
    by_cases h1 : c = '\\' ∧ d = '|'
    · obtain ⟨f, fs, e1, e2, e3, e4⟩ := ih1 (acc ++ [d])
      have hs : scanPair (c :: d :: rest) acc = scanPair rest (acc ++ [d]) := by
        simp only [scanPair, OPT_SEP, if_pos h1]
      refine ⟨'|' :: f, fs, ?_, ?_, ?_, ?_⟩
      · simp [Spec.cutFields, h1, e1, Spec.consFirst]
      · rw [hs, e2, h1.2]; simp
      · rw [hs]; exact e3
      · rw [hs]; simp only [List.length_cons]; omega
    · by_cases h2 : c = '|'
      · refine ⟨[], Spec.cutFields (d :: rest), ?_, ?_, Or.inr ?_, ?_⟩
        · simp only [Spec.cutFields, if_neg h1, if_pos h2]
        · simp [scanPair, OPT_SEP, if_neg h1, if_pos h2]
        · simp [scanPair, OPT_SEP, if_neg h1, if_pos h2]
        · simp [scanPair, OPT_SEP, if_neg h1, if_pos h2]
      · obtain ⟨f, fs, e1, e2, e3, e4⟩ := ih2 (acc ++ [c])
        have hs : scanPair (c :: d :: rest) acc = scanPair (d :: rest) (acc ++ [c]) := by
          simp only [scanPair, OPT_SEP, if_neg h1, if_neg h2]
        refine ⟨c :: f, fs, ?_, ?_, ?_, ?_⟩
        · simp only [Spec.cutFields, if_neg h1, if_neg h2, e1, Spec.consFirst]
        · rw [hs, e2]; simp
        · rw [hs]; exact e3
        · rw [hs]; simp only [List.length_cons] at e4 ⊢; omega

theorem isspace_ne (c : Char) (h : isspace c = true) : c ≠ '|' ∧ c ≠ '\\' := by
  constructor <;> (intro hc; subst hc; revert h; decide)

theorem cutFields_cons_plain (c : Char) (rest : List Char) (h1 : c ≠ '|') (h2 : c ≠ '\\') :
    Spec.cutFields (c :: rest) = Spec.consFirst c (Spec.cutFields rest) := by
  cases rest with
  | nil => simp [Spec.cutFields, h1, Spec.consFirst]
  | cons d rest => simp [Spec.cutFields, h1, h2]

theorem cutFields_head_cases (c : Char) (rest : List Char) :
    ∃ f fs, Spec.cutFields (c :: rest) = f :: fs
      ∧ (f = [] ∨ ∃ f', f = c :: f' ∨ f = '|' :: f') := by
  cases rest with
  | nil =>
    by_cases h : c = '|'
    · exact ⟨[], [[]], by simp [Spec.cutFields, h], Or.inl rfl⟩
    · exact ⟨[c], [], by simp [Spec.cutFields, h], Or.inr ⟨[], Or.inl rfl⟩⟩
  | cons d rest =>
    by_cases h1 : c = '\\' ∧ d = '|'
    · obtain ⟨f, fs, hf⟩ := List.exists_cons_of_ne_nil (cutFields_ne_nil rest)
      exact ⟨'|' :: f, fs, by simp [Spec.cutFields, h1, hf, Spec.consFirst],
        Or.inr ⟨f, Or.inr rfl⟩⟩
    · by_cases h2 : c = '|'
      · exact ⟨[], Spec.cutFields (d :: rest), by simp only [Spec.cutFields, if_neg h1, if_pos h2],
          Or.inl rfl⟩
      · obtain ⟨f, fs, hf⟩ := List.exists_cons_of_ne_nil (cutFields_ne_nil (d :: rest))
        exact ⟨c :: f, fs, by simp only [Spec.cutFields, if_neg h1, if_neg h2, hf, Spec.consFirst],
          Or.inr ⟨f, Or.inl rfl⟩⟩

theorem skipSpace_spec (cp : List Char) :
    ∃ f fs, Spec.cutFields cp = f :: fs
      ∧ Spec.cutFields (skipSpace cp) = f.dropWhile isspace :: fs
      ∧ (skipSpace cp).length ≤ cp.length := by
  induction cp with
  | nil => exact ⟨[], [], rfl, rfl, le_refl _⟩
  | cons c rest ih =>
    by_cases hc : isspace c = true
    · obtain ⟨f, fs, h1, h2, h3⟩ := ih
      obtain ⟨hc1, hc2⟩ := isspace_ne c hc
      refine ⟨c :: f, fs, ?_, ?_, ?_⟩
      · rw [cutFields_cons_plain c rest hc1 hc2, h1]; rfl
      · simp only [skipSpace, if_pos hc, h2, List.dropWhile_cons, hc, if_true]
      · simp only [skipSpace, if_pos hc, List.length_cons]; omega
    · obtain ⟨f, fs, h1, h2⟩ := cutFields_head_cases c rest
      refine ⟨f, fs, h1, ?_, ?_⟩
      · simp only [skipSpace, if_neg hc, h1]
        congr 1
        rcases h2 with h | ⟨f', h | h⟩
        · subst h; rfl
        · subst h; simp [List.dropWhile_cons, hc]
        · subst h
          have : isspace '|' = false := by decide
          simp [List.dropWhile_cons, this]
      · simp [skipSpace, hc]



theorem strFind_spec (pair : Str) :
    match strFind pair '=' with
    | some i => pair.take i = pair.takeWhile (· ≠ '=')
        ∧ pair.drop (i + 1) = (pair.dropWhile (· ≠ '=')).drop 1
    | none => pair = pair.takeWhile (· ≠ '=') ∧ (pair.dropWhile (· ≠ '=')).drop 1 = [] := by
  induction pair with
  | nil => simp [strFind]
  | cons d rest ih =>
    by_cases hd : d = '='
    · simp [strFind, hd]
    · cases hf : strFind rest '=' with
      | none =>
        rw [hf] at ih
        simp only [strFind, if_neg hd, hf, Option.map_none']
        simp only [List.takeWhile_cons, List.dropWhile_cons, ne_eq, hd, not_false_eq_true,
          decide_True, if_true]
        exact ⟨by rw [← ih.1], ih.2⟩
      | some i =>
        rw [hf] at ih
        simp only [strFind, if_neg hd, hf, Option.map_some']
        simp only [List.takeWhile_cons, List.dropWhile_cons, ne_eq, hd, not_false_eq_true,
          decide_True, if_true, List.take_succ_cons, List.drop_succ_cons]
        exact ⟨by rw [ih.1], ih.2⟩

theorem stashPair_eq (pair : Str) (props : PROPERTIES) (h : pair ≠ []) :
    stashPair pair props =
      StdMap.assign props (Spec.keyValue pair).1 (Spec.keyValue pair).2 := by
  have hl : pair.length ≠ 0 := by simpa using h
  have hs := strFind_spec pair
  simp only [stashPair, if_pos hl, Spec.keyValue]
  cases hf : strFind pair '=' with
  | none =>
    rw [hf] at hs
    simp only
    rw [← hs.1, hs.2]
  | some i =>
    rw [hf] at hs
    simp only
    rw [hs.1, hs.2]

theorem stashPair_nil (props : PROPERTIES) : stashPair [] props = props := by
  simp [stashPair]

theorem fields_nil : Spec.fields [] = [] := by
  simp [Spec.fields, Spec.cutFields]

theorem fields_step (cp : List Char) (hcp : cp ≠ []) :
    Spec.fields cp =
        (if (scanPair (skipSpace cp) []).1 ≠ [] then [(scanPair (skipSpace cp) []).1] else [])
          ++ Spec.fields (scanPair (skipSpace cp) []).2
      ∧ (scanPair (skipSpace cp) []).2.length < cp.length := by
  obtain ⟨f, fs, h1, h2, h3⟩ := skipSpace_spec cp
  obtain ⟨f', fs', e1, e2, e3, e4⟩ := scanPair_spec (skipSpace cp) []
  rw [h2] at e1
  simp only [List.cons.injEq] at e1
  obtain ⟨rfl, rfl⟩ := e1
  simp only [List.nil_append] at e2
  have hlen : 0 < cp.length := List.length_pos.2 hcp
  refine ⟨?_, by omega⟩
  rw [e2]
  have hrest : (List.map (List.dropWhile isspace) fs).filter (· ≠ [])
      = Spec.fields (scanPair (skipSpace cp) []).2 := by
    rcases e3 with ⟨hfs, hnil⟩ | hfs
    · rw [hnil, fields_nil, hfs]; rfl
    · rw [Spec.fields, ← hfs]
  simp only [Spec.fields, h1, List.map_cons, List.filter_cons]
  rw [hrest]
  by_cases hne : List.dropWhile isspace f = []
  · simp [hne, Spec.fields]
  · simp [hne, Spec.fields]

theorem parseLoop_spec (fuel : Nat) : ∀ (cp : List Char) (props : PROPERTIES),
    cp.length ≤ fuel →
      parseLoop fuel cp props = (Spec.fields cp).foldl
        (fun m field => StdMap.assign m (Spec.keyValue field).1 (Spec.keyValue field).2) props := by
  induction fuel with
  | zero =>
    intro cp props h
    have : cp = [] := List.length_eq_zero.1 (Nat.le_zero.1 h)
    subst this
    simp [parseLoop, fields_nil]
  | succ fuel ih =>
    intro cp props h
    by_cases hcp : cp = []
    · subst hcp
      simp [parseLoop, fields_nil]
    · have hl : ¬ cp.length = 0 := by simpa using hcp
      obtain ⟨hf, hlt⟩ := fields_step cp hcp
      simp only [parseLoop, if_neg hl]
      rw [ih _ _ (by omega), hf]
      by_cases hne : (scanPair (skipSpace cp) []).1 = []
      · simp [hne, stashPair_nil]
      · simp [hne, stashPair_eq _ _ hne]

theorem ParseOptions_eq_Decode (text : Str) : ParseOptions text = Spec.Decode text := by
  by_cases ht : text = []
  · subst ht
    simp [ParseOptions, Spec.Decode, fields_nil]
  · have hl : text.length ≠ 0 := by simpa using ht
    simp only [ParseOptions, if_pos hl, Spec.Decode, parseLoop_spec _ text [] (le_refl _)]
    split_ifs with h1 h2 h2
    · simp at h1; exact absurd h2 h1
    · rfl
    · rfl
    · simp at h1; exact absurd h1 h2



/-! ## FormatOptions -/

theorem escapeLoop_eq (value : List Char) (ret : Str) :
    escapeLoop value ret = ret ++ Spec.escape value := by
  induction value generalizing ret with
  | nil => simp [escapeLoop, Spec.escape]
  | cons si rest ih =>
    simp only [escapeLoop, ih, Spec.escape, List.flatMap_cons, OPT_SEP]
    split_ifs with h <;> simp [h]

theorem formatLoop_cons (name value : Str) (rest : List (Str × Str)) (ret : Str) :
    formatLoop ((name, value) :: rest) ret =
      formatLoop rest ((if ret = [] then ret else ret ++ ['|']) ++ Spec.pairText (name, value)) := by
  simp only [formatLoop, escapeLoop_eq, Spec.pairText, OPT_SEP]
  congr 1
  by_cases hr : ret = [] <;> by_cases hv : value = [] <;> simp [hr, hv]

theorem formatLoop_of_ne_nil (l : List (Str × Str)) (ret : Str) (hret : ret ≠ []) :
    formatLoop l ret = ret ++ sepAll l := by
  induction l generalizing ret with
  | nil => simp [formatLoop, sepAll]
  | cons p rest ih =>
    obtain ⟨name, value⟩ := p
    rw [formatLoop_cons, if_neg hret, ih _ (by simp [hret])]
    simp [sepAll]

theorem join_cons_eq (t : Str) (l : List (Str × Str)) :
    Spec.join (t :: l.map Spec.pairText) = t ++ sepAll l := by
  induction l generalizing t with
  | nil => simp [Spec.join, sepAll]
  | cons p rest ih =>
    simp only [List.map_cons, Spec.join, ih, sepAll, List.flatMap_cons, List.cons_append]

theorem pairText_eq_nil (p : Str × Str) : Spec.pairText p = [] ↔ p.1 = [] ∧ p.2 = [] := by
  obtain ⟨k, v⟩ := p
  by_cases hv : v = [] <;> simp [Spec.pairText, hv]

theorem formatLoop_nil_of_keys (l : List (Str × Str)) (h : ∀ p ∈ l, p.1 ≠ []) :
    formatLoop l [] = Spec.join (l.map Spec.pairText) := by
  cases l with
  | nil => rfl
  | cons p rest =>
    obtain ⟨name, value⟩ := p
    have hp : Spec.pairText (name, value) ≠ [] := by
      rw [Ne, pairText_eq_nil]
      exact fun hh => h (name, value) (List.mem_cons_self _ _) hh.1
    rw [formatLoop_cons, if_pos rfl, List.nil_append, formatLoop_of_ne_nil _ _ hp,
      List.map_cons, join_cons_eq]

theorem Str.not_lt_nil (a : Str) : ¬ a < ([] : Str) := by
  intro h
  cases h

theorem keys_ne_nil_of_sorted (p : Str × Str) (rest : List (Str × Str))
    (hs : StdMap.Sorted (p :: rest)) : ∀ q ∈ rest, q.1 ≠ [] := by
  intro q hq hnil
  have := (List.pairwise_cons.1 hs).1 q hq
  rw [hnil] at this
  exact Str.not_lt_nil _ this

theorem formatLoop_sorted (m : PROPERTIES) (hm : m.Sorted) :
    formatLoop m [] =
      Spec.join ((m.filter (fun p => !(p.1 = [] && p.2 = []))).map Spec.pairText) := by
  cases m with
  | nil => rfl
  | cons p rest =>
    have hrest := keys_ne_nil_of_sorted p rest hm
    have hfilter : rest.filter (fun p => !(p.1 = [] && p.2 = [])) = rest := by
      apply List.filter_eq_self.2
      intro q hq
      simp [hrest q hq]
    obtain ⟨name, value⟩ := p
    by_cases hp : name = [] ∧ value = []
    · obtain ⟨rfl, rfl⟩ := hp
      rw [formatLoop_cons]
      simp only [Spec.pairText, if_true, List.append_nil]
      rw [formatLoop_nil_of_keys rest hrest, List.filter_cons_of_neg (by simp), hfilter]
    · have hp' : Spec.pairText (name, value) ≠ [] := by
        rw [Ne, pairText_eq_nil]; exact hp
      rw [formatLoop_cons, if_pos rfl, List.nil_append, formatLoop_of_ne_nil _ _ hp']
      rw [List.filter_cons_of_pos (by
        by_cases h1 : name = [] <;> by_cases h2 : value = [] <;> simp_all), hfilter,
        List.map_cons, join_cons_eq]



/-! ## Decoding an encoded map -/

theorem cutFields_cons_lit (c : Char) (rest : List Char) (h1 : c ≠ '|')
    (h2 : c = '\\' → rest.head? ≠ some '|') :
    Spec.cutFields (c :: rest) = Spec.consFirst c (Spec.cutFields rest) := by
  cases rest with
  | nil => simp [Spec.cutFields, h1, Spec.consFirst]
  | cons d rest =>
    have : ¬ (c = '\\' ∧ d = '|') := by
      rintro ⟨hc, hd⟩
      exact h2 hc (by simp [hd])
    simp only [Spec.cutFields, if_neg this, if_neg h1]

theorem cutFields_sep (rest : List Char) :
    Spec.cutFields ('|' :: rest) = [] :: Spec.cutFields rest := by
  cases rest with
  | nil => simp [Spec.cutFields]
  | cons d rest => simp [Spec.cutFields]

theorem foldr_consFirst (s f : Str) (fs : List Str) :
    s.foldr Spec.consFirst (f :: fs) = (s ++ f) :: fs := by
  induction s with
  | nil => rfl
  | cons c s ih => simp [List.foldr_cons, ih, Spec.consFirst]

theorem escape_head (s : Str) (tail : List Char) (hs : s ≠ []) :
    (Spec.escape s ++ tail).head? ≠ some '|' := by
  cases s with
  | nil => exact absurd rfl hs
  | cons c s =>
    by_cases hc : c = '|'
    · simp [Spec.escape, List.flatMap_cons, hc]
    · simp [Spec.escape, List.flatMap_cons, hc]

theorem cutFields_escape (s : Str) (tail : List Char)
    (h : s.getLast? = some '\\' → tail.head? ≠ some '|') :
    Spec.cutFields (Spec.escape s ++ tail) = s.foldr Spec.consFirst (Spec.cutFields tail) := by
  induction s with
  | nil => simp [Spec.escape]
  | cons c s ih =>
    have hs : s.getLast? = some '\\' → tail.head? ≠ some '|' := by
      intro hl
      apply h
      cases s with
      | nil => simp at hl
      | cons d s => simpa [List.getLast?_cons_cons] using hl
    have hesc : Spec.escape (c :: s) = (if c = '|' then ['\\', '|'] else [c]) ++ Spec.escape s := by
      simp [Spec.escape, List.flatMap_cons]
    rw [hesc, List.foldr_cons, ← ih hs]
    by_cases hc : c = '|'
    · subst hc
      simp only [if_true, List.cons_append, List.nil_append]
      cases hrest : Spec.escape s ++ tail with
      | nil => simp [Spec.cutFields, Spec.consFirst]
      | cons d rest => simp [Spec.cutFields]
    · simp only [if_neg hc, List.cons_append, List.nil_append]
      apply cutFields_cons_lit c _ hc
      intro hbs
      cases s with
      | nil =>
        simp only [Spec.escape, List.flatMap_nil, List.nil_append]
        exact h (by simp [hbs])
      | cons d s => exact escape_head (d :: s) tail (by simp)

theorem escape_append (a b : Str) : Spec.escape (a ++ b) = Spec.escape a ++ Spec.escape b := by
  simp [Spec.escape, List.flatMap_append]

theorem escape_of_no_sep (a : Str) (h : '|' ∉ a) : Spec.escape a = a := by
  induction a with
  | nil => rfl
  | cons c a ih =>
    have hc : c ≠ '|' := fun hc => h (by simp [hc])
    have ha : '|' ∉ a := fun ha => h (List.mem_cons_of_mem _ ha)
    have := ih ha
    simp only [Spec.escape] at this
    simp [Spec.escape, List.flatMap_cons, hc, this]

theorem pairText_eq_escape (p : Str × Str) (h : '|' ∉ p.1) :
    Spec.pairText p = Spec.escape (fieldOf p) := by
  obtain ⟨k, v⟩ := p
  by_cases hv : v = []
  · simp [Spec.pairText, fieldOf, hv, escape_of_no_sep k h]
  · have : Spec.escape ('=' :: v) = '=' :: Spec.escape v := by
      simp [Spec.escape, List.flatMap_cons]
    simp [Spec.pairText, fieldOf, hv, escape_append, escape_of_no_sep k h, this]

theorem cutFields_join (m : List (Str × Str)) (hne : m ≠ [])
    (h : ∀ p ∈ m, '|' ∉ p.1 ∧ (fieldOf p).getLast? ≠ some '\\') :
    Spec.cutFields (Spec.join (m.map Spec.pairText)) = m.map fieldOf := by
  induction m with
  | nil => exact absurd rfl hne
  | cons p rest ih =>
    have hp := h p (List.mem_cons_self _ _)
    cases rest with
    | nil =>
      simp only [List.map_cons, List.map_nil, Spec.join]
      rw [pairText_eq_escape p hp.1]
      have := cutFields_escape (fieldOf p) [] (by simp)
      simp only [List.append_nil] at this
      rw [this]
      simp [Spec.cutFields, foldr_consFirst]
    | cons q rest =>
      have ih' := ih (by simp) (fun x hx => h x (List.mem_cons_of_mem _ hx))
      simp only [List.map_cons, Spec.join] at ih' ⊢
      rw [pairText_eq_escape p hp.1,
        cutFields_escape (fieldOf p) _ (fun hl => absurd hl hp.2), cutFields_sep,
        foldr_consFirst, ih']
      simp



theorem takeWhile_dropWhile_append (p : Char → Bool) (k tail : Str)
    (hk : ∀ c ∈ k, p c = true) :
    (k ++ tail).takeWhile p = k ++ tail.takeWhile p
      ∧ (k ++ tail).dropWhile p = tail.dropWhile p := by
  induction k with
  | nil => exact ⟨rfl, rfl⟩
  | cons c k ih =>
    have hc : p c = true := hk c (List.mem_cons_self _ _)
    have := ih (fun d hd => hk d (List.mem_cons_of_mem _ hd))
    simp only [List.cons_append, List.takeWhile_cons, List.dropWhile_cons, hc, if_true, this,
      and_self]

theorem keyValue_fieldOf (p : Str × Str) (h : '=' ∉ p.1) : Spec.keyValue (fieldOf p) = p := by
  obtain ⟨k, v⟩ := p
  have hk : ∀ c ∈ k, (fun x : Char => decide (x ≠ '=')) c = true := by
    intro c hc
    have : c ≠ '=' := fun hh => h (hh ▸ hc)
    simpa using this
  by_cases hv : v = []
  · have := takeWhile_dropWhile_append (fun x : Char => decide (x ≠ '=')) k [] hk
    simp only [List.append_nil, List.takeWhile_nil, List.dropWhile_nil] at this
    simp only [fieldOf, hv, if_true, Spec.keyValue, this.1, this.2, List.drop_nil]
  · have := takeWhile_dropWhile_append (fun x : Char => decide (x ≠ '=')) k ('=' :: v) hk
    have h1 : List.takeWhile (fun x : Char => decide (x ≠ '=')) ('=' :: v) = [] := by
      rw [List.takeWhile_cons]; rfl
    have h2 : List.dropWhile (fun x : Char => decide (x ≠ '=')) ('=' :: v) = '=' :: v := by
      rw [List.dropWhile_cons]; rfl
    simp only [fieldOf, hv, if_false, Spec.keyValue, this.1, this.2, h1, h2, List.append_nil,
      List.drop_succ_cons, List.drop_zero]

theorem StdMap.assign_last {V : Type} (acc : StdMap V) (k : Str) (v : V)
    (h : ∀ e ∈ acc, e.1 < k) : StdMap.assign acc k v = acc ++ [(k, v)] := by
  induction acc with
  | nil => rfl
  | cons e rest ih =>
    obtain ⟨k', v'⟩ := e
    have h1 : k' < k := h (k', v') (List.mem_cons_self _ _)
    have h2 : ¬ k < k' := not_lt_of_lt h1
    have h3 : ¬ k = k' := fun hh => (ne_of_lt h1) hh.symm
    simp only [StdMap.assign, if_neg h2, if_neg h3, List.cons_append]
    rw [ih (fun e he => h e (List.mem_cons_of_mem _ he))]

theorem foldl_assign_sorted (rest acc : PROPERTIES) (hs : StdMap.Sorted (acc ++ rest))
    (hk : ∀ p ∈ rest, '=' ∉ p.1) :
    (rest.map fieldOf).foldl
      (fun m field => StdMap.assign m (Spec.keyValue field).1 (Spec.keyValue field).2) acc
      = acc ++ rest := by
  induction rest generalizing acc with
  | nil => simp
  | cons p rest ih =>
    have hp := keyValue_fieldOf p (hk p (List.mem_cons_self _ _))
    simp only [List.map_cons, List.foldl_cons, hp]
    have hlt : ∀ e ∈ acc, e.1 < p.1 := by
      intro e he
      have := List.pairwise_append.1 hs
      exact this.2.2 e he p (List.mem_cons_self _ _)
    rw [StdMap.assign_last acc p.1 p.2 hlt]
    have hs' : StdMap.Sorted ((acc ++ [(p.1, p.2)]) ++ rest) := by
      simpa [StdMap.Sorted] using hs
    rw [ih _ hs' (fun q hq => hk q (List.mem_cons_of_mem _ hq))]
    simp

theorem fieldOf_getLast (p : Str × Str) (h1 : p.1.getLast? ≠ some '\\')
    (h2 : p.2.getLast? ≠ some '\\') : (fieldOf p).getLast? ≠ some '\\' := by
  obtain ⟨k, v⟩ := p
  by_cases hv : v = []
  · simpa [fieldOf, hv] using h1
  · obtain ⟨d, v', rfl⟩ := List.exists_cons_of_ne_nil hv
    simp only [fieldOf, if_false, reduceCtorEq]
    rw [List.getLast?_append_of_ne_nil _ (by simp), List.getLast?_cons_cons]
    exact h2

theorem fieldOf_dropSpace (p : Str × Str) (h1 : p.1 ≠ [])
    (h2 : ∀ c, p.1.head? = some c → isspace c = false) :
    (fieldOf p).dropWhile isspace = fieldOf p ∧ fieldOf p ≠ [] := by
  obtain ⟨k, v⟩ := p
  obtain ⟨c, k', rfl⟩ := List.exists_cons_of_ne_nil h1
  have hc : isspace c = false := h2 c rfl
  by_cases hv : v = [] <;> simp [fieldOf, hv, List.dropWhile_cons, hc]

theorem fields_join (m : List (Str × Str)) (hne : m ≠ []) (h : ∀ p ∈ m, Encodable p) :
    Spec.fields (Spec.join (m.map Spec.pairText)) = m.map fieldOf := by
  rw [Spec.fields, cutFields_join m hne
    (fun p hp => ⟨(h p hp).2.1, fieldOf_getLast p (h p hp).2.2.2.2.1 (h p hp).2.2.2.2.2⟩)]
  have hmap : (m.map fieldOf).map (List.dropWhile isspace) = m.map fieldOf := by
    rw [List.map_map]
    apply List.map_congr_left
    intro p hp
    exact (fieldOf_dropSpace p (h p hp).1 (h p hp).2.2.2.1).1
  rw [hmap]
  apply List.filter_eq_self.2
  intro f hf
  obtain ⟨p, hp, rfl⟩ := List.mem_map.1 hf
  simpa using (fieldOf_dropSpace p (h p hp).1 (h p hp).2.2.2.1).2

theorem roundtrip_core (m : PROPERTIES) (hm : m.Sorted) (hne : m ≠ [])
    (h : ∀ p ∈ m, Encodable p) : ParseOptions (FormatOptions (some m)) = some m := by
  rw [ParseOptions_eq_Decode]
  simp only [FormatOptions]
  rw [formatLoop_nil_of_keys m (fun p hp => (h p hp).1), Spec.Decode, fields_join m hne h]
  have := foldl_assign_sorted m [] (by simpa using hm) (fun p hp => (h p hp).2.2.1)
  simp only [List.nil_append] at this
  simp only [this, if_neg hne]



/-! ## What a decoded map looks like -/

theorem StdMap.mem_assign {V : Type} (m : StdMap V) (k : Str) (v : V) (e : Str × V)
    (he : e ∈ StdMap.assign m k v) : e = (k, v) ∨ e ∈ m := by
  induction m with
  | nil => simpa [StdMap.assign] using he
  | cons e' rest ih =>
    obtain ⟨k', v'⟩ := e'
    simp only [StdMap.assign] at he
    split_ifs at he with h1 h2
    · simpa using he
    · rcases List.mem_cons.1 he with h | h
      · exact Or.inl (by rw [h, h2])
      · exact Or.inr (List.mem_cons_of_mem _ h)
    · rcases List.mem_cons.1 he with h | h
      · exact Or.inr (h ▸ List.mem_cons_self _ _)
      · rcases ih h with h | h
        · exact Or.inl h
        · exact Or.inr (List.mem_cons_of_mem _ h)

theorem StdMap.assign_sorted {V : Type} (m : StdMap V) (k : Str) (v : V)
    (hs : m.Sorted) : (StdMap.assign m k v).Sorted := by
  induction m with
  | nil => simp [StdMap.assign, StdMap.Sorted]
  | cons e' rest ih =>
    obtain ⟨k', v'⟩ := e'
    have hs' := List.pairwise_cons.1 hs
    simp only [StdMap.assign]
    split_ifs with h1 h2
    · refine List.pairwise_cons.2 ⟨?_, hs⟩
      intro e he
      rcases List.mem_cons.1 he with h | h
      · rw [h]; exact h1
      · exact lt_trans h1 (hs'.1 e h)
    · exact List.pairwise_cons.2 ⟨hs'.1, hs'.2⟩
    · refine List.pairwise_cons.2 ⟨?_, ih hs'.2⟩
      intro e he
      rcases StdMap.mem_assign rest k v e he with h | h
      · rw [h]
        exact lt_of_le_of_ne (not_lt.1 h1) (Ne.symm h2)
      · exact hs'.1 e h

theorem foldl_assign_inv (fs : List Str) (acc : PROPERTIES) (Q : Str → Prop)
    (hs : acc.Sorted) (hq : ∀ p ∈ acc, Q p.1) (hf : ∀ f ∈ fs, Q (Spec.keyValue f).1) :
    (fs.foldl (fun m field => StdMap.assign m (Spec.keyValue field).1 (Spec.keyValue field).2)
        acc).Sorted
      ∧ ∀ p ∈ fs.foldl
          (fun m field => StdMap.assign m (Spec.keyValue field).1 (Spec.keyValue field).2) acc,
          Q p.1 := by
  induction fs generalizing acc with
  | nil => exact ⟨hs, hq⟩
  | cons f fs ih =>
    simp only [List.foldl_cons]
    apply ih
    · exact StdMap.assign_sorted _ _ _ hs
    · intro p hp
      rcases StdMap.mem_assign _ _ _ _ hp with h | h
      · rw [h]; exact hf f (List.mem_cons_self _ _)
      · exact hq p h
    · exact fun g hg => hf g (List.mem_cons_of_mem _ hg)

theorem dropWhile_head (p : Char → Bool) (l : Str) (c : Char)
    (h : (l.dropWhile p).head? = some c) : p c = false := by
  induction l with
  | nil => simp at h
  | cons d l ih =>
    by_cases hd : p d = true
    · simp only [List.dropWhile_cons, hd, if_true] at h
      exact ih h
    · simp only [List.dropWhile_cons, hd, if_false, List.head?_cons, Option.some.injEq,
        Bool.false_eq_true] at h
      subst h
      simpa using hd

theorem key_of_field (f : Str) (hf : ∀ c, f.head? = some c → isspace c = false) :
    '=' ∉ (Spec.keyValue f).1
      ∧ ∀ c, (Spec.keyValue f).1.head? = some c → isspace c = false := by
  constructor
  · intro hmem
    have := List.mem_takeWhile_imp hmem
    simp at this
  · intro c hc
    apply hf
    cases f with
    | nil => simp [Spec.keyValue] at hc
    | cons d f =>
      simp only [Spec.keyValue, List.takeWhile_cons] at hc
      split_ifs at hc with hd
      · simpa using hc
      · simp at hc

theorem fields_head (x f : Str) (hf : f ∈ Spec.fields x) :
    ∀ c, f.head? = some c → isspace c = false := by
  simp only [Spec.fields, List.mem_filter, List.mem_map] at hf
  obtain ⟨⟨g, _, rfl⟩, _⟩ := hf
  exact fun c hc => dropWhile_head isspace g c hc

theorem decoded_shape (x : Str) (m : PROPERTIES) (h : ParseOptions x = some m) :
    m.Sorted ∧ m ≠ [] ∧ ∀ p ∈ m, '=' ∉ p.1 ∧ ∀ c, p.1.head? = some c → isspace c = false := by
  rw [ParseOptions_eq_Decode] at h
  simp only [Spec.Decode] at h
  split_ifs at h with hnil
  simp only [Option.some.injEq] at h
  have := foldl_assign_inv (Spec.fields x) []
    (fun k => '=' ∉ k ∧ ∀ c, k.head? = some c → isspace c = false)
    List.Pairwise.nil (by simp) (fun f hf => key_of_field f (fields_head x f hf))
  rw [h] at this hnil
  exact ⟨this.1, hnil, this.2⟩


/-! ## Reading back a formatted table -/

theorem eraseLinesList_eq_map (cs : List SEXPR) :
    SEXPR.eraseLinesList cs = cs.map SEXPR.eraseLines := by
  induction cs with
  | nil => rfl
  | cons c cs ih => simp [SEXPR.eraseLinesList, ih]

theorem eraseLines_symbol (x : SEXPR) (v : Str) (h : x.eraseLines = .symbol v 0) :
    ∃ l, x = .symbol v l := by
  cases x <;> simp [SEXPR.eraseLines] at h
  exact ⟨_, by rw [h]⟩

theorem eraseLines_string (x : SEXPR) (v : Str) (h : x.eraseLines = .string v 0) :
    ∃ l, x = .string v l := by
  cases x <;> simp [SEXPR.eraseLines] at h
  exact ⟨_, by rw [h]⟩

theorem eraseLines_list (x : SEXPR) (cs : List SEXPR) (h : x.eraseLines = .list cs 0) :
    ∃ cs' l, x = .list cs' l ∧ cs'.map SEXPR.eraseLines = cs := by
  cases x <;> simp [SEXPR.eraseLines] at h
  exact ⟨_, _, rfl, by rw [← eraseLinesList_eq_map, h]⟩

theorem eraseLines_pair (x a b : SEXPR) (h : x.eraseLines = .list [a, b] 0) :
    ∃ a' b' l, x = .list [a', b'] l ∧ a'.eraseLines = a ∧ b'.eraseLines = b := by
  obtain ⟨cs, l, rfl, hcs⟩ := eraseLines_list x _ h
  match cs, hcs with
  | [a', b'], hcs =>
    simp only [List.map_cons, List.map_nil, List.cons.injEq, and_true] at hcs
    exact ⟨a', b', l, rfl, hcs.1, hcs.2⟩
  | [], hcs => simp at hcs
  | [_], hcs => simp at hcs
  | _ :: _ :: _ :: _, hcs => simp at hcs

theorem eraseLines_symPair (x : SEXPR) (k v : Str)
    (h : x.eraseLines = .list [.symbol k 0, .symbol v 0] 0) :
    ∃ l1 l2 l3, x = .list [.symbol k l1, .symbol v l2] l3 := by
  obtain ⟨a, b, l, rfl, ha, hb⟩ := eraseLines_pair x _ _ h
  obtain ⟨l1, rfl⟩ := eraseLines_symbol a k ha
  obtain ⟨l2, rfl⟩ := eraseLines_symbol b v hb
  exact ⟨l1, l2, l, rfl⟩

theorem eraseLines_strPair (x : SEXPR) (k v : Str)
    (h : x.eraseLines = .list [.symbol k 0, .string v 0] 0) :
    ∃ l1 l2 l3, x = .list [.symbol k l1, .string v l2] l3 := by
  obtain ⟨a, b, l, rfl, ha, hb⟩ := eraseLines_pair x _ _ h
  obtain ⟨l1, rfl⟩ := eraseLines_symbol a k ha
  obtain ⟨l2, rfl⟩ := eraseLines_string b v hb
  exact ⟨l1, l2, l, rfl⟩

theorem parsePair_name (io : IO_MGR) (row : ROW) (v : Str) (l1 l2 l3 : Nat) :
    parsePair io (.list [.symbol "name".toList l1, .symbol v l2] l3) row
      = .ok (row.SetNickName v) := rfl

theorem parsePair_type (io : IO_MGR) (row : ROW) (v : Str) (l1 l2 l3 : Nat) :
    parsePair io (.list [.symbol "type".toList l1, .symbol v l2] l3) row
      = .ok (row.SetType io v) := rfl

theorem parsePair_uri (io : IO_MGR) (row : ROW) (v : Str) (l1 l2 l3 : Nat) :
    parsePair io (.list [.symbol "uri".toList l1, .symbol v l2] l3) row
      = .ok (row.SetFullURI v) := rfl

theorem parsePair_options (io : IO_MGR) (row : ROW) (v : Str) (l1 l2 l3 : Nat) :
    parsePair io (.list [.symbol "options".toList l1, .string v l2] l3) row
      = .ok (row.SetOptions v) := rfl

theorem parsePair_descr (io : IO_MGR) (row : ROW) (v : Str) (l1 l2 l3 : Nat) :
    parsePair io (.list [.symbol "descr".toList l1, .string v l2] l3) row
      = .ok (row.SetDescr v) := rfl

theorem SetType_ShowType (io : IO_MGR) (row : ROW) (ty : PCB_FILE_T)
    (h : io.EnumFromStr (io.ShowType ty) = ty ∧ ty ≠ -1) :
    row.SetType io (io.ShowType ty) = { row with type := ty } := by
  have h2 : ¬ (-1 : PCB_FILE_T) = ty := fun hh => h.2 hh.symm
  simp only [ROW.SetType, h.1, if_neg h2]

theorem eraseLines_block (io : IO_MGR) (lib : SEXPR) (r : ROW)
    (h : lib.eraseLines = r.SerializeSEXPR io) :
    ∃ (l : Nat) (l0 : Nat) (p1 p2 p3 p4 p5 : SEXPR),
      lib = .list [.symbol "lib".toList l0, p1, p2, p3, p4, p5] l
        ∧ (∀ row, parsePair io p1 row = .ok (row.SetNickName r.nickName))
        ∧ (∀ row, parsePair io p2 row = .ok (row.SetType io (io.ShowType r.type)))
        ∧ (∀ row, parsePair io p3 row = .ok (row.SetFullURI r.uri_user))
        ∧ (∀ row, parsePair io p4 row = .ok (row.SetOptions r.options))
        ∧ (∀ row, parsePair io p5 row = .ok (row.SetDescr r.description)) := by
  obtain ⟨cs, l, rfl, hcs⟩ := eraseLines_list lib _ h
  match cs, hcs with
  | [c0, p1, p2, p3, p4, p5], hcs =>
    simp only [List.map_cons, List.map_nil, List.cons.injEq, and_true] at hcs
    obtain ⟨h0, h1, h2, h3, h4, h5⟩ := hcs
    obtain ⟨l0, rfl⟩ := eraseLines_symbol c0 _ h0
    obtain ⟨a1, a2, a3, rfl⟩ := eraseLines_symPair p1 _ _ h1
    obtain ⟨b1, b2, b3, rfl⟩ := eraseLines_symPair p2 _ _ h2
    obtain ⟨c1, c2, c3, rfl⟩ := eraseLines_symPair p3 _ _ h3
    obtain ⟨d1, d2, d3, rfl⟩ := eraseLines_strPair p4 _ _ h4
    obtain ⟨e1, e2, e3, rfl⟩ := eraseLines_strPair p5 _ _ h5
    exact ⟨l, l0, _, _, _, _, _, rfl, fun _ => rfl, fun _ => rfl, fun _ => rfl,
      fun _ => rfl, fun _ => rfl⟩
  | [], hcs => simp at hcs
  | [_], hcs => simp at hcs
  | [_, _], hcs => simp at hcs
  | [_, _, _], hcs => simp at hcs
  | [_, _, _, _], hcs => simp at hcs
  | [_, _, _, _, _], hcs => simp at hcs
  | _ :: _ :: _ :: _ :: _ :: _ :: _ :: _, hcs => simp at hcs

theorem parsePairs_block (io : IO_MGR) (r : ROW) (p1 p2 p3 p4 p5 : SEXPR)
    (hty : io.EnumFromStr (io.ShowType r.type) = r.type ∧ r.type ≠ -1)
    (h1 : ∀ row, parsePair io p1 row = .ok (row.SetNickName r.nickName))
    (h2 : ∀ row, parsePair io p2 row = .ok (row.SetType io (io.ShowType r.type)))
    (h3 : ∀ row, parsePair io p3 row = .ok (row.SetFullURI r.uri_user))
    (h4 : ∀ row, parsePair io p4 row = .ok (row.SetOptions r.options))
    (h5 : ∀ row, parsePair io p5 row = .ok (row.SetDescr r.description)) :
    parsePairs io [p1, p2, p3, p4, p5] (ROW.new io) = .ok r.reread := by
  simp only [parsePairs, h1, h2, h3, h4, h5, SetType_ShowType io _ r.type hty]
  rfl

theorem reread_copy (r : ROW) : r.reread.copy = r.reread := rfl

theorem reread_nickName (r : ROW) : r.reread.nickName = r.nickName := rfl

theorem checkLibList_block (l l0 : Nat) (rest : List SEXPR) :
    checkLibList (.list (.symbol "lib".toList l0 :: rest) l) = .ok () := rfl

theorem parseLibList_block (io : IO_MGR) (t : FP_LIB_TABLE) (lib : SEXPR) (r : ROW)
    (hidx : t.IndexOK)
    (hty : io.EnumFromStr (io.ShowType r.type) = r.type ∧ r.type ≠ -1)
    (habs : ∀ x ∈ t.rows, x.nickName ≠ r.nickName)
    (h : lib.eraseLines = r.SerializeSEXPR io) :
    checkLibList lib = .ok ()
      ∧ t.parseLibList io lib = (none, (t.InsertRow r.reread false).2)
      ∧ (t.InsertRow r.reread false).2.rows = t.rows ++ [r.reread]
      ∧ (t.InsertRow r.reread false).2.IndexOK
      ∧ (t.InsertRow r.reread false).2.fallBack = t.fallBack := by
  obtain ⟨l, l0, p1, p2, p3, p4, p5, rfl, h1, h2, h3, h4, h5⟩ := eraseLines_block io lib r h
  have hrow := parsePairs_block io r p1 p2 p3 p4 p5 hty h1 h2 h3 h4 h5
  have hnone := (firstNamed_eq_none r.reread.nickName t.rows).2 habs
  have hins := InsertRow_eq t r.reread false hidx
  rw [hnone] at hins
  have hok := InsertRow_IndexOK t r.reread false hidx
  refine ⟨rfl, ?_, ?_, hok, ?_⟩
  · simp only [FP_LIB_TABLE.parseLibList, SEXPR.children, List.drop_succ_cons, List.drop_zero,
      hrow]
    rw [hins]
    rfl
  · rw [hins]; rfl
  · rw [hins]; rfl

theorem parseLibs_blocks (io : IO_MGR) (rows : List ROW) :
    ∀ (libs : List SEXPR) (t : FP_LIB_TABLE), t.IndexOK →
      (∀ r ∈ rows, io.EnumFromStr (io.ShowType r.type) = r.type ∧ r.type ≠ -1) →
      ((t.rows ++ rows).map ROW.nickName).Nodup →
      libs.map SEXPR.eraseLines = rows.map (ROW.SerializeSEXPR io) →
      ∃ t', parseLibs io libs t = (none, t') ∧ t'.rows = t.rows ++ rows.map ROW.reread
        ∧ t'.fallBack = t.fallBack := by
  induction rows with
  | nil =>
    intro libs t _ _ _ hl
    have : libs = [] := by simpa using hl
    subst this
    exact ⟨t, rfl, by simp, rfl⟩
  | cons r rows ih =>
    intro libs t hidx hty hnd hl
    match libs, hl with
    | [], hl => simp at hl
    | lib :: libs, hl =>
      simp only [List.map_cons, List.cons.injEq] at hl
      have habs : ∀ x ∈ t.rows, x.nickName ≠ r.nickName := by
        intro x hx hxn
        rw [List.map_append, List.nodup_append] at hnd
        exact hnd.2.2 (List.mem_map_of_mem _ hx)
          (by rw [hxn]; exact List.mem_map_of_mem _ (List.mem_cons_self _ _))
      obtain ⟨hc, hp, hrows, hok, hfb⟩ := parseLibList_block io t lib r hidx
        (hty r (List.mem_cons_self _ _)) habs hl.1
      have hnd' : (((t.InsertRow r.reread false).2.rows ++ rows).map ROW.nickName).Nodup := by
        rw [hrows]
        simpa [reread_nickName] using hnd
      obtain ⟨t', ht', hrows', hfb'⟩ := ih libs (t.InsertRow r.reread false).2 hok
        (fun x hx => hty x (List.mem_cons_of_mem _ hx)) hnd' hl.2
      refine ⟨t', ?_, ?_, ?_⟩
      · simp only [parseLibs, hc, hp, ht']
      · rw [hrows', hrows]; simp
      · rw [hfb', hfb]

theorem SerializeSEXPR_reread (io : IO_MGR) (r : ROW) :
    r.reread.SerializeSEXPR io = r.SerializeSEXPR io := rfl

theorem ParseTree_FormatTree (io : IO_MGR) (t : FP_LIB_TABLE) (fb : Option FP_LIB_TABLE)
    (tree : SEXPR) (huniq : t.UniqueNicks)
    (hty : ∀ r ∈ t.rows, io.EnumFromStr (io.ShowType r.type) = r.type ∧ r.type ≠ -1)
    (h : tree.eraseLines = t.FormatTree io) :
    ∃ t', (FP_LIB_TABLE.new fb).ParseTree io tree = (none, t')
      ∧ t'.rows = t.rows.map ROW.reread ∧ t'.FormatTree io = t.FormatTree io := by
  obtain ⟨cs, l, rfl, hcs⟩ := eraseLines_list tree _ h
  match cs, hcs with
  | [], hcs => simp at hcs
  | c0 :: libs, hcs =>
    simp only [List.map_cons, List.cons.injEq] at hcs
    obtain ⟨l0, rfl⟩ := eraseLines_symbol c0 _ hcs.1
    obtain ⟨t', ht', hrows, _⟩ := parseLibs_blocks io t.rows libs (FP_LIB_TABLE.new fb)
      (Or.inl rfl) hty (by simpa [FP_LIB_TABLE.new] using huniq) hcs.2
    refine ⟨t', ?_, by simpa [FP_LIB_TABLE.new] using hrows, ?_⟩
    · rw [← ht']
      rfl
    · simp only [FP_LIB_TABLE.FormatTree, hrows, FP_LIB_TABLE.new, rows_mk, List.nil_append,
        List.map_map]
      congr 2

theorem InsertRow_UniqueNicks (t : FP_LIB_TABLE) (r : ROW) (b : Bool) (hidx : t.IndexOK)
    (hu : t.UniqueNicks) : (t.InsertRow r b).2.UniqueNicks := by
  rw [InsertRow_eq t r b hidx]
  cases hf : firstNamed r.nickName t.rows with
  | none =>
    have habs := (firstNamed_eq_none _ _).1 hf
    simp only [FP_LIB_TABLE.UniqueNicks, rows_mk, List.map_append, List.map_cons, List.map_nil,
      ROW.copy_nickName]
    refine List.Nodup.append hu (List.nodup_singleton _) ?_
    intro n hn hn'
    obtain ⟨x, hx, rfl⟩ := List.mem_map.1 hn
    exact habs x hx (by simpa using hn')
  | some pos =>
    obtain ⟨⟨x, hx, hxn⟩, _⟩ := (firstNamed_eq_some _ _ _).1 hf
    cases b
    · exact hu
    · simp only [if_true, FP_LIB_TABLE.UniqueNicks, rows_mk]
      rw [map_nickName_set _ _ x _ hx (by simpa using hxn)]
      exact hu

theorem Built_invariant (t : FP_LIB_TABLE) (h : t.Built) : t.IndexOK ∧ t.UniqueNicks := by
  induction h with
  | new fb => exact ⟨Or.inl rfl, by simp [FP_LIB_TABLE.UniqueNicks, FP_LIB_TABLE.new]⟩
  | insert t r b _ ih =>
    exact ⟨InsertRow_IndexOK t r b ih.1, InsertRow_UniqueNicks t r b ih.1 ih.2⟩

theorem forall₂_beq_reread (rows : List ROW) :
    List.Forall₂ (fun a b => a.beq b = true) (rows.map ROW.reread) rows := by
  induction rows with
  | nil => exact List.Forall₂.nil
  | cons r rows ih =>
    exact List.Forall₂.cons (by simp [ROW.beq, ROW.reread]) ih

/-! ## Tables built by InsertRow -/

theorem InsertRow_index_accurate (t : FP_LIB_TABLE) (r : ROW) (b : Bool) (h : t.IndexOK) :
    (t.InsertRow r b).2.nickIndex = reindexLoop (t.InsertRow r b).2.rows 0 [] := by
  have hok := InsertRow_IndexOK t r b h
  rcases hok with h0 | h1
  · -- an empty index after InsertRow means there are no rows
    rw [h0]
    rw [InsertRow_eq t r b h] at h0 ⊢
    cases hf : firstNamed r.nickName t.rows with
    | none =>
      rw [hf] at h0
      simp only [nickIndex_mk] at h0
      exfalso
      have hmem : (r.nickName, (t.rows ++ [r.copy]).length - 1)
          ∈ StdMap.insert (reindexLoop t.rows 0 []) r.nickName ((t.rows ++ [r.copy]).length - 1)
            ∨ ∃ v, (r.nickName, v) ∈ StdMap.insert (reindexLoop t.rows 0 []) r.nickName
              ((t.rows ++ [r.copy]).length - 1) := by
        have hfind := StdMap.find_insert (reindexLoop t.rows 0 []) r.nickName
          ((t.rows ++ [r.copy]).length - 1) r.nickName
          (reindexLoop_sorted t.rows 0 [] List.Pairwise.nil)
        rw [h0] at hfind
        simp [StdMap.find] at hfind
      rw [h0] at hmem
      simp at hmem
    | some pos =>
      rw [hf] at h0
      obtain ⟨⟨x, hx, hxn⟩, _⟩ := (firstNamed_eq_some _ _ _).1 hf
      have hset := reindexLoop_congr _ _ 0 [] (map_nickName_set t.rows pos x r.assign hx
        (by simpa using hxn))
      cases b
      · simp only [Bool.false_eq_true, if_false, nickIndex_mk, rows_mk] at h0 ⊢
        exact h0.symm
      · simp only [if_true, nickIndex_mk, rows_mk] at h0 ⊢
        rw [hset]
        exact h0.symm
  · exact h1

theorem Built_index_accurate (t : FP_LIB_TABLE) (h : t.Built) :
    t.nickIndex = reindexLoop t.rows 0 [] := by
  cases h with
  | new fb => rfl
  | insert t0 r b h0 => exact InsertRow_index_accurate t0 r b (Built_invariant t0 h0).1

theorem firstNamed_eq_some_of_unique (n : Str) (rows : List ROW) (i : Nat)
    (hu : (rows.map ROW.nickName).Nodup) :
    firstNamed n rows = some i ↔ ∃ r, rows.get? i = some r ∧ r.nickName = n := by
  constructor
  · intro h
    exact ((firstNamed_eq_some n rows i).1 h).1
  · rintro ⟨r, hr, hn⟩
    exact firstNamed_of_unique n rows i r hu hr hn

/-! ## parseLibList and the loop of Parse -/

theorem parseLibList_eq (io : IO_MGR) (t : FP_LIB_TABLE) (lib : SEXPR)
    (children : List SEXPR) (row : ROW) (hc : lib.children = .ok children)
    (hp : parsePairs io (children.drop 1) (ROW.new io) = .ok row) :
    t.parseLibList io lib =
      (if (t.InsertRow row false).1 then none
        else some (.syntaxError (duplicateMessage row.nickName) lib.GetLineNumber),
        (t.InsertRow row false).2) := by
  simp only [FP_LIB_TABLE.parseLibList, hc, hp, duplicateMessage]
  cases (t.InsertRow row false).1 <;> rfl

theorem parseLibList_IndexOK (io : IO_MGR) (t : FP_LIB_TABLE) (lib : SEXPR)
    (h : t.IndexOK) : (t.parseLibList io lib).2.IndexOK := by
  simp only [FP_LIB_TABLE.parseLibList]
  cases lib.children with
  | error e => exact h
  | ok children =>
    simp only
    cases parsePairs io (children.drop 1) (ROW.new io) with
    | error e => exact h
    | ok row =>
      simp only
      have := InsertRow_IndexOK t row false h
      cases (t.InsertRow row false).1 <;> exact this

theorem parseLibs_IndexOK (io : IO_MGR) (libs : List SEXPR) :
    ∀ t : FP_LIB_TABLE, t.IndexOK → (parseLibs io libs t).2.IndexOK := by
  induction libs with
  | nil => exact fun t h => h
  | cons lib libs ih =>
    intro t h
    simp only [parseLibs]
    cases checkLibList lib with
    | error e => exact h
    | ok u =>
      simp only
      have h1 := parseLibList_IndexOK io t lib h
      rcases hres : t.parseLibList io lib with ⟨e, t1⟩
      rw [hres] at h1
      cases e with
      | some e => exact h1
      | none => exact ih t1 h1

theorem parseLibs_append (io : IO_MGR) (pre post : List SEXPR) (t t1 : FP_LIB_TABLE)
    (h : parseLibs io pre t = (none, t1)) :
    parseLibs io (pre ++ post) t = parseLibs io post t1 := by
  induction pre generalizing t with
  | nil =>
    simp only [parseLibs, Prod.mk.injEq, true_and] at h
    subst h
    rfl
  | cons lib pre ih =>
    simp only [parseLibs, List.cons_append] at h ⊢
    cases hc : checkLibList lib with
    | error e => rw [hc] at h; simp at h
    | ok u =>
      rw [hc] at h
      simp only at h ⊢
      rcases hres : t.parseLibList io lib with ⟨e, t0⟩
      rw [hres] at h
      cases e with
      | some e => simp at h
      | none =>
        simp only at h ⊢
        exact ih t0 h

theorem ParseTree_root (io : IO_MGR) (t : FP_LIB_TABLE) (l0 l : Nat) (libs : List SEXPR) :
    t.ParseTree io (.list (.symbol "fp_lib_table".toList l0 :: libs) l) = parseLibs io libs t :=
  rfl

theorem InsertRow_present_false (t : FP_LIB_TABLE) (r : ROW) (hidx : t.IndexOK)
    (hdup : ∃ x ∈ t.rows, x.nickName = r.nickName) :
    (t.InsertRow r false).1 = false ∧ (t.InsertRow r false).2.rows = t.rows := by
  obtain ⟨pos, hpos⟩ := firstNamed_isSome_of_mem r.nickName t.rows hdup
  rw [InsertRow_eq t r false hidx, hpos]
  exact ⟨rfl, rfl⟩

theorem InsertRow_absent_true (t : FP_LIB_TABLE) (r : ROW) (b : Bool) (hidx : t.IndexOK)
    (habs : ∀ x ∈ t.rows, x.nickName ≠ r.nickName) :
    (t.InsertRow r b).1 = true ∧ (t.InsertRow r b).2.rows = t.rows ++ [r.copy] := by
  have hnone := (firstNamed_eq_none r.nickName t.rows).2 habs
  rw [InsertRow_eq t r b hidx, hnone]
  exact ⟨rfl, rfl⟩

theorem InsertRow_fst_eq_false_iff (t : FP_LIB_TABLE) (r : ROW) (b : Bool) (hidx : t.IndexOK) :
    (t.InsertRow r b).1 = false ↔ b = false ∧ ∃ x ∈ t.rows, x.nickName = r.nickName := by
  constructor
  · intro h
    by_cases hex : ∃ x ∈ t.rows, x.nickName = r.nickName
    · refine ⟨?_, hex⟩
      obtain ⟨pos, hpos⟩ := firstNamed_isSome_of_mem r.nickName t.rows hex
      rw [InsertRow_eq t r b hidx, hpos] at h
      cases b
      · rfl
      · simp at h
    · have habs : ∀ x ∈ t.rows, x.nickName ≠ r.nickName := fun x hx hn => hex ⟨x, hx, hn⟩
      rw [(InsertRow_absent_true t r b hidx habs).1] at h
      exact absurd h (by decide)
  · rintro ⟨rfl, hex⟩
    exact (InsertRow_present_false t r hidx hex).1

/-! ## The row a `lib` block builds -/

theorem ROW.eta (r : ROW) :
    ({ nickName := r.nickName, uri_user := r.uri_user, type := r.type, options := r.options,
       description := r.description, properties := r.properties, plugin := r.plugin } : ROW)
      = r := by
  cases r; rfl

theorem lastValue_single (key : Str) (p : SEXPR) :
    Spec.lastValue key [p] =
      match Spec.pairKeyValue p with
      | some (k, some value) => if k = key then some value else none
      | _ => none := by
  simp only [Spec.lastValue]

theorem parsePair_eq_rowOfPairs (io : IO_MGR) (p : SEXPR) (row : ROW)
    (h : Spec.pairKeyValue p ≠ none) :
    parsePair io p row = .ok (Spec.rowOfPairs io [p] row) := by
  match p, h with
  | .list (.symbol key l1 :: rest) l, h =>
    by_cases h1 : key = "name".toList
    · subst h1
      match rest, h with
      | .symbol v l2 :: rest', _ =>
        have : Spec.pairKeyValue (.list (.symbol "name".toList l1 :: .symbol v l2 :: rest') l)
            = some ("name".toList, some v) := by simp [Spec.pairKeyValue]
        simp only [Spec.rowOfPairs, lastValue_single, this]
        simp [parsePair, SEXPR.IsList, SEXPR.GetChild, SEXPR.IsSymbol, SEXPR.GetSymbol,
          ROW.SetNickName, bind, Except.bind, pure, Except.pure]
      | [], h => simp [Spec.pairKeyValue] at h
      | .string _ _ :: _, h => simp [Spec.pairKeyValue] at h
      | .integer _ _ :: _, h => simp [Spec.pairKeyValue] at h
      | .double _ _ :: _, h => simp [Spec.pairKeyValue] at h
      | .list _ _ :: _, h => simp [Spec.pairKeyValue] at h
    · by_cases h2 : key = "uri".toList
      · subst h2
        match rest, h with
        | .symbol v l2 :: rest', _ =>
          have : Spec.pairKeyValue (.list (.symbol "uri".toList l1 :: .symbol v l2 :: rest') l)
              = some ("uri".toList, some v) := by simp [Spec.pairKeyValue]
          simp only [Spec.rowOfPairs, lastValue_single, this]
          simp [parsePair, SEXPR.IsList, SEXPR.GetChild, SEXPR.IsSymbol, SEXPR.GetSymbol,
            ROW.SetFullURI, bind, Except.bind, pure, Except.pure]
        | [], h => simp [Spec.pairKeyValue] at h
        | .string _ _ :: _, h => simp [Spec.pairKeyValue] at h
        | .integer _ _ :: _, h => simp [Spec.pairKeyValue] at h
        | .double _ _ :: _, h => simp [Spec.pairKeyValue] at h
        | .list _ _ :: _, h => simp [Spec.pairKeyValue] at h
      · by_cases h3 : key = "type".toList
        · subst h3
          match rest, h with
          | .symbol v l2 :: rest', _ =>
            have : Spec.pairKeyValue (.list (.symbol "type".toList l1 :: .symbol v l2 :: rest') l)
                = some ("type".toList, some v) := by simp [Spec.pairKeyValue]
            simp only [Spec.rowOfPairs, lastValue_single, this]
            simp [parsePair, SEXPR.IsList, SEXPR.GetChild, SEXPR.IsSymbol, SEXPR.GetSymbol,
              ROW.SetType, bind, Except.bind, pure, Except.pure]
          | [], h => simp [Spec.pairKeyValue] at h
          | .string _ _ :: _, h => simp [Spec.pairKeyValue] at h
          | .integer _ _ :: _, h => simp [Spec.pairKeyValue] at h
          | .double _ _ :: _, h => simp [Spec.pairKeyValue] at h
          | .list _ _ :: _, h => simp [Spec.pairKeyValue] at h
        · by_cases h4 : key = "options".toList
          · subst h4
            match rest, h with
            | .string v l2 :: rest', _ =>
              have : Spec.pairKeyValue
                  (.list (.symbol "options".toList l1 :: .string v l2 :: rest') l)
                  = some ("options".toList, some v) := by simp [Spec.pairKeyValue]
              simp only [Spec.rowOfPairs, lastValue_single, this]
              simp [parsePair, SEXPR.IsList, SEXPR.GetChild, SEXPR.IsSymbol, SEXPR.GetSymbol,
                SEXPR.IsString, SEXPR.GetString, ROW.SetOptions, bind, Except.bind, pure,
                Except.pure]
            | [], h => simp [Spec.pairKeyValue] at h
            | .symbol _ _ :: _, h => simp [Spec.pairKeyValue] at h
            | .integer _ _ :: _, h => simp [Spec.pairKeyValue] at h
            | .double _ _ :: _, h => simp [Spec.pairKeyValue] at h
            | .list _ _ :: _, h => simp [Spec.pairKeyValue] at h
          · by_cases h5 : key = "descr".toList
            · subst h5
              match rest, h with
              | .string v l2 :: rest', _ =>
                have : Spec.pairKeyValue
                    (.list (.symbol "descr".toList l1 :: .string v l2 :: rest') l)
                    = some ("descr".toList, some v) := by simp [Spec.pairKeyValue]
                simp only [Spec.rowOfPairs, lastValue_single, this]
                simp [parsePair, SEXPR.IsList, SEXPR.GetChild, SEXPR.IsSymbol, SEXPR.GetSymbol,
                  SEXPR.IsString, SEXPR.GetString, ROW.SetDescr, bind, Except.bind, pure,
                  Except.pure]
              | .symbol v l2 :: rest', _ =>
                have : Spec.pairKeyValue
                    (.list (.symbol "descr".toList l1 :: .symbol v l2 :: rest') l)
                    = some ("descr".toList, some v) := by simp [Spec.pairKeyValue]
                simp only [Spec.rowOfPairs, lastValue_single, this]
                simp [parsePair, SEXPR.IsList, SEXPR.GetChild, SEXPR.IsSymbol, SEXPR.GetSymbol,
                  SEXPR.IsString, SEXPR.GetString, ROW.SetDescr, bind, Except.bind, pure,
                  Except.pure]
              | [], h => simp [Spec.pairKeyValue] at h
              | .integer _ _ :: _, h => simp [Spec.pairKeyValue] at h
              | .double _ _ :: _, h => simp [Spec.pairKeyValue] at h
              | .list _ _ :: _, h => simp [Spec.pairKeyValue] at h
            · have e1 : "name".toList = ['n', 'a', 'm', 'e'] := rfl
              have e2 : "uri".toList = ['u', 'r', 'i'] := rfl
              have e3 : "type".toList = ['t', 'y', 'p', 'e'] := rfl
              have e4 : "options".toList = ['o', 'p', 't', 'i', 'o', 'n', 's'] := rfl
              have e5 : "descr".toList = ['d', 'e', 's', 'c', 'r'] := rfl
              rw [e1] at h1
              rw [e2] at h2
              rw [e3] at h3
              rw [e4] at h4
              rw [e5] at h5
              have : Spec.pairKeyValue (.list (.symbol key l1 :: rest) l) = some (key, none) := by
                simp [Spec.pairKeyValue, h1, h2, h3, h4, h5]
              simp only [Spec.rowOfPairs, lastValue_single, this, Option.getD_none, ROW.eta]
              simp [parsePair, SEXPR.IsList, SEXPR.GetChild, SEXPR.IsSymbol, SEXPR.GetSymbol,
                h1, h2, h3, h4, h5, bind, Except.bind, pure, Except.pure]
  | .list [] _, h => simp [Spec.pairKeyValue] at h
  | .list (.string _ _ :: _) _, h => simp [Spec.pairKeyValue] at h
  | .list (.integer _ _ :: _) _, h => simp [Spec.pairKeyValue] at h
  | .list (.double _ _ :: _) _, h => simp [Spec.pairKeyValue] at h
  | .list (.list _ _ :: _) _, h => simp [Spec.pairKeyValue] at h
  | .symbol _ _, h => simp [Spec.pairKeyValue] at h
  | .string _ _, h => simp [Spec.pairKeyValue] at h
  | .integer _ _, h => simp [Spec.pairKeyValue] at h
  | .double _ _, h => simp [Spec.pairKeyValue] at h

theorem lastValue_cons (key : Str) (p : SEXPR) (rest : List SEXPR) :
    Spec.lastValue key (p :: rest) =
      match Spec.lastValue key rest with
      | some value => some value
      | none => Spec.lastValue key [p] := by
  simp only [Spec.lastValue]

theorem SetType_type (io : IO_MGR) (r1 r2 : ROW) (v : Str) :
    (r1.SetType io v).type = (r2.SetType io v).type := rfl

theorem rowOfPairs_nil (io : IO_MGR) (row0 : ROW) : Spec.rowOfPairs io [] row0 = row0 := by
  simp only [Spec.rowOfPairs, Spec.lastValue, Option.getD_none, ROW.eta]

theorem rowOfPairs_cons (io : IO_MGR) (p : SEXPR) (rest : List SEXPR) (row0 : ROW) :
    Spec.rowOfPairs io (p :: rest) row0
      = Spec.rowOfPairs io rest (Spec.rowOfPairs io [p] row0) := by
  simp only [Spec.rowOfPairs, lastValue_cons _ p rest]
  cases Spec.lastValue "name".toList rest <;> cases Spec.lastValue "uri".toList rest <;>
    cases Spec.lastValue "type".toList rest <;> cases Spec.lastValue "options".toList rest <;>
    cases Spec.lastValue "descr".toList rest <;> simp [SetType_type io _ row0]

theorem parsePairs_eq_rowOfPairs (io : IO_MGR) (pairs : List SEXPR) :
    ∀ row0 : ROW, (∀ p ∈ pairs, Spec.pairKeyValue p ≠ none) →
      parsePairs io pairs row0 = .ok (Spec.rowOfPairs io pairs row0) := by
  induction pairs with
  | nil =>
    intro row0 _
    rw [rowOfPairs_nil]
    rfl
  | cons p rest ih =>
    intro row0 h
    simp only [parsePairs, parsePair_eq_rowOfPairs io p row0 (h p (List.mem_cons_self _ _))]
    rw [ih _ (fun q hq => h q (List.mem_cons_of_mem _ hq)), rowOfPairs_cons io p rest row0]

theorem lastValue_ignores (key : Str) (q : SEXPR) (k : Str)
    (hq : Spec.pairKeyValue q = some (k, none)) (pre post : List SEXPR) :
    Spec.lastValue key (pre ++ q :: post) = Spec.lastValue key (pre ++ post) := by
  induction pre with
  | nil =>
    simp only [List.nil_append]
    rw [lastValue_cons, lastValue_single, hq]
    cases Spec.lastValue key post <;> rfl
  | cons p pre ih =>
    simp only [List.cons_append]
    rw [lastValue_cons, lastValue_cons key p (pre ++ post), ih]

theorem rowOfPairs_ignores (io : IO_MGR) (q : SEXPR) (k : Str)
    (hq : Spec.pairKeyValue q = some (k, none)) (pre post : List SEXPR) (row0 : ROW) :
    Spec.rowOfPairs io (pre ++ q :: post) row0 = Spec.rowOfPairs io (pre ++ post) row0 := by
  simp only [Spec.rowOfPairs, lastValue_ignores _ q k hq]

theorem checkLibList_atom (atom : SEXPR) (h : atom.IsList = false) :
    checkLibList atom = .error .accessor := by
  cases atom <;> first | rfl | simp [SEXPR.IsList] at h

/-! ## Page layout items -/

theorem resolve_offsetFor {D : Type} [CommRing D] (page : PAGE_CORNERS D)
    (anchor : corner_anchor) (p : DPOINT D) :
    resolve page anchor (offsetFor page anchor p) = p := by
  obtain ⟨px, py⟩ := p
  cases anchor <;>
    simp only [resolve, offsetFor, DPOINT.sub, DPOINT.add, DPOINT.mk.injEq] <;>
    constructor <;> ring

theorem offsetFor_resolve {D : Type} [CommRing D] (page : PAGE_CORNERS D)
    (anchor : corner_anchor) (p : DPOINT D) :
    offsetFor page anchor (resolve page anchor p) = p := by
  obtain ⟨px, py⟩ := p
  cases anchor <;>
    simp only [resolve, offsetFor, DPOINT.sub, DPOINT.add, DPOINT.mk.injEq] <;>
    constructor <;> ring

theorem index_zero {D : Type} [CommRing D] (a b : D) : a + b * ((0 : Int) : D) = a := by
  simp

/-! ## The page-1 option bits -/

theorem two_pow_ne (a b : Nat) (h : a ≠ b) : (2 : Nat) ^ a ≠ 2 ^ b :=
  fun hh => h (Nat.pow_right_injective (le_refl 2) hh)

theorem masks_lt (a b : Nat) (ha : a < 32) (hb : b < 32) : 2 ^ a ||| 2 ^ b < 2 ^ 32 :=
  Nat.or_lt_two_pow (Nat.pow_lt_pow_right (by decide) ha) (Nat.pow_lt_pow_right (by decide) hb)

theorem testBit_cleared (f a b k : Nat) (ha : a < 32) (hb : b < 32) :
    (f &&& (2 ^ 32 - ((2 ^ a ||| 2 ^ b) + 1))).testBit k
      = (f.testBit k && (decide (k < 32) && !(decide (a = k) || decide (b = k)))) := by
  rw [Nat.testBit_and, Nat.testBit_two_pow_sub_succ (masks_lt a b ha hb), Nat.testBit_or,
    Nat.testBit_two_pow, Nat.testBit_two_pow]

theorem cleared_and_mask (f a b : Nat) (ha : a < 32) (hb : b < 32) :
    (f &&& (2 ^ 32 - ((2 ^ a ||| 2 ^ b) + 1))) &&& (2 ^ a ||| 2 ^ b) = 0 := by
  apply Nat.eq_of_testBit_eq
  intro k
  rw [Nat.testBit_and, testBit_cleared f a b k ha hb, Nat.testBit_or, Nat.testBit_two_pow,
    Nat.testBit_two_pow, Nat.zero_testBit]
  by_cases h1 : a = k <;> by_cases h2 : b = k <;> simp [h1, h2]

theorem set_and_mask (f a b : Nat) (ha : a < 32) (hb : b < 32) :
    ((f &&& (2 ^ 32 - ((2 ^ a ||| 2 ^ b) + 1))) ||| 2 ^ a) &&& (2 ^ a ||| 2 ^ b) = 2 ^ a := by
  apply Nat.eq_of_testBit_eq
  intro k
  rw [Nat.testBit_and, Nat.testBit_or, testBit_cleared f a b k ha hb, Nat.testBit_or,
    Nat.testBit_two_pow, Nat.testBit_two_pow]
  by_cases h1 : a = k <;> by_cases h2 : b = k <;> simp [h1, h2]

theorem set_and_other (f a b : Nat) (ha : a < 32) (hb : b < 32) (hab : a ≠ b) :
    ((f &&& (2 ^ 32 - ((2 ^ a ||| 2 ^ b) + 1))) ||| 2 ^ a) &&& 2 ^ b = 0 := by
  apply Nat.eq_of_testBit_eq
  intro k
  rw [Nat.testBit_and, Nat.testBit_or, testBit_cleared f a b k ha hb,
    Nat.testBit_two_pow, Nat.testBit_two_pow, Nat.zero_testBit]
  by_cases h1 : a = k <;> by_cases h2 : b = k <;> simp [h1, h2]
  exact hab (h1.trans h2.symm)

theorem cleared_outside (f a b k : Nat) (ha : a < 32) (hb : b < 32) (hf : f < 2 ^ 32)
    (hk : (2 ^ a ||| 2 ^ b).testBit k = false) (extra : Nat)
    (hextra : extra = 0 ∨ extra = 2 ^ a ∨ extra = 2 ^ b) :
    ((f &&& (2 ^ 32 - ((2 ^ a ||| 2 ^ b) + 1))) ||| extra).testBit k = f.testBit k := by
  rw [Nat.testBit_or, Nat.testBit_two_pow, Nat.testBit_two_pow] at hk
  have h1 : ¬ a = k := by
    intro h; simp [h] at hk
  have h2 : ¬ b = k := by
    intro h; simp [h] at hk
  have hx : extra.testBit k = false := by
    rcases hextra with h | h | h
    · rw [h, Nat.zero_testBit]
    · rw [h, Nat.testBit_two_pow]; simp [h1]
    · rw [h, Nat.testBit_two_pow]; simp [h2]
  rw [Nat.testBit_or, testBit_cleared f a b k ha hb, hx]
  by_cases hk32 : k < 32
  · simp [hk32, h1, h2]
  · have : f.testBit k = false :=
      Nat.testBit_lt_two_pow (lt_of_lt_of_le hf (Nat.pow_le_pow_right (by decide) (by omega)))
    simp [this]

/-! ### What the readers of the page layout items leave untouched -/

theorem deserializeOptionTokens_keeps (m : PAGE1_MASKS) (tokens : List SEXPR) :
    ∀ (item r : WORKSHEET_DATAITEM Rat), deserializeOptionTokens m tokens item = .ok r →
      r.m_type = item.m_type ∧ r.m_Name = item.m_Name := by
  induction tokens with
  | nil =>
    intro item r h
    simp only [deserializeOptionTokens, Except.ok.injEq] at h
    subst h
    exact ⟨rfl, rfl⟩
  | cons node rest ih =>
    intro item r h
    simp only [deserializeOptionTokens] at h
    split at h
    · cases h
    · split at h
      · have := ih _ _ h
        simpa [WORKSHEET_DATAITEM.SetPage1Option, WORKSHEET_DATAITEM.ClearFlags,
          WORKSHEET_DATAITEM.SetFlags] using this
      · split at h
        · have := ih _ _ h
          simpa [WORKSHEET_DATAITEM.SetPage1Option, WORKSHEET_DATAITEM.ClearFlags,
            WORKSHEET_DATAITEM.SetFlags] using this
        · cases h

theorem deserializeSEXPROption_keeps (m : PAGE1_MASKS) (list : SEXPR)
    (item r : WORKSHEET_DATAITEM Rat) (h : item.deserializeSEXPROption m list = .ok r) :
    r.m_type = item.m_type ∧ r.m_Name = item.m_Name := by
  unfold WORKSHEET_DATAITEM.deserializeSEXPROption at h
  split at h
  · cases h
  · exact deserializeOptionTokens_keeps m _ _ _ h

theorem deserializeChild_keeps (m : PAGE1_MASKS) (child : SEXPR)
    (item r : WORKSHEET_DATAITEM Rat) (h : item.deserializeChild m child = .ok r) :
    r.m_type = item.m_type
      ∧ (childSymbol child ≠ .ok "name".toList → r.m_Name = item.m_Name) := by
  cases hs : childSymbol child with
  | error e =>
    unfold WORKSHEET_DATAITEM.deserializeChild at h
    rw [hs] at h; cases h
  | ok sym =>
    unfold WORKSHEET_DATAITEM.deserializeChild at h
    rw [hs] at h
    simp only [bind, Except.bind, pure, Except.pure] at h
    by_cases h1 : sym = "comment".toList
    · rw [if_pos h1] at h
      split at h
      · cases h
      · cases h; exact ⟨rfl, fun _ => rfl⟩
    rw [if_neg h1] at h
    by_cases h2 : sym = "name".toList
    · rw [if_pos h2] at h
      split at h
      · cases h
      · cases h; exact ⟨rfl, fun hne => absurd (by rw [h2]) hne⟩
    rw [if_neg h2] at h
    by_cases h3 : sym = "option".toList
    · rw [if_pos h3] at h
      have := deserializeSEXPROption_keeps m _ _ _ h
      exact ⟨this.1, fun _ => this.2⟩
    rw [if_neg h3] at h
    by_cases h4 : sym = "start".toList
    · rw [if_pos h4] at h
      split at h
      · cases h
      · cases h; exact ⟨rfl, fun _ => rfl⟩
    rw [if_neg h4] at h
    by_cases h5 : sym = "end".toList
    · rw [if_pos h5] at h
      split at h
      · cases h
      · cases h; exact ⟨rfl, fun _ => rfl⟩
    rw [if_neg h5] at h
    by_cases h6 : sym = "repeat".toList
    · rw [if_pos h6] at h
      split at h
      · cases h
      · cases h; exact ⟨rfl, fun _ => rfl⟩
    rw [if_neg h6] at h
    by_cases h7 : sym = "incrx".toList
    · rw [if_pos h7] at h
      split at h
      · cases h
      · cases h; exact ⟨rfl, fun _ => rfl⟩
    rw [if_neg h7] at h
    by_cases h8 : sym = "incry".toList
    · rw [if_pos h8] at h
      split at h
      · cases h
      · cases h; exact ⟨rfl, fun _ => rfl⟩
    rw [if_neg h8] at h
    by_cases h9 : sym = "linewidth".toList
    · rw [if_pos h9] at h
      split at h
      · cases h
      · cases h; exact ⟨rfl, fun _ => rfl⟩
    rw [if_neg h9] at h
    cases h; exact ⟨rfl, fun _ => rfl⟩

theorem deserializeChildren_keeps (m : PAGE1_MASKS) (children : List SEXPR) :
    ∀ (item r : WORKSHEET_DATAITEM Rat), item.deserializeChildren m children = .ok r →
      r.m_type = item.m_type
        ∧ ((∀ child ∈ children, childSymbol child ≠ .ok "name".toList) →
            r.m_Name = item.m_Name) := by
  induction children with
  | nil =>
    intro item r h
    simp only [WORKSHEET_DATAITEM.deserializeChildren, Except.ok.injEq] at h
    subst h
    exact ⟨rfl, fun _ => rfl⟩
  | cons child rest ih =>
    intro item r h
    simp only [WORKSHEET_DATAITEM.deserializeChildren] at h
    split at h
    · cases h
    · rename_i item1 h1
      have k1 := deserializeChild_keeps m child item item1 h1
      have k2 := ih item1 r h
      refine ⟨k2.1.trans k1.1, fun hall => ?_⟩
      rw [k2.2 (fun c hc => hall c (List.mem_cons_of_mem _ hc)),
        k1.2 (hall child (List.mem_cons_self _ _))]

theorem DeserializeSEXPR_keeps_type (m : PAGE1_MASKS) (root : SEXPR)
    (item r : WORKSHEET_DATAITEM Rat) (h : item.DeserializeSEXPR m root = .ok r) :
    r.m_type = item.m_type := by
  unfold WORKSHEET_DATAITEM.DeserializeSEXPR at h
  simp only [bind, Except.bind] at h
  split at h
  · cases h
  · split at h
    · cases h
    · exact (deserializeChildren_keeps m _ _ _ h).1

theorem polygon_deserializeChild_keeps (m : PAGE1_MASKS) (child : SEXPR)
    (p r : WORKSHEET_DATAITEM_POLYPOLYGON) (h : p.deserializeChild m child = .ok r) :
    r.m_type = p.m_type ∧ r.m_Corners = p.m_Corners ∧ r.m_polyIndexEnd = p.m_polyIndexEnd
      ∧ (childSymbol child ≠ .ok "name".toList → r.m_Name = p.m_Name) := by
  cases hs : childSymbol child with
  | error e =>
    unfold WORKSHEET_DATAITEM_POLYPOLYGON.deserializeChild at h
    rw [hs] at h; cases h
  | ok sym =>
    unfold WORKSHEET_DATAITEM_POLYPOLYGON.deserializeChild at h
    rw [hs] at h
    simp only [bind, Except.bind, pure, Except.pure] at h
    by_cases h1 : sym = "comment".toList
    · rw [if_pos h1] at h
      split at h
      · cases h
      · cases h; exact ⟨rfl, rfl, rfl, fun _ => rfl⟩
    rw [if_neg h1] at h
    by_cases h2 : sym = "name".toList
    · rw [if_pos h2] at h
      split at h
      · cases h
      · cases h; exact ⟨rfl, rfl, rfl, fun hne => absurd (by rw [h2]) hne⟩
    rw [if_neg h2] at h
    by_cases h3 : sym = "option".toList
    · rw [if_pos h3] at h
      split at h
      · cases h
      · rename_i v hv
        have := deserializeSEXPROption_keeps m _ _ _ hv
        cases h
        exact ⟨this.1, rfl, rfl, fun _ => this.2⟩
    rw [if_neg h3] at h
    by_cases h4 : sym = "pos".toList
    · rw [if_pos h4] at h
      split at h
      · cases h
      · cases h; exact ⟨rfl, rfl, rfl, fun _ => rfl⟩
    rw [if_neg h4] at h
    by_cases h5 : sym = "repeat".toList
    · rw [if_pos h5] at h
      split at h
      · cases h
      · cases h; exact ⟨rfl, rfl, rfl, fun _ => rfl⟩
    rw [if_neg h5] at h
    by_cases h6 : sym = "incrx".toList
    · rw [if_pos h6] at h
      split at h
      · cases h
      · cases h; exact ⟨rfl, rfl, rfl, fun _ => rfl⟩
    rw [if_neg h6] at h
    by_cases h7 : sym = "incry".toList
    · rw [if_pos h7] at h
      split at h
      · cases h
      · cases h; exact ⟨rfl, rfl, rfl, fun _ => rfl⟩
    rw [if_neg h7] at h
    by_cases h8 : sym = "incrlabel".toList
    · rw [if_pos h8] at h
      split at h
      · cases h
      · cases h; exact ⟨rfl, rfl, rfl, fun _ => rfl⟩
    rw [if_neg h8] at h
    by_cases h9 : sym = "linewidth".toList
    · rw [if_pos h9] at h
      split at h
      · cases h
      · cases h; exact ⟨rfl, rfl, rfl, fun _ => rfl⟩
    rw [if_neg h9] at h
    by_cases h10 : sym = "rotate".toList
    · rw [if_pos h10] at h
      split at h
      · cases h
      · cases h; exact ⟨rfl, rfl, rfl, fun _ => rfl⟩
    rw [if_neg h10] at h
    cases h; exact ⟨rfl, rfl, rfl, fun _ => rfl⟩

theorem polygon_deserializeChildren_keeps (m : PAGE1_MASKS) (children : List SEXPR) :
    ∀ (p r : WORKSHEET_DATAITEM_POLYPOLYGON), p.deserializeChildren m children = .ok r →
      r.m_type = p.m_type ∧ r.m_Corners = p.m_Corners ∧ r.m_polyIndexEnd = p.m_polyIndexEnd
        ∧ ((∀ child ∈ children, childSymbol child ≠ .ok "name".toList) →
            r.m_Name = p.m_Name) := by
  induction children with
  | nil =>
    intro p r h
    simp only [WORKSHEET_DATAITEM_POLYPOLYGON.deserializeChildren, Except.ok.injEq] at h
    subst h
    exact ⟨rfl, rfl, rfl, fun _ => rfl⟩
  | cons child rest ih =>
    intro p r h
    simp only [WORKSHEET_DATAITEM_POLYPOLYGON.deserializeChildren] at h
    split at h
    · cases h
    · rename_i p1 h1
      have k1 := polygon_deserializeChild_keeps m child p p1 h1
      have k2 := ih p1 r h
      refine ⟨k2.1.trans k1.1, k2.2.1.trans k1.2.1, k2.2.2.1.trans k1.2.2.1, fun hall => ?_⟩
      rw [k2.2.2.2 (fun c hc => hall c (List.mem_cons_of_mem _ hc)),
        k1.2.2.2 (hall child (List.mem_cons_self _ _))]

theorem polygon_DeserializeSEXPR_children (m : PAGE1_MASKS) (root : SEXPR)
    (p r : WORKSHEET_DATAITEM_POLYPOLYGON) (h : p.DeserializeSEXPR m root = .ok r) :
    ∃ children, root.children = .ok children ∧ p.deserializeChildren m (children.drop 2) = .ok r := by
  unfold WORKSHEET_DATAITEM_POLYPOLYGON.DeserializeSEXPR at h
  simp only [bind, Except.bind] at h
  split at h
  · cases h
  · split at h
    · cases h
    · rename_i children hc
      exact ⟨children, hc, h⟩

theorem deserializeFontTokens_keeps (f : FONT_MASKS) (tokens : List SEXPR) :
    ∀ (t r : WORKSHEET_DATAITEM_TEXT), deserializeFontTokens f tokens t = .ok r →
      r.m_type = t.m_type ∧ r.m_Name = t.m_Name := by
  induction tokens with
  | nil =>
    intro t r h
    simp only [deserializeFontTokens, Except.ok.injEq] at h
    subst h
    exact ⟨rfl, rfl⟩
  | cons node rest ih =>
    intro t r h
    simp only [deserializeFontTokens] at h
    split_ifs at h
    · split at h
      · cases h
      · split_ifs at h
        · have := ih _ _ h
          simpa [WORKSHEET_DATAITEM.SetBold, WORKSHEET_DATAITEM.ClearFlags,
            WORKSHEET_DATAITEM.SetFlags] using this
        · have := ih _ _ h
          simpa [WORKSHEET_DATAITEM.SetItalic, WORKSHEET_DATAITEM.ClearFlags,
            WORKSHEET_DATAITEM.SetFlags] using this
        · exact ih _ _ h
    · repeat' split at h
      all_goals try cases h
      all_goals
        have key := ih _ _ h
        exact key

theorem deserializeJustifyTokens_keeps (tokens : List SEXPR) :
    ∀ (t r : WORKSHEET_DATAITEM_TEXT), deserializeJustifyTokens tokens t = .ok r →
      r.m_type = t.m_type ∧ r.m_Name = t.m_Name := by
  induction tokens with
  | nil =>
    intro t r h
    simp only [deserializeJustifyTokens, Except.ok.injEq] at h
    subst h
    exact ⟨rfl, rfl⟩
  | cons node rest ih =>
    intro t r h
    simp only [deserializeJustifyTokens] at h
    split at h
    · cases h
    · split_ifs at h
      all_goals
        have key := ih _ _ h
        exact key

theorem text_deserializeChild_keeps (m : PAGE1_MASKS) (f : FONT_MASKS) (child : SEXPR)
    (t r : WORKSHEET_DATAITEM_TEXT) (h : t.deserializeChild m f child = .ok r) :
    r.m_type = t.m_type
      ∧ (childSymbol child ≠ .ok "name".toList → r.m_Name = t.m_Name) := by
  cases hs : childSymbol child with
  | error e =>
    unfold WORKSHEET_DATAITEM_TEXT.deserializeChild at h
    rw [hs] at h; cases h
  | ok sym =>
    unfold WORKSHEET_DATAITEM_TEXT.deserializeChild at h
    rw [hs] at h
    simp only [bind, Except.bind, pure, Except.pure] at h
    by_cases h1 : sym = "comment".toList
    · rw [if_pos h1] at h
      split at h
      · cases h
      · cases h; exact ⟨rfl, fun _ => rfl⟩
    rw [if_neg h1] at h
    by_cases h2 : sym = "name".toList
    · rw [if_pos h2] at h
      split at h
      · cases h
      · cases h; exact ⟨rfl, fun hne => absurd (by rw [h2]) hne⟩
    rw [if_neg h2] at h
    by_cases h3 : sym = "option".toList
    · rw [if_pos h3] at h
      split at h
      · cases h
      · rename_i v hv
        have := deserializeSEXPROption_keeps m _ _ _ hv
        cases h
        exact ⟨this.1, fun _ => this.2⟩
    rw [if_neg h3] at h
    by_cases h4 : sym = "pos".toList
    · rw [if_pos h4] at h
      split at h
      · cases h
      · cases h; exact ⟨rfl, fun _ => rfl⟩
    rw [if_neg h4] at h
    by_cases h5 : sym = "repeat".toList
    · rw [if_pos h5] at h
      split at h
      · cases h
      · cases h; exact ⟨rfl, fun _ => rfl⟩
    rw [if_neg h5] at h
    by_cases h6 : sym = "incrx".toList
    · rw [if_pos h6] at h
      split at h
      · cases h
      · cases h; exact ⟨rfl, fun _ => rfl⟩
    rw [if_neg h6] at h
    by_cases h7 : sym = "incry".toList
    · rw [if_pos h7] at h
      split at h
      · cases h
      · cases h; exact ⟨rfl, fun _ => rfl⟩
    rw [if_neg h7] at h
    by_cases h8 : sym = "incrlabel".toList
    · rw [if_pos h8] at h
      split at h
      · cases h
      · cases h; exact ⟨rfl, fun _ => rfl⟩
    rw [if_neg h8] at h
    by_cases h9 : sym = "maxlen".toList
    · rw [if_pos h9] at h
      split at h
      · cases h
      · cases h; exact ⟨rfl, fun _ => rfl⟩
    rw [if_neg h9] at h
    by_cases h10 : sym = "maxheight".toList
    · rw [if_pos h10] at h
      split at h
      · cases h
      · cases h; exact ⟨rfl, fun _ => rfl⟩
    rw [if_neg h10] at h
    by_cases h11 : sym = "font".toList
    · rw [if_pos h11] at h
      unfold WORKSHEET_DATAITEM_TEXT.deserializeSEXPRFont at h
      split at h
      · cases h
      · have := deserializeFontTokens_keeps f _ _ _ h
        exact ⟨this.1, fun _ => this.2⟩
    rw [if_neg h11] at h
    by_cases h12 : sym = "justify".toList
    · rw [if_pos h12] at h
      unfold WORKSHEET_DATAITEM_TEXT.deserializeSEXPRJustify at h
      split at h
      · cases h
      · have := deserializeJustifyTokens_keeps _ _ _ h
        exact ⟨this.1, fun _ => this.2⟩
    rw [if_neg h12] at h
    by_cases h13 : sym = "rotate".toList
    · rw [if_pos h13] at h
      split at h
      · cases h
      · cases h; exact ⟨rfl, fun _ => rfl⟩
    rw [if_neg h13] at h
    cases h; exact ⟨rfl, fun _ => rfl⟩

theorem text_deserializeChildren_keeps (m : PAGE1_MASKS) (f : FONT_MASKS)
    (children : List SEXPR) :
    ∀ (t r : WORKSHEET_DATAITEM_TEXT), t.deserializeChildren m f children = .ok r →
      r.m_type = t.m_type
        ∧ ((∀ child ∈ children, childSymbol child ≠ .ok "name".toList) →
            r.m_Name = t.m_Name) := by
  induction children with
  | nil =>
    intro t r h
    simp only [WORKSHEET_DATAITEM_TEXT.deserializeChildren, Except.ok.injEq] at h
    subst h
    exact ⟨rfl, fun _ => rfl⟩
  | cons child rest ih =>
    intro t r h
    simp only [WORKSHEET_DATAITEM_TEXT.deserializeChildren] at h
    split at h
    · cases h
    · rename_i t1 h1
      have k1 := text_deserializeChild_keeps m f child t t1 h1
      have k2 := ih t1 r h
      refine ⟨k2.1.trans k1.1, fun hall => ?_⟩
      rw [k2.2 (fun c hc => hall c (List.mem_cons_of_mem _ hc)),
        k1.2 (hall child (List.mem_cons_self _ _))]

theorem text_DeserializeSEXPR_keeps_type (m : PAGE1_MASKS) (f : FONT_MASKS) (root : SEXPR)
    (t r : WORKSHEET_DATAITEM_TEXT) (h : t.DeserializeSEXPR m f root = .ok r) :
    r.m_type = t.m_type := by
  unfold WORKSHEET_DATAITEM_TEXT.DeserializeSEXPR at h
  simp only [bind, Except.bind, pure, Except.pure] at h
  repeat' split at h
  all_goals first
    | cases h
    | exact (text_deserializeChildren_keeps m f _ _ _ h).1

theorem bitmap_deserializeChild_keeps (codec : BITMAP_CODEC) (child : SEXPR)
    (b r : WORKSHEET_DATAITEM_BITMAP) (h : b.deserializeChild codec child = .ok r) :
    r.m_type = b.m_type
      ∧ (childSymbol child ≠ .ok "name".toList → r.m_Name = b.m_Name) := by
  cases hs : childSymbol child with
  | error e =>
    unfold WORKSHEET_DATAITEM_BITMAP.deserializeChild at h
    rw [hs] at h; cases h
  | ok sym =>
    unfold WORKSHEET_DATAITEM_BITMAP.deserializeChild at h
    rw [hs] at h
    simp only [bind, Except.bind, pure, Except.pure] at h
    by_cases h1 : sym = "name".toList
    · rw [if_pos h1] at h
      split at h
      · cases h
      · cases h; exact ⟨rfl, fun hne => absurd (by rw [h1]) hne⟩
    rw [if_neg h1] at h
    by_cases h2 : sym = "pos".toList
    · rw [if_pos h2] at h
      split at h
      · cases h
      · cases h; exact ⟨rfl, fun _ => rfl⟩
    rw [if_neg h2] at h
    by_cases h3 : sym = "scale".toList
    · rw [if_pos h3] at h
      split at h
      · cases h
      · split at h
        · cases h; exact ⟨rfl, fun _ => rfl⟩
        · cases h
    rw [if_neg h3] at h
    by_cases h4 : sym = "pngdata".toList
    · rw [if_pos h4] at h
      unfold WORKSHEET_DATAITEM_BITMAP.deserializeSEXPRPNGData at h
      simp only [bind, Except.bind, pure, Except.pure, throw, throwThe,
        MonadExceptOf.throw] at h
      repeat' split at h
      all_goals first
        | (cases h; exact ⟨rfl, fun _ => rfl⟩)
        | cases h
    rw [if_neg h4] at h
    cases h; exact ⟨rfl, fun _ => rfl⟩

theorem bitmap_deserializeChildren_keeps (codec : BITMAP_CODEC) (children : List SEXPR) :
    ∀ (b r : WORKSHEET_DATAITEM_BITMAP), b.deserializeChildren codec children = .ok r →
      r.m_type = b.m_type
        ∧ ((∀ child ∈ children, childSymbol child ≠ .ok "name".toList) →
            r.m_Name = b.m_Name) := by
  induction children with
  | nil =>
    intro b r h
    simp only [WORKSHEET_DATAITEM_BITMAP.deserializeChildren, Except.ok.injEq] at h
    subst h
    exact ⟨rfl, fun _ => rfl⟩
  | cons child rest ih =>
    intro b r h
    simp only [WORKSHEET_DATAITEM_BITMAP.deserializeChildren] at h
    split at h
    · cases h
    · rename_i b1 h1
      have k1 := bitmap_deserializeChild_keeps codec child b b1 h1
      have k2 := ih b1 r h
      refine ⟨k2.1.trans k1.1, fun hall => ?_⟩
      rw [k2.2 (fun c hc => hall c (List.mem_cons_of_mem _ hc)),
        k1.2 (hall child (List.mem_cons_self _ _))]

theorem bitmap_DeserializeSEXPR_children (codec : BITMAP_CODEC) (root : SEXPR)
    (b r : WORKSHEET_DATAITEM_BITMAP) (h : b.DeserializeSEXPR codec root = .ok r) :
    ∃ children, root.children = .ok children
      ∧ b.deserializeChildren codec (children.drop 2) = .ok r := by
  unfold WORKSHEET_DATAITEM_BITMAP.DeserializeSEXPR at h
  simp only [bind, Except.bind] at h
  split at h
  · cases h
  · split at h
    · cases h
    · rename_i children hc
      exact ⟨children, hc, h⟩

/-! ### The item list of a page layout document -/

theorem insertIdx_take_drop {P : Type} (x : P) :
    ∀ (L : List P) (k : Nat), k ≤ L.length → L.insertIdx k x = L.take k ++ x :: L.drop k := by
  intro L
  induction L with
  | nil =>
    intro k hk
    have : k = 0 := by simpa using hk
    subst this
    rfl
  | cons a rest ih =>
    intro k hk
    cases k with
    | zero => rfl
    | succ k =>
      rw [List.insertIdx_succ_cons, ih k (by simpa using hk)]
      rfl

theorem searchLoop_spec {P : Type} [DecidableEq P] (x : P) :
    ∀ (L : List P) (idx : Nat),
      idx ≤ searchLoop x L idx ∧ searchLoop x L idx ≤ idx + L.length
        ∧ (∀ j, idx + j < searchLoop x L idx → L.get? j ≠ some x)
        ∧ (x ∈ L → L.get? (searchLoop x L idx - idx) = some x)
        ∧ (x ∈ L ↔ searchLoop x L idx < idx + L.length) := by
  intro L
  induction L with
  | nil =>
    intro idx
    simp [searchLoop]
  | cons p rest ih =>
    intro idx
    by_cases hp : p = x
    · subst hp
      simp [searchLoop]
    · obtain ⟨h1, h2, h3, h4, h5⟩ := ih (idx + 1)
      have hx : x ≠ p := fun e => hp e.symm
      simp only [searchLoop, if_neg hp, List.length_cons, List.mem_cons, hx, false_or]
      refine ⟨by omega, by omega, ?_, ?_, ?_⟩
      · intro j hj
        cases j with
        | zero => simpa using hp
        | succ j =>
          simp only [List.get?_cons_succ]
          exact h3 j (by omega)
      · intro hmem
        have := h4 hmem
        have e : searchLoop x rest (idx + 1) - idx = (searchLoop x rest (idx + 1) - (idx + 1)) + 1 := by
          omega
        rw [e, List.get?_cons_succ]
        exact this
      · rw [h5]
        omega

theorem indexLoop_eq {P : Type} [DecidableEq P] (x : P) :
    ∀ (L : List P) (idx : Nat),
      indexLoop x L idx = if x ∈ L then ((searchLoop x L idx : Nat) : Int) else -1 := by
  intro L
  induction L with
  | nil => intro idx; simp [indexLoop]
  | cons p rest ih =>
    intro idx
    by_cases hp : p = x
    · subst hp
      simp [indexLoop, searchLoop]
    · have hx : x ≠ p := fun e => hp e.symm
      simp only [indexLoop, searchLoop, if_neg hp, List.mem_cons, hx, false_or]
      exact ih (idx + 1)

/-! ### Tags of the blocks the writers build -/

theorem tag_AsList (sym : Str) (rest : List SEXPR) :
    (SEXPR.AsList (SEXPR.AsSymbol sym :: rest)).tag = some sym := rfl

theorem tag_eq_some_iff (child : SEXPR) (sym : Str) :
    child.tag = some sym ↔ childSymbol child = .ok sym := by
  unfold SEXPR.tag
  cases childSymbol child with
  | error e => simp
  | ok s => simp

theorem tag_serializeName (item : WORKSHEET_DATAITEM Rat) :
    item.serializeName.tag = some "name".toList := rfl

theorem tag_serializeSEXPRCoordinate (aToken : Str) (aCoord : POINT_COORD Rat) :
    (serializeSEXPRCoordinate aToken aCoord).tag = some aToken := rfl

theorem tag_serializeSEXPROptions (m : PAGE1_MASKS) (item : WORKSHEET_DATAITEM Rat) :
    ∀ child ∈ item.serializeSEXPROptions m, child.tag = some "option".toList := by
  intro child hc
  unfold WORKSHEET_DATAITEM.serializeSEXPROptions at hc
  split_ifs at hc
  · rw [List.mem_singleton] at hc; subst hc; rfl
  · rw [List.mem_singleton] at hc; subst hc; rfl
  · cases hc

theorem tag_serializeSEXPRRepeatParameters (item : WORKSHEET_DATAITEM Rat) :
    ∀ child ∈ item.serializeSEXPRRepeatParameters,
      child.tag ∈ [some "repeat".toList, some "incrx".toList, some "incry".toList,
        some "incrlabel".toList] := by
  have h : item.serializeSEXPRRepeatParameters.all
      (fun child => decide (child.tag ∈ [some "repeat".toList, some "incrx".toList,
        some "incry".toList, some "incrlabel".toList])) = true := by
    unfold WORKSHEET_DATAITEM.serializeSEXPRRepeatParameters
    split_ifs <;> rfl
  intro child hc
  exact of_decide_eq_true (List.all_eq_true.1 h child hc)

theorem childrenTagged_AsList (children : List SEXPR) (tag : Str) :
    (SEXPR.AsList children).childrenTagged tag
      = children.filter (fun child => child.tag = some tag) := rfl

theorem filter_tag_nil (l : List SEXPR) (tag : Str) (h : ∀ child ∈ l, child.tag ≠ some tag) :
    l.filter (fun child => child.tag = some tag) = [] := by
  rw [List.filter_eq_nil_iff]
  intro child hc
  simpa using h child hc

theorem filter_tag_all (l : List SEXPR) (tag : Str) (h : ∀ child ∈ l, child.tag = some tag) :
    l.filter (fun child => child.tag = some tag) = l := by
  rw [List.filter_eq_self]
  intro child hc
  simpa using h child hc

theorem filter_option_serializeSEXPROptions (m : PAGE1_MASKS) (item : WORKSHEET_DATAITEM Rat) :
    (item.serializeSEXPROptions m).filter (fun child => child.tag = some "option".toList)
      = item.serializeSEXPROptions m :=
  filter_tag_all _ _ (tag_serializeSEXPROptions m item)

theorem filter_option_serializeSEXPRRepeatParameters (item : WORKSHEET_DATAITEM Rat) :
    item.serializeSEXPRRepeatParameters.filter (fun child => child.tag = some "option".toList)
      = [] := by
  apply filter_tag_nil
  intro child hc h
  have := tag_serializeSEXPRRepeatParameters item child hc
  rw [h] at this
  revert this
  decide

theorem filter_option_serializeFont (f : FONT_MASKS) (t : WORKSHEET_DATAITEM_TEXT) :
    (t.serializeFont f).filter (fun child => child.tag = some "option".toList) = [] := by
  unfold WORKSHEET_DATAITEM_TEXT.serializeFont
  simp only []
  split
  · rfl
  · rfl

theorem filter_option_serializeJustify (t : WORKSHEET_DATAITEM_TEXT) :
    t.serializeJustify.filter (fun child => child.tag = some "option".toList) = [] := by
  unfold WORKSHEET_DATAITEM_TEXT.serializeJustify
  split
  · rfl
  · rfl

theorem tag_serializePolyLists (p : WORKSHEET_DATAITEM_POLYPOLYGON) :
    ∀ (count kk : Nat) (polylists : List SEXPR),
      p.serializePolyLists kk count = .ok polylists →
        ∀ child ∈ polylists, child.tag = some "pts".toList := by
  intro count
  induction count with
  | zero =>
    intro kk polylists h child hc
    simp only [WORKSHEET_DATAITEM_POLYPOLYGON.serializePolyLists, Except.ok.injEq] at h
    subst h
    cases hc
  | succ count ih =>
    intro kk polylists h child hc
    simp only [WORKSHEET_DATAITEM_POLYPOLYGON.serializePolyLists] at h
    split at h
    · cases h
    · rename_i polylist hp
      split at h
      · cases h
      · rename_i rest hr
        cases h
        rcases List.mem_cons.1 hc with rfl | hc
        · unfold WORKSHEET_DATAITEM_POLYPOLYGON.serializePolyList at hp
          repeat' split at hp
          all_goals first
            | (cases hp; exact tag_AsList _ _)
            | cases hp
        · exact ih _ _ hr child hc

theorem plain_option_children (st : WS_DEFAULTS) (item : WORKSHEET_DATAITEM Rat) :
    (item.SerializeSEXPR st).childrenTagged "option".toList = [] := by
  rw [WORKSHEET_DATAITEM.SerializeSEXPR, childrenTagged_AsList, List.filter_append,
    List.filter_append, filter_option_serializeSEXPRRepeatParameters]
  split_ifs <;> rfl

theorem text_option_children (m : PAGE1_MASKS) (f : FONT_MASKS) (t : WORKSHEET_DATAITEM_TEXT) :
    (t.SerializeSEXPR m f).childrenTagged "option".toList
      = t.toWORKSHEET_DATAITEM.serializeSEXPROptions m := by
  rw [WORKSHEET_DATAITEM_TEXT.SerializeSEXPR, childrenTagged_AsList]
  simp only [List.filter_append, filter_option_serializeSEXPRRepeatParameters,
    filter_option_serializeSEXPROptions, filter_option_serializeFont,
    filter_option_serializeJustify, List.append_nil]
  have e1 : ∀ (c : Prop) [Decidable c] (x : SEXPR), x.tag ≠ some "option".toList →
      (if c then [x] else []).filter (fun child => child.tag = some "option".toList) = [] := by
    intro c _ x hx
    split_ifs
    · exact filter_tag_nil _ _ (by simpa using hx)
    · rfl
  rw [e1 _ _ (by rw [tag_AsList]; decide), e1 _ _ (by rw [tag_AsList]; decide),
    e1 _ _ (by rw [tag_AsList]; decide)]
  simp only [List.append_nil]
  rfl

theorem polygon_option_children (m : PAGE1_MASKS) (p : WORKSHEET_DATAITEM_POLYPOLYGON)
    (tree : SEXPR) (h : p.SerializeSEXPR m = .ok tree) :
    tree.childrenTagged "option".toList = p.toWORKSHEET_DATAITEM.serializeSEXPROptions m := by
  unfold WORKSHEET_DATAITEM_POLYPOLYGON.SerializeSEXPR at h
  split at h
  · cases h
  · rename_i polylists hp
    cases h
    rw [childrenTagged_AsList]
    simp only [List.filter_append, filter_option_serializeSEXPRRepeatParameters,
      filter_option_serializeSEXPROptions, List.append_nil]
    have e1 : ∀ (c : Prop) [Decidable c] (x : SEXPR), x.tag ≠ some "option".toList →
        (if c then [x] else []).filter (fun child => child.tag = some "option".toList) = [] := by
      intro c _ x hx
      split_ifs
      · exact filter_tag_nil _ _ (by simpa using hx)
      · rfl
    have e2 : polylists.filter (fun child => child.tag = some "option".toList) = [] := by
      apply filter_tag_nil
      intro child hc hopt
      have := tag_serializePolyLists p _ _ _ hp child hc
      rw [hopt] at this
      revert this
      decide
    rw [e1 _ _ (by rw [tag_AsList]; decide), e1 _ _ (by rw [tag_AsList]; decide), e2]
    simp only [List.append_nil]
    rfl

theorem bitmap_option_children (m : PAGE1_MASKS) (codec : BITMAP_CODEC)
    (b : WORKSHEET_DATAITEM_BITMAP) (tree : SEXPR) (h : b.SerializeSEXPR m codec = .ok tree) :
    tree.childrenTagged "option".toList = b.toWORKSHEET_DATAITEM.serializeSEXPROptions m := by
  unfold WORKSHEET_DATAITEM_BITMAP.SerializeSEXPR at h
  split at h
  · cases h
  · cases h
    rw [childrenTagged_AsList]
    simp only [List.filter_append, filter_option_serializeSEXPRRepeatParameters,
      filter_option_serializeSEXPROptions, List.append_nil]
    have e1 : ∀ x : SEXPR, x.tag ≠ some "option".toList →
        [x].filter (fun child => child.tag = some "option".toList) = [] :=
      fun x hx => filter_tag_nil _ _ (by simpa using hx)
    rw [e1 _ (by rw [tag_AsList]; decide), e1 _ (by rw [tag_AsList]; decide)]
    simp only [List.append_nil]
    rfl

/-! ### The page-1 option through the reader, and the margins through `Parse` -/

theorem GetPage1Option_SetPage1Option {D : Type} (m : PAGE1_MASKS) (hm : m.TwoBits)
    (item : WORKSHEET_DATAITEM D) (c : Int) :
    (item.SetPage1Option m c).GetPage1Option m
      = (if c > 0 then 1 else if c < 0 then -1 else 0) := by
  obtain ⟨a, b, ha, hb, hab, hP, hN, hM⟩ := hm
  have hne : (2 : Nat) ^ a ≠ 2 ^ b := two_pow_ne a b hab
  have hPpos : (0 : Nat) ≠ 2 ^ a := (Nat.pos_pow_of_pos a (by decide)).ne
  have hNpos : (0 : Nat) ≠ 2 ^ b := (Nat.pos_pow_of_pos b (by decide)).ne
  have hcomm : 2 ^ b ||| 2 ^ a = 2 ^ a ||| 2 ^ b := Nat.lor_comm _ _
  simp only [WORKSHEET_DATAITEM.GetPage1Option, WORKSHEET_DATAITEM.SetPage1Option,
    WORKSHEET_DATAITEM.ClearFlags, WORKSHEET_DATAITEM.SetFlags, hP, hN, hM]
  by_cases h1 : c > 0
  · simp only [if_pos h1, set_and_mask item.m_flags a b ha hb, if_neg hne, if_true]
  · by_cases h2 : c < 0
    · have := set_and_mask item.m_flags b a hb ha
      rw [hcomm] at this
      simp only [if_neg h1, if_pos h2, this, if_true]
    · simp only [if_neg h1, if_neg h2, cleared_and_mask item.m_flags a b ha hb,
        if_neg hNpos, if_neg hPpos]

theorem deserializeSEXPROption_token (m : PAGE1_MASKS) (target : WORKSHEET_DATAITEM Rat)
    (token : Str) (line : Nat) :
    target.deserializeSEXPROption m
        (.list [.symbol "option".toList line, .symbol token line] line)
      = if token = "page1only".toList then .ok (target.SetPage1Option m 1)
        else if token = "lbcorner".toList then .ok (target.SetPage1Option m (-1))
        else .error (.syntaxError "unsupported symbol".toList line) := by
  simp only [WORKSHEET_DATAITEM.deserializeSEXPROption, SEXPR.children, List.drop_succ_cons,
    List.drop_zero, deserializeOptionTokens, SEXPR.GetSymbol, SEXPR.GetLineNumber]

theorem deserializeItems_frame (env : WS_ENV) (children : List SEXPR) :
    ∀ layout : WORKSHEET_LAYOUT LAYOUT_ITEM,
      (deserializeItems env children layout).2
        = { layout with m_list := (deserializeItems env children layout).2.m_list } := by
  induction children with
  | nil => intro layout; rfl
  | cons child rest ih =>
    intro layout
    simp only [deserializeItems]
    split
    · rfl
    · exact ih layout
    · rw [ih (layout.Append _)]
      rfl

theorem DeserializeSEXPR_frame (env : WS_ENV) (layout : WORKSHEET_LAYOUT LAYOUT_ITEM)
    (root : SEXPR) :
    (layout.DeserializeSEXPR env root).2
      = { layout with m_list := (layout.DeserializeSEXPR env root).2.m_list } := by
  unfold WORKSHEET_LAYOUT.DeserializeSEXPR
  repeat' split
  all_goals first
    | rfl
    | exact deserializeItems_frame env _ layout

theorem Parse_frame (env : WS_ENV) (parser : Str → Except PARSE_EXN SEXPR)
    (layout : WORKSHEET_LAYOUT LAYOUT_ITEM) (text : Str) :
    (layout.Parse env parser text).2
      = { layout with m_list := (layout.Parse env parser text).2.m_list } := by
  unfold WORKSHEET_LAYOUT.Parse
  repeat' split
  all_goals first
    | rfl
    | exact DeserializeSEXPR_frame env layout _

/-! ### Kinds of the items `DeserializeSEXPR` appends -/

theorem LAYOUT_ITEM_DeserializeSEXPR_keeps_type (env : WS_ENV) (x r : LAYOUT_ITEM)
    (root : SEXPR) (h : x.DeserializeSEXPR env root = .ok r) : r.GetType = x.GetType := by
  unfold LAYOUT_ITEM.DeserializeSEXPR at h
  cases x with
  | plain item =>
    simp only at h
    split at h
    · cases h
    · rename_i item1 h1
      cases h
      exact DeserializeSEXPR_keeps_type env.masks root item item1 h1
  | text t =>
    simp only at h
    split at h
    · cases h
    · rename_i t1 h1
      cases h
      exact text_DeserializeSEXPR_keeps_type env.masks env.font root t t1 h1
  | polygon p =>
    simp only at h
    split at h
    · cases h
    · rename_i p1 h1
      cases h
      obtain ⟨children, _, hc⟩ := polygon_DeserializeSEXPR_children env.masks root p p1 h1
      exact (polygon_deserializeChildren_keeps env.masks _ p p1 hc).1
  | bitmap b =>
    simp only at h
    split at h
    · cases h
    · rename_i b1 h1
      cases h
      obtain ⟨children, _, hc⟩ := bitmap_DeserializeSEXPR_children env.codec root b b1 h1
      exact (bitmap_deserializeChildren_keeps env.codec _ b b1 hc).1

theorem deserializeItem_kind (env : WS_ENV) (child : SEXPR) (res : Option LAYOUT_ITEM)
    (h : deserializeItem env child = .ok res) :
    kindOfChild child = res.map LAYOUT_ITEM.GetType := by
  unfold deserializeItem at h
  unfold kindOfChild SEXPR.tag
  split at h
  · cases h
  · rename_i sym hs
    rw [hs]
    simp only
    split at h
    · rename_i hn
      cases h
      rw [hn]
    · rename_i item hn
      split at h
      · cases h
      · rename_i item1 h1
        cases h
        rw [hn]
        simp only [Option.map_some']
        exact congrArg some (LAYOUT_ITEM_DeserializeSEXPR_keeps_type env item item1 child h1).symm

theorem deserializeItems_kinds (env : WS_ENV) (children : List SEXPR) :
    ∀ layout res : WORKSHEET_LAYOUT LAYOUT_ITEM,
      deserializeItems env children layout = (none, res) →
        res.m_list.map LAYOUT_ITEM.GetType
          = layout.m_list.map LAYOUT_ITEM.GetType ++ children.filterMap kindOfChild := by
  induction children with
  | nil =>
    intro layout res h
    simp only [deserializeItems, Prod.mk.injEq, true_and] at h
    subst h
    simp
  | cons child rest ih =>
    intro layout res h
    simp only [deserializeItems] at h
    split at h
    · cases h
    · rename_i hc
      have hk := deserializeItem_kind env child none hc
      rw [ih layout res h, List.filterMap_cons, hk]
      rfl
    · rename_i item hc
      have hk := deserializeItem_kind env child (some item) hc
      rw [ih _ res h, List.filterMap_cons, hk]
      simp [WORKSHEET_LAYOUT.Append]

theorem deserializeItems_error (env : WS_ENV) (children : List SEXPR) :
    ∀ (layout res : WORKSHEET_LAYOUT LAYOUT_ITEM) (e : PARSE_EXN),
      deserializeItems env children layout = (some e, res) →
        ∃ pre child post, children = pre ++ child :: post
          ∧ deserializeItems env pre layout = (none, res)
          ∧ deserializeItem env child = .error e := by
  induction children with
  | nil =>
    intro layout res e h
    simp [deserializeItems] at h
  | cons child rest ih =>
    intro layout res e h
    simp only [deserializeItems] at h
    split at h
    · rename_i e1 hc
      simp only [Prod.mk.injEq, Option.some.injEq] at h
      obtain ⟨h1, h2⟩ := h
      subst h1 h2
      exact ⟨[], child, rest, rfl, rfl, hc⟩
    · rename_i hc
      obtain ⟨pre, c, post, h1, h2, h3⟩ := ih layout res e h
      refine ⟨child :: pre, c, post, by rw [h1]; rfl, ?_, h3⟩
      simp only [deserializeItems, hc]
      exact h2
    · rename_i item hc
      obtain ⟨pre, c, post, h1, h2, h3⟩ := ih _ res e h
      refine ⟨child :: pre, c, post, by rw [h1]; rfl, ?_, h3⟩
      simp only [deserializeItems, hc]
      exact h2

theorem kindOfChild_SerializeSEXPR (env : WS_ENV) (st : WS_DEFAULTS) (x : LAYOUT_ITEM)
    (block : SEXPR) (hw : x.WellTyped = true) (h : x.SerializeSEXPR env st = .ok block) :
    kindOfChild block = some x.GetType := by
  cases x with
  | plain item =>
    simp only [LAYOUT_ITEM.SerializeSEXPR, Except.ok.injEq] at h
    subst h
    simp only [LAYOUT_ITEM.WellTyped, decide_eq_true_eq] at hw
    simp only [LAYOUT_ITEM.GetType, LAYOUT_ITEM.base, WORKSHEET_DATAITEM.GetType,
      WORKSHEET_DATAITEM.SerializeSEXPR]
    by_cases hr : item.m_type = .WS_RECT
    · rw [if_pos hr, hr]; rfl
    · rw [if_neg hr]
      rcases hw with hw | hw
      · rw [hw]; rfl
      · exact absurd hw hr
  | text t =>
    simp only [LAYOUT_ITEM.SerializeSEXPR, Except.ok.injEq] at h
    subst h
    simp only [LAYOUT_ITEM.WellTyped, decide_eq_true_eq] at hw
    simp only [LAYOUT_ITEM.GetType, LAYOUT_ITEM.base, WORKSHEET_DATAITEM.GetType, hw]
    rfl
  | polygon p =>
    simp only [LAYOUT_ITEM.SerializeSEXPR] at h
    unfold WORKSHEET_DATAITEM_POLYPOLYGON.SerializeSEXPR at h
    simp only [LAYOUT_ITEM.WellTyped, decide_eq_true_eq] at hw
    split at h
    · cases h
    · cases h
      simp only [LAYOUT_ITEM.GetType, LAYOUT_ITEM.base, WORKSHEET_DATAITEM.GetType, hw]
      rfl
  | bitmap b =>
    simp only [LAYOUT_ITEM.SerializeSEXPR] at h
    unfold WORKSHEET_DATAITEM_BITMAP.SerializeSEXPR at h
    simp only [LAYOUT_ITEM.WellTyped, decide_eq_true_eq] at hw
    split at h
    · cases h
    · cases h
      simp only [LAYOUT_ITEM.GetType, LAYOUT_ITEM.base, WORKSHEET_DATAITEM.GetType, hw]
      rfl

theorem serializeItems_kinds (env : WS_ENV) (st : WS_DEFAULTS) :
    ∀ (items : List LAYOUT_ITEM) (blocks : List SEXPR),
      items.all LAYOUT_ITEM.WellTyped = true → serializeItems env st items = .ok blocks →
        blocks.filterMap kindOfChild = items.map LAYOUT_ITEM.GetType := by
  intro items
  induction items with
  | nil =>
    intro blocks _ h
    simp only [serializeItems, Except.ok.injEq] at h
    subst h
    rfl
  | cons x rest ih =>
    intro blocks hw h
    simp only [List.all_cons, Bool.and_eq_true] at hw
    simp only [serializeItems] at h
    split at h
    · cases h
    · rename_i block hb
      split at h
      · cases h
      · rename_i blocks1 hr
        cases h
        rw [List.filterMap_cons, kindOfChild_SerializeSEXPR env st x block hw.1 hb]
        simp only [List.map_cons]
        rw [ih blocks1 hw.2 hr]

theorem DeserializeSEXPR_kinds (env : WS_ENV) (layout res : WORKSHEET_LAYOUT LAYOUT_ITEM)
    (root : SEXPR) (h : layout.DeserializeSEXPR env root = (none, res)) :
    ∃ children, root.children = .ok children
      ∧ res.m_list.map LAYOUT_ITEM.GetType
          = layout.m_list.map LAYOUT_ITEM.GetType
            ++ (children.drop 1).filterMap kindOfChild := by
  unfold WORKSHEET_LAYOUT.DeserializeSEXPR at h
  repeat' split at h
  all_goals first
    | cases h
    | (rename_i children hc
       exact ⟨children, hc, deserializeItems_kinds env _ layout res h⟩)

/-! ### The blocks after the name in what the polygon and bitmap writers build -/

theorem polygon_tail_tags (m : PAGE1_MASKS) (p : WORKSHEET_DATAITEM_POLYPOLYGON) (tree : SEXPR)
    (h : p.SerializeSEXPR m = .ok tree) :
    ∃ children, tree.children = .ok children
      ∧ ∀ child ∈ children.drop 2, child.tag ≠ some "name".toList := by
  unfold WORKSHEET_DATAITEM_POLYPOLYGON.SerializeSEXPR at h
  split at h
  · cases h
  · rename_i polylists hp
    cases h
    refine ⟨_, rfl, ?_⟩
    intro child hc
    simp only [List.append_assoc, List.cons_append, List.nil_append, List.drop_succ_cons,
      List.drop_zero, List.mem_cons, List.mem_append] at hc
    rcases hc with rfl | hc | hc | hc | hc | hc
    · rw [tag_serializeSEXPRCoordinate]; decide
    · rw [tag_serializeSEXPROptions m _ child hc]; decide
    · intro hn
      have := tag_serializeSEXPRRepeatParameters _ child hc
      rw [hn] at this
      revert this
      decide
    · split_ifs at hc
      · rw [List.mem_singleton] at hc; subst hc; rw [tag_AsList]; decide
      · cases hc
    · split_ifs at hc
      · rw [List.mem_singleton] at hc; subst hc; rw [tag_AsList]; decide
      · cases hc
    · rw [tag_serializePolyLists p _ _ _ hp child hc]; decide

theorem bitmap_tail_tags (m : PAGE1_MASKS) (codec : BITMAP_CODEC)
    (b : WORKSHEET_DATAITEM_BITMAP) (tree : SEXPR) (h : b.SerializeSEXPR m codec = .ok tree) :
    ∃ children, tree.children = .ok children
      ∧ ∀ child ∈ children.drop 2, child.tag ≠ some "name".toList := by
  unfold WORKSHEET_DATAITEM_BITMAP.SerializeSEXPR at h
  split at h
  · cases h
  · cases h
    refine ⟨_, rfl, ?_⟩
    intro child hc
    simp only [List.append_assoc, List.cons_append, List.nil_append, List.drop_succ_cons,
      List.drop_zero, List.mem_cons, List.mem_append, List.not_mem_nil, or_false] at hc
    rcases hc with rfl | hc | rfl | hc | rfl
    · rw [tag_serializeSEXPRCoordinate]; decide
    · rw [tag_serializeSEXPROptions m _ child hc]; decide
    · rw [tag_AsList]; decide
    · intro hn
      have := tag_serializeSEXPRRepeatParameters _ child hc
      rw [hn] at this
      revert this
      decide
    · rw [tag_AsList]; decide

theorem tag_ne_childSymbol (child : SEXPR) (sym : Str) (h : child.tag ≠ some sym) :
    childSymbol child ≠ .ok sym :=
  fun hs => h ((tag_eq_some_iff child sym).2 hs)

theorem catchIoError_snd {S : Type} (res : Option PARSE_EXN × S) :
    (catchIoError res).2 = res.2 := by
  obtain ⟨e, s⟩ := res
  cases e with
  | none => rfl
  | some e => cases e <;> rfl

theorem catchIoError_fst {S : Type} (res : Option PARSE_EXN × S) (msg : Str) (line : Nat)
    (h : res.1 = some (.syntaxError msg line)) : (catchIoError res).1 = none := by
  obtain ⟨e, s⟩ := res
  simp only at h
  subst h
  rfl

theorem DeserializeSEXPR_cases (env : WS_ENV) (layout : WORKSHEET_LAYOUT LAYOUT_ITEM)
    (root : SEXPR) :
    (layout.DeserializeSEXPR env root).2 = layout
      ∨ ∃ children, root.children = .ok children
          ∧ layout.DeserializeSEXPR env root = deserializeItems env (children.drop 1) layout := by
  unfold WORKSHEET_LAYOUT.DeserializeSEXPR
  repeat' split
  all_goals first
    | exact Or.inl rfl
    | (rename_i children hc
       exact Or.inr ⟨children, hc, rfl⟩)

theorem Parse_cases (env : WS_ENV) (parser : Str → Except PARSE_EXN SEXPR)
    (layout : WORKSHEET_LAYOUT LAYOUT_ITEM) (text : Str) :
    (layout.Parse env parser text).2 = layout
      ∨ ∃ root children, parser text = .ok root ∧ root.children = .ok children
          ∧ layout.Parse env parser text = deserializeItems env (children.drop 1) layout := by
  unfold WORKSHEET_LAYOUT.Parse
  split
  · exact Or.inl rfl
  · rename_i root hp
    split
    · exact Or.inl rfl
    · rcases DeserializeSEXPR_cases env layout root with h | ⟨children, hc, h⟩
      · exact Or.inl h
      · exact Or.inr ⟨root, children, hp, hc, h⟩

/-! ### The rows `Parse` leaves when it raises -/

theorem parseLibList_rows (io : IO_MGR) (t : FP_LIB_TABLE) (lib : SEXPR) (hidx : t.IndexOK) :
    ((t.parseLibList io lib).1 = none →
        ∃ row, Spec.rowOfLib io lib = some row ∧ (t.parseLibList io lib).2.rows = t.rows ++ [row])
      ∧ ((t.parseLibList io lib).1 ≠ none → (t.parseLibList io lib).2.rows = t.rows) := by
  unfold FP_LIB_TABLE.parseLibList Spec.rowOfLib
  cases hc : lib.children with
  | error e => exact ⟨fun h => by simp at h, fun _ => rfl⟩
  | ok children =>
    simp only
    cases hp : parsePairs io (children.drop 1) (ROW.new io) with
    | error e => exact ⟨fun h => by simp at h, fun _ => rfl⟩
    | ok row =>
      simp only
      rw [InsertRow_eq t row false hidx]
      cases firstNamed row.nickName t.rows with
      | none => exact ⟨fun _ => ⟨row.copy, rfl, rfl⟩, fun h => by simp at h⟩
      | some pos => exact ⟨fun h => by simp at h, fun _ => rfl⟩

theorem parseLibs_rows (io : IO_MGR) (libs : List SEXPR) :
    ∀ (t t1 : FP_LIB_TABLE) (e : Option PARSE_EXN), t.IndexOK →
      parseLibs io libs t = (e, t1) →
        (e = none → (∀ lib ∈ libs, (Spec.rowOfLib io lib).isSome = true)
            ∧ t1.rows = t.rows ++ libs.filterMap (Spec.rowOfLib io))
          ∧ (∀ x, e = some x →
              ∃ pre child post t2, libs = pre ++ child :: post
                ∧ (∀ lib ∈ pre, (Spec.rowOfLib io lib).isSome = true)
                ∧ parseLibs io pre t = (none, t2)
                ∧ ((checkLibList child = .error x ∧ t1 = t2)
                  ∨ (checkLibList child = .ok () ∧ t2.parseLibList io child = (some x, t1)))
                ∧ t1.rows = t.rows ++ pre.filterMap (Spec.rowOfLib io)) := by
  induction libs with
  | nil =>
    intro t t1 e _ h
    simp only [parseLibs, Prod.mk.injEq] at h
    obtain ⟨h1, h2⟩ := h
    subst h1 h2
    exact ⟨fun _ => ⟨(fun _ hl => by cases hl), by simp⟩, fun x hx => by cases hx⟩
  | cons lib rest ih =>
    intro t t1 e hidx h
    simp only [parseLibs] at h
    cases hck : checkLibList lib with
    | error x =>
      rw [hck] at h
      simp only [Prod.mk.injEq] at h
      obtain ⟨h1, h2⟩ := h
      subst h1 h2
      refine ⟨(fun he => by cases he), fun y hy => ?_⟩
      cases hy
      exact ⟨[], lib, rest, t, rfl, (fun _ hl => by cases hl), rfl, Or.inl ⟨hck, rfl⟩, by simp⟩
    | ok u =>
      rw [hck] at h
      simp only at h
      have hrows := parseLibList_rows io t lib hidx
      have hok := parseLibList_IndexOK io t lib hidx
      cases hpl : t.parseLibList io lib with
      | mk e1 t2 =>
        rw [hpl] at h hrows hok
        cases e1 with
        | some x =>
          simp only [Prod.mk.injEq] at h
          obtain ⟨h1, h2⟩ := h
          subst h1 h2
          refine ⟨(fun he => by cases he), fun y hy => ?_⟩
          cases hy
          refine ⟨[], lib, rest, t, rfl, (fun _ hl => by cases hl), rfl, Or.inr ⟨hck, hpl⟩, ?_⟩
          simpa using hrows.2 (by simp)
        | none =>
          simp only at h
          obtain ⟨row, hrow, hr2⟩ := hrows.1 rfl
          simp only at hr2
          obtain ⟨ih1, ih2⟩ := ih t2 t1 e hok h
          have hstep : parseLibs io [lib] t = (none, t2) := by
            simp only [parseLibs, hck, hpl]
          refine ⟨fun he => ?_, fun y hy => ?_⟩
          · obtain ⟨ha, hb⟩ := ih1 he
            refine ⟨?_, ?_⟩
            · intro l hl
              rcases List.mem_cons.1 hl with rfl | hl
              · rw [hrow]; rfl
              · exact ha l hl
            · rw [hb, hr2, List.filterMap_cons, hrow]
              simp
          · obtain ⟨pre, child, post, t3, h1, h2, h3, h4, h5⟩ := ih2 y hy
            refine ⟨lib :: pre, child, post, t3, by rw [h1]; rfl, ?_, ?_, h4, ?_⟩
            · intro l hl
              rcases List.mem_cons.1 hl with rfl | hl
              · rw [hrow]; rfl
              · exact h2 l hl
            · have := parseLibs_append io [lib] pre t t2 hstep
              simpa using this.trans h3
            · rw [h5, hr2, List.filterMap_cons, hrow]
              simp

theorem FP_LIB_TABLE_Parse_root (io : IO_MGR) (parser : Str → Except PARSE_EXN SEXPR)
    (t : FP_LIB_TABLE) (sexpr : Str) :
    ((t.Parse io parser sexpr).2 = t
        ∧ ∀ l0 l1 libs,
            parser sexpr ≠ .ok (.list (.symbol "fp_lib_table".toList l0 :: libs) l1))
      ∨ ∃ l0 l1 libs,
          parser sexpr = .ok (.list (.symbol "fp_lib_table".toList l0 :: libs) l1)
            ∧ t.Parse io parser sexpr = parseLibs io libs t := by
  unfold FP_LIB_TABLE.Parse
  cases hp : parser sexpr with
  | error e => exact Or.inl ⟨rfl, fun _ _ _ h => by cases h⟩
  | ok root =>
    simp only
    cases root with
    | list children line =>
      cases children with
      | nil => exact Or.inl ⟨rfl, fun _ _ _ h => by cases h⟩
      | cons first libs =>
        cases first with
        | symbol value l0 =>
          by_cases hv : value = "fp_lib_table".toList
          · subst hv
            exact Or.inr ⟨l0, line, libs, rfl, rfl⟩
          · left
            refine ⟨?_, ?_⟩
            · have hv1 := hv
              rw [show "fp_lib_table".toList
                = ['f', 'p', '_', 'l', 'i', 'b', '_', 't', 'a', 'b', 'l', 'e'] from rfl] at hv1
              simp [FP_LIB_TABLE.ParseTree, SEXPR.IsList, SEXPR.GetChild, SEXPR.IsSymbol,
                SEXPR.GetSymbol, hv1]
            · intro l0 l1 libs h
              simp only [Except.ok.injEq, SEXPR.list.injEq, List.cons.injEq,
                SEXPR.symbol.injEq] at h
              exact hv h.1.1.1
        | string value l0 => exact Or.inl ⟨rfl, fun _ _ _ h => by cases h⟩
        | integer value l0 => exact Or.inl ⟨rfl, fun _ _ _ h => by cases h⟩
        | double value l0 => exact Or.inl ⟨rfl, fun _ _ _ h => by cases h⟩
        | list value l0 => exact Or.inl ⟨rfl, fun _ _ _ h => by cases h⟩
    | symbol value l0 => exact Or.inl ⟨rfl, fun _ _ _ h => by cases h⟩
    | string value l0 => exact Or.inl ⟨rfl, fun _ _ _ h => by cases h⟩
    | integer value l0 => exact Or.inl ⟨rfl, fun _ _ _ h => by cases h⟩
    | double value l0 => exact Or.inl ⟨rfl, fun _ _ _ h => by cases h⟩

/-! ### The order of `sortZorder`, the moves of a layer -/

theorem sortZorder_iff {F : Type} (Z S : F → Int) (a b : Option (GERBER_IMAGE F)) :
    sortZorder Z S a b = true ↔
      zClass a < zClass b
        ∨ (zClass a = 0 ∧ zClass b = 0
            ∧ ((zKey Z S a).1 > (zKey Z S b).1
              ∨ ((zKey Z S a).1 = (zKey Z S b).1 ∧ (zKey Z S a).2 > (zKey Z S b).2))) := by
  rcases a with _ | ⟨ia, fa⟩ <;> rcases b with _ | ⟨ib, fb⟩
  · simp [sortZorder, zClass]
  · cases ib <;> cases fb <;> simp [sortZorder, zClass]
  · cases ia <;> cases fa <;> simp [sortZorder, zClass]
  · cases ia <;> cases ib <;> cases fa <;> cases fb <;> simp [sortZorder, zClass, zKey]
    rename_i fa fb
    by_cases h : Z fa = Z fb
    · simp [h]
    · simp only [h, if_false, false_and, or_false]

theorem swap_adjacent_perm {α : Type} (v : List α) :
    ∀ (i : Nat) (a b : α), v[i]? = some a → v[i + 1]? = some b →
      ((v.set i b).set (i + 1) a).Perm v := by
  induction v with
  | nil => intro i a b h; simp at h
  | cons x xs ih =>
    intro i a b ha hb
    cases i with
    | zero =>
      cases xs with
      | nil => simp at hb
      | cons y ys =>
        simp at ha hb
        subst ha hb
        exact List.Perm.swap _ _ _
    | succ k =>
      simp only [List.getElem?_cons_succ] at ha hb
      simp only [List.set_cons_succ]
      exact List.Perm.cons _ (ih k a b ha hb)

theorem iter_swap_adjacent {α : Type} (v : List α) (i : Int) :
    match iter_swap v i (i + 1) with
    | none => i < 0 ∨ (v.length : Int) ≤ i + 1
    | some v1 => v1.Perm v ∧ 0 ≤ i ∧ i + 1 < (v.length : Int) := by
  unfold iter_swap
  by_cases hi : i < 0 ∨ i + 1 < 0
  · rw [if_pos hi]
    simp only
    omega
  · rw [if_neg hi]
    have h0 : 0 ≤ i := by omega
    have h1 : (i + 1).toNat = i.toNat + 1 := by omega
    rw [h1]
    cases ha : v[i.toNat]? with
    | none =>
      simp only
      have := List.getElem?_eq_none_iff.1 ha
      omega
    | some a =>
      cases hb : v[i.toNat + 1]? with
      | none =>
        simp only
        have := List.getElem?_eq_none_iff.1 hb
        omega
      | some b =>
        simp only
        have hlt : i.toNat + 1 < v.length := by
          by_contra hc
          rw [List.getElem?_eq_none (by omega)] at hb
          cases hb
        exact ⟨swap_adjacent_perm v _ a b ha hb, h0, by omega⟩

/-! ### The loop of `ReplaceAntiSlashSequence` -/

theorem getElem?_append_length (pre : Str) (c : Char) (rest : Str) :
    (pre ++ c :: rest)[pre.length]? = some c := by
  induction pre with
  | nil => simp
  | cons x pre ih => simpa using ih

theorem getElem?_append_length_succ (pre : Str) (c d : Char) (rest : Str) :
    (pre ++ c :: d :: rest)[pre.length + 1]? = some d := by
  induction pre with
  | nil => simp
  | cons x pre ih => simpa using ih

theorem eraseIdx_append_succ (pre : Str) (c d : Char) (rest : Str) :
    (pre ++ c :: d :: rest).eraseIdx (pre.length + 1) = pre ++ c :: rest := by
  induction pre with
  | nil => rfl
  | cons x pre ih => simpa using ih

theorem set_eraseIdx_append (pre : Str) (c d x : Char) (rest : Str) :
    ((pre ++ c :: d :: rest).set (pre.length + 1) x).eraseIdx pre.length = pre ++ x :: rest := by
  induction pre with
  | nil => rfl
  | cons y pre ih => simpa using ih

theorem append_cons_eq (pre : Str) (c : Char) (rest : Str) :
    pre ++ c :: rest = (pre ++ [c]) ++ rest := by
  simp

theorem replaceLoop_eq :
    ∀ (fuel : Nat) (pre suf : Str) (ml : Bool),
      suf.length < fuel → (pre ++ suf).length < UNSIGNED_RANGE →
        ∃ ml1, replaceLoop fuel (pre ++ suf) pre.length ml
            = some (pre ++ Spec.unescape suf, ml1)
          ∧ (ml = true → ml1 = true)
          ∧ (ml1 = true → ml = true ∨ '\n' ∈ Spec.unescape suf) := by
  intro fuel
  induction fuel with
  | zero => intro pre suf ml h; omega
  | succ fuel ih =>
    intro pre suf ml hfuel hlen
    have hR : UNSIGNED_RANGE = 4294967296 := rfl
    match suf with
    | [] =>
      refine ⟨ml, ?_, id, Or.inl⟩
      simp [replaceLoop, Spec.unescape]
    | [c] =>
      simp only [List.length_append, List.length_cons, List.length_nil] at hlen
      have hlt : pre.length < (pre ++ [c]).length := by simp
      have hm : (pre.length + 1) % UNSIGNED_RANGE = pre.length + 1 :=
        Nat.mod_eq_of_lt (by omega)
      have hnil := ih (pre ++ [c]) [] true (by simp at hfuel ⊢; omega) (by simpa using hlen)
      have hnil2 := ih (pre ++ [c]) [] ml (by simp at hfuel ⊢; omega) (by simpa using hlen)
      simp only [List.append_nil, List.length_append, List.length_cons, List.length_nil,
        Spec.unescape] at hnil hnil2
      obtain ⟨m1, e1, j1, _⟩ := hnil
      obtain ⟨m2, e2, k2, k3⟩ := hnil2
      rw [replaceLoop, if_pos hlt, getElem?_append_length]
      simp only [hm, Spec.unescape]
      by_cases h1 : c = '\n'
      · rw [if_pos h1, e1]
        refine ⟨m1, rfl, fun _ => j1 trivial, fun _ => Or.inr (by simp [h1])⟩
      · rw [if_neg h1]
        by_cases h2 : c = '\\'
        · rw [if_pos h2, if_pos (by simp)]
          exact ⟨ml, rfl, id, Or.inl⟩
        · rw [if_neg h2, e2]
          refine ⟨m2, rfl, k2, fun h => ?_⟩
          rcases k3 h with h | h
          · exact Or.inl h
          · simp at h
    | c :: d :: rest =>
      simp only [List.length_append, List.length_cons] at hlen hfuel
      have hlt : pre.length < (pre ++ c :: d :: rest).length := by simp
      have hlt1 : ¬ (pre.length + 1 ≥ (pre ++ c :: d :: rest).length) := by simp
      have hm : (pre.length + 1) % UNSIGNED_RANGE = pre.length + 1 :=
        Nat.mod_eq_of_lt (by omega)
      have hm2 : (pre.length + 1 + 1) % UNSIGNED_RANGE = pre.length + 1 + 1 :=
        Nat.mod_eq_of_lt (by omega)
      have hm3 : (pre.length + 1 + (UNSIGNED_RANGE - 1)) % UNSIGNED_RANGE = pre.length := by
        rw [hR]; omega
      rw [replaceLoop, if_pos hlt, getElem?_append_length]
      simp only [hm, hm2, hm3, if_neg hlt1, getElem?_append_length_succ, Nat.add_sub_cancel,
        eraseIdx_append_succ, set_eraseIdx_append]
      by_cases h1 : c = '\n'
      · rw [if_pos h1]
        have hne : ¬ c = '\\' := by rw [h1]; decide
        obtain ⟨m1, e1, k1, _⟩ := ih (pre ++ [c]) (d :: rest) true
          (by first | omega | (simp; omega)) (by first | omega | (simp; omega))
        simp only [List.length_append, List.length_cons, List.length_nil,
          ← append_cons_eq] at e1
        rw [e1]
        refine ⟨m1, ?_, fun _ => k1 rfl, fun _ => Or.inr ?_⟩
        · rw [Spec.unescape, if_neg hne]
        · rw [Spec.unescape, if_neg hne, h1]; simp
      · rw [if_neg h1]
        by_cases h2 : c = '\\'
        · rw [if_pos h2]
          by_cases h3 : d = '\\'
          · rw [if_pos h3]
            obtain ⟨m1, e1, k1, k2⟩ := ih (pre ++ [c]) rest ml
              (by omega) (by first | omega | (simp; omega))
            simp only [List.length_append, List.length_cons, List.length_nil,
              ← append_cons_eq] at e1
            rw [e1]
            refine ⟨m1, ?_, k1, fun h => ?_⟩
            · rw [Spec.unescape, if_pos h2, if_pos h3, h2]
            · rcases k2 h with h | h
              · exact Or.inl h
              · right
                rw [Spec.unescape, if_pos h2, if_pos h3]
                exact List.mem_cons_of_mem _ h
          · rw [if_neg h3]
            by_cases h4 : d = 'n'
            · rw [if_pos h4]
              obtain ⟨m1, e1, k1, _⟩ := ih (pre ++ ['\n']) rest true
                (by omega) (by first | omega | (simp; omega))
              simp only [List.length_append, List.length_cons, List.length_nil,
                ← append_cons_eq] at e1
              rw [e1]
              refine ⟨m1, ?_, fun _ => k1 rfl, fun _ => Or.inr ?_⟩
              · rw [Spec.unescape, if_pos h2, if_neg h3, if_pos h4]
              · rw [Spec.unescape, if_pos h2, if_neg h3, if_pos h4]
                exact List.mem_cons_self _ _
            · rw [if_neg h4]
              obtain ⟨m1, e1, k1, k2⟩ := ih (pre ++ [c, d]) rest ml
                (by omega) (by first | omega | (simp; omega))
              have happ : (pre ++ [c, d]) ++ rest = pre ++ c :: d :: rest := by simp
              simp only [List.length_append, List.length_cons, List.length_nil, happ] at e1
              rw [e1]
              refine ⟨m1, ?_, k1, fun h => ?_⟩
              · rw [Spec.unescape, if_pos h2, if_neg h3, if_neg h4, h2]; simp
              · rcases k2 h with h | h
                · exact Or.inl h
                · right
                  rw [Spec.unescape, if_pos h2, if_neg h3, if_neg h4]
                  exact List.mem_cons_of_mem _ (List.mem_cons_of_mem _ h)
        · rw [if_neg h2]
          obtain ⟨m1, e1, k1, k2⟩ := ih (pre ++ [c]) (d :: rest) ml
            (by first | omega | (simp; omega)) (by first | omega | (simp; omega))
          simp only [List.length_append, List.length_cons, List.length_nil,
            ← append_cons_eq] at e1
          rw [e1]
          refine ⟨m1, ?_, k1, fun h => ?_⟩
          · rw [Spec.unescape, if_neg h2]
          · rcases k2 h with h | h
            · exact Or.inl h
            · right
              rw [Spec.unescape, if_neg h2]
              exact List.mem_cons_of_mem _ h

theorem ReplaceAntiSlashSequence_eq (t : WORKSHEET_DATAITEM_TEXT)
    (hlen : t.m_FullText.length < UNSIGNED_RANGE) :
    ∃ ml, t.ReplaceAntiSlashSequence
        = some ({ t with m_FullText := Spec.unescape t.m_FullText }, ml)
      ∧ (ml = true → '\n' ∈ Spec.unescape t.m_FullText) := by
  obtain ⟨ml, e, _, k⟩ := replaceLoop_eq (t.m_FullText.length + 1) [] t.m_FullText false
    (by omega) (by simpa using hlen)
  simp only [List.nil_append, List.length_nil] at e
  refine ⟨ml, ?_, fun h => ?_⟩
  · unfold WORKSHEET_DATAITEM_TEXT.ReplaceAntiSlashSequence
    rw [e]
  · rcases k h with h | h
    · cases h
    · exact h

/-! ### The bounding box of a polygon -/

theorem boundStep_spec (b : DPOINT Rat × DPOINT Rat) (pos : DPOINT Rat) :
    ((boundStep b pos).1.x ≤ b.1.x ∧ (boundStep b pos).1.x ≤ pos.x)
      ∧ ((boundStep b pos).1.y ≤ b.1.y ∧ (boundStep b pos).1.y ≤ pos.y)
      ∧ (b.2.x ≤ (boundStep b pos).2.x ∧ pos.x ≤ (boundStep b pos).2.x)
      ∧ (b.2.y ≤ (boundStep b pos).2.y ∧ pos.y ≤ (boundStep b pos).2.y) := by
  unfold boundStep
  refine ⟨?_, ?_, ?_, ?_⟩
  · by_cases h1 : b.1.x > pos.x <;> by_cases h2 : b.1.y > pos.y <;>
      simp only [h1, h2, if_true, if_false] <;> constructor <;> linarith
  · by_cases h1 : b.1.x > pos.x <;> by_cases h2 : b.1.y > pos.y <;>
      simp only [h1, h2, if_true, if_false] <;> constructor <;> linarith
  · by_cases h1 : b.2.x < pos.x <;> by_cases h2 : b.2.y < pos.y <;>
      simp only [h1, h2, if_true, if_false] <;> constructor <;> linarith
  · by_cases h1 : b.2.x < pos.x <;> by_cases h2 : b.2.y < pos.y <;>
      simp only [h1, h2, if_true, if_false] <;> constructor <;> linarith

theorem boundLoop_spec (R : DPOINT Rat → Rat → DPOINT Rat) (o : Rat) (cs : List (DPOINT Rat)) :
    ∀ b : DPOINT Rat × DPOINT Rat,
      ((boundLoop R o cs b).1.x ≤ b.1.x ∧ (boundLoop R o cs b).1.y ≤ b.1.y
        ∧ b.2.x ≤ (boundLoop R o cs b).2.x ∧ b.2.y ≤ (boundLoop R o cs b).2.y)
      ∧ ∀ c ∈ cs,
          (boundLoop R o cs b).1.x ≤ (R c (o * 10)).x
            ∧ (boundLoop R o cs b).1.y ≤ (R c (o * 10)).y
            ∧ (R c (o * 10)).x ≤ (boundLoop R o cs b).2.x
            ∧ (R c (o * 10)).y ≤ (boundLoop R o cs b).2.y := by
  induction cs with
  | nil =>
    intro b
    exact ⟨⟨le_refl _, le_refl _, le_refl _, le_refl _⟩, fun c hc => by cases hc⟩
  | cons a cs ih =>
    intro b
    obtain ⟨⟨i1, i2, i3, i4⟩, i5⟩ := ih (boundStep b (R a (o * 10)))
    obtain ⟨⟨s1, s2⟩, ⟨s3, s4⟩, ⟨s5, s6⟩, ⟨s7, s8⟩⟩ := boundStep_spec b (R a (o * 10))
    simp only [boundLoop]
    refine ⟨⟨by linarith, by linarith, by linarith, by linarith⟩, ?_⟩
    intro c hc
    rcases List.mem_cons.1 hc with rfl | hc
    · exact ⟨by linarith, by linarith, by linarith, by linarith⟩
    · exact i5 c hc

theorem SetBoundingBox_keeps (R : DPOINT Rat → Rat → DPOINT Rat)
    (q : WORKSHEET_DATAITEM_POLYPOLYGON) :
    (q.SetBoundingBox R).m_Corners = q.m_Corners
      ∧ (q.SetBoundingBox R).m_Orient = q.m_Orient
      ∧ (q.SetBoundingBox R).toWORKSHEET_DATAITEM = q.toWORKSHEET_DATAITEM := by
  unfold WORKSHEET_DATAITEM_POLYPOLYGON.SetBoundingBox
  split <;> exact ⟨rfl, rfl, rfl⟩

theorem SetBoundingBox_spec (R : DPOINT Rat → Rat → DPOINT Rat)
    (q : WORKSHEET_DATAITEM_POLYPOLYGON) :
    ∀ c ∈ q.m_Corners,
      (q.SetBoundingBox R).m_minCoord.x ≤ (R c (q.m_Orient * 10)).x
        ∧ (q.SetBoundingBox R).m_minCoord.y ≤ (R c (q.m_Orient * 10)).y
        ∧ (R c (q.m_Orient * 10)).x ≤ (q.SetBoundingBox R).m_maxCoord.x
        ∧ (R c (q.m_Orient * 10)).y ≤ (q.SetBoundingBox R).m_maxCoord.y := by
  intro c hm
  unfold WORKSHEET_DATAITEM_POLYPOLYGON.SetBoundingBox
  split
  · rename_i hc
    rw [hc] at hm
    cases hm
  · rename_i a cs hc
    rw [hc] at hm
    simp only
    obtain ⟨⟨i1, i2, i3, i4⟩, i5⟩ :=
      boundLoop_spec R q.m_Orient cs (R a (q.m_Orient * 10), R a (q.m_Orient * 10))
    rcases List.mem_cons.1 hm with rfl | hm
    · exact ⟨i1, i2, i3, i4⟩
    · exact i5 c hm

theorem exPolygon_inside :
    (exPolygon.SetBoundingBox exNoRotation).IsInsidePage exPageRat 0 = true := by
  simp [WORKSHEET_DATAITEM_POLYPOLYGON.IsInsidePage,
    WORKSHEET_DATAITEM_POLYPOLYGON.SetBoundingBox, exPolygon, exNoRotation, exPageRat,
    WORKSHEET_DATAITEM.GetStartPos, resolve, DPOINT.add, DPOINT.sub, boundLoop, boundStep,
    WORKSHEET_DATAITEM_POLYPOLYGON.new, WORKSHEET_DATAITEM.new]
  norm_num

theorem exPolygon_corner :
    (exPolygon.SetBoundingBox exNoRotation).GetCornerPosition exNoRotation exPageRat 2 0
      = .ok ⟨204, 291⟩ := by
  simp [WORKSHEET_DATAITEM_POLYPOLYGON.GetCornerPosition,
    WORKSHEET_DATAITEM_POLYPOLYGON.SetBoundingBox, exPolygon, exNoRotation, exPageRat,
    WORKSHEET_DATAITEM.GetStartPos, resolve, DPOINT.add, DPOINT.sub,
    WORKSHEET_DATAITEM_POLYPOLYGON.new, WORKSHEET_DATAITEM.new]
  norm_num

/-! ### The root that `WORKSHEET_LAYOUT::Parse` accepts -/

theorem WORKSHEET_LAYOUT_Parse_root (env : WS_ENV) (parser : Str → Except PARSE_EXN SEXPR)
    (layout : WORKSHEET_LAYOUT LAYOUT_ITEM) (text : Str) :
    ((layout.Parse env parser text).2 = layout
        ∧ ∀ l0 l1 items,
            parser text ≠ .ok (.list (.symbol "page_layout".toList l0 :: items) l1))
      ∨ ∃ l0 l1 items,
          parser text = .ok (.list (.symbol "page_layout".toList l0 :: items) l1)
            ∧ layout.Parse env parser text = deserializeItems env items layout := by
  unfold WORKSHEET_LAYOUT.Parse
  cases hp : parser text with
  | error e => exact Or.inl ⟨rfl, fun _ _ _ h => by cases h⟩
  | ok root =>
    simp only
    cases root with
    | list children line =>
      cases children with
      | nil => exact Or.inl ⟨rfl, fun _ _ _ h => by cases h⟩
      | cons first items =>
        cases first with
        | symbol value l0 =>
          by_cases hv : value = "page_layout".toList
          · subst hv
            exact Or.inr ⟨l0, line, items, rfl, rfl⟩
          · left
            refine ⟨?_, ?_⟩
            · have hv1 := hv
              rw [show "page_layout".toList
                = ['p', 'a', 'g', 'e', '_', 'l', 'a', 'y', 'o', 'u', 't'] from rfl] at hv1
              simp [WORKSHEET_LAYOUT.DeserializeSEXPR, SEXPR.IsList, SEXPR.GetChild,
                SEXPR.IsSymbol, SEXPR.GetSymbol, hv1]
            · intro l0 l1 items h
              simp only [Except.ok.injEq, SEXPR.list.injEq, List.cons.injEq,
                SEXPR.symbol.injEq] at h
              exact hv h.1.1.1
        | string value l0 => exact Or.inl ⟨rfl, fun _ _ _ h => by cases h⟩
        | integer value l0 => exact Or.inl ⟨rfl, fun _ _ _ h => by cases h⟩
        | double value l0 => exact Or.inl ⟨rfl, fun _ _ _ h => by cases h⟩
        | list value l0 => exact Or.inl ⟨rfl, fun _ _ _ h => by cases h⟩
    | symbol value l0 => exact Or.inl ⟨rfl, fun _ _ _ h => by cases h⟩
    | string value l0 => exact Or.inl ⟨rfl, fun _ _ _ h => by cases h⟩
    | integer value l0 => exact Or.inl ⟨rfl, fun _ _ _ h => by cases h⟩
    | double value l0 => exact Or.inl ⟨rfl, fun _ _ _ h => by cases h⟩

/-! ### Whole numbers in `double`

The arithmetic of `DOUBLE` on whole numbers below `2 ^ 53` in magnitude is
that of the integers: no operation rounds. -/

theorem binaryDigits_le (fuel : Nat) :
    ∀ n k : Nat, n < 2 ^ fuel → (binaryDigits fuel n ≤ k ↔ n < 2 ^ k) := by
  induction fuel with
  | zero =>
    intro n k h
    have hn : n = 0 := by simpa using h
    subst hn
    simp [binaryDigits]
  | succ fuel ih =>
    intro n k h
    by_cases hn : n = 0
    · subst hn
      simp [binaryDigits]
    · simp only [binaryDigits, hn, if_false]
      cases k with
      | zero =>
        simp only [Nat.le_zero_eq, Nat.add_eq_zero, Nat.succ_ne_zero, and_false, pow_zero,
          Nat.lt_one_iff, hn]
      | succ k =>
        have h2 : n / 2 < 2 ^ fuel := by
          rw [Nat.div_lt_iff_lt_mul (by decide)]
          rw [pow_succ] at h
          exact h
        rw [Nat.add_le_add_iff_right, ih (n / 2) k h2, Nat.div_lt_iff_lt_mul (by decide),
          pow_succ]

theorem normalize_represents (fuel : Nat) :
    ∀ m e : Int, m.natAbs < 2 ^ fuel → (DOUBLE.normalize fuel m e).Represents m e := by
  induction fuel with
  | zero =>
    intro m e h
    have hm : m = 0 := by
      have : m.natAbs = 0 := by simpa using h
      exact Int.natAbs_eq_zero.1 this
    subst hm
    exact Or.inl ⟨rfl, rfl⟩
  | succ fuel ih =>
    intro m e h
    by_cases hm : m = 0
    · subst hm
      exact Or.inl ⟨rfl, rfl⟩
    · by_cases he : m % 2 = 0
      · rw [DOUBLE.normalize, if_neg hm, if_pos he]
        have h2 : (m / 2).natAbs < 2 ^ fuel := by
          rw [pow_succ] at h
          omega
        have hne : m / 2 ≠ 0 := by omega
        rcases ih (m / 2) (e + 1) h2 with ⟨h0, _⟩ | ⟨_, hodd, k, hk, hmk⟩
        · exact absurd h0 hne
        · refine Or.inr ⟨hm, hodd, k + 1, by rw [hk]; push_cast; ring, ?_⟩
          have h3 : m = 2 * (m / 2) := by omega
          calc m = 2 * (m / 2) := h3
            _ = 2 * ((DOUBLE.normalize fuel (m / 2) (e + 1)).m * 2 ^ k) :=
              congrArg (fun x => 2 * x) hmk
            _ = (DOUBLE.normalize fuel (m / 2) (e + 1)).m * 2 ^ (k + 1) := by
              rw [pow_succ]; ring
      · rw [DOUBLE.normalize, if_neg hm, if_neg he]
        have hodd : m % 2 = 1 := by omega
        exact Or.inr ⟨hm, hodd, 0, by simp, by simp⟩

theorem odd_mul_two_pow_unique (m1 m2 : Int) (k1 k2 : Nat) (h1 : m1 % 2 = 1) (h2 : m2 % 2 = 1)
    (h : m1 * 2 ^ k1 = m2 * 2 ^ k2) : m1 = m2 ∧ k1 = k2 := by
  have key : ∀ (a b : Int) (i j : Nat), a % 2 = 1 → i ≤ j → a * 2 ^ i = b * 2 ^ j →
      a = b ∧ i = j := by
    intro a b i j ha hij hab
    obtain ⟨d, rfl⟩ := Nat.exists_eq_add_of_le hij
    have h2 : (2 : Int) ^ i ≠ 0 := pow_ne_zero _ (by decide)
    have hab1 : a = b * 2 ^ d := by
      have hab2 : a * 2 ^ i = (b * 2 ^ d) * 2 ^ i := by
        rw [hab, pow_add]; ring
      exact mul_right_cancel₀ h2 hab2
    cases d with
    | zero => simpa using hab1
    | succ d =>
      exfalso
      rw [pow_succ] at hab1
      have : a = 2 * (b * 2 ^ d) := by rw [hab1]; ring
      generalize b * 2 ^ d = x at this
      omega
  rcases Nat.le_total k1 k2 with hle | hle
  · exact key m1 m2 k1 k2 h1 hle h
  · obtain ⟨e1, e2⟩ := key m2 m1 k2 k1 h2 hle h.symm
    exact ⟨e1.symm, e2.symm⟩

theorem represents_unique (d1 d2 : DOUBLE) (m e : Int) (h1 : d1.Represents m e)
    (h2 : d2.Represents m e) : d1 = d2 := by
  rcases h1 with ⟨hm, hd1⟩ | ⟨hm, ho1, k1, he1, hv1⟩
  · rcases h2 with ⟨_, hd2⟩ | ⟨hm2, _⟩
    · rw [hd1, hd2]
    · exact absurd hm hm2
  · rcases h2 with ⟨hm2, _⟩ | ⟨_, ho2, k2, he2, hv2⟩
    · exact absurd hm2 hm
    · obtain ⟨e1, e2⟩ := odd_mul_two_pow_unique d1.m d2.m k1 k2 ho1 ho2 (hv1.symm.trans hv2)
      cases d1
      cases d2
      simp only at e1 he1 he2
      subst e1 e2
      simp only [DOUBLE.mk.injEq, true_and]
      rw [he1, he2]

theorem represents_shift (d : DOUBLE) (m : Int) (j : Nat) (h : d.Represents m (j : Int)) :
    d.Represents (m * 2 ^ j) 0 := by
  rcases h with ⟨hm, hd⟩ | ⟨hm, ho, k, he, hv⟩
  · exact Or.inl ⟨by rw [hm]; simp, hd⟩
  · refine Or.inr ⟨mul_ne_zero hm (pow_ne_zero _ (by decide)), ho, k + j, ?_, ?_⟩
    · rw [he]; push_cast; ring
    · rw [hv, pow_add]; ring

theorem round_small (m e : Int) (h : m.natAbs < 2 ^ 53) :
    (DOUBLE.round m e).Represents m e := by
  unfold DOUBLE.round
  simp only
  rw [if_pos ((binaryDigits_le m.natAbs m.natAbs 53 (Nat.lt_two_pow _)).2 h)]
  exact normalize_represents _ m e (Nat.lt_two_pow _)

theorem ofInt_represents (a : Int) (h : a.natAbs < 2 ^ 53) :
    (DOUBLE.ofInt a).Represents a 0 :=
  round_small a 0 h

theorem ofInt_parts (a : Int) (h : a.natAbs < 2 ^ 53) :
    ∃ k : Nat, (DOUBLE.ofInt a).e = (k : Int) ∧ a = (DOUBLE.ofInt a).m * 2 ^ k := by
  rcases ofInt_represents a h with ⟨ha, hd⟩ | ⟨_, _, k, he, hv⟩
  · exact ⟨0, by rw [hd]; rfl, by rw [hd, ha]; rfl⟩
  · exact ⟨k, by rw [he]; simp, hv⟩

theorem natAbs_le_mul_two_pow (M : Int) (j : Nat) : M.natAbs ≤ (M * 2 ^ j).natAbs := by
  rw [Int.natAbs_mul, Int.natAbs_pow]
  exact Nat.le_mul_of_pos_right _ (pow_pos (by decide) _)

theorem ofInt_add (a b : Int) (ha : a.natAbs < 2 ^ 53) (hb : b.natAbs < 2 ^ 53)
    (hab : (a + b).natAbs < 2 ^ 53) :
    DOUBLE.ofInt a + DOUBLE.ofInt b = DOUBLE.ofInt (a + b) := by
  obtain ⟨ka, hea, hva⟩ := ofInt_parts a ha
  obtain ⟨kb, heb, hvb⟩ := ofInt_parts b hb
  show DOUBLE.add _ _ = _
  unfold DOUBLE.add
  simp only
  rw [hea, heb]
  have hmin : min (ka : Int) (kb : Int) = ((min ka kb : Nat) : Int) := by
    rcases Nat.le_total ka kb with h | h
    · rw [min_eq_left h, min_eq_left (by exact_mod_cast h)]
    · rw [min_eq_right h, min_eq_right (by exact_mod_cast h)]
  rw [hmin]
  have e1 : ((ka : Int) - ((min ka kb : Nat) : Int)).toNat = ka - min ka kb := by omega
  have e2 : ((kb : Int) - ((min ka kb : Nat) : Int)).toNat = kb - min ka kb := by omega
  rw [e1, e2]
  have hsum : ((DOUBLE.ofInt a).m * 2 ^ (ka - min ka kb)
      + (DOUBLE.ofInt b).m * 2 ^ (kb - min ka kb)) * 2 ^ (min ka kb) = a + b := by
    rw [add_mul, mul_assoc, mul_assoc, ← pow_add, ← pow_add,
      Nat.sub_add_cancel (Nat.min_le_left _ _), Nat.sub_add_cancel (Nat.min_le_right _ _),
      ← hva, ← hvb]
  have hM := natAbs_le_mul_two_pow ((DOUBLE.ofInt a).m * 2 ^ (ka - min ka kb)
      + (DOUBLE.ofInt b).m * 2 ^ (kb - min ka kb)) (min ka kb)
  rw [hsum] at hM
  have hrep := represents_shift _ _ _ (round_small _ ((min ka kb : Nat) : Int)
    (lt_of_le_of_lt hM hab))
  rw [hsum] at hrep
  exact represents_unique _ _ _ _ hrep (ofInt_represents _ hab)

theorem ofInt_sub (a b : Int) (ha : a.natAbs < 2 ^ 53) (hb : b.natAbs < 2 ^ 53)
    (hab : (a - b).natAbs < 2 ^ 53) :
    DOUBLE.ofInt a - DOUBLE.ofInt b = DOUBLE.ofInt (a - b) := by
  obtain ⟨ka, hea, hva⟩ := ofInt_parts a ha
  obtain ⟨kb, heb, hvb⟩ := ofInt_parts b hb
  show DOUBLE.sub _ _ = _
  unfold DOUBLE.sub
  simp only
  rw [hea, heb]
  have hmin : min (ka : Int) (kb : Int) = ((min ka kb : Nat) : Int) := by
    rcases Nat.le_total ka kb with h | h
    · rw [min_eq_left h, min_eq_left (by exact_mod_cast h)]
    · rw [min_eq_right h, min_eq_right (by exact_mod_cast h)]
  rw [hmin]
  have e1 : ((ka : Int) - ((min ka kb : Nat) : Int)).toNat = ka - min ka kb := by omega
  have e2 : ((kb : Int) - ((min ka kb : Nat) : Int)).toNat = kb - min ka kb := by omega
  rw [e1, e2]
  have hsum : ((DOUBLE.ofInt a).m * 2 ^ (ka - min ka kb)
      - (DOUBLE.ofInt b).m * 2 ^ (kb - min ka kb)) * 2 ^ (min ka kb) = a - b := by
    rw [sub_mul, mul_assoc, mul_assoc, ← pow_add, ← pow_add,
      Nat.sub_add_cancel (Nat.min_le_left _ _), Nat.sub_add_cancel (Nat.min_le_right _ _),
      ← hva, ← hvb]
  have hM := natAbs_le_mul_two_pow ((DOUBLE.ofInt a).m * 2 ^ (ka - min ka kb)
      - (DOUBLE.ofInt b).m * 2 ^ (kb - min ka kb)) (min ka kb)
  rw [hsum] at hM
  have hrep := represents_shift _ _ _ (round_small _ ((min ka kb : Nat) : Int)
    (lt_of_le_of_lt hM hab))
  rw [hsum] at hrep
  exact represents_unique _ _ _ _ hrep (ofInt_represents _ hab)

theorem ofInt_mul (a b : Int) (ha : a.natAbs < 2 ^ 53) (hb : b.natAbs < 2 ^ 53)
    (hab : (a * b).natAbs < 2 ^ 53) :
    DOUBLE.ofInt a * DOUBLE.ofInt b = DOUBLE.ofInt (a * b) := by
  obtain ⟨ka, hea, hva⟩ := ofInt_parts a ha
  obtain ⟨kb, heb, hvb⟩ := ofInt_parts b hb
  show DOUBLE.mul _ _ = _
  unfold DOUBLE.mul
  rw [hea, heb]
  have hprod : ((DOUBLE.ofInt a).m * (DOUBLE.ofInt b).m) * 2 ^ (ka + kb) = a * b := by
    rw [pow_add]
    calc (DOUBLE.ofInt a).m * (DOUBLE.ofInt b).m * (2 ^ ka * 2 ^ kb)
        = ((DOUBLE.ofInt a).m * 2 ^ ka) * ((DOUBLE.ofInt b).m * 2 ^ kb) := by ring
      _ = a * b := by rw [← hva, ← hvb]
  have hM := natAbs_le_mul_two_pow ((DOUBLE.ofInt a).m * (DOUBLE.ofInt b).m) (ka + kb)
  rw [hprod] at hM
  have hcast : ((ka : Int) + (kb : Int)) = ((ka + kb : Nat) : Int) := by push_cast; rfl
  rw [hcast]
  have hrep := represents_shift _ _ _ (round_small _ ((ka + kb : Nat) : Int)
    (lt_of_le_of_lt hM hab))
  rw [hprod] at hrep
  exact represents_unique _ _ _ _ hrep (ofInt_represents _ hab)

theorem ofInt_injective (a b : Int) (ha : a.natAbs < 2 ^ 53) (hb : b.natAbs < 2 ^ 53)
    (h : DOUBLE.ofInt a = DOUBLE.ofInt b) : a = b := by
  obtain ⟨ka, hea, hva⟩ := ofInt_parts a ha
  obtain ⟨kb, heb, hvb⟩ := ofInt_parts b hb
  rw [h] at hea hva
  have hk : ka = kb := by
    have := hea.symm.trans heb
    exact_mod_cast this
  calc a = (DOUBLE.ofInt b).m * 2 ^ ka := hva
    _ = (DOUBLE.ofInt b).m * 2 ^ kb := by rw [hk]
    _ = b := hvb.symm

/-! ### Items with whole-number coordinates in `double` -/

theorem natAbs_mul_lt (a b : Int) (p q : Nat) (ha : a.natAbs < 2 ^ p) (hb : b.natAbs < 2 ^ q) :
    (a * b).natAbs < 2 ^ (p + q) := by
  rw [Int.natAbs_mul, pow_add]
  exact Nat.mul_lt_mul'' ha hb

theorem ofInt_resolve_add (c o n i : Int) (hc : c.natAbs < 2 ^ 50) (ho : o.natAbs < 2 ^ 50)
    (hn : n.natAbs < 2 ^ 25) (hi : i.natAbs < 2 ^ 25) :
    DOUBLE.ofInt c + (DOUBLE.ofInt o + DOUBLE.ofInt n * DOUBLE.ofInt i)
      = DOUBLE.ofInt (c + (o + n * i)) := by
  have hni : (n * i).natAbs < 2 ^ 50 := natAbs_mul_lt n i 25 25 hn hi
  generalize hx : n * i = x at hni
  rw [ofInt_mul n i (by omega) (by omega) (by rw [hx]; omega), hx,
    ofInt_add o x (by omega) (by omega) (by omega),
    ofInt_add c (o + x) (by omega) (by omega) (by omega)]

theorem ofInt_resolve_sub (c o n i : Int) (hc : c.natAbs < 2 ^ 50) (ho : o.natAbs < 2 ^ 50)
    (hn : n.natAbs < 2 ^ 25) (hi : i.natAbs < 2 ^ 25) :
    DOUBLE.ofInt c - (DOUBLE.ofInt o + DOUBLE.ofInt n * DOUBLE.ofInt i)
      = DOUBLE.ofInt (c - (o + n * i)) := by
  have hni : (n * i).natAbs < 2 ^ 50 := natAbs_mul_lt n i 25 25 hn hi
  generalize hx : n * i = x at hni
  rw [ofInt_mul n i (by omega) (by omega) (by rw [hx]; omega), hx,
    ofInt_add o x (by omega) (by omega) (by omega),
    ofInt_sub c (o + x) (by omega) (by omega) (by omega)]

theorem GetStartPos_toDouble (page : PAGE_CORNERS Int) (item : WORKSHEET_DATAITEM Int) (i : Int)
    (hrb : page.m_RB_Corner.Below (2 ^ 50)) (hlt : page.m_LT_Corner.Below (2 ^ 50))
    (hpos : item.m_Pos.m_Pos.Below (2 ^ 50)) (hinc : item.m_IncrementVector.Below (2 ^ 25))
    (hi : i.natAbs < 2 ^ 25) :
    item.toDouble.GetStartPos page.toDouble i = (item.GetStartPos page i).toDouble := by
  obtain ⟨r1, r2⟩ := hrb
  obtain ⟨l1, l2⟩ := hlt
  obtain ⟨p1, p2⟩ := hpos
  obtain ⟨n1, n2⟩ := hinc
  have hcast : ((i : Int) : DOUBLE) = DOUBLE.ofInt i := rfl
  simp only [WORKSHEET_DATAITEM.GetStartPos, WORKSHEET_DATAITEM.toDouble, PAGE_CORNERS.toDouble,
    DPOINT.toDouble, resolve, DPOINT.sub, DPOINT.add, hcast, Int.cast_id]
  cases item.m_Pos.m_Anchor
  · simp only
    rw [ofInt_resolve_sub _ _ _ _ r1 p1 n1 hi, ofInt_resolve_sub _ _ _ _ r2 p2 n2 hi]
  · simp only
    rw [ofInt_resolve_sub _ _ _ _ r1 p1 n1 hi, ofInt_resolve_add _ _ _ _ l2 p2 n2 hi]
  · simp only
    rw [ofInt_resolve_add _ _ _ _ l1 p1 n1 hi, ofInt_resolve_sub _ _ _ _ r2 p2 n2 hi]
  · simp only
    rw [ofInt_resolve_add _ _ _ _ l1 p1 n1 hi, ofInt_resolve_add _ _ _ _ l2 p2 n2 hi]

theorem GetEndPos_toDouble (page : PAGE_CORNERS Int) (item : WORKSHEET_DATAITEM Int) (i : Int)
    (hrb : page.m_RB_Corner.Below (2 ^ 50)) (hlt : page.m_LT_Corner.Below (2 ^ 50))
    (hpos : item.m_End.m_Pos.Below (2 ^ 50)) (hinc : item.m_IncrementVector.Below (2 ^ 25))
    (hi : i.natAbs < 2 ^ 25) :
    item.toDouble.GetEndPos page.toDouble i = (item.GetEndPos page i).toDouble := by
  obtain ⟨r1, r2⟩ := hrb
  obtain ⟨l1, l2⟩ := hlt
  obtain ⟨p1, p2⟩ := hpos
  obtain ⟨n1, n2⟩ := hinc
  have hcast : ((i : Int) : DOUBLE) = DOUBLE.ofInt i := rfl
  simp only [WORKSHEET_DATAITEM.GetEndPos, WORKSHEET_DATAITEM.toDouble, PAGE_CORNERS.toDouble,
    DPOINT.toDouble, resolve, DPOINT.sub, DPOINT.add, hcast, Int.cast_id]
  cases item.m_End.m_Anchor
  · simp only
    rw [ofInt_resolve_sub _ _ _ _ r1 p1 n1 hi, ofInt_resolve_sub _ _ _ _ r2 p2 n2 hi]
  · simp only
    rw [ofInt_resolve_sub _ _ _ _ r1 p1 n1 hi, ofInt_resolve_add _ _ _ _ l2 p2 n2 hi]
  · simp only
    rw [ofInt_resolve_add _ _ _ _ l1 p1 n1 hi, ofInt_resolve_sub _ _ _ _ r2 p2 n2 hi]
  · simp only
    rw [ofInt_resolve_add _ _ _ _ l1 p1 n1 hi, ofInt_resolve_add _ _ _ _ l2 p2 n2 hi]

theorem ofInt_sub_of_lt (a b : Int) (ha : a.natAbs < 2 ^ 50) (hb : b.natAbs < 2 ^ 50) :
    DOUBLE.ofInt a - DOUBLE.ofInt b = DOUBLE.ofInt (a - b) :=
  ofInt_sub a b (by omega) (by omega) (by omega)

theorem ofInt_add_of_lt (a b : Int) (ha : a.natAbs < 2 ^ 50) (hb : b.natAbs < 2 ^ 50) :
    DOUBLE.ofInt a + DOUBLE.ofInt b = DOUBLE.ofInt (a + b) :=
  ofInt_add a b (by omega) (by omega) (by omega)

theorem offsetFor_toDouble (page : PAGE_CORNERS Int) (anchor : corner_anchor) (p : DPOINT Int)
    (hrb : page.m_RB_Corner.Below (2 ^ 50)) (hlt : page.m_LT_Corner.Below (2 ^ 50))
    (hp : p.Below (2 ^ 50)) :
    offsetFor page.toDouble anchor p.toDouble = (offsetFor page anchor p).toDouble := by
  obtain ⟨r1, r2⟩ := hrb
  obtain ⟨l1, l2⟩ := hlt
  obtain ⟨p1, p2⟩ := hp
  have s1 := ofInt_sub_of_lt page.m_RB_Corner.x p.x r1 p1
  have s2 := ofInt_sub_of_lt page.m_RB_Corner.y p.y r2 p2
  have s3 := ofInt_sub_of_lt p.x page.m_LT_Corner.x p1 l1
  have s4 := ofInt_sub_of_lt p.y page.m_LT_Corner.y p2 l2
  cases anchor <;>
    simp only [offsetFor, PAGE_CORNERS.toDouble, DPOINT.toDouble, DPOINT.sub, s1, s2, s3, s4]

theorem MoveStartPointTo_toDouble (page : PAGE_CORNERS Int) (item : WORKSHEET_DATAITEM Int)
    (p : DPOINT Int) (hrb : page.m_RB_Corner.Below (2 ^ 50))
    (hlt : page.m_LT_Corner.Below (2 ^ 50)) (hp : p.Below (2 ^ 50)) :
    item.toDouble.MoveStartPointTo page.toDouble p.toDouble
      = (item.MoveStartPointTo page p).toDouble := by
  have h := offsetFor_toDouble page item.m_Pos.m_Anchor p hrb hlt hp
  simp only [WORKSHEET_DATAITEM.MoveStartPointTo, WORKSHEET_DATAITEM.toDouble] at h ⊢
  rw [h]

theorem MoveEndPointTo_toDouble (page : PAGE_CORNERS Int) (item : WORKSHEET_DATAITEM Int)
    (p : DPOINT Int) (hrb : page.m_RB_Corner.Below (2 ^ 50))
    (hlt : page.m_LT_Corner.Below (2 ^ 50)) (hp : p.Below (2 ^ 50)) :
    item.toDouble.MoveEndPointTo page.toDouble p.toDouble
      = (item.MoveEndPointTo page p).toDouble := by
  have h := offsetFor_toDouble page item.m_End.m_Anchor p hrb hlt hp
  obtain ⟨ty, fl, nm, info, pos, en, lw, rc, inc, il⟩ := item
  cases ty <;>
    simp only [WORKSHEET_DATAITEM.MoveEndPointTo, WORKSHEET_DATAITEM.toDouble,
      WORKSHEET_DATAITEM.GetType] at h ⊢ <;>
    rw [h]

theorem below_mono (p : DPOINT Int) (a b : Nat) (hab : a ≤ b) (h : p.Below a) : p.Below b :=
  ⟨lt_of_lt_of_le h.1 hab, lt_of_lt_of_le h.2 hab⟩

theorem offsetFor_below (page : PAGE_CORNERS Int) (anchor : corner_anchor) (p : DPOINT Int)
    (b : Nat) (hrb : page.m_RB_Corner.Below b) (hlt : page.m_LT_Corner.Below b)
    (hp : p.Below b) : (offsetFor page anchor p).Below (2 * b) := by
  obtain ⟨r1, r2⟩ := hrb
  obtain ⟨l1, l2⟩ := hlt
  obtain ⟨p1, p2⟩ := hp
  cases anchor <;> simp only [offsetFor, DPOINT.sub, DPOINT.Below] <;> constructor <;> omega

theorem resolve_below (page : PAGE_CORNERS Int) (anchor : corner_anchor) (p : DPOINT Int)
    (b : Nat) (hrb : page.m_RB_Corner.Below b) (hlt : page.m_LT_Corner.Below b)
    (hp : p.Below b) : (resolve page anchor p).Below (2 * b) := by
  obtain ⟨r1, r2⟩ := hrb
  obtain ⟨l1, l2⟩ := hlt
  obtain ⟨p1, p2⟩ := hp
  cases anchor <;> simp only [resolve, DPOINT.sub, DPOINT.add, DPOINT.Below] <;>
    constructor <;> omega

/-! ### Moving and repeating an item: exact arithmetic, whole numbers in `double` -/

theorem MoveStartPointTo_exact {D : Type} [CommRing D] (page : PAGE_CORNERS D)
    (item : WORKSHEET_DATAITEM D) (p : DPOINT D) :
    (item.MoveStartPointTo page p).GetStartPos page 0 = p
      ∧ (item.MoveStartPointTo page (item.GetStartPos page 0)).m_Pos.m_Pos = item.m_Pos.m_Pos
      ∧ item.MoveStartPointTo page (item.GetStartPos page 0) = item := by
  have h0 : ∀ q : DPOINT D,
      (⟨q.x + item.m_IncrementVector.x * ((0 : Int) : D),
        q.y + item.m_IncrementVector.y * ((0 : Int) : D)⟩ : DPOINT D) = q := by
    intro q
    simp
  have hback : offsetFor page item.m_Pos.m_Anchor (item.GetStartPos page 0)
      = item.m_Pos.m_Pos := by
    simp only [WORKSHEET_DATAITEM.GetStartPos, h0, offsetFor_resolve]
  refine ⟨?_, ?_, ?_⟩
  · simp only [WORKSHEET_DATAITEM.GetStartPos, WORKSHEET_DATAITEM.MoveStartPointTo, h0,
      resolve_offsetFor]
  · simp only [WORKSHEET_DATAITEM.MoveStartPointTo, hback]
  · simp only [WORKSHEET_DATAITEM.MoveStartPointTo, hback]

theorem MoveEndPointTo_exact {D : Type} [CommRing D] (page : PAGE_CORNERS D)
    (item : WORKSHEET_DATAITEM D) (p : DPOINT D)
    (h : item.GetType = .WS_SEGMENT ∨ item.GetType = .WS_RECT) :
    (item.MoveEndPointTo page p).GetEndPos page 0 = p := by
  have h0 : ∀ q : DPOINT D,
      (⟨q.x + item.m_IncrementVector.x * ((0 : Int) : D),
        q.y + item.m_IncrementVector.y * ((0 : Int) : D)⟩ : DPOINT D) = q := by
    intro q
    simp
  rcases h with h | h <;>
    simp only [WORKSHEET_DATAITEM.MoveEndPointTo, h, WORKSHEET_DATAITEM.GetEndPos, h0,
      resolve_offsetFor]

theorem MoveTo_exact {D : Type} [CommRing D] (page : PAGE_CORNERS D)
    (item : WORKSHEET_DATAITEM D) (p : DPOINT D)
    (htype : item.GetType = .WS_SEGMENT ∨ item.GetType = .WS_RECT) :
    (item.MoveTo page p).GetStartPos page 0 = p
      ∧ ((item.MoveTo page p).GetEndPos page 0).sub ((item.MoveTo page p).GetStartPos page 0)
          = (item.GetEndPos page 0).sub (item.GetStartPos page 0) := by
  have hstart : (item.MoveTo page p).GetStartPos page 0 = p := by
    simp only [WORKSHEET_DATAITEM.MoveTo, WORKSHEET_DATAITEM.MoveEndPointTo,
      WORKSHEET_DATAITEM.MoveStartPointTo, WORKSHEET_DATAITEM.GetType]
    rcases htype with h | h <;>
      simp only [WORKSHEET_DATAITEM.GetType] at h <;>
      simp only [h, WORKSHEET_DATAITEM.GetStartPos, index_zero] <;>
      exact resolve_offsetFor page _ p
  have hend : (item.MoveTo page p).GetEndPos page 0
      = (p.sub (item.GetStartPos page 0)).add (item.GetEndPos page 0) := by
    simp only [WORKSHEET_DATAITEM.MoveTo, WORKSHEET_DATAITEM.MoveEndPointTo,
      WORKSHEET_DATAITEM.MoveStartPointTo, WORKSHEET_DATAITEM.GetType]
    rcases htype with h | h <;>
      simp only [WORKSHEET_DATAITEM.GetType] at h <;>
      simp only [h, WORKSHEET_DATAITEM.GetEndPos, index_zero] <;>
      exact resolve_offsetFor page _ _
  refine ⟨hstart, ?_⟩
  rw [hstart, hend]
  simp only [DPOINT.sub, DPOINT.add, DPOINT.mk.injEq]
  constructor <;> ring

theorem GetStartPos_left_exact {D : Type} [CommRing D] (page : PAGE_CORNERS D)
    (item : WORKSHEET_DATAITEM D) (ii : Int)
    (h : item.m_Pos.m_Anchor = .LT_CORNER ∨ item.m_Pos.m_Anchor = .LB_CORNER) :
    (item.GetStartPos page ii).x
      = (item.GetStartPos page 0).x + (ii : D) * item.m_IncrementVector.x := by
  rcases h with h | h <;>
    simp only [WORKSHEET_DATAITEM.GetStartPos, resolve, h, DPOINT.add, Int.cast_zero] <;> ring

theorem GetStartPos_right_exact {D : Type} [CommRing D] (page : PAGE_CORNERS D)
    (item : WORKSHEET_DATAITEM D) (ii : Int)
    (h : item.m_Pos.m_Anchor = .RT_CORNER ∨ item.m_Pos.m_Anchor = .RB_CORNER) :
    (item.GetStartPos page ii).x
      = (item.GetStartPos page 0).x - (ii : D) * item.m_IncrementVector.x := by
  rcases h with h | h <;>
    simp only [WORKSHEET_DATAITEM.GetStartPos, resolve, h, DPOINT.sub, Int.cast_zero] <;> ring

theorem GetStartPos_direction_exact {D : Type} [CommRing D] (page : PAGE_CORNERS D)
    (item : WORKSHEET_DATAITEM D) (i : Int) :
    (item.GetStartPos page i).sub (item.GetStartPos page 0)
      = ⟨(match item.m_Pos.m_Anchor with
          | .LT_CORNER => (i : D) * item.m_IncrementVector.x
          | .LB_CORNER => (i : D) * item.m_IncrementVector.x
          | .RT_CORNER => -((i : D) * item.m_IncrementVector.x)
          | .RB_CORNER => -((i : D) * item.m_IncrementVector.x)),
        (match item.m_Pos.m_Anchor with
          | .LT_CORNER => (i : D) * item.m_IncrementVector.y
          | .RT_CORNER => (i : D) * item.m_IncrementVector.y
          | .LB_CORNER => -((i : D) * item.m_IncrementVector.y)
          | .RB_CORNER => -((i : D) * item.m_IncrementVector.y))⟩ := by
  cases h : item.m_Pos.m_Anchor <;>
    simp only [WORKSHEET_DATAITEM.GetStartPos, resolve, h, DPOINT.sub, DPOINT.add,
      Int.cast_zero, DPOINT.mk.injEq] <;>
    constructor <;> ring

theorem natAbs_resolve_lt (c o a : Int) (hc : c.natAbs < 2 ^ 20) (ho : o.natAbs < 2 ^ 22)
    (ha : a.natAbs < 2 ^ 40) :
    (c + (o + a)).natAbs < 2 ^ 42 ∧ (c - (o + a)).natAbs < 2 ^ 42 := by
  constructor <;> omega

theorem GetStartPos_below (page : PAGE_CORNERS Int) (item : WORKSHEET_DATAITEM Int) (i : Int)
    (hrb : page.m_RB_Corner.Below (2 ^ 20)) (hlt : page.m_LT_Corner.Below (2 ^ 20))
    (hpos : item.m_Pos.m_Pos.Below (2 ^ 22)) (hinc : item.m_IncrementVector.Below (2 ^ 20))
    (hi : i.natAbs < 2 ^ 20) : (item.GetStartPos page i).Below (2 ^ 42) := by
  obtain ⟨r1, r2⟩ := hrb
  obtain ⟨l1, l2⟩ := hlt
  obtain ⟨p1, p2⟩ := hpos
  obtain ⟨n1, n2⟩ := hinc
  have hx : (item.m_IncrementVector.x * i).natAbs < 2 ^ 40 :=
    natAbs_mul_lt item.m_IncrementVector.x i 20 20 n1 hi
  have hy : (item.m_IncrementVector.y * i).natAbs < 2 ^ 40 :=
    natAbs_mul_lt item.m_IncrementVector.y i 20 20 n2 hi
  simp only [WORKSHEET_DATAITEM.GetStartPos, resolve, DPOINT.sub, DPOINT.add, Int.cast_id]
  cases item.m_Pos.m_Anchor
  · exact ⟨(natAbs_resolve_lt _ _ _ r1 p1 hx).2, (natAbs_resolve_lt _ _ _ r2 p2 hy).2⟩
  · exact ⟨(natAbs_resolve_lt _ _ _ r1 p1 hx).2, (natAbs_resolve_lt _ _ _ l2 p2 hy).1⟩
  · exact ⟨(natAbs_resolve_lt _ _ _ l1 p1 hx).1, (natAbs_resolve_lt _ _ _ r2 p2 hy).2⟩
  · exact ⟨(natAbs_resolve_lt _ _ _ l1 p1 hx).1, (natAbs_resolve_lt _ _ _ l2 p2 hy).1⟩

theorem GetEndPos_below (page : PAGE_CORNERS Int) (item : WORKSHEET_DATAITEM Int) (i : Int)
    (hrb : page.m_RB_Corner.Below (2 ^ 20)) (hlt : page.m_LT_Corner.Below (2 ^ 20))
    (hpos : item.m_End.m_Pos.Below (2 ^ 22)) (hinc : item.m_IncrementVector.Below (2 ^ 20))
    (hi : i.natAbs < 2 ^ 20) : (item.GetEndPos page i).Below (2 ^ 42) := by
  obtain ⟨r1, r2⟩ := hrb
  obtain ⟨l1, l2⟩ := hlt
  obtain ⟨p1, p2⟩ := hpos
  obtain ⟨n1, n2⟩ := hinc
  have hx : (item.m_IncrementVector.x * i).natAbs < 2 ^ 40 :=
    natAbs_mul_lt item.m_IncrementVector.x i 20 20 n1 hi
  have hy : (item.m_IncrementVector.y * i).natAbs < 2 ^ 40 :=
    natAbs_mul_lt item.m_IncrementVector.y i 20 20 n2 hi
  simp only [WORKSHEET_DATAITEM.GetEndPos, resolve, DPOINT.sub, DPOINT.add, Int.cast_id]
  cases item.m_End.m_Anchor
  · exact ⟨(natAbs_resolve_lt _ _ _ r1 p1 hx).2, (natAbs_resolve_lt _ _ _ r2 p2 hy).2⟩
  · exact ⟨(natAbs_resolve_lt _ _ _ r1 p1 hx).2, (natAbs_resolve_lt _ _ _ l2 p2 hy).1⟩
  · exact ⟨(natAbs_resolve_lt _ _ _ l1 p1 hx).1, (natAbs_resolve_lt _ _ _ r2 p2 hy).2⟩
  · exact ⟨(natAbs_resolve_lt _ _ _ l1 p1 hx).1, (natAbs_resolve_lt _ _ _ l2 p2 hy).1⟩

theorem sub_toDouble (p q : DPOINT Int) (hp : p.Below (2 ^ 50)) (hq : q.Below (2 ^ 50)) :
    p.toDouble.sub q.toDouble = (p.sub q).toDouble := by
  obtain ⟨p1, p2⟩ := hp
  obtain ⟨q1, q2⟩ := hq
  simp only [DPOINT.sub, DPOINT.toDouble]
  rw [ofInt_sub_of_lt _ _ p1 q1, ofInt_sub_of_lt _ _ p2 q2]

theorem add_toDouble (p q : DPOINT Int) (hp : p.Below (2 ^ 50)) (hq : q.Below (2 ^ 50)) :
    p.toDouble.add q.toDouble = (p.add q).toDouble := by
  obtain ⟨p1, p2⟩ := hp
  obtain ⟨q1, q2⟩ := hq
  simp only [DPOINT.add, DPOINT.toDouble]
  rw [ofInt_add_of_lt _ _ p1 q1, ofInt_add_of_lt _ _ p2 q2]

theorem sub_below (p q : DPOINT Int) (b : Nat) (hp : p.Below b) (hq : q.Below b) :
    (p.sub q).Below (2 * b) := by
  obtain ⟨p1, p2⟩ := hp
  obtain ⟨q1, q2⟩ := hq
  simp only [DPOINT.sub, DPOINT.Below]
  constructor <;> omega

theorem add_below (p q : DPOINT Int) (b : Nat) (hp : p.Below b) (hq : q.Below b) :
    (p.add q).Below (2 * b) := by
  obtain ⟨p1, p2⟩ := hp
  obtain ⟨q1, q2⟩ := hq
  simp only [DPOINT.add, DPOINT.Below]
  constructor <;> omega

theorem MoveStartPointTo_whole (page : PAGE_CORNERS Int) (item : WORKSHEET_DATAITEM Int)
    (p : DPOINT Int) (hw : WholeBelow page item) (hp : p.Below (2 ^ 20)) :
    (item.toDouble.MoveStartPointTo page.toDouble p.toDouble).GetStartPos page.toDouble 0
        = p.toDouble
      ∧ item.toDouble.MoveStartPointTo page.toDouble (item.toDouble.GetStartPos page.toDouble 0)
        = item.toDouble := by
  obtain ⟨hrb, hlt, hpos, hend, hinc⟩ := hw
  have b50 : ∀ q : DPOINT Int, q.Below (2 ^ 20) → q.Below (2 ^ 50) :=
    fun q h => below_mono q _ _ (by norm_num) h
  have hinc25 : item.m_IncrementVector.Below (2 ^ 25) := below_mono _ _ _ (by norm_num) hinc
  constructor
  · have hoff : (item.MoveStartPointTo page p).m_Pos.m_Pos.Below (2 ^ 50) :=
      below_mono _ _ _ (by norm_num) (offsetFor_below page item.m_Pos.m_Anchor p _ hrb hlt hp)
    have e1 := MoveStartPointTo_toDouble page item p (b50 _ hrb) (b50 _ hlt) (b50 _ hp)
    have e2 := GetStartPos_toDouble page (item.MoveStartPointTo page p) 0 (b50 _ hrb)
      (b50 _ hlt) hoff hinc25 (by decide)
    rw [e1, e2, (MoveStartPointTo_exact page item p).1]
  · have hs := GetStartPos_below page item 0 hrb hlt (below_mono _ _ _ (by norm_num) hpos)
      hinc (by decide)
    have e1 := GetStartPos_toDouble page item 0 (b50 _ hrb) (b50 _ hlt) (b50 _ hpos)
      hinc25 (by decide)
    have e2 := MoveStartPointTo_toDouble page item (item.GetStartPos page 0) (b50 _ hrb)
      (b50 _ hlt) (below_mono _ _ _ (by norm_num) hs)
    rw [e1, e2, (MoveStartPointTo_exact page item (item.GetStartPos page 0)).2.2]

theorem MoveEndPointTo_whole (page : PAGE_CORNERS Int) (item : WORKSHEET_DATAITEM Int)
    (p : DPOINT Int) (hw : WholeBelow page item) (hp : p.Below (2 ^ 20))
    (h : item.GetType = .WS_SEGMENT ∨ item.GetType = .WS_RECT) :
    (item.toDouble.MoveEndPointTo page.toDouble p.toDouble).GetEndPos page.toDouble 0
      = p.toDouble := by
  obtain ⟨hrb, hlt, hpos, hend, hinc⟩ := hw
  have b50 : ∀ q : DPOINT Int, q.Below (2 ^ 20) → q.Below (2 ^ 50) :=
    fun q h => below_mono q _ _ (by norm_num) h
  have hoff : (item.MoveEndPointTo page p).m_End.m_Pos.Below (2 ^ 50) := by
    have := offsetFor_below page item.m_End.m_Anchor p _ hrb hlt hp
    rcases h with h | h <;>
      simp only [WORKSHEET_DATAITEM.MoveEndPointTo, h] <;>
      exact below_mono _ _ _ (by norm_num) this
  have hinc1 : (item.MoveEndPointTo page p).m_IncrementVector.Below (2 ^ 25) := by
    rcases h with h | h <;>
      simp only [WORKSHEET_DATAITEM.MoveEndPointTo, h] <;>
      exact below_mono _ _ _ (by norm_num) hinc
  have e1 := MoveEndPointTo_toDouble page item p (b50 _ hrb) (b50 _ hlt) (b50 _ hp)
  have e2 := GetEndPos_toDouble page (item.MoveEndPointTo page p) 0 (b50 _ hrb) (b50 _ hlt)
    hoff hinc1 (by decide)
  rw [e1, e2, MoveEndPointTo_exact page item p h]

theorem MoveTo_end_exact {D : Type} [CommRing D] (page : PAGE_CORNERS D)
    (item : WORKSHEET_DATAITEM D) (p : DPOINT D)
    (htype : item.GetType = .WS_SEGMENT ∨ item.GetType = .WS_RECT) :
    (item.MoveTo page p).GetEndPos page 0
      = (p.sub (item.GetStartPos page 0)).add (item.GetEndPos page 0) := by
  simp only [WORKSHEET_DATAITEM.MoveTo, WORKSHEET_DATAITEM.MoveEndPointTo,
    WORKSHEET_DATAITEM.MoveStartPointTo, WORKSHEET_DATAITEM.GetType]
  rcases htype with h | h <;>
    simp only [WORKSHEET_DATAITEM.GetType] at h <;>
    simp only [h, WORKSHEET_DATAITEM.GetEndPos, index_zero] <;>
    exact resolve_offsetFor page _ _

theorem MoveTo_toDouble (page : PAGE_CORNERS Int) (item : WORKSHEET_DATAITEM Int)
    (p : DPOINT Int) (hw : WholeBelow page item) (hp : p.Below (2 ^ 20)) :
    item.toDouble.MoveTo page.toDouble p.toDouble = (item.MoveTo page p).toDouble := by
  obtain ⟨hrb, hlt, hpos, hend, hinc⟩ := hw
  have b50 : ∀ q : DPOINT Int, q.Below (2 ^ 20) → q.Below (2 ^ 50) :=
    fun q h => below_mono q _ _ (by norm_num) h
  have hinc25 : item.m_IncrementVector.Below (2 ^ 25) := below_mono _ _ _ (by norm_num) hinc
  have hs := GetStartPos_below page item 0 hrb hlt (below_mono _ _ _ (by norm_num) hpos)
    hinc (by decide)
  have he := GetEndPos_below page item 0 hrb hlt (below_mono _ _ _ (by norm_num) hend)
    hinc (by decide)
  have e1 := GetStartPos_toDouble page item 0 (b50 _ hrb) (b50 _ hlt) (b50 _ hpos)
    hinc25 (by decide)
  have e2 := GetEndPos_toDouble page item 0 (b50 _ hrb) (b50 _ hlt) (b50 _ hend)
    hinc25 (by decide)
  have hv : (p.sub (item.GetStartPos page 0)).Below (2 ^ 43) :=
    sub_below _ _ (2 ^ 42) (below_mono _ _ _ (by norm_num) hp) hs
  have e3 := sub_toDouble p (item.GetStartPos page 0) (b50 _ hp)
    (below_mono _ _ _ (by norm_num) hs)
  have hendpos : ((p.sub (item.GetStartPos page 0)).add (item.GetEndPos page 0)).Below
      (2 ^ 44) :=
    add_below _ _ (2 ^ 43) hv (below_mono _ _ _ (by norm_num) he)
  have e4 := add_toDouble (p.sub (item.GetStartPos page 0)) (item.GetEndPos page 0)
    (below_mono _ _ _ (by norm_num) hv) (below_mono _ _ _ (by norm_num) he)
  have e5 := MoveStartPointTo_toDouble page item p (b50 _ hrb) (b50 _ hlt) (b50 _ hp)
  have e6 := MoveEndPointTo_toDouble page (item.MoveStartPointTo page p)
    ((p.sub (item.GetStartPos page 0)).add (item.GetEndPos page 0)) (b50 _ hrb) (b50 _ hlt)
    (below_mono _ _ _ (by norm_num) hendpos)
  unfold WORKSHEET_DATAITEM.MoveTo
  simp only
  rw [e1, e2, e3, e4, e5, e6]

theorem MoveTo_whole (page : PAGE_CORNERS Int) (item : WORKSHEET_DATAITEM Int)
    (p : DPOINT Int) (hw : WholeBelow page item) (hp : p.Below (2 ^ 20))
    (htype : item.GetType = .WS_SEGMENT ∨ item.GetType = .WS_RECT) :
    (item.toDouble.MoveTo page.toDouble p.toDouble).GetStartPos page.toDouble 0 = p.toDouble
      ∧ ((item.toDouble.MoveTo page.toDouble p.toDouble).GetEndPos page.toDouble 0).sub
          ((item.toDouble.MoveTo page.toDouble p.toDouble).GetStartPos page.toDouble 0)
        = (item.toDouble.GetEndPos page.toDouble 0).sub
            (item.toDouble.GetStartPos page.toDouble 0) := by
  have hmove := MoveTo_toDouble page item p hw hp
  obtain ⟨hrb, hlt, hpos, hend, hinc⟩ := hw
  have b50 : ∀ q : DPOINT Int, q.Below (2 ^ 20) → q.Below (2 ^ 50) :=
    fun q h => below_mono q _ _ (by norm_num) h
  have hinc25 : item.m_IncrementVector.Below (2 ^ 25) := below_mono _ _ _ (by norm_num) hinc
  have hs := GetStartPos_below page item 0 hrb hlt (below_mono _ _ _ (by norm_num) hpos)
    hinc (by decide)
  have he := GetEndPos_below page item 0 hrb hlt (below_mono _ _ _ (by norm_num) hend)
    hinc (by decide)
  have hv : (p.sub (item.GetStartPos page 0)).Below (2 ^ 43) :=
    sub_below _ _ (2 ^ 42) (below_mono _ _ _ (by norm_num) hp) hs
  have hendpos : ((p.sub (item.GetStartPos page 0)).add (item.GetEndPos page 0)).Below
      (2 ^ 44) :=
    add_below _ _ (2 ^ 43) hv (below_mono _ _ _ (by norm_num) he)
  have hmpos : (item.MoveTo page p).m_Pos.m_Pos.Below (2 ^ 50) := by
    have := offsetFor_below page item.m_Pos.m_Anchor p _ hrb hlt hp
    simp only [WORKSHEET_DATAITEM.MoveTo, WORKSHEET_DATAITEM.MoveEndPointTo,
      WORKSHEET_DATAITEM.MoveStartPointTo, WORKSHEET_DATAITEM.GetType]
    rcases htype with h | h <;>
      simp only [WORKSHEET_DATAITEM.GetType] at h <;>
      simp only [h] <;>
      exact below_mono _ _ _ (by norm_num) this
  have hmend : (item.MoveTo page p).m_End.m_Pos.Below (2 ^ 50) := by
    have := offsetFor_below page item.m_End.m_Anchor
      ((p.sub (item.GetStartPos page 0)).add (item.GetEndPos page 0)) (2 ^ 44)
      (below_mono _ _ _ (by norm_num) hrb) (below_mono _ _ _ (by norm_num) hlt) hendpos
    simp only [WORKSHEET_DATAITEM.MoveTo, WORKSHEET_DATAITEM.MoveEndPointTo,
      WORKSHEET_DATAITEM.MoveStartPointTo, WORKSHEET_DATAITEM.GetType]
    rcases htype with h | h <;>
      simp only [WORKSHEET_DATAITEM.GetType] at h <;>
      simp only [h] <;>
      exact below_mono _ _ _ (by norm_num) this
  have hminc : (item.MoveTo page p).m_IncrementVector.Below (2 ^ 25) := by
    simp only [WORKSHEET_DATAITEM.MoveTo, WORKSHEET_DATAITEM.MoveEndPointTo,
      WORKSHEET_DATAITEM.MoveStartPointTo, WORKSHEET_DATAITEM.GetType]
    rcases htype with h | h <;>
      simp only [WORKSHEET_DATAITEM.GetType] at h <;>
      simp only [h] <;>
      exact hinc25
  have g1 := GetStartPos_toDouble page (item.MoveTo page p) 0 (b50 _ hrb) (b50 _ hlt) hmpos
    hminc (by decide)
  have g2 := GetEndPos_toDouble page (item.MoveTo page p) 0 (b50 _ hrb) (b50 _ hlt) hmend
    hminc (by decide)
  have g3 := GetStartPos_toDouble page item 0 (b50 _ hrb) (b50 _ hlt) (b50 _ hpos)
    hinc25 (by decide)
  have g4 := GetEndPos_toDouble page item 0 (b50 _ hrb) (b50 _ hlt) (b50 _ hend)
    hinc25 (by decide)
  obtain ⟨x1, x2⟩ := MoveTo_exact page item p htype
  have x3 := MoveTo_end_exact page item p htype
  rw [hmove, g1, g2, g3, g4]
  refine ⟨by rw [x1], ?_⟩
  rw [sub_toDouble _ _ (by rw [x3]; exact below_mono _ _ _ (by norm_num) hendpos)
      (by rw [x1]; exact b50 _ hp),
    sub_toDouble _ _ (below_mono _ _ _ (by norm_num) he) (below_mono _ _ _ (by norm_num) hs),
    x2]

theorem GetStartPos_repeat_whole (page : PAGE_CORNERS Int) (item : WORKSHEET_DATAITEM Int)
    (ii : Int) (hw : WholeBelow page item) (hi : ii.natAbs < 2 ^ 20) :
    ((item.m_Pos.m_Anchor = .LT_CORNER ∨ item.m_Pos.m_Anchor = .LB_CORNER) →
        (item.toDouble.GetStartPos page.toDouble ii).x
          = (item.toDouble.GetStartPos page.toDouble 0).x
            + ((ii : Int) : DOUBLE) * item.toDouble.m_IncrementVector.x)
      ∧ ((item.m_Pos.m_Anchor = .RT_CORNER ∨ item.m_Pos.m_Anchor = .RB_CORNER) →
        (item.toDouble.GetStartPos page.toDouble ii).x
          = (item.toDouble.GetStartPos page.toDouble 0).x
            - ((ii : Int) : DOUBLE) * item.toDouble.m_IncrementVector.x) := by
  obtain ⟨hrb, hlt, hpos, hend, hinc⟩ := hw
  have b50 : ∀ q : DPOINT Int, q.Below (2 ^ 20) → q.Below (2 ^ 50) :=
    fun q h => below_mono q _ _ (by norm_num) h
  have hinc25 : item.m_IncrementVector.Below (2 ^ 25) := below_mono _ _ _ (by norm_num) hinc
  have hs := GetStartPos_below page item 0 hrb hlt (below_mono _ _ _ (by norm_num) hpos)
    hinc (by decide)
  have g1 := GetStartPos_toDouble page item ii (b50 _ hrb) (b50 _ hlt) (b50 _ hpos)
    hinc25 (by omega)
  have g0 := GetStartPos_toDouble page item 0 (b50 _ hrb) (b50 _ hlt) (b50 _ hpos)
    hinc25 (by decide)
  have hprod : (ii * item.m_IncrementVector.x).natAbs < 2 ^ 40 :=
    natAbs_mul_lt ii item.m_IncrementVector.x 20 20 hi hinc.1
  have hmul : ((ii : Int) : DOUBLE) * item.toDouble.m_IncrementVector.x
      = DOUBLE.ofInt (ii * item.m_IncrementVector.x) :=
    ofInt_mul ii item.m_IncrementVector.x (by omega) (by have := hinc.1; omega)
      (by omega)
  rw [g1, g0, hmul]
  simp only [DPOINT.toDouble]
  constructor
  · intro h
    rw [ofInt_add_of_lt _ _ (by have := hs.1; omega) (by omega)]
    have := GetStartPos_left_exact page item ii h
    simp only [Int.cast_id] at this
    rw [this]
  · intro h
    rw [ofInt_sub_of_lt _ _ (by have := hs.1; omega) (by omega)]
    have := GetStartPos_right_exact page item ii h
    simp only [Int.cast_id] at this
    rw [this]

theorem GetStartPos_direction_whole (page : PAGE_CORNERS Int) (item : WORKSHEET_DATAITEM Int)
    (i : Int) (hw : WholeBelow page item) (hi : i.natAbs < 2 ^ 20) :
    (item.toDouble.GetStartPos page.toDouble i).sub (item.toDouble.GetStartPos page.toDouble 0)
      = (⟨(match item.m_Pos.m_Anchor with
            | .LT_CORNER => i * item.m_IncrementVector.x
            | .LB_CORNER => i * item.m_IncrementVector.x
            | .RT_CORNER => -(i * item.m_IncrementVector.x)
            | .RB_CORNER => -(i * item.m_IncrementVector.x)),
          (match item.m_Pos.m_Anchor with
            | .LT_CORNER => i * item.m_IncrementVector.y
            | .RT_CORNER => i * item.m_IncrementVector.y
            | .LB_CORNER => -(i * item.m_IncrementVector.y)
            | .RB_CORNER => -(i * item.m_IncrementVector.y))⟩ : DPOINT Int).toDouble := by
  obtain ⟨hrb, hlt, hpos, hend, hinc⟩ := hw
  have b50 : ∀ q : DPOINT Int, q.Below (2 ^ 20) → q.Below (2 ^ 50) :=
    fun q h => below_mono q _ _ (by norm_num) h
  have hinc25 : item.m_IncrementVector.Below (2 ^ 25) := below_mono _ _ _ (by norm_num) hinc
  have hs0 := GetStartPos_below page item 0 hrb hlt (below_mono _ _ _ (by norm_num) hpos)
    hinc (by decide)
  have hs1 := GetStartPos_below page item i hrb hlt (below_mono _ _ _ (by norm_num) hpos)
    hinc hi
  have g1 := GetStartPos_toDouble page item i (b50 _ hrb) (b50 _ hlt) (b50 _ hpos)
    hinc25 (by omega)
  have g0 := GetStartPos_toDouble page item 0 (b50 _ hrb) (b50 _ hlt) (b50 _ hpos)
    hinc25 (by decide)
  rw [g1, g0, sub_toDouble _ _ (below_mono _ _ _ (by norm_num) hs1)
    (below_mono _ _ _ (by norm_num) hs0)]
  have := GetStartPos_direction_exact page item i
  simp only [Int.cast_id] at this
  rw [this]

theorem GetStartPos_values_whole (page : PAGE_CORNERS Int) (item : WORKSHEET_DATAITEM Int)
    (hw : WholeBelow page item) (hinc : item.m_IncrementVector = ⟨2, 0⟩)
    (h0 : (item.toDouble.GetStartPos page.toDouble 0).x = DOUBLE.ofInt 5) :
    ((item.m_Pos.m_Anchor = .LT_CORNER ∨ item.m_Pos.m_Anchor = .LB_CORNER) →
        (item.toDouble.GetStartPos page.toDouble 1).x = DOUBLE.ofInt 7
          ∧ (item.toDouble.GetStartPos page.toDouble 2).x = DOUBLE.ofInt 9)
      ∧ ((item.m_Pos.m_Anchor = .RT_CORNER ∨ item.m_Pos.m_Anchor = .RB_CORNER) →
        (item.toDouble.GetStartPos page.toDouble 1).x = DOUBLE.ofInt 3
          ∧ (item.toDouble.GetStartPos page.toDouble 2).x = DOUBLE.ofInt 1) := by
  have hx : item.toDouble.m_IncrementVector.x = DOUBLE.ofInt 2 := by
    simp only [WORKSHEET_DATAITEM.toDouble, DPOINT.toDouble, hinc]
  have g1 := GetStartPos_repeat_whole page item 1 hw (by decide)
  have g2 := GetStartPos_repeat_whole page item 2 hw (by decide)
  rw [h0, hx] at g1 g2
  constructor
  · intro h
    rw [g1.1 h, g2.1 h]
    exact ⟨by decide, by decide⟩
  · intro h
    rw [g1.2 h, g2.2 h]
    exact ⟨by decide, by decide⟩

/-! # The claims -/

/-- C1. For every table (index empty or accurate) and every row `r` whose
nickname is already held by a row of that table, `InsertRow( r, false )`
returns false and leaves the row sequence, every row in order, exactly as it
was. -/
theorem InsertRow_present_keep (t : FP_LIB_TABLE) (r : ROW) (hidx : t.IndexOK)
    (hdup : ∃ x ∈ t.rows, x.nickName = r.nickName) :
    (t.InsertRow r false).1 = false ∧ (t.InsertRow r false).2.rows = t.rows := by
  obtain ⟨pos, hpos⟩ := firstNamed_isSome_of_mem r.nickName t.rows hdup
  rw [InsertRow_eq t r false hidx, hpos]
  exact ⟨rfl, rfl⟩

theorem InsertRow_present_keep_witness :
    (exTable.InsertRow (exRow "B" "other/B") false).1 = false
      ∧ (exTable.InsertRow (exRow "B" "other/B") false).2.rows = exTable.rows :=
  InsertRow_present_keep exTable (exRow "B" "other/B") (by decide)
    ⟨exRow "B" "local/B", by decide, by decide⟩

/-- C2. For every table (unique nicknames, index empty or accurate) holding a
row with nickname `n` at position `i` and every row `r` with nickname `n`,
`InsertRow( r, true )` returns true, the row count is unchanged, the row at
position `i` becomes `r` (the value `operator=` stores: the data members of
`r` with the plugin handle unbound, equal to `r` by `ROW::operator==`), and
the row at every other position is unchanged. -/
theorem InsertRow_present_replace (t : FP_LIB_TABLE) (r x : ROW) (i : Nat)
    (hidx : t.IndexOK) (huniq : t.UniqueNicks)
    (hi : t.rows.get? i = some x) (hn : x.nickName = r.nickName) :
    (t.InsertRow r true).1 = true
      ∧ (t.InsertRow r true).2.rows.length = t.rows.length
      ∧ (t.InsertRow r true).2.rows.get? i = some r.assign
      ∧ r.assign.beq r = true
      ∧ ∀ j, j ≠ i → (t.InsertRow r true).2.rows.get? j = t.rows.get? j := by
  have hpos := firstNamed_of_unique r.nickName t.rows i x huniq hi hn
  have hil : i < t.rows.length := (List.get?_eq_some.1 hi).1
  rw [InsertRow_eq t r true hidx, hpos]
  simp only [if_true, rows_mk, List.length_set, true_and]
  refine ⟨?_, ?_, ?_⟩
  · simp [List.getElem?_set, hil]
  · simp [ROW.beq, ROW.assign]
  · intro j hj
    simp [List.getElem?_set, Ne.symm hj]

theorem InsertRow_present_replace_witness :
    (exTable.InsertRow (exRow "B" "other/B") true).1 = true
      ∧ (exTable.InsertRow (exRow "B" "other/B") true).2.rows.get? 1
          = some (exRow "B" "other/B").assign :=
  have h := InsertRow_present_replace exTable (exRow "B" "other/B") (exRow "B" "local/B") 1
    (by decide) (by decide) (by decide) (by decide)
  ⟨h.1, h.2.2.1⟩

/-- C3. For every table (index empty or accurate) and every row `r` whose
nickname no row of the table has, `InsertRow( r, replace )` with either flag
returns true, the new row sequence is the old one with `r` appended at its
tail (the copy `push_back` stores: the data members of `r` with the plugin
handle unbound, equal to `r` by `ROW::operator==`), and
`findRow( r.nickName )` then returns that appended row. -/
theorem InsertRow_absent_appends (t : FP_LIB_TABLE) (r : ROW) (doReplace : Bool)
    (hidx : t.IndexOK) (habs : ∀ x ∈ t.rows, x.nickName ≠ r.nickName) :
    (t.InsertRow r doReplace).1 = true
      ∧ (t.InsertRow r doReplace).2.rows = t.rows ++ [r.copy]
      ∧ r.copy.beq r = true
      ∧ ((t.InsertRow r doReplace).2.findRow r.nickName).1 = some ⟨0, t.rows.length⟩
      ∧ (t.InsertRow r doReplace).2.rowAt ⟨0, t.rows.length⟩ = some r.copy := by
  have hok := InsertRow_IndexOK t r doReplace hidx
  have hnone := (firstNamed_eq_none r.nickName t.rows).2 habs
  rw [InsertRow_eq t r doReplace hidx, hnone] at hok ⊢
  refine ⟨rfl, rfl, by simp [ROW.beq, ROW.copy], ?_, ?_⟩
  · simp only
    rw [findRow_fst _ _ _ _ hok, firstNamed_append_new _ _ r.copy habs rfl]
  · cases hfb : t.fallBack <;>
      simp [FP_LIB_TABLE.rowAt, FP_LIB_TABLE.chain]

theorem InsertRow_absent_appends_witness :
    (exTable.InsertRow (exRow "C" "local/C") false).1 = true
      ∧ (exTable.InsertRow (exRow "C" "local/C") false).2.rows
          = exTable.rows ++ [(exRow "C" "local/C").copy]
      ∧ ((exTable.InsertRow (exRow "C" "local/C") false).2.findRow "C".toList).1
          = some ⟨0, 2⟩ :=
  have h := InsertRow_absent_appends exTable (exRow "C" "local/C") false (by decide) (by decide)
  ⟨h.1, h.2.1, h.2.2.2.1⟩

/-- C4. For every table with a finite fallback chain (each table of the chain
with unique nicknames and an index that is empty or accurate) and every
nickname `n`: `findRow( n )` returns the row named `n` of the first table in
chain order that has one, so a local row shadows a fallback row of the same
name and a row present only in a fallback is returned, and it returns null
exactly when no table of the chain has a row named `n`; `FindRow( n )` returns
that same row and raises its not-found error exactly when `findRow( n )` is
null. -/
theorem findRow_first_in_chain (io : IO_MGR) (t : FP_LIB_TABLE) (n : Str)
    (hok : ∀ c ∈ t.chain, c.IndexOK ∧ c.UniqueNicks) :
    (∀ ref, (t.findRow n).1 = some ref ↔
        (∃ r, t.rowAt ref = some r ∧ r.nickName = n) ∧
          ∀ j c, j < ref.table → t.chain.get? j = some c → ∀ r ∈ c.rows, r.nickName ≠ n)
      ∧ ((t.findRow n).1 = none ↔ ∀ c ∈ t.chain, ∀ r ∈ c.rows, r.nickName ≠ n)
      ∧ (∀ ref, (t.FindRow io n).1 = .ok ref ↔ (t.findRow n).1 = some ref)
      ∧ ((∃ e, (t.FindRow io n).1 = .error e) ↔ (t.findRow n).1 = none) := by
  refine ⟨fun ref => findRow_eq_some_iff t n ref hok,
    findRow_eq_none_iff t n (fun c hc => (hok c hc).1), ?_, ?_⟩
  · intro ref
    simp only [FP_LIB_TABLE.FindRow]
    cases (t.findRow n).1 with
    | none => simp
    | some row => simp
  · simp only [FP_LIB_TABLE.FindRow]
    cases (t.findRow n).1 with
    | none => simp
    | some row => simp

theorem findRow_first_in_chain_witness :
    (exTable.findRow "C".toList).1 = some ⟨1, 1⟩
      ∧ (exTable.findRow "B".toList).1 = some ⟨0, 1⟩
      ∧ ((exTable.findRow "D".toList).1 = none ↔
          ∀ c ∈ exTable.chain, ∀ r ∈ c.rows, r.nickName ≠ "D".toList) :=
  ⟨by decide, by decide,
    (findRow_first_in_chain exIO exTable "D".toList (by decide)).2.1⟩

/-- C5. For every table with a finite fallback chain, `GetLogicalLibs()`
returns a strictly increasing list (sorted, no nickname twice) whose elements
are exactly the nicknames of the rows of the table and of every table in its
fallback chain; local rows A, B with fallback rows B, C give [A, B, C]. -/
theorem GetLogicalLibs_sorted_union (t : FP_LIB_TABLE) :
    t.GetLogicalLibs.Pairwise (· < ·)
      ∧ (∀ n, n ∈ t.GetLogicalLibs ↔ ∃ c ∈ t.chain, ∃ r ∈ c.rows, r.nickName = n)
      ∧ exTable.GetLogicalLibs = ["A".toList, "B".toList, "C".toList] := by
  have h : t.GetLogicalLibs = collectNicks t [] := by
    simp [FP_LIB_TABLE.GetLogicalLibs, foldl_push_back]
  refine ⟨?_, ?_, by decide⟩
  · rw [h]
    exact collectNicks_sorted t [] List.Pairwise.nil
  · intro n
    rw [h, mem_collectNicks]
    simp

set_option maxRecDepth 100000 in
/-- C6, as the spec has it, fails for a table built by `InsertRow` whose
texts do not come back from the reader as they were written.  `Format` writes
the nickname, the kind and the URI as bare symbols.  The table with the one
row of nickname `my lib` is written with `(name my lib)`; the text is parsed
without error into a table whose row has the nickname `my`, and formatting
that table gives another text.  The table with the one row of empty URI is
written with `(uri )`; parsing the text raises, the table stays empty, and
formatting it gives `(fp_lib_table)`. -/
theorem Format_Parse_Format_counterexample :
    exSpaced.Built ∧ exNoUri.Built
      ∧ exSpaced.rows.map ROW.nickName = ["my lib".toList]
      ∧ ((FP_LIB_TABLE.new none).Parse exIO exParser (exSpaced.Format exIO exAsString)).1 = none
      ∧ ((FP_LIB_TABLE.new none).Parse exIO exParser
          (exSpaced.Format exIO exAsString)).2.rows.map ROW.nickName = ["my".toList]
      ∧ ((FP_LIB_TABLE.new none).Parse exIO exParser
          (exSpaced.Format exIO exAsString)).2.Format exIO exAsString
          ≠ exSpaced.Format exIO exAsString
      ∧ ((FP_LIB_TABLE.new none).Parse exIO exParser (exNoUri.Format exIO exAsString)).1
          = some .accessor
      ∧ ((FP_LIB_TABLE.new none).Parse exIO exParser
          (exNoUri.Format exIO exAsString)).2.Format exIO exAsString = "(fp_lib_table)".toList
      ∧ ((FP_LIB_TABLE.new none).Parse exIO exParser
          (exNoUri.Format exIO exAsString)).2.Format exIO exAsString
          ≠ exNoUri.Format exIO exAsString := by
  refine ⟨.insert _ _ _ (.new none), .insert _ _ _ (.new none), rfl, rfl, rfl, ?_, rfl, rfl, ?_⟩
  · decide
  · decide

/-- C6, amended.  For every table `T` built by `InsertRow` whose text
`Format( T )` the reader of the tree library reads back as the tree that was
written, with whatever line numbers, and whose rows have a kind that is read
back from its name: formatting `T`, parsing the text into an empty table and
formatting again gives the same output, `Format( Parse( Format( T ) ) ) =
Format( T )`; the parse raises nothing and the rows read back are in the same
order with the same five fields (equal by `ROW::operator==`).  The tree
library and `IO_MGR` are not among the sources and are parameters. -/
theorem Format_Parse_Format (io : IO_MGR) (AsString : SEXPR → Str)
    (parser : Str → Except PARSE_EXN SEXPR) (t : FP_LIB_TABLE) (hbuilt : t.Built)
    (hkind : ∀ r ∈ t.rows, io.EnumFromStr (io.ShowType r.type) = r.type ∧ r.type ≠ -1)
    (hreader : ∃ tree, parser (t.Format io AsString) = .ok tree
      ∧ tree.eraseLines = t.FormatTree io) :
    ∃ t', (FP_LIB_TABLE.new none).Parse io parser (t.Format io AsString) = (none, t')
      ∧ t'.Format io AsString = t.Format io AsString
      ∧ t'.rows = t.rows.map ROW.reread
      ∧ List.Forall₂ (fun a b => a.beq b = true) t'.rows t.rows := by
  obtain ⟨tree, hparse, hshape⟩ := hreader
  obtain ⟨t', ht', hrows, htree⟩ := ParseTree_FormatTree io t none tree
    (Built_invariant t hbuilt).2 hkind hshape
  refine ⟨t', ?_, ?_, hrows, ?_⟩
  · simp only [FP_LIB_TABLE.Parse, hparse, ht']
  · simp only [FP_LIB_TABLE.Format, htree]
  · rw [hrows]
    exact forall₂_beq_reread t.rows

set_option maxRecDepth 100000 in
theorem Format_Parse_Format_witness :
    ∃ t', (FP_LIB_TABLE.new none).Parse exIO exParser (exBuilt.Format exIO exAsString)
        = (none, t')
      ∧ t'.Format exIO exAsString = exBuilt.Format exIO exAsString
      ∧ t'.rows = exBuilt.rows.map ROW.reread
      ∧ List.Forall₂ (fun a b => a.beq b = true) t'.rows exBuilt.rows :=
  Format_Parse_Format exIO exAsString exParser exBuilt
    (.insert _ _ _ (.insert _ _ _ (.new none))) (by decide) ⟨exReadBack, by rfl, by rfl⟩

/-- C7. `ParseOptions` equals the reference decoder `Spec.Decode` for every
input text (the text cut at every unescaped '|', a backslash-'|' pair giving
a literal '|', leading white space of each field dropped, empty fields
skipped, each field split at its first '='); the three examples of the spec
hold, and the result is absent, never an empty map, for the empty text and
for any text that yields no field. -/
theorem ParseOptions_eq_reference :
    (∀ text, ParseOptions text = Spec.Decode text)
      ∧ ParseOptions "a=1|b=2".toList
          = some [("a".toList, "1".toList), ("b".toList, "2".toList)]
      ∧ ParseOptions "flag".toList = some [("flag".toList, [])]
      ∧ ParseOptions "a=x\\|y".toList = some [("a".toList, "x|y".toList)]
      ∧ ParseOptions [] = none
      ∧ (∀ text, Spec.fields text = [] → ParseOptions text = none)
      ∧ ∀ text, ParseOptions text ≠ some [] := by
  refine ⟨ParseOptions_eq_Decode, by decide, by decide, by decide, by decide, ?_, ?_⟩
  · intro text h
    rw [ParseOptions_eq_Decode]
    simp [Spec.Decode, h]
  · intro text h
    exact (decoded_shape text [] h).2.1 rfl

/-- C8, as the spec has it, fails: the map with the entries ("", "") and
("a", "1") is written as `a=1`, while its pairs joined by '|' are `|a=1`. -/
theorem FormatOptions_join_counterexample :
    StdMap.Sorted exEmptyKey
      ∧ FormatOptions (some exEmptyKey) = "a=1".toList
      ∧ Spec.join (exEmptyKey.map Spec.pairText) = "|a=1".toList
      ∧ FormatOptions (some exEmptyKey) ≠ Spec.join (exEmptyKey.map Spec.pairText) := by
  decide

/-- C8, amended. For every options map, `FormatOptions` writes the pairs in
key order, leaving out a pair whose key and value are both empty, joined by
'|'; it writes a key alone when its value is empty and key=value otherwise,
with a backslash before every '|' inside a value; the map a ↦ x|y is written
`a=x\|y`, and an absent or empty map gives the empty text. -/
theorem FormatOptions_joined (m : PROPERTIES) (hm : m.Sorted) :
    FormatOptions (some m)
        = Spec.join ((m.filter (fun p => !(p.1 = [] && p.2 = []))).map Spec.pairText)
      ∧ (m.filter (fun p => !(p.1 = [] && p.2 = []))).Pairwise (fun a b => a.1 < b.1)
      ∧ ((∀ p ∈ m, ¬ (p.1 = [] ∧ p.2 = [])) →
          FormatOptions (some m) = Spec.join (m.map Spec.pairText))
      ∧ FormatOptions (some [("a".toList, "x|y".toList)]) = "a=x\\|y".toList
      ∧ FormatOptions none = []
      ∧ FormatOptions (some []) = [] := by
  have h1 := formatLoop_sorted m hm
  refine ⟨h1, List.Pairwise.sublist (List.filter_sublist _) hm, ?_, by decide, rfl, rfl⟩
  intro hall
  have hfilter : m.filter (fun p => !(p.1 = [] && p.2 = [])) = m := by
    apply List.filter_eq_self.2
    intro p hp
    have := hall p hp
    by_cases h1 : p.1 = [] <;> by_cases h2 : p.2 = [] <;> simp_all
  show formatLoop m [] = _
  rw [h1, hfilter]

theorem FormatOptions_joined_witness :
    FormatOptions (some exProps) = "a=x\\|y|flag".toList
      ∧ FormatOptions (some exProps) = Spec.join (exProps.map Spec.pairText) :=
  ⟨by decide, (FormatOptions_joined exProps (by decide)).2.2.1 (by decide)⟩

/-- C9. `FormatOptions` is inverted by `ParseOptions`: for every non-empty
options map in which every key is non-empty, contains neither '|' nor '=' and
does not start with a white-space character, and in which no key and no
value ends with a backslash, `ParseOptions( FormatOptions( m ) ) = m`. -/
theorem ParseOptions_FormatOptions (m : PROPERTIES) (hm : m.Sorted) (hne : m ≠ [])
    (h : ∀ p ∈ m, p.1 ≠ [] ∧ '|' ∉ p.1 ∧ '=' ∉ p.1 ∧ (∀ c ∈ p.1.head?, isspace c = false)
      ∧ p.1.getLast? ≠ some '\\' ∧ p.2.getLast? ≠ some '\\') :
    ParseOptions (FormatOptions (some m)) = some m :=
  roundtrip_core m hm hne h

theorem ParseOptions_FormatOptions_witness :
    ParseOptions (FormatOptions (some [("a".toList, " x|=\\y ".toList), ("flag".toList, [])]))
      = some [("a".toList, " x|=\\y ".toList), ("flag".toList, [])] :=
  ParseOptions_FormatOptions [("a".toList, " x|=\\y ".toList), ("flag".toList, [])]
    (by decide) (by decide) (by decide)

/-- C10, as the spec has it, fails: the text `a\|b` decodes to the key `a|b`,
which is written back unescaped and read as the two keys `a` and `b`; the
text `=` decodes to an empty key with an empty value, which is written as the
empty text; and in `z=1|a=\` the value of `a` ends with a backslash, which
swallows the separator written after it. -/
theorem reencode_counterexample :
    ParseOptions "a\\|b".toList = some [("a|b".toList, [])]
      ∧ ParseOptions (FormatOptions (ParseOptions "a\\|b".toList))
          = some [("a".toList, []), ("b".toList, [])]
      ∧ ParseOptions (FormatOptions (ParseOptions "a\\|b".toList))
          ≠ ParseOptions "a\\|b".toList
      ∧ ParseOptions (FormatOptions (ParseOptions "=".toList)) ≠ ParseOptions "=".toList
      ∧ ParseOptions (FormatOptions (ParseOptions "z=1|a=\\".toList))
          ≠ ParseOptions "z=1|a=\\".toList := by
  decide

/-- C10, amended. For every input text whose decoded map has no key that is
empty, contains '|' or ends with a backslash and no value that ends with a
backslash (and for every text whose decoding is absent), re-encoding is
lossless: `ParseOptions( FormatOptions( ParseOptions( x ) ) ) = ParseOptions( x )`. -/
theorem reencode_lossless (x : Str)
    (h : ∀ p ∈ (ParseOptions x).getD [],
      p.1 ≠ [] ∧ '|' ∉ p.1 ∧ p.1.getLast? ≠ some '\\' ∧ p.2.getLast? ≠ some '\\') :
    ParseOptions (FormatOptions (ParseOptions x)) = ParseOptions x := by
  cases hx : ParseOptions x with
  | none => decide
  | some m =>
    rw [hx] at h
    obtain ⟨hs, hne, hk⟩ := decoded_shape x m hx
    exact roundtrip_core m hs hne
      (fun p hp => ⟨(h p hp).1, (h p hp).2.1, (hk p hp).1, (hk p hp).2, (h p hp).2.2⟩)

theorem reencode_lossless_witness :
    ParseOptions (FormatOptions (ParseOptions " a = x\\|y |  | flag".toList))
      = ParseOptions " a = x\\|y |  | flag".toList :=
  reencode_lossless " a = x\\|y |  | flag".toList (by decide)

/-- C16. For every table reached from the empty table by any sequence of
`InsertRow` calls, with either replace flag, the nickname index agrees with
the row sequence: the index maps a nickname `n` to position `i` if and only
if the row at position `i` has nickname `n`; in particular no two rows of the
table share a nickname. -/
theorem Built_index_agrees (t : FP_LIB_TABLE) (h : t.Built) :
    (∀ n i, t.nickIndex.find n = some i ↔ ∃ r, t.rows.get? i = some r ∧ r.nickName = n)
      ∧ (t.rows.map ROW.nickName).Nodup := by
  have hu := (Built_invariant t h).2
  refine ⟨?_, hu⟩
  intro n i
  rw [Built_index_accurate t h, find_reindex]
  exact firstNamed_eq_some_of_unique n t.rows i hu

theorem Built_index_agrees_witness :
    (∀ n i, exBuilt.nickIndex.find n = some i ↔
        ∃ r, exBuilt.rows.get? i = some r ∧ r.nickName = n)
      ∧ (exBuilt.rows.map ROW.nickName).Nodup :=
  Built_index_agrees exBuilt (.insert _ _ _ (.insert _ _ _ (.new none)))

/-- C17, as the spec has it, fails: `InsertRow` has no test for an empty
nickname.  Into the empty table a row with the empty nickname is inserted
with success, and a `lib` block without `name` pair adds such a row. -/
theorem InsertRow_empty_nickname_counterexample :
    (exRow "" "x.pretty").nickName = []
      ∧ ((FP_LIB_TABLE.new none).InsertRow (exRow "" "x.pretty") false).1 = true
      ∧ ((FP_LIB_TABLE.new none).InsertRow (exRow "" "x.pretty") false).2.rows
          = [exRow "" "x.pretty"]
      ∧ ((FP_LIB_TABLE.new none).parseLibList exIO exNoName).1 = none
      ∧ ((FP_LIB_TABLE.new none).parseLibList exIO exNoName).2.rows
          = [exRow "" "x.pretty"] := by
  decide

/-- C17, amended. `InsertRow` treats the empty nickname like any other: for
every table (index empty or accurate), either replace flag and every row `r`
whose nickname is the empty string, `InsertRow` returns failure exactly when
replace is false and the table already has a row with the empty nickname,
and then leaves the rows unchanged; into a table that has no such row `r` is
appended with success, so a `lib` block whose pairs build a row with the
empty nickname adds that row. -/
theorem InsertRow_empty_nickname (io : IO_MGR) (t : FP_LIB_TABLE) (r : ROW) (doReplace : Bool)
    (hidx : t.IndexOK) (hr : r.nickName = []) :
    ((t.InsertRow r doReplace).1 = false ↔
        doReplace = false ∧ ∃ x ∈ t.rows, x.nickName = [])
      ∧ ((t.InsertRow r doReplace).1 = false → (t.InsertRow r doReplace).2.rows = t.rows)
      ∧ ((∀ x ∈ t.rows, x.nickName ≠ []) →
          (t.InsertRow r doReplace).1 = true
            ∧ (t.InsertRow r doReplace).2.rows = t.rows ++ [r.copy])
      ∧ ((∀ x ∈ t.rows, x.nickName ≠ []) →
          ∀ lib children, lib.children = .ok children →
            parsePairs io (children.drop 1) (ROW.new io) = .ok r →
            (t.parseLibList io lib).1 = none
              ∧ (t.parseLibList io lib).2.rows = t.rows ++ [r.copy]) := by
  have hiff := InsertRow_fst_eq_false_iff t r doReplace hidx
  rw [hr] at hiff
  refine ⟨hiff, ?_, ?_, ?_⟩
  · intro hf
    obtain ⟨rfl, hex⟩ := hiff.1 hf
    exact (InsertRow_present_false t r hidx (by rw [hr]; exact hex)).2
  · intro habs
    exact InsertRow_absent_true t r doReplace hidx (by rw [hr]; exact habs)
  · intro habs lib children hc hp
    have h := InsertRow_absent_true t r false hidx (by rw [hr]; exact habs)
    rw [parseLibList_eq io t lib children r hc hp, h.1]
    exact ⟨rfl, h.2⟩

theorem InsertRow_empty_nickname_witness :
    (exTable.InsertRow (exRow "" "x.pretty") true).1 = true
      ∧ (exTable.InsertRow (exRow "" "x.pretty") true).2.rows
          = exTable.rows ++ [(exRow "" "x.pretty").copy] :=
  (InsertRow_empty_nickname exIO exTable (exRow "" "x.pretty") true (by decide) rfl).2.2.1
    (by decide)

/-- C18. When `Parse` meets a well-formed `lib` block (a list headed by the
symbol `lib` whose pairs build a row) whose nickname equals that of a row
already in the table, from an earlier block or from before the call, it
raises a SyntaxError whose line number is the line of that `lib` block, and
the rows the table has at that point, the row with that nickname among them,
are left as they are. -/
theorem Parse_duplicate_nickname (io : IO_MGR) (parser : Str → Except PARSE_EXN SEXPR)
    (t t1 : FP_LIB_TABLE) (sexpr : Str) (l0 l l1 line : Nat) (pre post pairs : List SEXPR)
    (row : ROW) (hidx : t.IndexOK)
    (hroot : parser sexpr = .ok (.list (.symbol "fp_lib_table".toList l0
      :: (pre ++ .list (.symbol "lib".toList l1 :: pairs) line :: post)) l))
    (hpre : parseLibs io pre t = (none, t1))
    (hrow : parsePairs io pairs (ROW.new io) = .ok row)
    (hdup : ∃ x ∈ t1.rows, x.nickName = row.nickName) :
    (t.Parse io parser sexpr).1
        = some (.syntaxError (duplicateMessage row.nickName) line)
      ∧ (t.Parse io parser sexpr).2.rows = t1.rows := by
  have hidx1 : t1.IndexOK := by
    have := parseLibs_IndexOK io pre t hidx
    rw [hpre] at this
    exact this
  have hins := InsertRow_present_false t1 row hidx1 hdup
  have hlib := parseLibList_eq io t1 (.list (.symbol "lib".toList l1 :: pairs) line)
    (.symbol "lib".toList l1 :: pairs) row rfl hrow
  rw [hins.1] at hlib
  simp only [FP_LIB_TABLE.Parse, hroot, ParseTree_root]
  rw [parseLibs_append io pre _ t t1 hpre]
  simp only [parseLibs, checkLibList_block, hlib]
  exact ⟨rfl, hins.2⟩

theorem Parse_duplicate_nickname_witness :
    ((FP_LIB_TABLE.new none).Parse exIO (fun _ => .ok exDuplicate) []).1
        = some (.syntaxError (duplicateMessage "A".toList) 3)
      ∧ ((FP_LIB_TABLE.new none).Parse exIO (fun _ => .ok exDuplicate) []).2.rows
        = [exRow "A" "first"] :=
  Parse_duplicate_nickname exIO (fun _ => .ok exDuplicate) (FP_LIB_TABLE.new none)
    ((FP_LIB_TABLE.new none).InsertRow (exRow "A" "first") false).2 [] 1 1 3 3
    [.list [.symbol "lib".toList 2,
      .list [.symbol "name".toList 2, .symbol "A".toList 2] 2,
      .list [.symbol "uri".toList 2, .symbol "first".toList 2] 2] 2]
    [.list [.symbol "lib".toList 4,
      .list [.symbol "name".toList 4, .symbol "Z".toList 4] 4] 4]
    [.list [.symbol "name".toList 3, .symbol "A".toList 3] 3,
      .list [.symbol "uri".toList 3, .symbol "second".toList 3] 3]
    (exRow "A" "second") (by decide) rfl rfl rfl ⟨exRow "A" "first", by decide, by decide⟩

/-- C19, evaluated on the code.  When a child of the root list is a bare atom,
`Parse` evaluates `libList->GetChild(0)->GetLineNumber()` on that atom to
build the exception; an atom has no children, so the call of `GetChild` fails
and no SyntaxError with the line of the atom is raised.  The rows of the
blocks before the atom stay in the table. -/
theorem Parse_bare_atom (io : IO_MGR) (parser : Str → Except PARSE_EXN SEXPR)
    (t t1 : FP_LIB_TABLE) (sexpr : Str) (l0 l : Nat) (pre post : List SEXPR) (atom : SEXPR)
    (hroot : parser sexpr
      = .ok (.list (.symbol "fp_lib_table".toList l0 :: (pre ++ atom :: post)) l))
    (hpre : parseLibs io pre t = (none, t1))
    (hatom : atom.IsList = false) :
    (t.Parse io parser sexpr).1 = some .accessor
      ∧ (∀ msg, (t.Parse io parser sexpr).1 ≠ some (.syntaxError msg atom.GetLineNumber))
      ∧ (t.Parse io parser sexpr).2.rows = t1.rows := by
  have h : t.Parse io parser sexpr = (some .accessor, t1) := by
    simp only [FP_LIB_TABLE.Parse, hroot, ParseTree_root]
    rw [parseLibs_append io pre _ t t1 hpre]
    simp only [parseLibs, checkLibList_atom atom hatom]
  rw [h]
  exact ⟨rfl, fun msg hh => by simp at hh, rfl⟩

theorem Parse_bare_atom_witness :
    ((FP_LIB_TABLE.new none).Parse exIO (fun _ => .ok exBareAtom) []).1 = some .accessor
      ∧ (∀ msg, ((FP_LIB_TABLE.new none).Parse exIO (fun _ => .ok exBareAtom) []).1
          ≠ some (.syntaxError msg 7))
      ∧ ((FP_LIB_TABLE.new none).Parse exIO (fun _ => .ok exBareAtom) []).2.rows
          = [exRow "A" ""] :=
  Parse_bare_atom exIO (fun _ => .ok exBareAtom) (FP_LIB_TABLE.new none)
    ((FP_LIB_TABLE.new none).InsertRow (exRow "A" "") false).2 [] 1 1
    [.list [.symbol "lib".toList 2,
      .list [.symbol "name".toList 2, .symbol "A".toList 2] 2] 2]
    [] (.symbol "oops".toList 7) rfl rfl rfl

/-- C20. For every `lib` block whose children after the head are lists headed
by a symbol with a value atom of the accepted type (symbol for name / uri /
type, string for options, string or symbol for descr; any other key with
anything behind it), `parseLibList` raises no syntax error for the shape and
builds the row whose nickname, raw URI, kind, options and description are
those of the last `name`, `uri`, `type`, `options` and `descr` pair, with the
default (empty text, default kind) for a field with no pair; a block without
`uri` pair gives an empty raw URI; a pair with any other key has no effect
on the row.  The row is then handed to `InsertRow`, whose refusal is the
only exception left. -/
theorem parseLibList_builds_row (io : IO_MGR) (t : FP_LIB_TABLE) (head : SEXPR)
    (pairs : List SEXPR) (line : Nat) (hpairs : ∀ p ∈ pairs, Spec.pairKeyValue p ≠ none) :
    parsePairs io pairs (ROW.new io) = .ok (Spec.rowOfPairs io pairs (ROW.new io))
      ∧ (Spec.rowOfPairs io pairs (ROW.new io)).nickName
          = (Spec.lastValue "name".toList pairs).getD []
      ∧ (Spec.rowOfPairs io pairs (ROW.new io)).uri_user
          = (Spec.lastValue "uri".toList pairs).getD []
      ∧ (Spec.rowOfPairs io pairs (ROW.new io)).type
          = (match Spec.lastValue "type".toList pairs with
            | some value => if (-1 : PCB_FILE_T) = io.EnumFromStr value then io.KICAD
                else io.EnumFromStr value
            | none => io.KICAD)
      ∧ (Spec.rowOfPairs io pairs (ROW.new io)).options
          = (Spec.lastValue "options".toList pairs).getD []
      ∧ (Spec.rowOfPairs io pairs (ROW.new io)).description
          = (Spec.lastValue "descr".toList pairs).getD []
      ∧ (Spec.lastValue "uri".toList pairs = none →
          (Spec.rowOfPairs io pairs (ROW.new io)).uri_user = [])
      ∧ (∀ q k pre post, Spec.pairKeyValue q = some (k, none) → pairs = pre ++ q :: post →
          Spec.rowOfPairs io pairs (ROW.new io) = Spec.rowOfPairs io (pre ++ post) (ROW.new io))
      ∧ t.parseLibList io (.list (head :: pairs) line)
          = (if (t.InsertRow (Spec.rowOfPairs io pairs (ROW.new io)) false).1 then none
              else some (.syntaxError
                (duplicateMessage (Spec.rowOfPairs io pairs (ROW.new io)).nickName) line),
            (t.InsertRow (Spec.rowOfPairs io pairs (ROW.new io)) false).2) := by
  have hp := parsePairs_eq_rowOfPairs io pairs (ROW.new io) hpairs
  refine ⟨hp, rfl, rfl, ?_, rfl, rfl, ?_, ?_, ?_⟩
  · simp only [Spec.rowOfPairs, ROW.SetType, ROW.new]
  · intro h
    simp only [Spec.rowOfPairs, h, Option.getD_none, ROW.new]
  · intro q k pre post hq hpre
    rw [hpre]
    exact rowOfPairs_ignores io q k hq pre post _
  · exact parseLibList_eq io t (.list (head :: pairs) line) (head :: pairs) _ rfl hp

theorem parseLibList_builds_row_witness :
    parsePairs exIO
        [.list [.symbol "uri".toList 3, .symbol "x.pretty".toList 3] 3,
          .list [.symbol "color".toList 4] 4] (ROW.new exIO)
      = .ok (Spec.rowOfPairs exIO
        [.list [.symbol "uri".toList 3, .symbol "x.pretty".toList 3] 3,
          .list [.symbol "color".toList 4] 4] (ROW.new exIO)) :=
  (parseLibList_builds_row exIO (FP_LIB_TABLE.new none) (.symbol "lib".toList 3)
    [.list [.symbol "uri".toList 3, .symbol "x.pretty".toList 3] 3,
      .list [.symbol "color".toList 4] 4] 3 (by decide)).1

/-- C11. For every stored offset, increment vector, repeat index `ii` and
page corners, `GetStartPos( ii )` computes `p = (x + ix * ii, y + iy * ii)`
and returns `RB - p` for the right-bottom anchor, `(RB.x - p.x, LT.y + p.y)`
for right-top, `(LT.x + p.x, RB.y - p.y)` for left-bottom and `LT + p` for
left-top; `GetEndPos( ii )` does the same with the end coordinate.  So the
offset (5, 5) anchored left-top with `LT = (0, 0)` resolves to (5, 5) and
anchored right-bottom with `RB = (210, 297)` to (205, 292). -/
theorem GetStartPos_by_anchor {D : Type} [Add D] [Sub D] [Mul D] [IntCast D]
    (page : PAGE_CORNERS D) (item : WORKSHEET_DATAITEM D) (ii : Int) :
    item.GetStartPos page ii =
        (match item.m_Pos.m_Anchor with
          | .RB_CORNER =>
            ⟨page.m_RB_Corner.x - (item.m_Pos.m_Pos.x + item.m_IncrementVector.x * (ii : D)),
              page.m_RB_Corner.y - (item.m_Pos.m_Pos.y + item.m_IncrementVector.y * (ii : D))⟩
          | .RT_CORNER =>
            ⟨page.m_RB_Corner.x - (item.m_Pos.m_Pos.x + item.m_IncrementVector.x * (ii : D)),
              page.m_LT_Corner.y + (item.m_Pos.m_Pos.y + item.m_IncrementVector.y * (ii : D))⟩
          | .LB_CORNER =>
            ⟨page.m_LT_Corner.x + (item.m_Pos.m_Pos.x + item.m_IncrementVector.x * (ii : D)),
              page.m_RB_Corner.y - (item.m_Pos.m_Pos.y + item.m_IncrementVector.y * (ii : D))⟩
          | .LT_CORNER =>
            ⟨page.m_LT_Corner.x + (item.m_Pos.m_Pos.x + item.m_IncrementVector.x * (ii : D)),
              page.m_LT_Corner.y + (item.m_Pos.m_Pos.y + item.m_IncrementVector.y * (ii : D))⟩)
      ∧ item.GetEndPos page ii =
        (match item.m_End.m_Anchor with
          | .RB_CORNER =>
            ⟨page.m_RB_Corner.x - (item.m_End.m_Pos.x + item.m_IncrementVector.x * (ii : D)),
              page.m_RB_Corner.y - (item.m_End.m_Pos.y + item.m_IncrementVector.y * (ii : D))⟩
          | .RT_CORNER =>
            ⟨page.m_RB_Corner.x - (item.m_End.m_Pos.x + item.m_IncrementVector.x * (ii : D)),
              page.m_LT_Corner.y + (item.m_End.m_Pos.y + item.m_IncrementVector.y * (ii : D))⟩
          | .LB_CORNER =>
            ⟨page.m_LT_Corner.x + (item.m_End.m_Pos.x + item.m_IncrementVector.x * (ii : D)),
              page.m_RB_Corner.y - (item.m_End.m_Pos.y + item.m_IncrementVector.y * (ii : D))⟩
          | .LT_CORNER =>
            ⟨page.m_LT_Corner.x + (item.m_End.m_Pos.x + item.m_IncrementVector.x * (ii : D)),
              page.m_LT_Corner.y + (item.m_End.m_Pos.y + item.m_IncrementVector.y * (ii : D))⟩)
      ∧ (exItem .LT_CORNER).GetStartPos exPage 0 = ⟨5, 5⟩
      ∧ (exItem .RB_CORNER).GetStartPos exPage 0 = ⟨205, 292⟩ := by
  refine ⟨?_, ?_, by decide, by decide⟩
  · simp only [WORKSHEET_DATAITEM.GetStartPos, resolve]
    cases item.m_Pos.m_Anchor <;> rfl
  · simp only [WORKSHEET_DATAITEM.GetEndPos, resolve]
    cases item.m_End.m_Anchor <;> rfl

set_option maxRecDepth 100000 in
/-- C12, as the spec has it, fails for an item anchored to a right corner: the
offset is measured from the anchor towards the opposite corner.  With start
offset x = 205 anchored right-bottom on a page whose right-bottom corner is
at x = 210, repeat count 3 and increment (2, 0), the absolute start x at
repeat index 0 is 5, and at the indices 1 and 2 it is 3 and 1, not 7 and 9.
For a left anchor it fails in `double` by rounding: on a page whose left-top
corner is at x = 1.2, the start offset x = 3.8000000000000003 anchored
left-top with increment (2, 0) gives the absolute start x 5 at index 0, and
at index 1 it gives 7.000000000000001, not 7. -/
theorem GetStartPos_repeat_counterexample :
    ({ exItem .RB_CORNER with m_Pos := ⟨⟨205, 5⟩, .RB_CORNER⟩ }).m_RepeatCount = 3
      ∧ ({ exItem .RB_CORNER with m_Pos := ⟨⟨205, 5⟩, .RB_CORNER⟩ }).m_IncrementVector = ⟨2, 0⟩
      ∧ (({ exItem .RB_CORNER with m_Pos := ⟨⟨205, 5⟩, .RB_CORNER⟩ }).GetStartPos exPage 0).x = 5
      ∧ (({ exItem .RB_CORNER with m_Pos := ⟨⟨205, 5⟩, .RB_CORNER⟩ }).GetStartPos exPage 1).x = 3
      ∧ (({ exItem .RB_CORNER with m_Pos := ⟨⟨205, 5⟩, .RB_CORNER⟩ }).GetStartPos exPage 2).x = 1
      ∧ (({ exItem .RB_CORNER with m_Pos := ⟨⟨205, 5⟩, .RB_CORNER⟩ }).GetStartPos exPage 1).x
          ≠ (({ exItem .RB_CORNER with m_Pos := ⟨⟨205, 5⟩, .RB_CORNER⟩ }).GetStartPos
              exPage 0).x + 1 * 2
      ∧ (exItemShifted.GetStartPos exPageShifted 0).x = DOUBLE.ofInt 5
      ∧ (exItemShifted.GetStartPos exPageShifted 1).x = ⟨7881299347898369, -50⟩
      ∧ (exItemShifted.GetStartPos exPageShifted 1).x ≠ DOUBLE.ofInt 7
      ∧ (exItemShifted.GetStartPos exPageShifted 1).x
          ≠ (exItemShifted.GetStartPos exPageShifted 0).x
            + ((1 : Int) : DOUBLE) * exItemShifted.m_IncrementVector.x := by
  decide

/-- C12, amended.  In exact arithmetic, for every item and repeat index `ii`:
when the start position is anchored to a left corner,
`GetStartPos( ii ).x = GetStartPos( 0 ).x + ii * increment.x`, so with
increment (2, 0) and absolute start x = 5 at index 0 the x values at the
indices 0, 1, 2 are 5, 7, 9; when it is anchored to a right corner,
`GetStartPos( ii ).x = GetStartPos( 0 ).x - ii * increment.x`, and the values
are 5, 3, 1.  In `double` the same holds when the page corners, the stored
offsets and the increment are whole numbers below `2 ^ 20` in magnitude and
so is `ii`: no operation rounds then. -/
theorem GetStartPos_repeat :
    (∀ {D : Type} [CommRing D] (page : PAGE_CORNERS D) (item : WORKSHEET_DATAITEM D)
        (ii : Int),
        ((item.m_Pos.m_Anchor = .LT_CORNER ∨ item.m_Pos.m_Anchor = .LB_CORNER) →
            (item.GetStartPos page ii).x
              = (item.GetStartPos page 0).x + (ii : D) * item.m_IncrementVector.x)
          ∧ ((item.m_Pos.m_Anchor = .RT_CORNER ∨ item.m_Pos.m_Anchor = .RB_CORNER) →
            (item.GetStartPos page ii).x
              = (item.GetStartPos page 0).x - (ii : D) * item.m_IncrementVector.x)
          ∧ ((item.m_Pos.m_Anchor = .LT_CORNER ∨ item.m_Pos.m_Anchor = .LB_CORNER) →
            item.m_IncrementVector = ⟨2, 0⟩ → (item.GetStartPos page 0).x = 5 →
            (item.GetStartPos page 1).x = 7 ∧ (item.GetStartPos page 2).x = 9)
          ∧ ((item.m_Pos.m_Anchor = .RT_CORNER ∨ item.m_Pos.m_Anchor = .RB_CORNER) →
            item.m_IncrementVector = ⟨2, 0⟩ → (item.GetStartPos page 0).x = 5 →
            (item.GetStartPos page 1).x = 3 ∧ (item.GetStartPos page 2).x = 1))
      ∧ (∀ (page : PAGE_CORNERS Int) (item : WORKSHEET_DATAITEM Int) (ii : Int),
          WholeBelow page item → ii.natAbs < 2 ^ 20 →
          ((item.m_Pos.m_Anchor = .LT_CORNER ∨ item.m_Pos.m_Anchor = .LB_CORNER) →
              (item.toDouble.GetStartPos page.toDouble ii).x
                = (item.toDouble.GetStartPos page.toDouble 0).x
                  + ((ii : Int) : DOUBLE) * item.toDouble.m_IncrementVector.x)
            ∧ ((item.m_Pos.m_Anchor = .RT_CORNER ∨ item.m_Pos.m_Anchor = .RB_CORNER) →
              (item.toDouble.GetStartPos page.toDouble ii).x
                = (item.toDouble.GetStartPos page.toDouble 0).x
                  - ((ii : Int) : DOUBLE) * item.toDouble.m_IncrementVector.x))
      ∧ (∀ (page : PAGE_CORNERS Int) (item : WORKSHEET_DATAITEM Int),
          WholeBelow page item → item.m_IncrementVector = ⟨2, 0⟩ →
          (item.toDouble.GetStartPos page.toDouble 0).x = DOUBLE.ofInt 5 →
          ((item.m_Pos.m_Anchor = .LT_CORNER ∨ item.m_Pos.m_Anchor = .LB_CORNER) →
              (item.toDouble.GetStartPos page.toDouble 1).x = DOUBLE.ofInt 7
                ∧ (item.toDouble.GetStartPos page.toDouble 2).x = DOUBLE.ofInt 9)
            ∧ ((item.m_Pos.m_Anchor = .RT_CORNER ∨ item.m_Pos.m_Anchor = .RB_CORNER) →
              (item.toDouble.GetStartPos page.toDouble 1).x = DOUBLE.ofInt 3
                ∧ (item.toDouble.GetStartPos page.toDouble 2).x = DOUBLE.ofInt 1)) := by
  refine ⟨?_, fun page item ii hw hi => GetStartPos_repeat_whole page item ii hw hi,
    fun page item hw hinc h0 => GetStartPos_values_whole page item hw hinc h0⟩
  intro D _ page item ii
  have hL := fun h jj => GetStartPos_left_exact page item jj h
  have hR := fun h jj => GetStartPos_right_exact page item jj h
  refine ⟨fun h => hL h ii, fun h => hR h ii, ?_, ?_⟩
  · intro h hinc h0
    rw [hL h 1, hL h 2, h0, hinc]
    constructor
    · push_cast; ring
    · push_cast; ring
  · intro h hinc h0
    rw [hR h 1, hR h 2, h0, hinc]
    constructor
    · push_cast; ring
    · push_cast; ring

theorem GetStartPos_repeat_witness :
    (((exItem .LT_CORNER).GetStartPos exPage 1).x = 7
        ∧ ((exItem .LT_CORNER).GetStartPos exPage 2).x = 9)
      ∧ ((exItem .RB_CORNER).toDouble.GetStartPos exPage.toDouble 2).x
          = ((exItem .RB_CORNER).toDouble.GetStartPos exPage.toDouble 0).x
            - ((2 : Int) : DOUBLE) * (exItem .RB_CORNER).toDouble.m_IncrementVector.x :=
  ⟨(GetStartPos_repeat.1 exPage (exItem .LT_CORNER) 0).2.2.1 (by decide) (by decide)
      (by decide),
    (GetStartPos_repeat.2.1 exPage (exItem .RB_CORNER) 2
      ⟨⟨by decide, by decide⟩, ⟨by decide, by decide⟩, ⟨by decide, by decide⟩,
        ⟨by decide, by decide⟩, ⟨by decide, by decide⟩⟩ (by decide)).2 (Or.inr rfl)⟩

set_option maxRecDepth 100000 in
/-- C13, as the spec has it, fails in `double`, by rounding.  On the A4 page,
for a line anchored right-bottom, `MoveStartPointTo( (0.1, 0.1) )` stores the
offset 210 - 0.1, rounded, and `GetStartPos( 0 )` is then
(0.09999999999999432, 0.10000000000002274), not (0.1, 0.1); and for the
stored offset (0.1, 0.1), `MoveStartPointTo( GetStartPos( 0 ) )` stores the
offset (0.09999999999999432, 0.10000000000002274). -/
theorem MoveStartPointTo_inverse_counterexample :
    DOUBLE.ofRatio 1 10 = ⟨3602879701896397, -55⟩
      ∧ ((exItemDouble .RB_CORNER .RB_CORNER).MoveStartPointTo exPageDouble
          ⟨DOUBLE.ofRatio 1 10, DOUBLE.ofRatio 1 10⟩).GetStartPos exPageDouble 0
          = ⟨⟨3518437208883, -45⟩, ⟨879609302221, -43⟩⟩
      ∧ ((exItemDouble .RB_CORNER .RB_CORNER).MoveStartPointTo exPageDouble
          ⟨DOUBLE.ofRatio 1 10, DOUBLE.ofRatio 1 10⟩).GetStartPos exPageDouble 0
          ≠ ⟨DOUBLE.ofRatio 1 10, DOUBLE.ofRatio 1 10⟩
      ∧ ((exItemTenths .RB_CORNER).MoveStartPointTo exPageDouble
          ((exItemTenths .RB_CORNER).GetStartPos exPageDouble 0)).m_Pos.m_Pos
          ≠ (exItemTenths .RB_CORNER).m_Pos.m_Pos := by
  decide

/-- C13, amended.  In exact arithmetic `MoveStartPointTo` is the inverse of
the resolution at repeat index 0, for each of the four anchors and any page
corners: after `MoveStartPointTo( p )`, `GetStartPos( 0 ) = p`, and
`MoveStartPointTo( GetStartPos( 0 ) )` leaves the stored offset, and so the
item, unchanged.  In `double` the same holds when the page corners, the
stored offsets, the increment and `p` are whole numbers below `2 ^ 20` in
magnitude: no operation rounds then.  In every arithmetic, that of `double`
included, `MoveStartPointTo` changes the stored start offset only, never the
anchor. -/
theorem MoveStartPointTo_inverse :
    (∀ {D : Type} [CommRing D] (page : PAGE_CORNERS D) (item : WORKSHEET_DATAITEM D)
        (p : DPOINT D),
        (item.MoveStartPointTo page p).GetStartPos page 0 = p
          ∧ (item.MoveStartPointTo page (item.GetStartPos page 0)).m_Pos.m_Pos
              = item.m_Pos.m_Pos
          ∧ item.MoveStartPointTo page (item.GetStartPos page 0) = item)
      ∧ (∀ (page : PAGE_CORNERS Int) (item : WORKSHEET_DATAITEM Int) (p : DPOINT Int),
          WholeBelow page item → p.Below (2 ^ 20) →
          (item.toDouble.MoveStartPointTo page.toDouble p.toDouble).GetStartPos
              page.toDouble 0 = p.toDouble
            ∧ item.toDouble.MoveStartPointTo page.toDouble
                (item.toDouble.GetStartPos page.toDouble 0) = item.toDouble)
      ∧ (∀ {D : Type} [Sub D] (page : PAGE_CORNERS D) (item : WORKSHEET_DATAITEM D)
          (p : DPOINT D),
          (item.MoveStartPointTo page p).m_Pos.m_Anchor = item.m_Pos.m_Anchor
            ∧ item.MoveStartPointTo page p
                = { item with m_Pos := ⟨(item.MoveStartPointTo page p).m_Pos.m_Pos,
                      item.m_Pos.m_Anchor⟩ }) :=
  ⟨fun page item p => MoveStartPointTo_exact page item p,
    fun page item p hw hp => MoveStartPointTo_whole page item p hw hp,
    fun _ _ _ => ⟨rfl, rfl⟩⟩

theorem MoveStartPointTo_inverse_witness :
    (((exItem .RT_CORNER).MoveStartPointTo exPage ⟨7, 8⟩).GetStartPos exPage 0 = ⟨7, 8⟩
        ∧ ((exItem .RT_CORNER).MoveStartPointTo exPage ⟨7, 8⟩).m_Pos.m_Pos = ⟨203, 8⟩)
      ∧ ((exItem .RT_CORNER).toDouble.MoveStartPointTo exPage.toDouble
          (DPOINT.toDouble ⟨7, 8⟩)).GetStartPos exPage.toDouble 0 = DPOINT.toDouble ⟨7, 8⟩ :=
  ⟨⟨(MoveStartPointTo_inverse.1 exPage (exItem .RT_CORNER) ⟨7, 8⟩).1, by decide⟩,
    (MoveStartPointTo_inverse.2.1 exPage (exItem .RT_CORNER) ⟨7, 8⟩
      ⟨⟨by decide, by decide⟩, ⟨by decide, by decide⟩, ⟨by decide, by decide⟩,
        ⟨by decide, by decide⟩, ⟨by decide, by decide⟩⟩ ⟨by decide, by decide⟩).1⟩

set_option maxRecDepth 100000 in
/-- C14, as the spec has it, fails in `double`, by rounding.  On the A4 page,
for a line whose end is anchored right-bottom, `MoveEndPointTo( (0.1, 0.1) )`
stores the offset 210 - 0.1, rounded, and `GetEndPos( 0 )` is then
(0.09999999999999432, 0.10000000000002274), not (0.1, 0.1). -/
theorem MoveEndPointTo_effect_counterexample :
    (exItemDouble .RB_CORNER .RB_CORNER).GetType = .WS_SEGMENT
      ∧ ((exItemDouble .RB_CORNER .RB_CORNER).MoveEndPointTo exPageDouble
          ⟨DOUBLE.ofRatio 1 10, DOUBLE.ofRatio 1 10⟩).GetEndPos exPageDouble 0
          = ⟨⟨3518437208883, -45⟩, ⟨879609302221, -43⟩⟩
      ∧ ((exItemDouble .RB_CORNER .RB_CORNER).MoveEndPointTo exPageDouble
          ⟨DOUBLE.ofRatio 1 10, DOUBLE.ofRatio 1 10⟩).GetEndPos exPageDouble 0
          ≠ ⟨DOUBLE.ofRatio 1 10, DOUBLE.ofRatio 1 10⟩ := by
  decide

/-- C14, amended.  In every arithmetic, that of `double` included: for every
item whose kind is not line (segment) or rectangle, `MoveEndPointTo( p )`
leaves every field of the item unchanged, and for a line or a rectangle it
changes the stored end offset only.  In exact arithmetic `GetEndPos( 0 ) = p`
afterwards for a line or a rectangle; in `double` this holds when the page
corners, the stored offsets, the increment and `p` are whole numbers below
`2 ^ 20` in magnitude: no operation rounds then. -/
theorem MoveEndPointTo_effect :
    (∀ {D : Type} [Sub D] (page : PAGE_CORNERS D) (item : WORKSHEET_DATAITEM D) (p : DPOINT D),
        ((item.GetType ≠ .WS_SEGMENT ∧ item.GetType ≠ .WS_RECT) →
            item.MoveEndPointTo page p = item)
          ∧ ((item.GetType = .WS_SEGMENT ∨ item.GetType = .WS_RECT) →
            item.MoveEndPointTo page p
              = { item with m_End := ⟨(item.MoveEndPointTo page p).m_End.m_Pos,
                    item.m_End.m_Anchor⟩ }))
      ∧ (∀ {D : Type} [CommRing D] (page : PAGE_CORNERS D) (item : WORKSHEET_DATAITEM D)
          (p : DPOINT D),
          (item.GetType = .WS_SEGMENT ∨ item.GetType = .WS_RECT) →
            (item.MoveEndPointTo page p).GetEndPos page 0 = p)
      ∧ (∀ (page : PAGE_CORNERS Int) (item : WORKSHEET_DATAITEM Int) (p : DPOINT Int),
          WholeBelow page item → p.Below (2 ^ 20) →
          (item.GetType = .WS_SEGMENT ∨ item.GetType = .WS_RECT) →
            (item.toDouble.MoveEndPointTo page.toDouble p.toDouble).GetEndPos
              page.toDouble 0 = p.toDouble) := by
  refine ⟨?_, fun page item p h => MoveEndPointTo_exact page item p h,
    fun page item p hw hp h => MoveEndPointTo_whole page item p hw hp h⟩
  intro D _ page item p
  constructor
  · rintro ⟨h1, h2⟩
    cases ht : item.GetType <;>
      first
        | exact absurd ht h1
        | exact absurd ht h2
        | simp only [WORKSHEET_DATAITEM.MoveEndPointTo, ht]
  · intro h
    rcases h with h | h <;> simp only [WORKSHEET_DATAITEM.MoveEndPointTo, h]

theorem MoveEndPointTo_effect_witness :
    ((exItem .LB_CORNER).MoveEndPointTo exPage ⟨40, 50⟩).GetEndPos exPage 0 = ⟨40, 50⟩
      ∧ ({ exItem .LB_CORNER with m_type := .WS_TEXT }).MoveEndPointTo exPage ⟨40, 50⟩
          = { exItem .LB_CORNER with m_type := .WS_TEXT }
      ∧ ((exItem .LB_CORNER).toDouble.MoveEndPointTo exPage.toDouble
          (DPOINT.toDouble ⟨40, 50⟩)).GetEndPos exPage.toDouble 0 = DPOINT.toDouble ⟨40, 50⟩ :=
  ⟨MoveEndPointTo_effect.2.1 exPage (exItem .LB_CORNER) ⟨40, 50⟩ (Or.inl rfl),
    (MoveEndPointTo_effect.1 exPage { exItem .LB_CORNER with m_type := .WS_TEXT }
      ⟨40, 50⟩).1 (by decide),
    MoveEndPointTo_effect.2.2 exPage (exItem .LB_CORNER) ⟨40, 50⟩
      ⟨⟨by decide, by decide⟩, ⟨by decide, by decide⟩, ⟨by decide, by decide⟩,
        ⟨by decide, by decide⟩, ⟨by decide, by decide⟩⟩ ⟨by decide, by decide⟩ (Or.inl rfl)⟩

/-- C15. A freshly constructed item has `GetPage1Option() = 0`, and for every
integer `c` and every prior flags value, after `SetPage1Option( c )`
`GetPage1Option()` returns the sign of `c` (1 if `c > 0`, -1 if `c < 0`, 0 if
`c = 0`), the bit of the opposite choice is clear (both bits when `c = 0`),
every flag bit outside the two page-1 bits is unchanged, and no other member
changes.  The masks are the two different bits the spec speaks of. -/
theorem SetPage1Option_sign {D : Type} [Zero D] (m : PAGE1_MASKS) (hm : m.TwoBits)
    (aType : WS_ItemType) (item : WORKSHEET_DATAITEM D) (c : Int)
    (hflags : item.m_flags < 2 ^ 32) :
    (WORKSHEET_DATAITEM.new aType : WORKSHEET_DATAITEM D).GetPage1Option m = 0
      ∧ (item.SetPage1Option m c).GetPage1Option m
          = (if c > 0 then 1 else if c < 0 then -1 else 0)
      ∧ (item.SetPage1Option m c).GetPage1Option m = Int.sign c
      ∧ (c > 0 → (item.SetPage1Option m c).m_flags &&& m.PAGE1OPTION_NOTONPAGE1 = 0)
      ∧ (c < 0 → (item.SetPage1Option m c).m_flags &&& m.PAGE1OPTION_PAGE1ONLY = 0)
      ∧ (c = 0 → (item.SetPage1Option m c).m_flags &&& m.PAGE1OPTION = 0)
      ∧ (∀ k, m.PAGE1OPTION.testBit k = false →
          (item.SetPage1Option m c).m_flags.testBit k = item.m_flags.testBit k)
      ∧ item.SetPage1Option m c
          = { item with m_flags := (item.SetPage1Option m c).m_flags } := by
  obtain ⟨a, b, ha, hb, hab, hP, hN, hM⟩ := hm
  have hne : (2 : Nat) ^ a ≠ 2 ^ b := two_pow_ne a b hab
  have hPpos : (0 : Nat) ≠ 2 ^ a := (Nat.pos_pow_of_pos a (by decide)).ne
  have hNpos : (0 : Nat) ≠ 2 ^ b := (Nat.pos_pow_of_pos b (by decide)).ne
  have hcomm : 2 ^ b ||| 2 ^ a = 2 ^ a ||| 2 ^ b := Nat.lor_comm _ _
  have hget : (item.SetPage1Option m c).GetPage1Option m
      = (if c > 0 then 1 else if c < 0 then -1 else 0) := by
    simp only [WORKSHEET_DATAITEM.GetPage1Option, WORKSHEET_DATAITEM.SetPage1Option,
      WORKSHEET_DATAITEM.ClearFlags, WORKSHEET_DATAITEM.SetFlags, hP, hN, hM]
    by_cases h1 : c > 0
    · simp only [if_pos h1, set_and_mask item.m_flags a b ha hb, if_neg hne, if_true]
    · by_cases h2 : c < 0
      · have := set_and_mask item.m_flags b a hb ha
        rw [hcomm] at this
        simp only [if_neg h1, if_pos h2, this, if_true]
      · simp only [if_neg h1, if_neg h2, cleared_and_mask item.m_flags a b ha hb,
          if_neg hNpos, if_neg hPpos]
  refine ⟨?_, hget, ?_, ?_, ?_, ?_, ?_, ?_⟩
  · simp only [WORKSHEET_DATAITEM.GetPage1Option, WORKSHEET_DATAITEM.new, Nat.zero_and, hP,
      hN, if_neg hNpos, if_neg hPpos]
  · rw [hget]
    by_cases h1 : c > 0
    · rw [if_pos h1, Int.sign_eq_one_of_pos h1]
    · by_cases h2 : c < 0
      · rw [if_neg h1, if_pos h2, Int.sign_eq_neg_one_of_neg h2]
      · have : c = 0 := by omega
        subst this
        rfl
  · intro h1
    simp only [WORKSHEET_DATAITEM.SetPage1Option, WORKSHEET_DATAITEM.ClearFlags,
      WORKSHEET_DATAITEM.SetFlags, hP, hN, hM, if_pos h1]
    exact set_and_other item.m_flags a b ha hb hab
  · intro h2
    have h1 : ¬ c > 0 := by omega
    simp only [WORKSHEET_DATAITEM.SetPage1Option, WORKSHEET_DATAITEM.ClearFlags,
      WORKSHEET_DATAITEM.SetFlags, hP, hN, hM, if_neg h1, if_pos h2]
    have := set_and_other item.m_flags b a hb ha (Ne.symm hab)
    rw [hcomm] at this
    exact this
  · intro h0
    subst h0
    simp only [WORKSHEET_DATAITEM.SetPage1Option, WORKSHEET_DATAITEM.ClearFlags, hM,
      gt_iff_lt, lt_self_iff_false, if_false]
    exact cleared_and_mask item.m_flags a b ha hb
  · intro k hk
    rw [hM] at hk
    simp only [WORKSHEET_DATAITEM.SetPage1Option, WORKSHEET_DATAITEM.ClearFlags,
      WORKSHEET_DATAITEM.SetFlags, hP, hN, hM]
    by_cases h1 : c > 0
    · simp only [if_pos h1]
      exact cleared_outside item.m_flags a b k ha hb hflags hk _ (Or.inr (Or.inl rfl))
    · by_cases h2 : c < 0
      · simp only [if_neg h1, if_pos h2]
        exact cleared_outside item.m_flags a b k ha hb hflags hk _ (Or.inr (Or.inr rfl))
      · simp only [if_neg h1, if_neg h2]
        have := cleared_outside item.m_flags a b k ha hb hflags hk 0 (Or.inl rfl)
        simpa using this
  · simp only [WORKSHEET_DATAITEM.SetPage1Option, WORKSHEET_DATAITEM.ClearFlags,
      WORKSHEET_DATAITEM.SetFlags]
    split_ifs <;> rfl

theorem SetPage1Option_sign_witness :
    ((exItem .LT_CORNER).SetPage1Option exMasks (-3)).GetPage1Option exMasks = -1
      ∧ ((exItem .LT_CORNER).SetPage1Option exMasks (-3)).m_flags = 2 * 2 ^ 7 :=
  ⟨(SetPage1Option_sign exMasks ⟨7, 8, by decide, by decide, by decide, by decide, by decide,
      by decide⟩ .WS_SEGMENT (exItem .LT_CORNER) (-3) (by decide)).2.1,
    by decide⟩

/-! ## Claims C21 to C30 -/

/-- C21. For every row, `ROW::SerializeSEXPR` yields a list of exactly six
children in this order: the symbol `lib`, then the lists `name`, `type`,
`uri`, `options` and `descr`, each the key symbol followed by the value; the
values of `options` and `descr` are string atoms, present also when the text
is empty.  `Format` writes the tree whose first child is the symbol
`fp_lib_table` and whose child k + 1 is the block of row k. -/
theorem SerializeSEXPR_six_fields (io : IO_MGR) (AsString : SEXPR → Str) (t : FP_LIB_TABLE)
    (row : ROW) :
    row.SerializeSEXPR io
        = .list [.symbol "lib".toList 0,
            .list [.symbol "name".toList 0, .symbol row.nickName 0] 0,
            .list [.symbol "type".toList 0, .symbol (row.GetType io) 0] 0,
            .list [.symbol "uri".toList 0, .symbol row.uri_user 0] 0,
            .list [.symbol "options".toList 0, .string row.options 0] 0,
            .list [.symbol "descr".toList 0, .string row.description 0] 0] 0
      ∧ (row.SerializeSEXPR io).GetNumberOfChildren = .ok 6
      ∧ (row.options = [] → row.description = [] →
          (row.SerializeSEXPR io).GetChild 4
              = .ok (.list [.symbol "options".toList 0, .string [] 0] 0)
            ∧ (row.SerializeSEXPR io).GetChild 5
              = .ok (.list [.symbol "descr".toList 0, .string [] 0] 0))
      ∧ t.Format io AsString = AsString (t.FormatTree io)
      ∧ (t.FormatTree io).GetChild 0 = .ok (.symbol "fp_lib_table".toList 0)
      ∧ (t.FormatTree io).GetNumberOfChildren = .ok (t.rows.length + 1)
      ∧ (∀ k r, t.rows.get? k = some r →
          (t.FormatTree io).GetChild (k + 1) = .ok (r.SerializeSEXPR io)) := by
  refine ⟨rfl, rfl, ?_, rfl, rfl, ?_, ?_⟩
  · intro ho hd
    simp only [ROW.SerializeSEXPR, SEXPR.GetChild, SEXPR.AsString, SEXPR.AsSymbol, ho, hd]
    exact ⟨rfl, rfl⟩
  · simp [FP_LIB_TABLE.FormatTree, SEXPR.GetNumberOfChildren]
  · intro k r hk
    have hk2 : t.rows[k]? = some r := by simpa using hk
    simp [FP_LIB_TABLE.FormatTree, SEXPR.GetChild, hk2]

/-- C25. For every layout document with item list L of length n, every item
x and every index k, `Insert( x, k )` makes the list take(k, L) ++ [x] ++
drop(k, L) when k < n and L ++ [x] when k >= n; the count becomes n + 1,
erasing position min(k, n) gives L back (the old items keep their order), x
is then at index min(k, n), and nothing else of the document changes. -/
theorem Insert_at_index {P : Type} (layout : WORKSHEET_LAYOUT P) (x : P) (k : Nat) :
    (k < layout.GetCount →
        (layout.Insert x k).m_list = layout.m_list.take k ++ [x] ++ layout.m_list.drop k)
      ∧ (k ≥ layout.GetCount → (layout.Insert x k).m_list = layout.m_list ++ [x])
      ∧ (layout.Insert x k).GetCount = layout.GetCount + 1
      ∧ (layout.Insert x k).m_list.eraseIdx (min k layout.GetCount) = layout.m_list
      ∧ (layout.Insert x k).GetItem (min k layout.GetCount) = some x
      ∧ layout.Insert x k = { layout with m_list := (layout.Insert x k).m_list } := by
  have hlist : (layout.Insert x k).m_list
      = layout.m_list.insertIdx (min k layout.GetCount) x := by
    unfold WORKSHEET_LAYOUT.Insert
    by_cases hk : k ≥ layout.GetCount
    · rw [if_pos hk, Nat.min_eq_right hk]
      simp only [WORKSHEET_LAYOUT.Append, WORKSHEET_LAYOUT.GetCount]
      exact (List.insertIdx_length_self _ _).symm
    · rw [if_neg hk, Nat.min_eq_left (by omega)]
  have hmin : min k layout.GetCount ≤ layout.m_list.length := Nat.min_le_right _ _
  refine ⟨?_, ?_, ?_, ?_, ?_, ?_⟩
  · intro hk
    rw [hlist, Nat.min_eq_left (by omega), insertIdx_take_drop x _ _ (by
      simp only [WORKSHEET_LAYOUT.GetCount] at hk; omega)]
    simp
  · intro hk
    simp only [WORKSHEET_LAYOUT.Insert, if_pos hk, WORKSHEET_LAYOUT.Append]
  · simp only [WORKSHEET_LAYOUT.GetCount, hlist]
    exact List.length_insertIdx _ _ hmin
  · rw [hlist]
    exact List.eraseIdx_insertIdx _ _
  · have hlen : (layout.Insert x k).m_list.length = layout.m_list.length + 1 := by
      rw [hlist]; exact List.length_insertIdx _ _ hmin
    simp only [WORKSHEET_LAYOUT.GetItem, hlen]
    rw [if_pos (by omega), hlist, List.get?_eq_getElem?,
      List.getElem?_eq_getElem (by rw [List.length_insertIdx _ _ hmin]; omega)]
    exact congrArg some (List.getElem_insertIdx_self _ _ _ hmin _)
  · unfold WORKSHEET_LAYOUT.Insert
    split_ifs <;> rfl

/-- C26. For every layout document: `GetItemIndex( x )` returns the least
index at which x occurs, and -1 exactly when x is not in the list, and
`GetItem` at a returned index gives x; `Remove( k )` returns false and
changes nothing when k >= count and otherwise erases exactly the item at k,
keeping the order of the rest; `Remove( x )` is `Remove` at the first
occurrence of x, and returns false and changes nothing when x is absent. -/
theorem GetItemIndex_Remove {P : Type} [DecidableEq P] (layout : WORKSHEET_LAYOUT P) (x : P)
    (k : Nat) :
    (x ∈ layout.m_list →
        ∃ i : Nat, layout.GetItemIndex x = (i : Int) ∧ layout.m_list.get? i = some x
          ∧ (∀ j, j < i → layout.m_list.get? j ≠ some x)
          ∧ layout.RemoveItem x = layout.Remove i ∧ (layout.RemoveItem x).1 = true)
      ∧ (layout.GetItemIndex x = -1 ↔ x ∉ layout.m_list)
      ∧ (∀ i : Nat, layout.GetItemIndex x = (i : Int) → layout.GetItem i = some x)
      ∧ (layout.GetItemIndex x = -1 ∨ ∃ i : Nat, layout.GetItemIndex x = (i : Int))
      ∧ (k ≥ layout.GetCount → layout.Remove k = (false, layout))
      ∧ (k < layout.GetCount →
          layout.Remove k
            = (true, { layout with m_list := layout.m_list.take k ++ layout.m_list.drop (k + 1) }))
      ∧ (x ∉ layout.m_list → layout.RemoveItem x = (false, layout)) := by
  obtain ⟨_, h2, h3, h4, h5⟩ := searchLoop_spec x layout.m_list 0
  have hidx := indexLoop_eq x layout.m_list 0
  simp only [Nat.zero_add, Nat.sub_zero] at h2 h3 h4 h5
  refine ⟨?_, ?_, ?_, ?_, ?_, ?_, ?_⟩
  · intro hx
    refine ⟨searchLoop x layout.m_list 0, ?_, h4 hx, h3, rfl, ?_⟩
    · simp only [WORKSHEET_LAYOUT.GetItemIndex, hidx, if_pos hx]
    · have := h5.1 hx
      simp only [WORKSHEET_LAYOUT.RemoveItem, WORKSHEET_LAYOUT.Remove, WORKSHEET_LAYOUT.GetCount]
      rw [if_neg (by omega)]
  · unfold WORKSHEET_LAYOUT.GetItemIndex
    rw [hidx]
    by_cases hx : x ∈ layout.m_list
    · rw [if_pos hx]
      exact ⟨fun h => by omega, fun h => absurd hx h⟩
    · rw [if_neg hx]
      exact ⟨fun _ => hx, fun _ => rfl⟩
  · intro i hi
    simp only [WORKSHEET_LAYOUT.GetItemIndex, hidx] at hi
    by_cases hx : x ∈ layout.m_list
    · rw [if_pos hx] at hi
      have e : searchLoop x layout.m_list 0 = i := by omega
      subst e
      simp only [WORKSHEET_LAYOUT.GetItem]
      rw [if_pos (h5.1 hx)]
      exact h4 hx
    · rw [if_neg hx] at hi
      omega
  · simp only [WORKSHEET_LAYOUT.GetItemIndex, hidx]
    by_cases hx : x ∈ layout.m_list
    · exact Or.inr ⟨_, by rw [if_pos hx]⟩
    · exact Or.inl (by rw [if_neg hx])
  · intro hk
    simp only [WORKSHEET_LAYOUT.Remove, if_pos hk]
  · intro hk
    simp only [WORKSHEET_LAYOUT.Remove]
    rw [if_neg (by omega), List.eraseIdx_eq_take_drop_succ]
  · intro hx
    have : ¬ searchLoop x layout.m_list 0 < layout.m_list.length := fun h => hx (h5.2 h)
    simp only [WORKSHEET_LAYOUT.RemoveItem, WORKSHEET_LAYOUT.Remove, WORKSHEET_LAYOUT.GetCount]
    rw [if_pos (by omega)]

/-- C22. The page-1 option reader does not accept every token the writer
emits.  For an item with `GetPage1Option()` = 1 the writer emits the list
`(option page1only)` and `deserializeSEXPROption` reads it without error into
a target with `GetPage1Option()` = 1.  For an item with `GetPage1Option()` =
-1 the writer emits `(option notonpage1)` and the reader raises the syntax
error `unsupported symbol` on it, for every target; the token the reader
takes for -1 is `lbcorner`. -/
theorem deserializeSEXPROption_notonpage1 (m : PAGE1_MASKS) (hm : m.TwoBits)
    (item target : WORKSHEET_DATAITEM Rat) :
    (item.GetPage1Option m = 1 →
        item.serializeSEXPROptions m
            = [.list [.symbol "option".toList 0, .symbol "page1only".toList 0] 0]
          ∧ ∃ r, target.deserializeSEXPROption m
                (.list [.symbol "option".toList 0, .symbol "page1only".toList 0] 0) = .ok r
              ∧ r.GetPage1Option m = 1)
      ∧ (item.GetPage1Option m = -1 →
          item.serializeSEXPROptions m
              = [.list [.symbol "option".toList 0, .symbol "notonpage1".toList 0] 0]
            ∧ target.deserializeSEXPROption m
                (.list [.symbol "option".toList 0, .symbol "notonpage1".toList 0] 0)
              = .error (.syntaxError "unsupported symbol".toList 0))
      ∧ (∃ r, target.deserializeSEXPROption m
              (.list [.symbol "option".toList 0, .symbol "lbcorner".toList 0] 0) = .ok r
            ∧ r.GetPage1Option m = -1) := by
  refine ⟨?_, ?_, ?_⟩
  · intro h
    refine ⟨?_, target.SetPage1Option m 1, ?_, ?_⟩
    · simp only [WORKSHEET_DATAITEM.serializeSEXPROptions, h, if_true]
      rfl
    · rw [deserializeSEXPROption_token, if_pos rfl]
    · rw [GetPage1Option_SetPage1Option m hm]
      rfl
  · intro h
    refine ⟨?_, ?_⟩
    · have h1 : ¬ ((-1 : Int) = 1) := by decide
      simp only [WORKSHEET_DATAITEM.serializeSEXPROptions, h, if_neg h1, if_true]
      rfl
    · rw [deserializeSEXPROption_token, if_neg (by decide), if_neg (by decide)]
  · refine ⟨target.SetPage1Option m (-1), ?_, ?_⟩
    · rw [deserializeSEXPROption_token, if_neg (by decide), if_pos rfl]
    · rw [GetPage1Option_SetPage1Option m hm]
      rfl

theorem deserializeSEXPROption_notonpage1_witness :
    exTextNotOnPage1.toWORKSHEET_DATAITEM.GetPage1Option exMasks = -1
      ∧ exTextNotOnPage1.toWORKSHEET_DATAITEM.serializeSEXPROptions exMasks
          = [.list [.symbol "option".toList 0, .symbol "notonpage1".toList 0] 0]
      ∧ (WORKSHEET_DATAITEM.new .WS_TEXT : WORKSHEET_DATAITEM Rat).deserializeSEXPROption exMasks
            (.list [.symbol "option".toList 0, .symbol "notonpage1".toList 0] 0)
          = .error (.syntaxError "unsupported symbol".toList 0) :=
  ⟨by decide,
    (deserializeSEXPROption_notonpage1 exMasks
      ⟨7, 8, by decide, by decide, by decide, by decide, by decide, by decide⟩
      exTextNotOnPage1.toWORKSHEET_DATAITEM (WORKSHEET_DATAITEM.new .WS_TEXT)).2.1 (by decide)⟩

/-- C23. The list `SerializeSEXPR` writes for a line or a rectangle never has
an `option` child, whatever `GetPage1Option()` is; the lists written for a
text, a polygon and a bitmap have exactly the `option` children
`serializeSEXPROptions` builds: none when `GetPage1Option()` is 0, one with
the token `page1only` for 1, one with the token `notonpage1` for -1. -/
theorem SerializeSEXPR_option_child (env : WS_ENV) (st : WS_DEFAULTS) (x : LAYOUT_ITEM)
    (tree : SEXPR) (h : x.SerializeSEXPR env st = .ok tree) :
    (match x with
      | .plain _ => tree.childrenTagged "option".toList = []
      | _ => tree.childrenTagged "option".toList = x.base.serializeSEXPROptions env.masks)
      ∧ x.base.serializeSEXPROptions env.masks
          = (if x.base.GetPage1Option env.masks = 1 then
              [.list [.symbol "option".toList 0, .symbol "page1only".toList 0] 0]
            else if x.base.GetPage1Option env.masks = -1 then
              [.list [.symbol "option".toList 0, .symbol "notonpage1".toList 0] 0]
            else []) := by
  refine ⟨?_, rfl⟩
  cases x with
  | plain item =>
    simp only [LAYOUT_ITEM.SerializeSEXPR, Except.ok.injEq] at h
    subst h
    exact plain_option_children st item
  | text t =>
    simp only [LAYOUT_ITEM.SerializeSEXPR, Except.ok.injEq] at h
    subst h
    exact text_option_children env.masks env.font t
  | polygon p => exact polygon_option_children env.masks p tree h
  | bitmap b => exact bitmap_option_children env.masks env.codec b tree h

theorem SerializeSEXPR_option_child_witness :
    exLine.GetPage1Option exMasks = 1
      ∧ (exLine.SerializeSEXPR exDefaults).childrenTagged "option".toList = [] :=
  ⟨by decide,
    (SerializeSEXPR_option_child exEnv exDefaults (.plain exLine)
      (exLine.SerializeSEXPR exDefaults) rfl).1⟩

/-- C24. `WORKSHEET_LAYOUT::DeserializeSEXPR` and `Parse` never change a margin:
whatever the document holds, the four margins afterwards are those before the
call.  On a document whose `setup` block gives the margins 20, 21, 22 and 23,
read without error into a new document, the margins stay at 10, the value of
the constructor, although `deserializeSetup`, the reader of the block, which
is never called, would set them to the values of the block. -/
theorem DeserializeSEXPR_ignores_setup (env : WS_ENV) (parser : Str → Except PARSE_EXN SEXPR)
    (layout : WORKSHEET_LAYOUT LAYOUT_ITEM) (root : SEXPR) (text : Str) :
    ((layout.DeserializeSEXPR env root).2.GetLeftMargin = layout.GetLeftMargin
        ∧ (layout.DeserializeSEXPR env root).2.GetRightMargin = layout.GetRightMargin
        ∧ (layout.DeserializeSEXPR env root).2.GetTopMargin = layout.GetTopMargin
        ∧ (layout.DeserializeSEXPR env root).2.GetBottomMargin = layout.GetBottomMargin)
      ∧ ((layout.Parse env parser text).2.GetLeftMargin = layout.GetLeftMargin
        ∧ (layout.Parse env parser text).2.GetRightMargin = layout.GetRightMargin
        ∧ (layout.Parse env parser text).2.GetTopMargin = layout.GetTopMargin
        ∧ (layout.Parse env parser text).2.GetBottomMargin = layout.GetBottomMargin)
      ∧ ((WORKSHEET_LAYOUT.new : WORKSHEET_LAYOUT LAYOUT_ITEM).Parse exEnv
            (fun _ => .ok exSetupDocument) []).1 = none
      ∧ ((WORKSHEET_LAYOUT.new : WORKSHEET_LAYOUT LAYOUT_ITEM).Parse exEnv
            (fun _ => .ok exSetupDocument) []).2.GetLeftMargin = 10
      ∧ ((WORKSHEET_LAYOUT.new : WORKSHEET_LAYOUT LAYOUT_ITEM).Parse exEnv
            (fun _ => .ok exSetupDocument) []).2.GetCount = 1
      ∧ ((WORKSHEET_LAYOUT.new : WORKSHEET_LAYOUT LAYOUT_ITEM).deserializeSetup exDefaults
            exSetup).1 = none
      ∧ ((WORKSHEET_LAYOUT.new : WORKSHEET_LAYOUT LAYOUT_ITEM).deserializeSetup exDefaults
            exSetup).2.2
          = { (WORKSHEET_LAYOUT.new : WORKSHEET_LAYOUT LAYOUT_ITEM) with
              m_leftMargin := 20, m_rightMargin := 21, m_topMargin := 22,
              m_bottomMargin := 23 } := by
  refine ⟨?_, ?_, rfl, rfl, rfl, rfl, rfl⟩
  · rw [DeserializeSEXPR_frame]
    exact ⟨rfl, rfl, rfl, rfl⟩
  · rw [Parse_frame]
    exact ⟨rfl, rfl, rfl, rfl⟩

/-- C27. Item order round-trips.  For every layout document D whose objects
carry the kind their constructor gave them: if `D.SerializeSEXPR()` returns a
tree and `DeserializeSEXPR` reads that tree into an empty document without
raising, the resulting document has as many items as D, of the same kinds in
the same order.  The `setup` block names no kind of item, nor does any child
whose tag is not `rect`, `line`, `tbtext`, `bitmap` or `polygon`; and for
every tree read without raising, the kinds of the items appended are those
named by the tags of the children after the first, in order. -/
theorem SerializeSEXPR_DeserializeSEXPR_kinds (env : WS_ENV) (st : WS_DEFAULTS)
    (D E res : WORKSHEET_LAYOUT LAYOUT_ITEM) (tree : SEXPR)
    (hwell : D.m_list.all LAYOUT_ITEM.WellTyped = true) (hempty : E.m_list = [])
    (htree : D.SerializeSEXPR env st = .ok tree)
    (hok : E.DeserializeSEXPR env tree = (none, res)) :
    res.m_list.map LAYOUT_ITEM.GetType = D.m_list.map LAYOUT_ITEM.GetType
      ∧ res.GetCount = D.GetCount
      ∧ kindOfChild (D.serializeSetup st) = none
      ∧ (∀ child sym, child.tag = some sym →
          sym ∉ ["rect".toList, "line".toList, "tbtext".toList, "bitmap".toList,
            "polygon".toList] →
          kindOfChild child = none)
      ∧ (∀ (layout res2 : WORKSHEET_LAYOUT LAYOUT_ITEM) (root : SEXPR),
          layout.DeserializeSEXPR env root = (none, res2) →
          ∃ children, root.children = .ok children
            ∧ res2.m_list.map LAYOUT_ITEM.GetType
                = layout.m_list.map LAYOUT_ITEM.GetType
                  ++ (children.drop 1).filterMap kindOfChild) := by
  have hkinds : res.m_list.map LAYOUT_ITEM.GetType = D.m_list.map LAYOUT_ITEM.GetType := by
    unfold WORKSHEET_LAYOUT.SerializeSEXPR at htree
    split at htree
    · cases htree
    · rename_i blocks hb
      cases htree
      obtain ⟨children, hc, hk⟩ := DeserializeSEXPR_kinds env E res _ hok
      simp only [SEXPR.AsList, SEXPR.children, Except.ok.injEq] at hc
      subst hc
      rw [hk, hempty]
      simp only [List.map_nil, List.nil_append, List.drop_succ_cons, List.drop_zero,
        List.filterMap_cons]
      have hs : kindOfChild (D.serializeSetup st) = none := rfl
      rw [hs]
      exact serializeItems_kinds env st D.m_list blocks hwell hb
  refine ⟨hkinds, ?_, rfl, ?_, ?_⟩
  · have := congrArg List.length hkinds
    simpa [WORKSHEET_LAYOUT.GetCount] using this
  · intro child sym ht hsym
    simp only [List.mem_cons, List.mem_singleton, List.not_mem_nil, or_false, not_or] at hsym
    obtain ⟨h1, h2, h3, h4, h5⟩ := hsym
    simp only [kindOfChild, ht, newItem, if_neg h1, if_neg h2, if_neg h3, if_neg h4, if_neg h5]
    split_ifs <;> rfl
  · intro layout res2 root h
    exact DeserializeSEXPR_kinds env layout res2 root h

theorem SerializeSEXPR_DeserializeSEXPR_kinds_witness :
    exLayout.m_list.map LAYOUT_ITEM.GetType
        = [.WS_SEGMENT, .WS_RECT, .WS_TEXT, .WS_POLYPOLYGON]
      ∧ ((WORKSHEET_LAYOUT.new : WORKSHEET_LAYOUT LAYOUT_ITEM).DeserializeSEXPR exEnv
            exLayoutTree).2.m_list.map LAYOUT_ITEM.GetType
          = exLayout.m_list.map LAYOUT_ITEM.GetType :=
  ⟨rfl,
    (SerializeSEXPR_DeserializeSEXPR_kinds exEnv exDefaults exLayout WORKSHEET_LAYOUT.new
      ((WORKSHEET_LAYOUT.new : WORKSHEET_LAYOUT LAYOUT_ITEM).DeserializeSEXPR exEnv
        exLayoutTree).2 exLayoutTree rfl rfl rfl rfl).1⟩

set_option maxRecDepth 100000 in
/-- C28, as the spec has it, fails: parsing the description
`(page_layout (setup) (line (name a)) oops (rect (name b)))` raises the syntax
error `Expected list` at the bare atom, inside `SetDefaultLayout` and inside
`SetPageLayout( text, false )`; both calls log it and return, and the item
list then holds the line read before the atom. -/
theorem SetDefaultLayout_counterexample :
    ((WORKSHEET_LAYOUT.new : WORKSHEET_LAYOUT LAYOUT_ITEM).ClearList.Parse exEnv exParser
          exBrokenText).1 = some (.syntaxError "Expected list".toList 1)
      ∧ ((WORKSHEET_LAYOUT.new : WORKSHEET_LAYOUT LAYOUT_ITEM).SetDefaultLayout exEnv exParser
          exBrokenText).1 = none
      ∧ ((WORKSHEET_LAYOUT.new : WORKSHEET_LAYOUT LAYOUT_ITEM).SetDefaultLayout exEnv exParser
          exBrokenText).2.m_list ≠ []
      ∧ ((WORKSHEET_LAYOUT.new : WORKSHEET_LAYOUT LAYOUT_ITEM).SetPageLayout exEnv exParser
          exBrokenText false).2.m_list ≠ []
      ∧ ((WORKSHEET_LAYOUT.new : WORKSHEET_LAYOUT LAYOUT_ITEM).SetDefaultLayout exEnv exParser
          exBrokenText).2.m_list.map (fun x => x.base.m_Name) = ["a".toList] := by
  refine ⟨rfl, rfl, ?_, ?_, rfl⟩
  · intro h
    have hlen : ((WORKSHEET_LAYOUT.new : WORKSHEET_LAYOUT LAYOUT_ITEM).SetDefaultLayout exEnv
        exParser exBrokenText).2.m_list.length = 1 := rfl
    rw [h] at hlen
    cases hlen
  · intro h
    have hlen : ((WORKSHEET_LAYOUT.new : WORKSHEET_LAYOUT LAYOUT_ITEM).SetPageLayout exEnv
        exParser exBrokenText false).2.m_list.length = 1 := rfl
    rw [h] at hlen
    cases hlen

/-- C28, amended.  If parsing the description raises a syntax error inside
`SetDefaultLayout` (or inside `SetPageLayout( text, false )`, which does the
same), the error is logged and the call returns, and nothing is rolled back.
Either the reader of the tree library raised or the tree it returned is not a
list that starts with the symbol `page_layout`, and the document is the
cleared document; or the tree is such a list, the error was raised at one of
the children after the symbol, and the document is exactly the one left by
reading without error the children that precede this child: its items are
those of these children, in order, of the kinds their tags name. -/
theorem SetDefaultLayout_after_error (env : WS_ENV) (parser : Str → Except PARSE_EXN SEXPR)
    (text : Str) (layout : WORKSHEET_LAYOUT LAYOUT_ITEM) (msg : Str) (line : Nat)
    (herr : (layout.ClearList.Parse env parser text).1 = some (.syntaxError msg line)) :
    (layout.SetDefaultLayout env parser text).1 = none
      ∧ layout.SetPageLayout env parser text false = layout.SetDefaultLayout env parser text
      ∧ (((layout.SetDefaultLayout env parser text).2 = layout.ClearList
          ∧ ∀ l0 l1 items,
              parser text ≠ .ok (.list (.symbol "page_layout".toList l0 :: items) l1))
        ∨ ∃ l0 l1 pre child post,
            parser text
                = .ok (.list (.symbol "page_layout".toList l0 :: (pre ++ child :: post)) l1)
              ∧ deserializeItems env pre layout.ClearList
                  = (none, (layout.SetDefaultLayout env parser text).2)
              ∧ deserializeItem env child = .error (.syntaxError msg line)
              ∧ (layout.SetDefaultLayout env parser text).2.m_list.map LAYOUT_ITEM.GetType
                  = pre.filterMap kindOfChild) := by
  have hres : (layout.SetDefaultLayout env parser text).2
      = (layout.ClearList.Parse env parser text).2 := catchIoError_snd _
  refine ⟨catchIoError_fst _ msg line herr, rfl, ?_⟩
  rw [hres]
  rcases WORKSHEET_LAYOUT_Parse_root env parser layout.ClearList text with
    ⟨h, hne⟩ | ⟨l0, l1, items, hp, h⟩
  · exact Or.inl ⟨h, hne⟩
  · right
    rw [h] at herr ⊢
    cases hd : deserializeItems env items layout.ClearList with
    | mk e1 res =>
      rw [hd] at herr
      simp only at herr
      subst herr
      obtain ⟨pre, child, post, h1, h2, h3⟩ := deserializeItems_error env _ _ _ _ hd
      subst h1
      refine ⟨l0, l1, pre, child, post, hp, h2, h3, ?_⟩
      have := deserializeItems_kinds env pre _ _ h2
      simpa [WORKSHEET_LAYOUT.ClearList] using this

set_option maxRecDepth 100000 in
theorem SetDefaultLayout_after_error_witness :
    ((WORKSHEET_LAYOUT.new : WORKSHEET_LAYOUT LAYOUT_ITEM).SetDefaultLayout exEnv exParser
        exBrokenText).1 = none
      ∧ ((WORKSHEET_LAYOUT.new : WORKSHEET_LAYOUT LAYOUT_ITEM).SetDefaultLayout exEnv exParser
          exBrokenText).2.m_list.map (fun x => x.base.m_Name) = ["a".toList]
      ∧ ∃ l0 l1 pre child post,
          exParser exBrokenText
              = .ok (.list (.symbol "page_layout".toList l0 :: (pre ++ child :: post)) l1)
            ∧ deserializeItems exEnv pre (WORKSHEET_LAYOUT.new : WORKSHEET_LAYOUT LAYOUT_ITEM).ClearList
                = (none, ((WORKSHEET_LAYOUT.new : WORKSHEET_LAYOUT LAYOUT_ITEM).SetDefaultLayout
                    exEnv exParser exBrokenText).2)
            ∧ deserializeItem exEnv child = .error (.syntaxError "Expected list".toList 1)
            ∧ ((WORKSHEET_LAYOUT.new : WORKSHEET_LAYOUT LAYOUT_ITEM).SetDefaultLayout exEnv
                  exParser exBrokenText).2.m_list.map LAYOUT_ITEM.GetType
                = pre.filterMap kindOfChild :=
  ⟨(SetDefaultLayout_after_error exEnv exParser exBrokenText WORKSHEET_LAYOUT.new
      "Expected list".toList 1 rfl).1, rfl,
    (SetDefaultLayout_after_error exEnv exParser exBrokenText WORKSHEET_LAYOUT.new
      "Expected list".toList 1 rfl).2.2.resolve_left (fun hleft => hleft.2 1 1 _ rfl)⟩

/-- C29. Reading back what an item wrote does not restore the name of a
polygon or of a bitmap.  For every polygon item and every bitmap item, the
block its `SerializeSEXPR` writes, read without error by `DeserializeSEXPR`
into an item of the same kind, leaves that item with the name it had before:
the readers of these two kinds start at child 2 and never see the `name`
list, which is child 1.  The example polygon named `P1` comes back from a
new polygon with the empty name; the example line named `L1` comes back from
a new line as `L1`, and the example text named `T1` as `T1`. -/
theorem DeserializeSEXPR_name (m : PAGE1_MASKS) (codec : BITMAP_CODEC)
    (p q q1 : WORKSHEET_DATAITEM_POLYPOLYGON) (b c c1 : WORKSHEET_DATAITEM_BITMAP)
    (tp tb : SEXPR) :
    (p.SerializeSEXPR m = .ok tp → q.DeserializeSEXPR m tp = .ok q1 → q1.m_Name = q.m_Name)
      ∧ (b.SerializeSEXPR m codec = .ok tb → c.DeserializeSEXPR codec tb = .ok c1 →
          c1.m_Name = c.m_Name)
      ∧ exPolygon.SerializeSEXPR exMasks = .ok exPolygonTree
      ∧ WORKSHEET_DATAITEM_POLYPOLYGON.new.DeserializeSEXPR exMasks exPolygonTree
          = .ok exPolygonRead
      ∧ exPolygon.m_Name = "P1".toList ∧ exPolygonRead.m_Name = []
      ∧ ((WORKSHEET_DATAITEM.new .WS_SEGMENT : WORKSHEET_DATAITEM Rat).DeserializeSEXPR exMasks
            (exLine.SerializeSEXPR exDefaults)).map (fun item => item.m_Name)
          = .ok "L1".toList
      ∧ ((WORKSHEET_DATAITEM_TEXT.new []).DeserializeSEXPR exMasks exFont
            (exText.SerializeSEXPR exMasks exFont)).map (fun t => t.m_Name)
          = .ok "T1".toList := by
  refine ⟨?_, ?_, rfl, rfl, rfl, rfl, rfl, rfl⟩
  · intro hp hq
    obtain ⟨children, hc, htags⟩ := polygon_tail_tags m p tp hp
    obtain ⟨children1, hc1, hd⟩ := polygon_DeserializeSEXPR_children m tp q q1 hq
    rw [hc] at hc1
    cases hc1
    exact (polygon_deserializeChildren_keeps m _ q q1 hd).2.2.2
      (fun child hm => tag_ne_childSymbol child _ (htags child hm))
  · intro hb hq
    obtain ⟨children, hc, htags⟩ := bitmap_tail_tags m codec b tb hb
    obtain ⟨children1, hc1, hd⟩ := bitmap_DeserializeSEXPR_children codec tb c c1 hq
    rw [hc] at hc1
    cases hc1
    exact (bitmap_deserializeChildren_keeps codec _ c c1 hd).2
      (fun child hm => tag_ne_childSymbol child _ (htags child hm))

theorem DeserializeSEXPR_name_witness :
    exPolygon.SerializeSEXPR exMasks = .ok exPolygonTree
      ∧ WORKSHEET_DATAITEM_POLYPOLYGON.new.DeserializeSEXPR exMasks exPolygonTree
          = .ok exPolygonRead
      ∧ exPolygonRead.m_Name = WORKSHEET_DATAITEM_POLYPOLYGON.new.m_Name :=
  ⟨rfl, rfl,
    (DeserializeSEXPR_name exMasks exCodec exPolygon WORKSHEET_DATAITEM_POLYPOLYGON.new
      exPolygonRead exBitmap exBitmap exBitmap exPolygonTree exPolygonTree).1 rfl rfl⟩

/-- C30. Reading never sets the corners of a polygon.  For every tree,
`WORKSHEET_DATAITEM_POLYPOLYGON::DeserializeSEXPR`, when it returns, leaves the
flat corner array and the end indices of the point loops as they were: the
reader has no branch for `pts`.  The example polygon, with one point loop of
three corners, writes a tree with a `pts` child of three `xy` lists, and a
new polygon that reads this tree has no corner and no point loop. -/
theorem polygon_DeserializeSEXPR_corners (m : PAGE1_MASKS)
    (fresh r : WORKSHEET_DATAITEM_POLYPOLYGON) (root : SEXPR)
    (h : fresh.DeserializeSEXPR m root = .ok r) :
    r.m_Corners = fresh.m_Corners ∧ r.m_polyIndexEnd = fresh.m_polyIndexEnd
      ∧ exPolygon.SerializeSEXPR exMasks = .ok exPolygonTree
      ∧ exPolygon.m_Corners = [⟨0, 0⟩, ⟨1, 0⟩, ⟨1, 1⟩] ∧ exPolygon.m_polyIndexEnd = [2]
      ∧ exPolygonTree.childrenTagged "pts".toList
          = [.list [.symbol "pts".toList 0,
              .list [.symbol "xy".toList 0, .double 0 0, .double 0 0] 0,
              .list [.symbol "xy".toList 0, .double 1 0, .double 0 0] 0,
              .list [.symbol "xy".toList 0, .double 1 0, .double 1 0] 0] 0]
      ∧ WORKSHEET_DATAITEM_POLYPOLYGON.new.DeserializeSEXPR exMasks exPolygonTree
          = .ok exPolygonRead
      ∧ exPolygonRead.m_Corners = [] ∧ exPolygonRead.m_polyIndexEnd = [] := by
  obtain ⟨children, _, hd⟩ := polygon_DeserializeSEXPR_children m root fresh r h
  have hk := polygon_deserializeChildren_keeps m _ fresh r hd
  exact ⟨hk.2.1, hk.2.2.1, rfl, rfl, rfl, rfl, rfl, rfl, rfl⟩

theorem polygon_DeserializeSEXPR_corners_witness :
    WORKSHEET_DATAITEM_POLYPOLYGON.new.DeserializeSEXPR exMasks exPolygonTree = .ok exPolygonRead
      ∧ exPolygonRead.m_Corners = WORKSHEET_DATAITEM_POLYPOLYGON.new.m_Corners :=
  ⟨rfl,
    (polygon_DeserializeSEXPR_corners exMasks WORKSHEET_DATAITEM_POLYPOLYGON.new exPolygonRead
      exPolygonTree rfl).1⟩

/-! ## Claims C31 to C40 -/

/-- C31. The `scale` field of a `bitmap` block is read into the repeat count.
For every bitmap item and every `s`, a child `(scale s)` of the block leaves
the item with the integer part of `s` as its repeat count when that fits the
32 bit `int` (the conversion is undefined otherwise), and with its image, and
so the scale factor of the image, as it was; a child `(repeat n)` leaves the
item as it is, the reader has no branch for it.  A new bitmap item with an
image of scale 1 that reads `(bitmap (name B1) (pos 3 3) (scale 5) (repeat
4))` has the repeat count 5 and the scale 1, and the example bitmap of scale
2, written and read into a new item with an image of scale 1, comes back with
the repeat count 2 and the scale 1. -/
theorem bitmap_scale_sets_repeat (codec : BITMAP_CODEC) (b : WORKSHEET_DATAITEM_BITMAP)
    (s : Rat) (rest : List SEXPR) (l1 l2 l3 : Nat) :
    b.deserializeChild codec (.list [.symbol "scale".toList l1, .double s l2] l3)
        = (if -2147483648 ≤ s.num.tdiv s.den ∧ s.num.tdiv s.den ≤ 2147483647 then
            .ok { b with m_RepeatCount := s.num.tdiv s.den }
          else .error .rangeFault)
      ∧ b.deserializeChild codec (.list (.symbol "repeat".toList l1 :: rest) l3) = .ok b
      ∧ ((WORKSHEET_DATAITEM_BITMAP.new (some ⟨1, []⟩)).DeserializeSEXPR exCodec
            (SEXPR.AsList [SEXPR.AsSymbol "bitmap".toList,
              SEXPR.AsList [SEXPR.AsSymbol "name".toList, SEXPR.AsString "B1".toList],
              SEXPR.AsList [SEXPR.AsSymbol "pos".toList, SEXPR.AsDouble 3, SEXPR.AsDouble 3],
              SEXPR.AsList [SEXPR.AsSymbol "scale".toList, SEXPR.AsDouble 5],
              SEXPR.AsList [SEXPR.AsSymbol "repeat".toList, SEXPR.AsInteger 4]])).map
          (fun r => (r.m_RepeatCount, r.m_ImageBitmap.map (fun image => image.m_Scale)))
          = .ok (5, some 1)
      ∧ (WORKSHEET_DATAITEM_BITMAP.new (some ⟨1, []⟩)).m_RepeatCount = 1
      ∧ ((exBitmap.SerializeSEXPR exMasks exCodec).bind
            (fun tree =>
              (WORKSHEET_DATAITEM_BITMAP.new (some ⟨1, []⟩)).DeserializeSEXPR exCodec tree)).map
          (fun r => (r.m_RepeatCount, r.m_ImageBitmap.map (fun image => image.m_Scale)))
          = .ok (2, some 1)
      ∧ exBitmap.m_RepeatCount = 1
      ∧ exBitmap.m_ImageBitmap.map (fun image => image.m_Scale) = some 2 := by
  refine ⟨?_, rfl, rfl, rfl, rfl, rfl, rfl⟩
  by_cases hs : -2147483648 ≤ s.num.tdiv s.den ∧ s.num.tdiv s.den ≤ 2147483647
  · rw [if_pos hs]
    simp [WORKSHEET_DATAITEM_BITMAP.deserializeChild, childSymbol, SEXPR.IsList,
      SEXPR.GetChild, SEXPR.IsSymbol, SEXPR.GetSymbol, deserializeDouble, SEXPR.GetDouble,
      doubleToInt, hs, bind, Except.bind, pure, Except.pure]
  · rw [if_neg hs]
    simp [WORKSHEET_DATAITEM_BITMAP.deserializeChild, childSymbol, SEXPR.IsList,
      SEXPR.GetChild, SEXPR.IsSymbol, SEXPR.GetSymbol, deserializeDouble, SEXPR.GetDouble,
      doubleToInt, hs, bind, Except.bind, pure, Except.pure, throw, throwThe,
      MonadExceptOf.throw]

/-- C32. A coordinate written by `serializeSEXPRCoordinate` is read back by
`deserializeSEXPRCoordinate`.  For every coordinate, with any of the four
anchors, the list written has the token, the two numbers and then a corner
token if and only if the anchor is not right-bottom: `ltcorner`, `lbcorner`
or `rtcorner`, nothing for right-bottom; and reading this list into a fresh
coordinate, whose anchor is right-bottom, gives the same x, y and anchor. -/
theorem deserializeSEXPRCoordinate_serializeSEXPRCoordinate (aToken : Str)
    (aCoord : POINT_COORD Rat) (fresh : DPOINT Rat) :
    (∃ corner, serializeSEXPRCoordinate aToken aCoord
        = SEXPR.AsList ([SEXPR.AsSymbol aToken, SEXPR.AsDouble aCoord.m_Pos.x,
            SEXPR.AsDouble aCoord.m_Pos.y] ++ corner)
        ∧ (corner = [] ↔ aCoord.m_Anchor = .RB_CORNER)
        ∧ ((aCoord.m_Anchor = .RB_CORNER ∧ corner = [])
          ∨ (aCoord.m_Anchor = .LT_CORNER ∧ corner = [SEXPR.AsSymbol "ltcorner".toList])
          ∨ (aCoord.m_Anchor = .LB_CORNER ∧ corner = [SEXPR.AsSymbol "lbcorner".toList])
          ∨ (aCoord.m_Anchor = .RT_CORNER ∧ corner = [SEXPR.AsSymbol "rtcorner".toList])))
      ∧ deserializeSEXPRCoordinate (serializeSEXPRCoordinate aToken aCoord)
          ⟨fresh, .RB_CORNER⟩ = .ok aCoord := by
  obtain ⟨⟨x, y⟩, anchor⟩ := aCoord
  cases anchor
  · exact ⟨⟨[], rfl, by simp, by simp⟩, rfl⟩
  · exact ⟨⟨_, rfl, by simp, by simp⟩, rfl⟩
  · exact ⟨⟨_, rfl, by simp, by simp⟩, rfl⟩
  · exact ⟨⟨_, rfl, by simp, by simp⟩, rfl⟩

/-- C33. The value `ReplaceAntiSlashSequence` returns is not always whether
the text it leaves contains a line break.  For every text shorter than
`UNSIGNED_RANGE` characters the function returns; when it returns true, the
text it leaves in `m_FullText` contains a line-break character.  The
converse fails: the character after a backslash is not looked at again, so
for the text made of a backslash followed by a line break the function
leaves the text as it is, with its line break, and returns false. -/
theorem ReplaceAntiSlashSequence_multiline (t : WORKSHEET_DATAITEM_TEXT)
    (hlen : t.m_FullText.length < UNSIGNED_RANGE) :
    (∃ t1 ml, t.ReplaceAntiSlashSequence = some (t1, ml)
        ∧ (ml = true → '\n' ∈ t1.m_FullText))
      ∧ (exFullText ['\\', '\n']).ReplaceAntiSlashSequence
          = some (exFullText ['\\', '\n'], false)
      ∧ '\n' ∈ (exFullText ['\\', '\n']).m_FullText := by
  obtain ⟨ml, e, k⟩ := ReplaceAntiSlashSequence_eq t hlen
  exact ⟨⟨_, ml, e, k⟩, rfl, by decide⟩

theorem ReplaceAntiSlashSequence_multiline_witness :
    (∃ t1 ml, (exFullText ['a', '\\', 'n', 'b']).ReplaceAntiSlashSequence = some (t1, ml)
        ∧ (ml = true → '\n' ∈ t1.m_FullText))
      ∧ (exFullText ['a', '\\', 'n', 'b']).ReplaceAntiSlashSequence
          = some (exFullText ['a', '\n', 'b'], true) :=
  ⟨(ReplaceAntiSlashSequence_multiline (exFullText ['a', '\\', 'n', 'b']) (by decide)).1, rfl⟩

/-- C34. The in-place loop of `ReplaceAntiSlashSequence` computes the one-pass
unescape.  For every text shorter than `UNSIGNED_RANGE` characters (the index
of the loop is an `unsigned`, which does not wrap for these), the loop comes
to its end within one round for each character and leaves `m_FullText` equal
to `Spec.unescape` of the text, the reference of the claim; the other members
of the item are unchanged.  Adjacent escapes are all processed and no
produced character is scanned again: backslash backslash `n` yields
backslash `n`, not a line break, and four backslashes yield two. -/
theorem ReplaceAntiSlashSequence_unescape (t : WORKSHEET_DATAITEM_TEXT)
    (hlen : t.m_FullText.length < UNSIGNED_RANGE) :
    (∃ ml, t.ReplaceAntiSlashSequence
        = some ({ t with m_FullText := Spec.unescape t.m_FullText }, ml))
      ∧ (exFullText ['\\', '\\', 'n']).ReplaceAntiSlashSequence
          = some (exFullText ['\\', 'n'], false)
      ∧ (exFullText ['\\', '\\', '\\', '\\']).ReplaceAntiSlashSequence
          = some (exFullText ['\\', '\\'], false)
      ∧ (exFullText ['\\', 'n', '\\', 'n', '\\']).ReplaceAntiSlashSequence
          = some (exFullText ['\n', '\n', '\\'], true) := by
  obtain ⟨ml, e, _⟩ := ReplaceAntiSlashSequence_eq t hlen
  exact ⟨⟨ml, e⟩, rfl, rfl, rfl⟩

theorem ReplaceAntiSlashSequence_unescape_witness :
    ∃ ml, (exFullText ['x', '\\', 't', '\\', '\\', 'n']).ReplaceAntiSlashSequence
      = some ({ exFullText ['x', '\\', 't', '\\', '\\', 'n'] with
          m_FullText := Spec.unescape (exFullText ['x', '\\', 't', '\\', '\\', 'n']).m_FullText },
        ml) :=
  (ReplaceAntiSlashSequence_unescape (exFullText ['x', '\\', 't', '\\', '\\', 'n'])
    (by decide)).1

/-- C35. A polygon that `IsInsidePage` accepts has every corner on the page.
For every polygon item whose bounding box has just been set by
`SetBoundingBox`, every repeat index `i` and every corner index `k` of the
item: if `IsInsidePage( i )` returns true, the corner position
`GetCornerPosition( k, i )` lies between the left-top and the right-bottom
corner of the page in both coordinates.  `SetBoundingBox` on an item without
corners sets both bounds to (0, 0).  The coordinates are exact numbers and
`RotatePoint` is any function. -/
theorem IsInsidePage_corners (RotatePoint : DPOINT Rat → Rat → DPOINT Rat)
    (page : PAGE_CORNERS Rat) (q : WORKSHEET_DATAITEM_POLYPOLYGON) (i : Int) (k : Nat)
    (pos : DPOINT Rat)
    (hin : (q.SetBoundingBox RotatePoint).IsInsidePage page i = true)
    (hk : (q.SetBoundingBox RotatePoint).GetCornerPosition RotatePoint page k i = .ok pos) :
    (page.m_LT_Corner.x ≤ pos.x ∧ page.m_LT_Corner.y ≤ pos.y
        ∧ pos.x ≤ page.m_RB_Corner.x ∧ pos.y ≤ page.m_RB_Corner.y)
      ∧ ({ q with m_Corners := [] }.SetBoundingBox RotatePoint).m_minCoord = ⟨0, 0⟩
      ∧ ({ q with m_Corners := [] }.SetBoundingBox RotatePoint).m_maxCoord = ⟨0, 0⟩ := by
  refine ⟨?_, rfl, rfl⟩
  obtain ⟨hc, ho, hb⟩ := SetBoundingBox_keeps RotatePoint q
  have hbox := SetBoundingBox_spec RotatePoint q
  unfold WORKSHEET_DATAITEM_POLYPOLYGON.GetCornerPosition at hk
  rw [hc, ho, hb] at hk
  unfold WORKSHEET_DATAITEM_POLYPOLYGON.IsInsidePage at hin
  rw [hb] at hin
  cases hg : q.m_Corners[k]? with
  | none => rw [hg] at hk; cases hk
  | some corner =>
    rw [hg] at hk
    simp only [Except.ok.injEq] at hk
    obtain ⟨b1, b2, b3, b4⟩ := hbox corner (List.getElem?_mem hg)
    simp only [DPOINT.add] at hin hk
    subst hk
    simp only
    by_cases h1 : page.m_LT_Corner.x
          > (q.toWORKSHEET_DATAITEM.GetStartPos page i).x
            + (q.SetBoundingBox RotatePoint).m_minCoord.x
        ∨ page.m_LT_Corner.y
          > (q.toWORKSHEET_DATAITEM.GetStartPos page i).y
            + (q.SetBoundingBox RotatePoint).m_minCoord.y
    · rw [if_pos h1] at hin; cases hin
    · rw [if_neg h1] at hin
      by_cases h2 : page.m_RB_Corner.x
            < (q.toWORKSHEET_DATAITEM.GetStartPos page i).x
              + (q.SetBoundingBox RotatePoint).m_maxCoord.x
          ∨ page.m_RB_Corner.y
            < (q.toWORKSHEET_DATAITEM.GetStartPos page i).y
              + (q.SetBoundingBox RotatePoint).m_maxCoord.y
      · rw [if_pos h2] at hin; cases hin
      · push_neg at h1 h2
        refine ⟨?_, ?_, ?_, ?_⟩ <;> linarith [h1.1, h1.2, h2.1, h2.2]

theorem IsInsidePage_corners_witness :
    (exPolygon.SetBoundingBox exNoRotation).IsInsidePage exPageRat 0 = true
      ∧ (exPolygon.SetBoundingBox exNoRotation).GetCornerPosition exNoRotation exPageRat 2 0
          = .ok ⟨204, 291⟩
      ∧ (exPageRat.m_LT_Corner.x ≤ (204 : Rat) ∧ exPageRat.m_LT_Corner.y ≤ (291 : Rat)
        ∧ (204 : Rat) ≤ exPageRat.m_RB_Corner.x ∧ (291 : Rat) ≤ exPageRat.m_RB_Corner.y) :=
  ⟨exPolygon_inside, exPolygon_corner,
    (IsInsidePage_corners exNoRotation exPageRat exPolygon 0 2 ⟨204, 291⟩
      exPolygon_inside exPolygon_corner).1⟩

set_option maxRecDepth 100000 in
/-- C36, as the spec has it, fails in `double`, by rounding.  On the A4 page,
for the line with start offset (5, 5) and end offset (20, 30), both anchored
right-bottom, `GetStartPos( 0 ).x` after `MoveTo( (0.1, 7) )` is
0.09999999999999432, not 0.1.  With the start anchored left-top and the end
right-bottom the vector from start to end has x = 185 before
`MoveTo( (100.1, 7) )` and x = 185.00000000000003 after it. -/
theorem MoveTo_keeps_size_counterexample :
    (exItemDouble .RB_CORNER .RB_CORNER).GetType = .WS_SEGMENT
      ∧ (((exItemDouble .RB_CORNER .RB_CORNER).MoveTo exPageDouble
          ⟨DOUBLE.ofRatio 1 10, DOUBLE.ofInt 7⟩).GetStartPos exPageDouble 0).x
          = ⟨3518437208883, -45⟩
      ∧ ((exItemDouble .RB_CORNER .RB_CORNER).MoveTo exPageDouble
          ⟨DOUBLE.ofRatio 1 10, DOUBLE.ofInt 7⟩).GetStartPos exPageDouble 0
          ≠ ⟨DOUBLE.ofRatio 1 10, DOUBLE.ofInt 7⟩
      ∧ (((exItemDouble .LT_CORNER .RB_CORNER).GetEndPos exPageDouble 0).sub
          ((exItemDouble .LT_CORNER .RB_CORNER).GetStartPos exPageDouble 0)).x
          = DOUBLE.ofInt 185
      ∧ ((((exItemDouble .LT_CORNER .RB_CORNER).MoveTo exPageDouble
            ⟨DOUBLE.ofRatio 1001 10, DOUBLE.ofInt 7⟩).GetEndPos exPageDouble 0).sub
          (((exItemDouble .LT_CORNER .RB_CORNER).MoveTo exPageDouble
            ⟨DOUBLE.ofRatio 1001 10, DOUBLE.ofInt 7⟩).GetStartPos exPageDouble 0)).x
          = ⟨6509108836433921, -45⟩
      ∧ (⟨6509108836433921, -45⟩ : DOUBLE) ≠ DOUBLE.ofInt 185 := by
  decide

/-- C36, amended.  In exact arithmetic, for every line or rectangle item,
every start anchor and end anchor and every target position p, after
`MoveTo( p )`: `GetStartPos( 0 )` = p and the vector `GetEndPos( 0 ) -
GetStartPos( 0 )` is the same as before the call.  In `double` the same holds
when the page corners, the stored offsets, the increment and `p` are whole
numbers below `2 ^ 20` in magnitude: no operation rounds then.  In every
arithmetic, that of `double` included, both anchors are unchanged. -/
theorem MoveTo_keeps_size :
    (∀ {D : Type} [CommRing D] (page : PAGE_CORNERS D) (item : WORKSHEET_DATAITEM D)
        (p : DPOINT D), (item.GetType = .WS_SEGMENT ∨ item.GetType = .WS_RECT) →
        (item.MoveTo page p).GetStartPos page 0 = p
          ∧ ((item.MoveTo page p).GetEndPos page 0).sub ((item.MoveTo page p).GetStartPos page 0)
              = (item.GetEndPos page 0).sub (item.GetStartPos page 0))
      ∧ (∀ (page : PAGE_CORNERS Int) (item : WORKSHEET_DATAITEM Int) (p : DPOINT Int),
          WholeBelow page item → p.Below (2 ^ 20) →
          (item.GetType = .WS_SEGMENT ∨ item.GetType = .WS_RECT) →
          (item.toDouble.MoveTo page.toDouble p.toDouble).GetStartPos page.toDouble 0
              = p.toDouble
            ∧ ((item.toDouble.MoveTo page.toDouble p.toDouble).GetEndPos page.toDouble 0).sub
                ((item.toDouble.MoveTo page.toDouble p.toDouble).GetStartPos page.toDouble 0)
              = (item.toDouble.GetEndPos page.toDouble 0).sub
                  (item.toDouble.GetStartPos page.toDouble 0))
      ∧ (∀ {D : Type} [Add D] [Sub D] [Mul D] [IntCast D] (page : PAGE_CORNERS D)
          (item : WORKSHEET_DATAITEM D) (p : DPOINT D),
          (item.MoveTo page p).m_Pos.m_Anchor = item.m_Pos.m_Anchor
            ∧ (item.MoveTo page p).m_End.m_Anchor = item.m_End.m_Anchor) := by
  refine ⟨fun page item p h => MoveTo_exact page item p h,
    fun page item p hw hp h => MoveTo_whole page item p hw hp h, ?_⟩
  intro D _ _ _ _ page item p
  simp only [WORKSHEET_DATAITEM.MoveTo, WORKSHEET_DATAITEM.MoveEndPointTo,
    WORKSHEET_DATAITEM.MoveStartPointTo, WORKSHEET_DATAITEM.GetType]
  cases item.m_type <;> exact ⟨rfl, rfl⟩

theorem MoveTo_keeps_size_witness :
    (({ exItem .LT_CORNER with m_End := ⟨⟨20, 30⟩, .RB_CORNER⟩ }.MoveTo exPage
          ⟨50, 60⟩).GetStartPos exPage 0 = ⟨50, 60⟩
        ∧ ({ exItem .LT_CORNER with m_End := ⟨⟨20, 30⟩, .RB_CORNER⟩ }.MoveTo exPage
            ⟨50, 60⟩).m_End.m_Pos = ⟨-25, -25⟩)
      ∧ ((exItem .RB_CORNER).toDouble.MoveTo exPage.toDouble
          (DPOINT.toDouble ⟨50, 60⟩)).GetStartPos exPage.toDouble 0 = DPOINT.toDouble ⟨50, 60⟩ :=
  ⟨⟨(MoveTo_keeps_size.1 exPage { exItem .LT_CORNER with m_End := ⟨⟨20, 30⟩, .RB_CORNER⟩ }
      ⟨50, 60⟩ (Or.inl rfl)).1, by decide⟩,
    (MoveTo_keeps_size.2.1 exPage (exItem .RB_CORNER) ⟨50, 60⟩
      ⟨⟨by decide, by decide⟩, ⟨by decide, by decide⟩, ⟨by decide, by decide⟩,
        ⟨by decide, by decide⟩, ⟨by decide, by decide⟩⟩ ⟨by decide, by decide⟩
      (Or.inl rfl)).1⟩

set_option maxRecDepth 100000 in
/-- C37, as the spec has it, fails in `double`, by rounding.  On a page whose
left-top corner is at (10, 10) and whose right-bottom corner is at (210,
297), for the start offset (0.1, 0.3) and the increment (0.2, 0.1),
`GetStartPos( 1 ) - GetStartPos( 0 )` is (0.20000000000000107,
0.09999999999999964) for the left-top anchor, not (0.2, 0.1), and its x
component for the right-bottom anchor is not -0.2. -/
theorem GetStartPos_direction_counterexample :
    ((exItemTenths .LT_CORNER).GetStartPos exPageInset 1).sub
        ((exItemTenths .LT_CORNER).GetStartPos exPageInset 0)
        = ⟨⟨112589990684263, -49⟩, ⟨56294995342131, -49⟩⟩
      ∧ ((1 : Int) : DOUBLE) * (exItemTenths .LT_CORNER).m_IncrementVector.x
          = ⟨3602879701896397, -54⟩
      ∧ ((1 : Int) : DOUBLE) * (exItemTenths .LT_CORNER).m_IncrementVector.y
          = ⟨3602879701896397, -55⟩
      ∧ (((exItemTenths .LT_CORNER).GetStartPos exPageInset 1).sub
          ((exItemTenths .LT_CORNER).GetStartPos exPageInset 0)).x
          ≠ ((1 : Int) : DOUBLE) * (exItemTenths .LT_CORNER).m_IncrementVector.x
      ∧ (((exItemTenths .LT_CORNER).GetStartPos exPageInset 1).sub
          ((exItemTenths .LT_CORNER).GetStartPos exPageInset 0)).y
          ≠ ((1 : Int) : DOUBLE) * (exItemTenths .LT_CORNER).m_IncrementVector.y
      ∧ (((exItemTenths .RB_CORNER).GetStartPos exPageInset 1).sub
          ((exItemTenths .RB_CORNER).GetStartPos exPageInset 0)).x
          ≠ DOUBLE.ofInt 0 - ((1 : Int) : DOUBLE) * (exItemTenths .RB_CORNER).m_IncrementVector.x := by
  decide

/-- C37, amended.  In exact arithmetic, the direction in which repeats
advance depends on the anchor: for every item and repeat index i,
`GetStartPos( i ) - GetStartPos( 0 )` has x component +i * increment.x for
the left anchors (left-top, left-bottom) and -i * increment.x for the right
anchors (right-top, right-bottom), and y component +i * increment.y for the
top anchors and -i * increment.y for the bottom anchors.  In `double` the
same holds when the page corners, the stored offsets and the increment are
whole numbers below `2 ^ 20` in magnitude and so is i: no operation rounds
then. -/
theorem GetStartPos_direction :
    (∀ {D : Type} [CommRing D] (page : PAGE_CORNERS D) (item : WORKSHEET_DATAITEM D) (i : Int),
        ((item.GetStartPos page i).sub (item.GetStartPos page 0)).x
            = (match item.m_Pos.m_Anchor with
              | .LT_CORNER => (i : D) * item.m_IncrementVector.x
              | .LB_CORNER => (i : D) * item.m_IncrementVector.x
              | .RT_CORNER => -((i : D) * item.m_IncrementVector.x)
              | .RB_CORNER => -((i : D) * item.m_IncrementVector.x))
          ∧ ((item.GetStartPos page i).sub (item.GetStartPos page 0)).y
            = (match item.m_Pos.m_Anchor with
              | .LT_CORNER => (i : D) * item.m_IncrementVector.y
              | .RT_CORNER => (i : D) * item.m_IncrementVector.y
              | .LB_CORNER => -((i : D) * item.m_IncrementVector.y)
              | .RB_CORNER => -((i : D) * item.m_IncrementVector.y)))
      ∧ (∀ (page : PAGE_CORNERS Int) (item : WORKSHEET_DATAITEM Int) (i : Int),
          WholeBelow page item → i.natAbs < 2 ^ 20 →
          (item.toDouble.GetStartPos page.toDouble i).sub
              (item.toDouble.GetStartPos page.toDouble 0)
            = (⟨(match item.m_Pos.m_Anchor with
                  | .LT_CORNER => i * item.m_IncrementVector.x
                  | .LB_CORNER => i * item.m_IncrementVector.x
                  | .RT_CORNER => -(i * item.m_IncrementVector.x)
                  | .RB_CORNER => -(i * item.m_IncrementVector.x)),
                (match item.m_Pos.m_Anchor with
                  | .LT_CORNER => i * item.m_IncrementVector.y
                  | .RT_CORNER => i * item.m_IncrementVector.y
                  | .LB_CORNER => -(i * item.m_IncrementVector.y)
                  | .RB_CORNER => -(i * item.m_IncrementVector.y))⟩ : DPOINT Int).toDouble)
      ∧ ((exItem .LB_CORNER).GetStartPos exPage 2).sub ((exItem .LB_CORNER).GetStartPos exPage 0)
          = ⟨4, 0⟩
      ∧ ({ exItem .RT_CORNER with m_IncrementVector := ⟨2, 3⟩ }.GetStartPos exPage 2).sub
            ({ exItem .RT_CORNER with m_IncrementVector := ⟨2, 3⟩ }.GetStartPos exPage 0)
          = ⟨-4, 6⟩ := by
  refine ⟨?_, fun page item i hw hi => GetStartPos_direction_whole page item i hw hi,
    by decide, by decide⟩
  intro D _ page item i
  have h := GetStartPos_direction_exact page item i
  exact ⟨congrArg DPOINT.x h, congrArg DPOINT.y h⟩

theorem GetStartPos_direction_witness :
    ((exItem .RB_CORNER).toDouble.GetStartPos exPage.toDouble 2).sub
        ((exItem .RB_CORNER).toDouble.GetStartPos exPage.toDouble 0)
      = DPOINT.toDouble ⟨-4, 0⟩ :=
  GetStartPos_direction.2.1 exPage (exItem .RB_CORNER) 2
    ⟨⟨by decide, by decide⟩, ⟨by decide, by decide⟩, ⟨by decide, by decide⟩,
      ⟨by decide, by decide⟩, ⟨by decide, by decide⟩⟩ (by decide)

/-- C38. `FP_LIB_TABLE::Parse` is not atomic and does not continue after an
error.  If it raises, then either the reader of the tree raised or the tree
it returned is not a list that starts with the symbol `fp_lib_table`, and the
table is unchanged; or the tree is such a list and `Parse` raised while
processing one of the children after the symbol, the k-th: every child before
it was read and inserted without error, and the table afterwards holds
exactly the rows it held before the call followed by the rows of the children
1..k-1 in order; there is no row of child k or of a later child, and nothing
is rolled back. -/
theorem Parse_not_atomic (io : IO_MGR) (parser : Str → Except PARSE_EXN SEXPR)
    (t t1 : FP_LIB_TABLE) (sexpr : Str) (e : PARSE_EXN) (hidx : t.IndexOK)
    (h : t.Parse io parser sexpr = (some e, t1)) :
    (t1 = t
        ∧ ∀ l0 l1 libs,
            parser sexpr ≠ .ok (.list (.symbol "fp_lib_table".toList l0 :: libs) l1))
      ∨ ∃ l0 l1 pre child post t2,
          parser sexpr
              = .ok (.list (.symbol "fp_lib_table".toList l0 :: (pre ++ child :: post)) l1)
            ∧ (∀ lib ∈ pre, (Spec.rowOfLib io lib).isSome = true)
            ∧ parseLibs io pre t = (none, t2)
            ∧ ((checkLibList child = .error e ∧ t1 = t2)
              ∨ (checkLibList child = .ok () ∧ t2.parseLibList io child = (some e, t1)))
            ∧ t1.rows = t.rows ++ pre.filterMap (Spec.rowOfLib io)
            ∧ t1.rows.length = t.rows.length + pre.length := by
  rcases FP_LIB_TABLE_Parse_root io parser t sexpr with ⟨h0, hne⟩ | ⟨l0, l1, libs, hp, hl⟩
  · left
    rw [h] at h0
    exact ⟨h0, hne⟩
  · right
    rw [h] at hl
    obtain ⟨pre, child, post, t2, h1, h2, h3, h4, h5⟩ :=
      (parseLibs_rows io _ t t1 (some e) hidx hl.symm).2 e rfl
    subst h1
    refine ⟨l0, l1, pre, child, post, t2, hp, h2, h3, h4, h5, ?_⟩
    rw [h5, List.length_append]
    congr 1
    clear h3 h5 hl hp
    induction pre with
    | nil => rfl
    | cons a pre ih =>
      have ha := h2 a (List.mem_cons_self _ _)
      cases hr : Spec.rowOfLib io a with
      | none => rw [hr] at ha; cases ha
      | some r =>
        rw [List.filterMap_cons, hr]
        simp only [List.length_cons]
        rw [ih (fun l hl => h2 l (List.mem_cons_of_mem _ hl))]

theorem Parse_not_atomic_witness :
    ((FP_LIB_TABLE.new none).Parse exIO (fun _ => .ok exDuplicate) []).2.rows.map ROW.nickName
        = ["A".toList]
      ∧ (FP_LIB_TABLE.new none).rows = []
      ∧ ∃ l0 l1 pre child post t2,
          (fun _ => .ok exDuplicate : Str → Except PARSE_EXN SEXPR) []
              = .ok (.list (.symbol "fp_lib_table".toList l0 :: (pre ++ child :: post)) l1)
            ∧ (∀ lib ∈ pre, (Spec.rowOfLib exIO lib).isSome = true)
            ∧ parseLibs exIO pre (FP_LIB_TABLE.new none) = (none, t2)
            ∧ ((checkLibList child
                  = .error (.syntaxError (duplicateMessage "A".toList) 3)
                ∧ ((FP_LIB_TABLE.new none).Parse exIO (fun _ => .ok exDuplicate) []).2 = t2)
              ∨ (checkLibList child = .ok ()
                ∧ t2.parseLibList exIO child
                  = (some (.syntaxError (duplicateMessage "A".toList) 3),
                    ((FP_LIB_TABLE.new none).Parse exIO (fun _ => .ok exDuplicate) []).2)))
            ∧ ((FP_LIB_TABLE.new none).Parse exIO (fun _ => .ok exDuplicate) []).2.rows
                = (FP_LIB_TABLE.new none).rows ++ pre.filterMap (Spec.rowOfLib exIO)
            ∧ ((FP_LIB_TABLE.new none).Parse exIO (fun _ => .ok exDuplicate) []).2.rows.length
                = (FP_LIB_TABLE.new none).rows.length + pre.length :=
  ⟨rfl, rfl,
    (Parse_not_atomic exIO (fun _ => .ok exDuplicate) (FP_LIB_TABLE.new none)
      ((FP_LIB_TABLE.new none).Parse exIO (fun _ => .ok exDuplicate) []).2 []
      (.syntaxError (duplicateMessage "A".toList) 3) (Or.inl rfl) rfl).resolve_left
      (fun hleft => hleft.2 1 1 _ rfl)⟩

/-- C39. The comparator `sortZorder` handed to `std::sort` is a strict weak
ordering on image pointers: no pointer is ordered before itself, the order is
transitive, and "neither is ordered before the other" is transitive.  It
ranks the images in use that have file function data (class 0) by descending
Z order then descending Z sub-order, before the images in use without that
data (class 1), before null pointers and images not in use (class 2). -/
theorem sortZorder_strict_weak {F : Type} (Z S : F → Int) (a b c : Option (GERBER_IMAGE F)) :
    sortZorder Z S a a = false
      ∧ (sortZorder Z S a b = true → sortZorder Z S b c = true → sortZorder Z S a c = true)
      ∧ (sortZorder Z S a b = false ∧ sortZorder Z S b a = false →
          sortZorder Z S b c = false ∧ sortZorder Z S c b = false →
            sortZorder Z S a c = false ∧ sortZorder Z S c a = false)
      ∧ (sortZorder Z S a b = true ↔
          zClass a < zClass b
            ∨ (zClass a = 0 ∧ zClass b = 0
                ∧ ((zKey Z S a).1 > (zKey Z S b).1
                  ∨ ((zKey Z S a).1 = (zKey Z S b).1 ∧ (zKey Z S a).2 > (zKey Z S b).2)))) := by
  have haa := sortZorder_iff Z S a a
  have hab := sortZorder_iff Z S a b
  have hba := sortZorder_iff Z S b a
  have hbc := sortZorder_iff Z S b c
  have hcb := sortZorder_iff Z S c b
  have hac := sortZorder_iff Z S a c
  have hca := sortZorder_iff Z S c a
  refine ⟨?_, ?_, ?_, hab⟩
  · rw [← Bool.not_eq_true, haa]
    omega
  · rw [hab, hbc, hac]
    omega
  · simp only [← Bool.not_eq_true]
    rw [hab, hba, hbc, hcb, hac, hca]
    omega

theorem sortZorder_strict_weak_witness :
    sortZorder Prod.fst Prod.snd (exImage 5 1) (exImage 3 9) = true
      ∧ sortZorder Prod.fst Prod.snd (exImage 3 9) (some ⟨true, none⟩) = true
      ∧ sortZorder Prod.fst Prod.snd (exImage 5 1) (some ⟨true, none⟩) = true :=
  ⟨by decide, by decide,
    (sortZorder_strict_weak Prod.fst Prod.snd (exImage 5 1) (exImage 3 9)
      (some ⟨true, none⟩)).2.1 (by decide) (by decide)⟩

/-- C40. `MoveLayerUp` and `MoveLayerDown` can touch an element outside the
image list.  For every list and every `aIdx`, `MoveLayerUp( aIdx )` changes
nothing when `aIdx` is not positive, exchanges the elements `aIdx - 1` and
`aIdx` of the list when `0 < aIdx < size` (the images are the same, in
another order), and reaches outside the list when `aIdx` is `size` or more:
on a list of two images, `MoveLayerUp( 2 )` does.  `MoveLayerDown( aIdx )`
with the test taken modulo `2 ^ w` either changes nothing, or exchanges two
elements of the list, or reaches outside the list; on the empty list the
right side of the test is `2 ^ w - 1` and `MoveLayerDown( 0 )` reaches
outside the list. -/
theorem MoveLayer_outside {α : Type} (v : List α) (aIdx : Int) (w : Nat) (x y : α) :
    (match MoveLayerUp v aIdx with
      | none => 0 < aIdx ∧ (v.length : Int) ≤ aIdx
      | some v1 => v1.Perm v ∧ (aIdx ≤ 0 ∧ v1 = v ∨ 0 < aIdx ∧ aIdx < (v.length : Int)))
      ∧ (match MoveLayerDown w v aIdx with
        | none => aIdx < 0 ∨ (v.length : Int) ≤ aIdx + 1
        | some v1 => v1.Perm v)
      ∧ MoveLayerUp [x, y] 2 = none
      ∧ MoveLayerUp [x, y] 1 = some [y, x]
      ∧ MoveLayerDown 64 ([] : List α) 0 = none
      ∧ MoveLayerDown 64 [x, y] 0 = some [y, x]
      ∧ MoveLayerDown 64 [x, y] 1 = some [x, y] := by
  refine ⟨?_, ?_, rfl, rfl, ?_, ?_, ?_⟩
  · unfold MoveLayerUp
    by_cases h : aIdx > 0
    · rw [if_pos h]
      have key := iter_swap_adjacent v (aIdx - 1)
      rw [show aIdx - 1 + 1 = aIdx by omega] at key
      cases hs : iter_swap v (aIdx - 1) aIdx with
      | none =>
        rw [hs] at key
        simp only at key ⊢
        omega
      | some v1 =>
        rw [hs] at key
        simp only at key ⊢
        exact ⟨key.1, Or.inr ⟨h, by omega⟩⟩
    · rw [if_neg h]
      exact ⟨List.Perm.refl _, Or.inl ⟨by omega, rfl⟩⟩
  · unfold MoveLayerDown
    split_ifs with h
    · have key := iter_swap_adjacent v aIdx
      cases hs : iter_swap v aIdx (aIdx + 1) with
      | none =>
        rw [hs] at key
        exact key
      | some v1 =>
        rw [hs] at key
        exact key.1
    · exact List.Perm.refl _
  · rfl
  · rfl
  · rfl

end QiEDA
